import Mathlib

/-!
# DIAMOND search core: a verification development

A shallow embedding of the seed-and-extend pipeline of the repository
(`src/search/stage2.cpp`, `src/dp/swipe/full_swipe.h`) and theorems about it.

Conventions of the embedding.

* A C pointer to an array is a function from indices to elements (`Ptr`);
  `p + k` is `Ptr.add p k`.
* Machine integers are natural numbers or integers; a narrowing conversion is an explicit
  remainder (`% 2 ^ 32`, `% 2 ^ 16`).
* Bytes are natural numbers below 256; a buffer is a list of bytes.
* A `for` loop over `0 .. n` is a left fold over `List.range n`; a loop whose termination
  depends on its data is a recursion on fuel.
* Collaborators whose code is not part of the sources (the scorer, the left-most filter, the
  cutoff tables, the sequence stores, the varint codec) are fields of an environment record.
-/

namespace Diamond

/-! ## Definitions -/

/-- A pointer to an array of `α`: the element at each index. -/
abbrev Ptr (α : Type) := Nat → α

/-- Pointer arithmetic `p + k`. -/
def Ptr.add {α : Type} (p : Ptr α) (k : Nat) : Ptr α := fun n => p (k + n)

/-- The conversion of an unsigned integer to `uint32_t` (also `unsigned`). -/
def to_uint32 (x : Nat) : Nat := x % 2 ^ 32

/-- Modelled from the spec: `FlatArray<uint32_t>` (util/data_structures/flat_array.h is not
among the sources), the "adjacency structure mapping local query index → ordered list of local
subject indices". It is kept as the sequence of its lists: `next` opens a new, empty list and
`push_back` appends to the list opened last. -/
structure FlatArray where
  lists : List (List Nat)
deriving DecidableEq, Repr

/-- `FlatArray::clear`. -/
def FlatArray.clear (_ : FlatArray) : FlatArray := ⟨[]⟩

/-- `FlatArray::next`: open a new list. -/
def FlatArray.next (o : FlatArray) : FlatArray := ⟨o.lists ++ [[]]⟩

/-- `FlatArray::push_back`: append to the list opened last. -/
def FlatArray.push_back (o : FlatArray) (x : Nat) : FlatArray :=
  match o.lists.getLast? with
  | none => o
  | some l => ⟨o.lists.dropLast ++ [l ++ [x]]⟩

/-- `FlatArray::size`: the number of lists. -/
def FlatArray.size (o : FlatArray) : Nat := o.lists.length

/-- `FlatArray::data_size`: the number of entries of all lists together. -/
def FlatArray.data_size (o : FlatArray) : Nat := (o.lists.map List.length).sum

/-- The range `[begin(i), end(i))` of `FlatArray`. -/
def FlatArray.list (o : FlatArray) (i : Nat) : List Nat := o.lists.getD i []

/-- The inner loop of `all_vs_all` (stage2.cpp:160-162): `for (j = 0; j < nb; ++j) if (e == b[j])
out.push_back(j);`. -/
def all_vs_all_inner {FP : Type} [DecidableEq FP] (e : FP) (b : Ptr FP) (nb : Nat)
    (out : FlatArray) : FlatArray :=
  (List.range nb).foldl (fun o j => if e = b j then o.push_back j else o) out

/-- `all_vs_all` (stage2.cpp:156-164). The counters `i`, `j` are `uint32_t` and stay below
`na`, `nb`, so they never wrap. -/
def all_vs_all {FP : Type} [DecidableEq FP] (a : Ptr FP) (na : Nat) (b : Ptr FP) (nb : Nat)
    (out : FlatArray) : FlatArray :=
  (List.range na).foldl (fun o i => all_vs_all_inner (a i) b nb o.next) out

/-! ### Stage 2: the ungapped extension filter (stage2.cpp:41-133) -/

/-- Modelled from the spec: `PackedLoc` / `packed_uint40_t` (basic/packed_loc.h is not among the
sources), a sequence-store location of up to 40 bits. The source reads its field `low` and its
5-byte raw image. -/
abbrev PackedLoc := Nat

/-- The field `low` of a `PackedLoc`: the low 32 bits. -/
def PackedLoc.low (p : PackedLoc) : Nat := p % 2 ^ 32

/-- The field `high` of a `PackedLoc`: bits 32 to 39. -/
def PackedLoc.high (p : PackedLoc) : Nat := p / 2 ^ 32 % 2 ^ 8

/-- The `w` bytes of `x` (reduced modulo `2 ^ (8 * w)`), least significant byte first: what
`TextBuffer::write<T>` appends for an unsigned integer of `w` bytes. -/
def le_bytes : Nat → Nat → List Nat
  | 0, _ => []
  | w + 1, x => x % 256 :: le_bytes w (x / 256)

/-- Modelled from the spec: the 5-byte raw image of a `PackedLoc` written by
`write_raw((const char*)&loc, 5)`: the byte `high`, then the four bytes of `low`. The order of
the bytes inside the image is a convention of this model; the theorems below use only that the
image has 5 bytes, determines the 40-bit value and is all zero only for the value zero. -/
def PackedLoc.raw (p : PackedLoc) : List Nat := PackedLoc.high p :: le_bytes 4 (PackedLoc.low p)

/-- `INT_MAX`. -/
def INT_MAX : Int := 2147483647

/-- `SHORT_QUERY_LEN` (stage2.cpp:41). -/
def SHORT_QUERY_LEN : Int := 85

/-- The fields of `config` and `align_mode` read by stage 1 and stage 2. -/
structure Config where
  short_query_max_len : Int
  ungapped_window : Int
  left_most_interval : Int
  /-- The field `config.tile_size`. Its declaration (config.h) is not among the sources;
  `stage1` copies it to a `size_t` and converts every tile length `min(tile_size, ...)` to
  `uint32_t`. -/
  tile_size : Nat
  query_translated : Bool
  query_contexts : Nat

/-- The fields of `Search::Context` read by `ungapped_cutoff`; the two cutoff tables are
services outside the sources. -/
structure Context where
  short_query_ungapped_cutoff : Int
  cutoff_table_short : Int → Int
  cutoff_table : Int → Int

/-- A `Sequence` as the code uses it here: a pointer to the first letter (an address) and a
length. -/
structure Sequence where
  data : Int
  length : Int
deriving DecidableEq, Repr

/-- The four counters of `Statistics` touched by stage 1 and stage 2. -/
structure Statistics where
  SEED_HITS : Nat
  TENTATIVE_MATCHES1 : Nat
  TENTATIVE_MATCHES2 : Nat
  TENTATIVE_MATCHES3 : Nat
deriving DecidableEq, Repr

/-- One call `out.push(query, begin, size, hit_count)` of the sink: the query block, a copy of
the bytes `[begin, begin + size)` and the reported hit count. -/
structure Pushed where
  query : Nat
  data : List Nat
  hit_count : Nat
deriving DecidableEq, Repr

/-- The per-thread state: the fields of `WorkSet` used by stage 1 and stage 2, and the
`thread_local TextBuffer output_buf` of `search_query_offset`, which lives on between calls.
Modelled from the spec: `TextBuffer` (util/text_buffer.h is not among the sources) is the list
of the bytes written since the last `clear`. The sink type is a parameter. -/
structure WorkSet (FP : Type) (Sink : Type) where
  context : Context
  shape_id : Nat
  stats : Statistics
  hits : FlatArray
  vq : List FP
  vs : List FP
  out : Sink
  output_buf : List Nat

/-- The collaborators of stage 1 and stage 2 that are not part of the sources: the SIMD width,
the sequence stores, the fingerprint constructor, the window clipping, the batched scorer, the
left-most filter, the shape table and the varint codec. Addresses of letters are integers. -/
structure Env (FP : Type) where
  config : Config
  /-- The number of SIMD channels `N`; a positive compile-time constant. -/
  CHANNELS : Nat
  CHANNELS_pos : 0 < CHANNELS
  long_subject_offsets : Bool
  /-- Pointer `query_seqs::data_->data(q)`. -/
  query_data : Nat → Int
  /-- Pair `query_seqs::data_->local_position(q)`. -/
  query_local_position : Nat → Nat × Nat
  /-- Length `query_seqs::data_->length(id)`. -/
  query_length : Nat → Int
  /-- Fingerprint `FingerPrint(query_seqs::data_->data(loc))`. -/
  query_fp : PackedLoc → FP
  /-- Pointer `ref_seqs::data_->data(loc)`. -/
  ref_data : PackedLoc → Int
  /-- Fingerprint `FingerPrint(ref_seqs::data_->data(loc))`. -/
  ref_fp : PackedLoc → FP
  /-- Window `Util::Seq::clip(begin, length, anchor)`. -/
  clip : Int → Int → Int → Sequence
  /-- Scorer `DP::window_ungapped_best(query, subjects, n, window, scores)`: the array `scores`
  after the call, given the `n` subject pointers and the array before the call. -/
  window_ungapped_best : Int → List Int → Nat → Int → Ptr Int → Ptr Int
  /-- Filter `left_most_filter(query_clipped + overhang, subject, seed position, shape
  length, context, first shape, shape id, cutoff)`; the first argument is given as the clipped
  query and the overhang. -/
  left_most_filter : Sequence → Int → Int → Int → Nat → Context → Bool → Nat → Int → Bool
  /-- Length `shapes[sid].length_`. -/
  shape_length : Nat → Nat
  /-- The bytes appended by `TextBuffer::write_varint`. -/
  varint : Nat → List Nat

/-- `ungapped_cutoff` (stage2.cpp:43-54), the default build (without `UNGAPPED_SPOUGE`). -/
def ungapped_cutoff (config : Config) (query_len : Int) (context : Context) : Int :=
  if query_len ≤ config.short_query_max_len then
    context.short_query_ungapped_cutoff
  else if query_len ≤ SHORT_QUERY_LEN ∧ config.query_translated = true then
    context.cutoff_table_short query_len
  else
    context.cutoff_table query_len

/-- `ungapped_window` (stage2.cpp:56-61). -/
def ungapped_window (config : Config) (query_len : Int) : Int :=
  if query_len ≤ SHORT_QUERY_LEN ∧ config.query_translated = true then
    query_len
  else
    config.ungapped_window

/-- `Statistics::inc(TENTATIVE_MATCHES1, n)`. -/
def Statistics.inc1 (st : Statistics) (n : Nat) : Statistics :=
  { st with TENTATIVE_MATCHES1 := st.TENTATIVE_MATCHES1 + n }

/-- `Statistics::inc(TENTATIVE_MATCHES2)`. -/
def Statistics.inc2 (st : Statistics) : Statistics :=
  { st with TENTATIVE_MATCHES2 := st.TENTATIVE_MATCHES2 + 1 }

/-- `Statistics::inc(TENTATIVE_MATCHES3)`. -/
def Statistics.inc3 (st : Statistics) : Statistics :=
  { st with TENTATIVE_MATCHES3 := st.TENTATIVE_MATCHES3 + 1 }

/-- `Statistics::inc(SEED_HITS, n)`. -/
def Statistics.inc_seed_hits (st : Statistics) (n : Nat) : Statistics :=
  { st with SEED_HITS := st.SEED_HITS + n }

/-- The values `search_query_offset` computes once per call, before its loop
(stage2.cpp:72-91). -/
structure QueryLocals where
  long_subject_offsets : Bool
  query_id : Nat
  seed_offset : Nat
  score_cutoff : Int
  query_clipped : Sequence
  window_left : Int
  window_clipped : Int
  sid : Nat
  interval_overhang : Int

/-- Lines 72-91 of stage2.cpp: the locals of `search_query_offset` for the query location
`q`. `query_id` and `seed_offset` are the two components of `local_position(q)` converted to
`unsigned`. -/
def query_locals {FP : Type} (E : Env FP) (q : Nat) (context : Context) (shape_id : Nat) :
    QueryLocals :=
  let query := E.query_data q
  let l := E.query_local_position q
  let query_id : Nat := to_uint32 l.1
  let seed_offset : Nat := to_uint32 l.2
  let query_len := E.query_length query_id
  let score_cutoff := ungapped_cutoff E.config query_len context
  let window := ungapped_window E.config query_len
  let query_clipped := E.clip (query - window) (window * 2) window
  let window_left := query - query_clipped.data
  let window_clipped := query_clipped.length
  let interval_mod : Int :=
    if E.config.left_most_interval > 0 then (seed_offset : Int) % E.config.left_most_interval
    else window_left
  let interval_overhang := max (window_left - interval_mod) 0
  { long_subject_offsets := E.long_subject_offsets
    query_id := query_id
    seed_offset := seed_offset
    score_cutoff := score_cutoff
    query_clipped := query_clipped
    window_left := window_left
    window_clipped := window_clipped
    sid := shape_id
    interval_overhang := interval_overhang }

/-- The bytes of one subject position in the hit buffer (stage2.cpp:115-118): the 5-byte raw
image with long subject offsets, the 4 bytes of `low` otherwise. -/
def position_bytes (long_subject_offsets : Bool) (loc : PackedLoc) : List Nat :=
  if long_subject_offsets then PackedLoc.raw loc else le_bytes 4 (PackedLoc.low loc)

/-- The conversion `(uint16_t)score` of an `int`. -/
def to_uint16 (score : Int) : Nat := (score % 65536).toNat

/-- The body of the inner loop of `search_query_offset` for one candidate (stage2.cpp:101-122):
`loc` is `s[*(i + j)]`, `subject` is `subjects[j]` and `score` is `scores[j]`. The state is the
work set together with `hit_count`. -/
def hit_body {FP : Type} (E : Env FP) (L : QueryLocals) (loc : PackedLoc) (subject : Int)
    (score : Int) (st : WorkSet FP (List Pushed) × Nat) : WorkSet FP (List Pushed) × Nat :=
  if score > L.score_cutoff then
    let ws1 := { st.1 with stats := st.1.stats.inc2 }
    if E.left_most_filter L.query_clipped L.interval_overhang (subject + L.interval_overhang)
        (L.window_left - L.interval_overhang) (E.shape_length L.sid) ws1.context
        (decide (L.sid = 0)) L.sid L.score_cutoff = true then
      let ws2 := { ws1 with stats := ws1.stats.inc3 }
      let buf0 := if st.2 = 0 then E.varint L.query_id ++ E.varint L.seed_offset
        else ws2.output_buf
      let buf1 := buf0 ++ position_bytes L.long_subject_offsets loc
      let buf2 := buf1 ++ le_bytes 2 (to_uint16 score)
      ({ ws2 with output_buf := buf2 }, st.2 + 1)
    else (ws1, st.2)
  else st

/-- The loop of `search_query_offset` over the candidates in batches of `N` (stage2.cpp:93-124).
`rem` is the range `[i, hits_end)`. Each round takes `n = min(N, hits_end - i)` candidates,
computes their subject pointers, calls the scorer once and runs the inner loop over the `n`
lanes. Every round consumes at least one candidate, so `rem.length` rounds of fuel are
enough. -/
def batch_loop {FP : Type} (E : Env FP) (L : QueryLocals) (s : Ptr PackedLoc) :
    Nat → List Nat → Ptr Int → WorkSet FP (List Pushed) × Nat → WorkSet FP (List Pushed) × Nat
  | 0, _, _, st => st
  | fuel + 1, rem, scores, st =>
    if 0 < rem.length then
      let n := min E.CHANNELS rem.length
      let subjects := (List.range n).map (fun j => E.ref_data (s (rem.getD j 0)) - L.window_left)
      let scores1 := E.window_ungapped_best L.query_clipped.data subjects n L.window_clipped scores
      let st1 := (List.range n).foldl
        (fun st j => hit_body E L (s (rem.getD j 0)) (subjects.getD j 0) (scores1 j) st) st
      batch_loop E L s fuel (rem.drop n) scores1 st1
    else st

/-- The sentinel position that ends a hit buffer (stage2.cpp:127-130). -/
def sentinel_bytes (long_subject_offsets : Bool) : List Nat :=
  if long_subject_offsets then PackedLoc.raw 0 else le_bytes 4 0

/-- `search_query_offset` (stage2.cpp:63-133) for the query location `q`, the subject
locations `s` and the candidate list `hits = [hits, hits_end)`. -/
def search_query_offset {FP : Type} (E : Env FP) (q : Nat) (s : Ptr PackedLoc) (hits : List Nat)
    (work_set : WorkSet FP (List Pushed)) : WorkSet FP (List Pushed) :=
  let L := query_locals E q work_set.context work_set.shape_id
  let st := batch_loop E L s hits.length hits (fun _ => INT_MAX) (work_set, 0)
  if st.2 > 0 then
    let buf := st.1.output_buf ++ sentinel_bytes L.long_subject_offsets
    { st.1 with
      output_buf := buf
      out := st.1.out ++ [⟨L.query_id / E.config.query_contexts, buf, st.2⟩] }
  else st.1

/-! ### Stage 1: the tile loops (stage2.cpp:135-195) -/

/-- `search_tile` (stage2.cpp:135-152). The callee `search_query_offset` is the parameter
`sqo`, so that the calls can be observed; `query_begin` and `subject_begin` are `uint32_t`.
A query whose hit range is empty (`r2 == r1`) is skipped. -/
def search_tile {FP Sink : Type}
    (sqo : Nat → Ptr PackedLoc → List Nat → WorkSet FP Sink → WorkSet FP Sink)
    (hits : FlatArray) (query_begin subject_begin : Nat) (q s : Ptr PackedLoc)
    (work_set : WorkSet FP Sink) : WorkSet FP Sink :=
  let ws0 := { work_set with stats := work_set.stats.inc1 hits.data_size }
  let query_count := to_uint32 hits.size
  let q_begin := q.add query_begin
  let s_begin := s.add subject_begin
  (List.range query_count).foldl
    (fun ws i => if hits.list i = [] then ws else sqo (q_begin i) s_begin (hits.list i) ws) ws0

/-- `load_fps` (stage2.cpp:166-173): the fingerprints of the `n` locations `p[0], ..., p[n-1]`;
`fp loc` is `FingerPrint(seqs.data(loc))`. -/
def load_fps {FP : Type} (fp : PackedLoc → FP) (p : Ptr PackedLoc) (n : Nat) : List FP :=
  (List.range n).map (fun k => fp (p k))

/-- `v.data()` of a fingerprint vector: the pointer to its first element. The code reads it
only below `v.size()`. -/
def Container.data {FP : Type} [Inhabited FP] (v : List FP) : Ptr FP := fun k => v.getD k default

/-- The loop `for (size_t i = start; i < size; i += stride) body(i)` over a `size` that is read
from the state; `i` is a `size_t` and wraps modulo `2 ^ 64`. The loop need not end (a stride of
zero), so it runs on fuel and `none` is "out of fuel". -/
def for_stride {σ : Type} (size : σ → Nat) (stride : Nat) (body : Nat → σ → Option σ) :
    Nat → Nat → σ → Option σ
  | 0, _, _ => none
  | fuel + 1, i, st =>
    if i < size st then
      (body i st).bind (fun st1 => for_stride size stride body fuel ((i + stride) % 2 ^ 64) st1)
    else some st

/-- The body of the tile loops of `stage1` (stage2.cpp:189-191) for the tile that starts at
`(i, j)`: clear the hit array, compare the two tiles, hand the hits to `search_tile`. The two
tile lengths are converted to `uint32_t`, and so are `i` and `j` when they are passed as
`query_begin` and `subject_begin`. -/
def stage1_tile {FP Sink : Type} [DecidableEq FP] [Inhabited FP]
    (sqo : Nat → Ptr PackedLoc → List Nat → WorkSet FP Sink → WorkSet FP Sink)
    (tile_size : Nat) (q s : Ptr PackedLoc) (i j : Nat) (work_set : WorkSet FP Sink) :
    WorkSet FP Sink :=
  let ws1 := { work_set with hits := work_set.hits.clear }
  let na := to_uint32 (min tile_size (ws1.vq.length - i))
  let nb := to_uint32 (min tile_size (ws1.vs.length - j))
  let hits := all_vs_all ((Container.data ws1.vq).add i) na ((Container.data ws1.vs).add j) nb
    ws1.hits
  let ws2 := { ws1 with hits := hits }
  search_tile sqo ws2.hits (to_uint32 i) (to_uint32 j) q s ws2

/-- `stage1` (stage2.cpp:175-195), with the callee of `search_tile` as the parameter `sqo`. -/
def stage1 {FP Sink : Type} [DecidableEq FP] [Inhabited FP] (E : Env FP)
    (sqo : Nat → Ptr PackedLoc → List Nat → WorkSet FP Sink → WorkSet FP Sink)
    (fuel : Nat) (q : Ptr PackedLoc) (nq : Nat) (s : Ptr PackedLoc) (ns : Nat)
    (work_set : WorkSet FP Sink) : Option (WorkSet FP Sink) :=
  let ws1 := { work_set with stats := work_set.stats.inc_seed_hits ((nq * ns) % 2 ^ 64) }
  let ws2 := { ws1 with vq := load_fps E.query_fp q nq }
  let ws3 := { ws2 with vs := load_fps E.ref_fp s ns }
  let tile_size := E.config.tile_size
  for_stride (fun ws => ws.vq.length) tile_size
    (fun i ws => for_stride (fun ws => ws.vs.length) tile_size
      (fun j ws => some (stage1_tile sqo tile_size q s i j ws)) fuel 0 ws)
    fuel 0 ws3

/-- A callee for `search_tile` that only records what it is given: the candidate pairs
(query location, subject location) of one call of `search_query_offset`, in the order of its
hit list. -/
def record_candidates {FP : Type} (q : Nat) (s : Ptr PackedLoc) (hits : List Nat)
    (work_set : WorkSet FP (List (Nat × PackedLoc))) : WorkSet FP (List (Nat × PackedLoc)) :=
  { work_set with out := work_set.out ++ hits.map (fun h => (q, s h)) }

/-- The candidates of one untiled comparison: `all_vs_all` over the whole fingerprint arrays,
each hit `(i, j)` read as the pair of locations `(q[i], s[j])`. -/
def untiled_candidates {FP : Type} [DecidableEq FP] (E : Env FP) (q : Ptr PackedLoc) (nq : Nat)
    (s : Ptr PackedLoc) (ns : Nat) : List (Nat × PackedLoc) :=
  let hits := all_vs_all (fun i => E.query_fp (q i)) nq (fun j => E.ref_fp (s j)) ns ⟨[]⟩
  (List.range nq).flatMap (fun i => (hits.list i).map (fun j => (q i, s j)))

/-- The start indices `0, tile_size, 2 * tile_size, ...` of the tiles of `0 .. n`. -/
def tile_starts (tile_size n : Nat) : List Nat :=
  (List.range ((n + tile_size - 1) / tile_size)).map (fun m => m * tile_size)

/-- The candidates of the tile pass at `(i0, j0)`: `na` query fingerprints from `i0` on are
compared with `nb` subject fingerprints from `j0` on, and a local hit `(i', j')` is handed on as
`(q[qb + i'], s[sb + j'])`. -/
def tile_candidates {FP : Type} [DecidableEq FP] (E : Env FP) (q s : Ptr PackedLoc)
    (i0 j0 na nb qb sb : Nat) : List (Nat × PackedLoc) :=
  (List.range na).flatMap (fun i' =>
    ((List.range nb).filter
      (fun j' => decide (E.query_fp (q (i0 + i')) = E.ref_fp (s (j0 + j'))))).map
      (fun j' => (q (qb + i'), s (sb + j'))))

/-- The candidates that the tile passes of `stage1` hand on, in the order of the passes, with
the conversions to `uint32_t` that the code applies to the tile lengths and tile starts. -/
def tiled_candidates {FP : Type} [DecidableEq FP] (E : Env FP) (q : Ptr PackedLoc) (nq : Nat)
    (s : Ptr PackedLoc) (ns : Nat) : List (Nat × PackedLoc) :=
  (tile_starts E.config.tile_size nq).flatMap (fun i0 =>
    (tile_starts E.config.tile_size ns).flatMap (fun j0 =>
      tile_candidates E q s i0 j0 (to_uint32 (min E.config.tile_size (nq - i0)))
        (to_uint32 (min E.config.tile_size (ns - j0))) (to_uint32 i0) (to_uint32 j0)))

/-- An environment with the default tile size 1024 in which exactly one query location, the
one at index `2 ^ 32` of `q = fun i => i + 256`, has the fingerprint of the subject locations. -/
def wide_env : Env Nat where
  config := { short_query_max_len := 0, ungapped_window := 64, left_most_interval := 32,
              tile_size := 1024, query_translated := false, query_contexts := 1 }
  CHANNELS := 16
  CHANNELS_pos := by decide
  long_subject_offsets := false
  query_data := fun q => q
  query_local_position := fun q => (0, q)
  query_length := fun _ => 100
  query_fp := fun p => if p = 2 ^ 32 + 256 then 1 else 0
  ref_data := fun p => p
  ref_fp := fun _ => 1
  clip := fun b l _ => ⟨b, l⟩
  window_ungapped_best := fun _ _ _ _ scores => scores
  left_most_filter := fun _ _ _ _ _ _ _ _ _ => true
  shape_length := fun _ => 8
  varint := fun x => [x]

/-- An empty recording work set. -/
def empty_record_set : WorkSet Nat (List (Nat × PackedLoc)) :=
  { context := ⟨0, fun _ => 0, fun _ => 0⟩, shape_id := 0, stats := ⟨0, 0, 0, 0⟩, hits := ⟨[]⟩,
    vq := [], vs := [], out := [], output_buf := [] }

/-- The array `scores` before the scorer call of batch number `b` (batches are counted from
zero): `INT_MAX` everywhere before the first call, and what the scorer call of batch `b - 1`
left there afterwards. -/
def scores_before {FP : Type} (E : Env FP) (L : QueryLocals) (s : Ptr PackedLoc)
    (hits : List Nat) : Nat → Ptr Int
  | 0 => fun _ => INT_MAX
  | b + 1 =>
    let rem := hits.drop (b * E.CHANNELS)
    let n := min E.CHANNELS rem.length
    let subjects := (List.range n).map (fun j => E.ref_data (s (rem.getD j 0)) - L.window_left)
    E.window_ungapped_best L.query_clipped.data subjects n L.window_clipped
      (scores_before E L s hits b)

/-- The score that the batched scorer returned for the candidate number `k` of the hit list:
lane `k % N` of the array `scores` after the call for batch `k / N`. -/
def candidate_score {FP : Type} (E : Env FP) (L : QueryLocals) (s : Ptr PackedLoc)
    (hits : List Nat) (k : Nat) : Int :=
  scores_before E L s hits (k / E.CHANNELS + 1) (k % E.CHANNELS)

/-- The subject pointer `subjects[j]` of the candidate number `k` (stage2.cpp:97). -/
def candidate_subject {FP : Type} (E : Env FP) (L : QueryLocals) (s : Ptr PackedLoc)
    (hits : List Nat) (k : Nat) : Int :=
  E.ref_data (s (hits.getD k 0)) - L.window_left

/-- The call of `left_most_filter` for the candidate number `k` (stage2.cpp:108). -/
def candidate_left_most {FP : Type} (E : Env FP) (L : QueryLocals) (context : Context)
    (s : Ptr PackedLoc) (hits : List Nat) (k : Nat) : Bool :=
  E.left_most_filter L.query_clipped L.interval_overhang
    (candidate_subject E L s hits k + L.interval_overhang)
    (L.window_left - L.interval_overhang) (E.shape_length L.sid) context
    (decide (L.sid = 0)) L.sid L.score_cutoff

/-- The candidates of the hit list that survive, as indices into the hit list in ascending
order: the score of the candidate exceeds the cutoff and the left-most filter accepts it. -/
def survivors {FP : Type} (E : Env FP) (L : QueryLocals) (context : Context)
    (s : Ptr PackedLoc) (hits : List Nat) : List Nat :=
  (List.range hits.length).filter (fun k =>
    decide (candidate_score E L s hits k > L.score_cutoff) &&
      candidate_left_most E L context s hits k)

/-- The bytes of one hit record: the subject position, then the score as `uint16_t`. -/
def hit_record (long_subject_offsets : Bool) (loc : PackedLoc) (score : Int) : List Nat :=
  position_bytes long_subject_offsets loc ++ le_bytes 2 (to_uint16 score)

/-- The bytes of a complete hit buffer for the records `recs`: the two varints, the records,
the sentinel. -/
def hit_buffer {FP : Type} (E : Env FP) (long_subject_offsets : Bool) (query_id seed_offset : Nat)
    (recs : List (PackedLoc × Int)) : List Nat :=
  E.varint query_id ++ E.varint seed_offset
    ++ recs.flatMap (fun r => hit_record long_subject_offsets r.1 r.2)
    ++ sentinel_bytes long_subject_offsets

/-- The scored candidates of the loop of `search_query_offset` in the order in which the inner
loop visits them: for every lane of every batch the location, the subject pointer and the
score. It follows `batch_loop` round by round. -/
def scored_lanes {FP : Type} (E : Env FP) (L : QueryLocals) (s : Ptr PackedLoc) :
    Nat → List Nat → Ptr Int → List (PackedLoc × Int × Int)
  | 0, _, _ => []
  | fuel + 1, rem, scores =>
    if 0 < rem.length then
      let n := min E.CHANNELS rem.length
      let subjects := (List.range n).map (fun j => E.ref_data (s (rem.getD j 0)) - L.window_left)
      let scores1 := E.window_ungapped_best L.query_clipped.data subjects n L.window_clipped scores
      (List.range n).map (fun j => (s (rem.getD j 0), subjects.getD j 0, scores1 j))
        ++ scored_lanes E L s fuel (rem.drop n) scores1
    else []

/-- Does the inner loop write a record for a lane with this subject pointer and score? -/
def lane_passes {FP : Type} (E : Env FP) (L : QueryLocals) (context : Context)
    (c : PackedLoc × Int × Int) : Bool :=
  decide (c.2.2 > L.score_cutoff) &&
    E.left_most_filter L.query_clipped L.interval_overhang (c.2.1 + L.interval_overhang)
      (L.window_left - L.interval_overhang) (E.shape_length L.sid) context
      (decide (L.sid = 0)) L.sid L.score_cutoff

/-- The statistics after `search_query_offset`: one `TENTATIVE_MATCHES2` for every candidate
whose score exceeds the cutoff, one `TENTATIVE_MATCHES3` for every survivor. -/
def stats_after {FP : Type} (E : Env FP) (L : QueryLocals) (context : Context)
    (s : Ptr PackedLoc) (hits : List Nat) (stats : Statistics) : Statistics :=
  { stats with
    TENTATIVE_MATCHES2 := stats.TENTATIVE_MATCHES2 + ((List.range hits.length).filter
      (fun k => decide (candidate_score E L s hits k > L.score_cutoff))).length
    TENTATIVE_MATCHES3 := stats.TENTATIVE_MATCHES3 + (survivors E L context s hits).length }

/-- The records of the survivors: for each surviving candidate its subject location and the
score the scorer returned for it. -/
def survivor_records {FP : Type} (E : Env FP) (L : QueryLocals) (context : Context)
    (s : Ptr PackedLoc) (hits : List Nat) : List (PackedLoc × Int) :=
  (survivors E L context s hits).map
    (fun k => (s (hits.getD k 0), candidate_score E L s hits k))

/-- The effect of `search_query_offset` stated on the survivors of the hit list. Without a
survivor only the statistics change. With survivors the thread-local buffer is the complete hit
buffer of the survivor records, and it is pushed to the sink once, with the number of
survivors as the hit count. -/
def search_query_offset_spec {FP : Type} (E : Env FP) (q : Nat) (s : Ptr PackedLoc)
    (hits : List Nat) (ws : WorkSet FP (List Pushed)) : WorkSet FP (List Pushed) :=
  let L := query_locals E q ws.context ws.shape_id
  let stats := stats_after E L ws.context s hits ws.stats
  let buf := hit_buffer E L.long_subject_offsets L.query_id L.seed_offset
    (survivor_records E L ws.context s hits)
  let pushed : Pushed := ⟨L.query_id / E.config.query_contexts, buf,
    (survivors E L ws.context s hits).length⟩
  if survivors E L ws.context s hits = [] then { ws with stats := stats }
  else { ws with stats := stats, output_buf := buf, out := ws.out ++ [pushed] }

/-- The width in bytes of a subject position in the hit buffer: 5 with long subject offsets,
4 otherwise. -/
def position_width (long_subject_offsets : Bool) : Nat := if long_subject_offsets then 5 else 4

/-- An environment for examples: four SIMD channels, 5-byte subject positions, a scorer that
scores every subject on its own (the subject address modulo 50), a left-most filter that accepts
the even subject addresses and a one-byte varint for values below 128. -/
def example_env : Env Nat where
  config := { short_query_max_len := 30, ungapped_window := 8, left_most_interval := 0,
              tile_size := 2, query_translated := false, query_contexts := 1 }
  CHANNELS := 4
  CHANNELS_pos := by decide
  long_subject_offsets := true
  query_data := fun q => q
  query_local_position := fun q => (q / 100, q % 100)
  query_length := fun _ => 40
  query_fp := fun p => p % 3
  ref_data := fun p => p
  ref_fp := fun p => p % 3
  clip := fun b l _ => ⟨b, l⟩
  window_ungapped_best := fun _ subjects _ _ _ => fun j => subjects.getD j 0 % 50
  left_most_filter := fun _ _ subject _ _ _ _ _ _ => subject % 2 == 0
  shape_length := fun _ => 8
  varint := fun x => [x]

/-- A work set for examples: the cutoff table gives 30, and the thread-local buffer still holds
three bytes of an earlier query. -/
def example_work_set : WorkSet Nat (List Pushed) :=
  { context := ⟨10, fun _ => 20, fun _ => 30⟩, shape_id := 0, stats := ⟨0, 0, 0, 0⟩,
    hits := ⟨[]⟩, vq := [], vs := [], out := [], output_buf := [9, 9, 9] }

/-- The environment `E` with one SIMD channel: the candidates are scored one at a time. -/
def single_channel {FP : Type} (E : Env FP) : Env FP :=
  { E with CHANNELS := 1, CHANNELS_pos := Nat.one_pos }

/-- The value of a list of bytes, least significant byte first. -/
def le_value : List Nat → Nat
  | [] => 0
  | b :: bs => b + 256 * le_value bs

/-- Modelled from the spec: the reading of a stored subject position (the reader of the hit
buffer is not among the sources). It inverts `position_bytes`: the 5-byte image is the byte
`high` followed by the four bytes of `low`, the 4-byte form is `low`. -/
def read_position (long_subject_offsets : Bool) (bs : List Nat) : Nat :=
  if long_subject_offsets then bs.headD 0 * 2 ^ 32 + le_value bs.tail else le_value bs

/-- Modelled from the spec: the reader of the records of a hit buffer, "reads w-byte position /
2-byte score records until it meets a zero position". It returns the records and the bytes
after the sentinel; `none` is a truncated buffer (or no fuel left). -/
def read_hits (long_subject_offsets : Bool) : Nat → List Nat → Option (List (Nat × Nat) × List Nat)
  | 0, _ => none
  | fuel + 1, bs =>
    if bs.length < position_width long_subject_offsets then none
    else if read_position long_subject_offsets (bs.take (position_width long_subject_offsets)) = 0
    then some ([], bs.drop (position_width long_subject_offsets))
    else if (bs.drop (position_width long_subject_offsets)).length < 2 then none
    else
      match read_hits long_subject_offsets fuel
          (bs.drop (position_width long_subject_offsets + 2)) with
      | none => none
      | some (recs, rest) =>
        some ((read_position long_subject_offsets
                (bs.take (position_width long_subject_offsets)),
              le_value ((bs.drop (position_width long_subject_offsets)).take 2)) :: recs, rest)

/-- Modelled from the spec: the reader of a whole hit buffer: two varints, then the records up
to the sentinel. `read_varint` is the reader of the varint codec. The result is the query id,
the seed offset, the records and the bytes left after the sentinel. -/
def read_hit_buffer (read_varint : List Nat → Option (Nat × List Nat))
    (long_subject_offsets : Bool) (fuel : Nat) (bs : List Nat) :
    Option (Nat × Nat × List (Nat × Nat) × List Nat) :=
  match read_varint bs with
  | none => none
  | some (query_id, r1) =>
    match read_varint r1 with
    | none => none
    | some (seed_offset, r2) =>
      match read_hits long_subject_offsets fuel r2 with
      | none => none
      | some (recs, rest) => some (query_id, seed_offset, recs, rest)

/-- The reader of the one-byte varint of `example_env`. -/
def read_byte : List Nat → Option (Nat × List Nat)
  | [] => none
  | b :: rest => some (b, rest)

/-! ### The gapped alignment engine (full_swipe.h) -/

/-- The conversion of an unsigned integer to `int` (two's complement, 32 bits). -/
def to_int32 (x : Nat) : Int :=
  if x % 2 ^ 32 < 2 ^ 31 then ((x % 2 ^ 32 : Nat) : Int) else ((x % 2 ^ 32 : Nat) : Int) - 2 ^ 32

/-- Modelled from the spec: the carry-over state of a `DpTarget` (dp.h is not among the
sources): "partial alignment end coordinates, identity/length counters". -/
structure CarryOver where
  i1 : Int
  j1 : Int
  ident : Int
  len : Int
deriving DecidableEq, Repr

/-- Modelled from the spec: `DpTarget` (dp.h is not among the sources), with the members that
full_swipe.h reads: the subject sequence (its letters), the target index, the carry-over state,
and the adjusted matrix (`adjusted_matrix()` and `matrix->scores32`). -/
structure DpTarget where
  seq : List Nat
  target_idx : Int
  carry_over : CarryOver
  adjusted_matrix : Bool
  scores32 : List Int
deriving DecidableEq, Repr

/-- Modelled from the spec: an edit operation of a gap (`Edit_operation`). -/
abbrev Edit_operation := Nat

/-- Modelled from the spec: one entry of the edit transcript of an `Hsp`, as pushed by
`push_match`, `push_gap` and `push_terminator`. -/
inductive TranscriptEntry where
  | matched (q s : Nat) (positive : Bool)
  | gap (op : Edit_operation) (len : Int) (subject : Int)
  | terminator
deriving DecidableEq, Repr

/-- A coordinate range `[begin_, end_)`. -/
structure Interval where
  begin_ : Int
  end_ : Int
deriving DecidableEq, Repr

/-- Modelled from the spec: `Hsp` (the members that full_swipe.h writes). The type of E-values
is a parameter: the code only passes them on. A member that a function does not assign keeps the
value of the default constructor, taken to be zero (empty). -/
structure Hsp (EV : Type) where
  swipe_target : Int
  score : Int
  evalue : EV
  frame : Int
  query_range : Interval
  subject_range : Interval
  identities : Int
  length : Int
  target_seq : List Nat
  transcript : List TranscriptEntry
deriving DecidableEq, Repr

/-- Modelled from the spec: `ScoreTraits<_sv>` (score_vector.h is not among the sources): the
integer value of a score, the saturation value, the zero score and the number of channels. -/
structure ScoreTraits where
  int_score : Int → Int
  max_score : Int
  zero_score : Int
  CHANNELS : Nat

/-- The errors that `swipe` and `traceback` throw (as `std::runtime_error`). -/
inductive SwipeError where
  | query_length
  | matrix_scale
  | traceback (query : String)
deriving DecidableEq, Repr

/-- The message of the `std::runtime_error`. -/
def SwipeError.what : SwipeError → String
  | .query_length => "Query length exceeds row counter maximum."
  | .matrix_scale => "Matrix scale != 1.0 not supported."
  | .traceback query => "Traceback error. " ++ query

/-- Modelled from the spec: the backward iterator of the `TracebackVectorMatrix`
(traceback.h is not among the sources) over an iterator state `It`: the start at the cell of
the best score, the coordinates, the test `(it.mask().gap & channel_mask) != 0`, and the two
walking steps; `D` is the matrix. -/
structure TracebackOps (D It : Type) where
  start : D → Int → Int → Int → Nat → It
  i : It → Int
  j : It → Int
  gap : It → Nat → Bool
  walk_diagonal : It → It
  walk_gap : It → (Edit_operation × Int) × It

/-- The result of one pass over a column: the matrix after the pass, the column best and the
row counter of every channel (`col_best_`, `i_max`). -/
structure ColumnResult (D : Type) where
  dp : D
  col_best_ : Nat → Int
  i_max : Nat → Int

/-- The state of `swipe`: the target buffer (`active`, `pos`, `dp_targets` and the shared
cursor `next`), the best score and its coordinates per channel, the matrix, the column, the
result list and the overflow list. -/
structure SwipeState (D EV : Type) where
  active : List Nat
  pos : Nat → Int
  dp_targets : Nat → DpTarget
  next : Nat
  best : Nat → Int
  max_col : Nat → Int
  max_i : Nat → Int
  max_j : Nat → Int
  dp : D
  col : Nat
  out : List (Hsp EV)
  overflow : List DpTarget

/-- What `swipe` is instantiated with and what it calls outside the sources: the score traits,
`RowCounter::MAX_LEN`, `config.cbs_matrix_scale`, the E-value service, the scoring matrix, the
composition bias, the matrix type chosen by `Cfg::traceback`, the pass over one column (profile,
cell updates, stores) and the traceback iterator. -/
structure SwipeEnv (D It EV : Type) where
  traits : ScoreTraits
  MAX_LEN : Int
  cbs_matrix_scale : Int
  transcript_len_estimate : Int
  evalue : Int → Int → Nat → EV
  report_cutoff : Int → EV → Bool
  gap_open : Int
  gap_extend : Int
  matrix32 : List Int
  add_cbs_scalar : Int → Int → Int
  composition_bias : Int → Int
  with_traceback : Bool
  column : List Nat → SwipeState D EV → ColumnResult D
  set_zero : D → Nat → D
  cols : D → Nat
  new_matrix : Int → Int → D
  ops : TracebackOps D It

/-- Assignment `a[c] = v` to an array. -/
def set_at {α : Type} (a : Nat → α) (c : Nat) (v : α) : Nat → α :=
  fun x => if x = c then v else a x

/-- How a run ends: normally, with an exception, or because the fuel of the model ran out;
each with the state reached. -/
inductive Run (σ : Type) where
  | done (st : σ)
  | thrown (e : SwipeError) (st : σ)
  | no_fuel (st : σ)

/-- The state with which a run ended. -/
def Run.state {σ : Type} : Run σ → σ
  | .done st => st
  | .thrown _ st => st
  | .no_fuel st => st

/-- The score-only `traceback` (full_swipe.h:36-58), the overload over `Matrix<Cell>`. -/
def traceback_score {D It EV : Type} (E : SwipeEnv D It EV) (query : List Nat) (frame : Int)
    (target : DpTarget) (max_score : Int) (evalue : EV) (max_i max_j : Int) : Hsp EV :=
  let out : Hsp EV :=
    { swipe_target := target.target_idx
      score := E.traits.int_score max_score * E.cbs_matrix_scale
      evalue := evalue
      frame := frame
      query_range := ⟨0, 0⟩
      subject_range := ⟨0, 0⟩
      identities := 0
      length := 0
      target_seq := []
      transcript := [] }
  let out1 : Hsp EV :=
    if target.carry_over.i1 = 0 then
      { out with
        query_range := { out.query_range with end_ := max_i + 1 }
        subject_range := { out.subject_range with end_ := max_j + 1 } }
    else
      { out with
        query_range := ⟨to_int32 query.length - 1 - max_i, target.carry_over.i1⟩
        subject_range := ⟨to_int32 target.seq.length - 1 - max_j, target.carry_over.j1⟩
        identities := target.carry_over.ident
        length := target.carry_over.len }
  { out1 with target_seq := target.seq }

/-- The state of the walk of the traceback over a `TracebackVectorMatrix`: the iterator, the
running score and the transcript pushed so far. -/
structure WalkState (It : Type) where
  it : It
  score : Int
  transcript : List TranscriptEntry

/-- The loop of the traceback over a `TracebackVectorMatrix` (full_swipe.h:83-97). Whether it
ends depends on the iterator, so it runs on fuel; `none` is "out of fuel". -/
def traceback_walk {D It EV : Type} (E : SwipeEnv D It EV) (query : List Nat)
    (target : DpTarget) (channel : Nat) (end_score : Int) :
    Nat → WalkState It → Option (WalkState It)
  | 0, _ => none
  | fuel + 1, w =>
    if E.ops.i w.it ≥ 0 ∧ E.ops.j w.it ≥ 0 ∧ w.score < end_score then
      if E.ops.gap w.it channel = false then
        let q := query.getD (E.ops.i w.it).toNat 0
        let s := target.seq.getD (E.ops.j w.it).toNat 0
        let matrix := if target.adjusted_matrix then target.scores32 else E.matrix32
        let m := matrix.getD (s * 32 + q) 0
        let m2 := if target.adjusted_matrix then m
          else E.add_cbs_scalar m (E.composition_bias (E.ops.i w.it))
        traceback_walk E query target channel end_score fuel
          { it := E.ops.walk_diagonal w.it
            score := w.score + m2
            transcript := w.transcript ++ [TranscriptEntry.matched q s (decide (m > 0))] }
      else
        let g := (E.ops.walk_gap w.it).1
        let it1 := (E.ops.walk_gap w.it).2
        traceback_walk E query target channel end_score fuel
          { it := it1
            score := w.score - (E.gap_open + g.2 * E.gap_extend)
            transcript := w.transcript ++ [TranscriptEntry.gap g.1 g.2 (E.ops.j it1 + g.2)] }
    else some w

/-- The `traceback` over a `TracebackVectorMatrix` (full_swipe.h:60-107). `query_string` is
`query.to_string()`. The result is `none` when the walk runs out of fuel. -/
def traceback_vector {D It EV : Type} (E : SwipeEnv D It EV) (fuel : Nat) (query : List Nat)
    (query_string : String) (frame : Int) (dp : D) (target : DpTarget) (max_score : Int)
    (evalue : EV) (max_col max_i max_j : Int) (channel : Nat) :
    Option (Except SwipeError (Hsp EV)) :=
  let it := E.ops.start dp max_col max_i max_j channel
  let end_score := E.traits.int_score max_score
  let out : Hsp EV :=
    { swipe_target := target.target_idx
      score := if target.adjusted_matrix then end_score else end_score * E.cbs_matrix_scale
      evalue := evalue
      frame := frame
      query_range := ⟨0, E.ops.i it + 1⟩
      subject_range := ⟨0, E.ops.j it + 1⟩
      identities := 0
      length := 0
      target_seq := []
      transcript := [] }
  match traceback_walk E query target channel end_score fuel ⟨it, 0, []⟩ with
  | none => none
  | some w =>
    if w.score ≠ end_score then some (Except.error (SwipeError.traceback query_string))
    else
      some (Except.ok
        { out with
          query_range := { out.query_range with begin_ := E.ops.i w.it + 1 }
          subject_range := { out.subject_range with begin_ := E.ops.j w.it + 1 }
          transcript := w.transcript.reverse ++ [TranscriptEntry.terminator] })

/-- The call of `traceback<_sv>` in `swipe` (full_swipe.h:194): the overload is chosen by the
matrix type, that is by `Cfg::traceback`. -/
def traceback {D It EV : Type} (E : SwipeEnv D It EV) (fuel : Nat) (query : List Nat)
    (query_string : String) (frame : Int) (dp : D) (target : DpTarget) (max_score : Int)
    (evalue : EV) (max_col max_i max_j : Int) (channel : Nat) :
    Option (Except SwipeError (Hsp EV)) :=
  if E.with_traceback then
    traceback_vector E fuel query query_string frame dp target max_score evalue max_col max_i
      max_j channel
  else some (Except.ok (traceback_score E query frame target max_score evalue max_i max_j))

/-- Modelled from the spec: `AsyncTargetBuffer::init_target(i, channel)` (target_iterator.h is
not among the sources): "reinitialize the channel with the next pending DpTarget (or leave it
idle if the worklist is empty)". The cursor `next` is advanced; if it pointed into the
worklist, the target there is bound to the channel at position 0, otherwise the entry `i` of
`active` is erased. Only this thread moves the cursor in this model. -/
def init_target {D EV : Type} (targets : List DpTarget) (i c : Nat) (st : SwipeState D EV) :
    SwipeState D EV × Bool :=
  match targets[st.next]? with
  | some t =>
    ({ st with next := st.next + 1, pos := set_at st.pos c 0,
               dp_targets := set_at st.dp_targets c t }, true)
  | none => ({ st with next := st.next + 1, active := st.active.eraseIdx i }, false)

/-- Modelled from the spec: `AsyncTargetBuffer::inc(channel)`: move to the next residue of
the target; false when "the channel's target is exhausted (no more residues)". -/
def inc_target {D EV : Type} (c : Nat) (st : SwipeState D EV) : SwipeState D EV × Bool :=
  let st1 := { st with pos := set_at st.pos c (st.pos c + 1) }
  (st1, decide (st1.pos c < to_int32 (st1.dp_targets c).seq.length))

/-- Lines 180-185 of full_swipe.h: a column best above the best of the channel is recorded
with its column, row and target position. -/
def update_best {D It EV : Type} (E : SwipeEnv D It EV) (col_best_ i_max : Nat → Int) (c : Nat)
    (st : SwipeState D EV) : SwipeState D EV :=
  if col_best_ c > st.best c then
    { st with
      best := set_at st.best c (col_best_ c)
      max_col := set_at st.max_col c st.col
      max_i := set_at st.max_i c (E.traits.int_score (i_max c))
      max_j := set_at st.max_j c (st.pos c) }
  else st

/-- Lines 197-206 of full_swipe.h with `reinit` set: the channel takes the next pending target
and is zeroed (then `++i`), or it leaves `active` (then `continue` with the same `i`). The
result is the state and the next value of `i`. -/
def reinit_channel {D It EV : Type} (E : SwipeEnv D It EV) (targets : List DpTarget) (i c : Nat)
    (st : SwipeState D EV) : SwipeState D EV × Nat :=
  let r := init_target targets i c st
  if r.2 then
    ({ r.1 with dp := E.set_zero r.1.dp c, best := set_at r.1.best c E.traits.zero_score }, i + 1)
  else (r.1, i)

/-- The body of the loop over the active channels after a column (full_swipe.h:179-206) for the
entry `i` of `active`. The result is the state and the next value of `i`; it is `no_fuel` when
the traceback ran out of fuel. -/
def handle_channel {D It EV : Type} (E : SwipeEnv D It EV) (fuel : Nat) (query : List Nat)
    (query_string : String) (frame : Int) (targets : List DpTarget) (col_best_ i_max : Nat → Int)
    (i : Nat) (st : SwipeState D EV) : Run (SwipeState D EV × Nat) :=
  let c := st.active.getD i 0
  let qlen := to_int32 query.length
  let st1 := update_best E col_best_ i_max c st
  if col_best_ c = E.traits.max_score then
    Run.done (reinit_channel E targets i c
      { st1 with overflow := st1.overflow ++ [st1.dp_targets c] })
  else
    let r := inc_target c st1
    if r.2 = false then
      let s := E.traits.int_score (r.1.best c) * E.cbs_matrix_scale
      let evalue := E.evalue s qlen (to_uint32 (r.1.dp_targets c).seq.length)
      if E.report_cutoff s evalue then
        match traceback E fuel query query_string frame r.1.dp (r.1.dp_targets c) (r.1.best c)
            evalue (r.1.max_col c) (r.1.max_i c) (r.1.max_j c) c with
        | none => Run.no_fuel (r.1, i)
        | some (Except.error e) => Run.thrown e (r.1, i)
        | some (Except.ok h) =>
          Run.done (reinit_channel E targets i c { r.1 with out := r.1.out ++ [h] })
      else Run.done (reinit_channel E targets i c r.1)
    else Run.done (r.1, i + 1)

/-- The loop `for (int i = 0; i < targets.active.size();)` (full_swipe.h:178-207). Every round
either increments `i` or erases an entry of `active`, so `active.size() - i` rounds of fuel are
enough. -/
def channel_loop {D It EV : Type} (E : SwipeEnv D It EV) (fuel : Nat) (query : List Nat)
    (query_string : String) (frame : Int) (targets : List DpTarget) (col_best_ i_max : Nat → Int) :
    Nat → Nat → SwipeState D EV → Run (SwipeState D EV)
  | 0, _, st => Run.done st
  | rounds + 1, i, st =>
    if i < st.active.length then
      match handle_channel E fuel query query_string frame targets col_best_ i_max i st with
      | Run.done r => channel_loop E fuel query query_string frame targets col_best_ i_max
          rounds r.2 r.1
      | Run.thrown e r => Run.thrown e r.1
      | Run.no_fuel r => Run.no_fuel r.1
    else Run.done st

/-- One round of the main loop of `swipe` (full_swipe.h:142-208): the pass over the column,
the loop over the active channels, the step to the next column. -/
def swipe_column {D It EV : Type} (E : SwipeEnv D It EV) (fuel : Nat) (query : List Nat)
    (query_string : String) (frame : Int) (targets : List DpTarget) (st : SwipeState D EV) :
    Run (SwipeState D EV) :=
  let r := E.column query st
  let st1 := { st with dp := r.dp }
  match channel_loop E fuel query query_string frame targets r.col_best_ r.i_max
      st1.active.length 0 st1 with
  | Run.done st2 => Run.done { st2 with col := (st2.col + 1) % E.cols st2.dp }
  | Run.thrown e st2 => Run.thrown e st2
  | Run.no_fuel st2 => Run.no_fuel st2

/-- The main loop `while (targets.active.size() > 0)` of `swipe` (full_swipe.h:141-209). -/
def swipe_loop {D It EV : Type} (E : SwipeEnv D It EV) (query : List Nat)
    (query_string : String) (frame : Int) (targets : List DpTarget) :
    Nat → SwipeState D EV → Run (SwipeState D EV)
  | 0, st => Run.no_fuel st
  | fuel + 1, st =>
    if st.active.length > 0 then
      match swipe_column E (fuel + 1) query query_string frame targets st with
      | Run.done st1 => swipe_loop E query query_string frame targets fuel st1
      | Run.thrown e st1 => Run.thrown e st1
      | Run.no_fuel st1 => Run.no_fuel st1
    else Run.done st

/-- Modelled from the spec: the constructor of `AsyncTargetBuffer`: the channels
`0, 1, ...` are bound, in this order, to the pending targets from the cursor on, as long as there
are free channels and pending targets. -/
def init_buffer {D EV : Type} (targets : List DpTarget) (CHANNELS : Nat)
    (st : SwipeState D EV) : SwipeState D EV :=
  (List.range CHANNELS).foldl (fun st c =>
    match targets[st.next]? with
    | some t =>
      { st with next := st.next + 1, pos := set_at st.pos c 0,
                dp_targets := set_at st.dp_targets c t, active := st.active ++ [c] }
    | none => st) st

/-- Modelled from the spec: `AsyncTargetBuffer::max_len`, the greatest length of a target of
the worklist. -/
def max_len (targets : List DpTarget) : Nat :=
  targets.foldl (fun m t => max m t.seq.length) 0

/-- What a call of `swipe` leaves behind: the returned list of `Hsp` or the exception, and the
overflow list (the caller's vector, passed by reference). -/
structure SwipeResult (EV : Type) where
  result : Except SwipeError (List (Hsp EV))
  overflow : List DpTarget

/-- The state of `swipe` when it enters its main loop (full_swipe.h:128-139): no score yet, an
empty result list, the caller's overflow list, and the target buffer filled from the worklist.
`next` is the value of the shared cursor at the call, `junk` the indeterminate initial content
of the arrays `max_col`, `max_i`, `max_j`, and `idle` the content of an unbound slot of
`dp_targets`. -/
def swipe_start {D It EV : Type} (E : SwipeEnv D It EV) (query : List Nat)
    (targets : List DpTarget) (next : Nat) (overflow : List DpTarget) (junk : Nat → Int)
    (idle : DpTarget) : SwipeState D EV :=
  init_buffer targets E.traits.CHANNELS
    { active := []
      pos := fun _ => 0
      dp_targets := fun _ => idle
      next := next
      best := fun _ => E.traits.zero_score
      max_col := junk
      max_i := junk
      max_j := junk
      dp := E.new_matrix (to_int32 query.length) (max_len targets)
      col := 0
      out := []
      overflow := overflow }

/-- `swipe` (full_swipe.h:109-212). The result is `none` when the fuel does not suffice. -/
def swipe {D It EV : Type} (E : SwipeEnv D It EV) (fuel : Nat) (query : List Nat)
    (query_string : String) (frame : Int) (targets : List DpTarget) (next : Nat)
    (overflow : List DpTarget) (junk : Nat → Int) (idle : DpTarget) : Option (SwipeResult EV) :=
  let qlen := to_int32 query.length
  if qlen > E.MAX_LEN then some ⟨Except.error SwipeError.query_length, overflow⟩
  else if E.cbs_matrix_scale ≠ 1 then some ⟨Except.error SwipeError.matrix_scale, overflow⟩
  else
    match swipe_loop E query query_string frame targets fuel
        (swipe_start E query targets next overflow junk idle) with
    | Run.done st => some ⟨Except.ok st.out, st.overflow⟩
    | Run.thrown e st => some ⟨Except.error e, st.overflow⟩
    | Run.no_fuel _ => none

/-- An engine for examples: two channels; the score of a column is the letter of the target at
that column (so a letter 127 saturates the channel), the E-value of a score is the score itself
and an alignment is reported from the score 3 on; without traceback matrix. -/
def example_swipe_env : SwipeEnv Unit Unit Int where
  traits := { int_score := fun x => x, max_score := 127, zero_score := 0, CHANNELS := 2 }
  MAX_LEN := 1000
  cbs_matrix_scale := 1
  transcript_len_estimate := 1
  evalue := fun s _ _ => s
  report_cutoff := fun s _ => decide (3 ≤ s)
  gap_open := 11
  gap_extend := 1
  matrix32 := []
  add_cbs_scalar := fun m b => m + b
  composition_bias := fun _ => 0
  with_traceback := false
  column := fun _ st =>
    { dp := (),
      col_best_ := fun c => (((st.dp_targets c).seq.getD (st.pos c).toNat 0 : Nat) : Int),
      i_max := fun _ => 0 }
  set_zero := fun _ _ => ()
  cols := fun _ => 8
  new_matrix := fun _ _ => ()
  ops := { start := fun _ _ _ _ _ => (), i := fun _ => -1, j := fun _ => -1,
           gap := fun _ _ => false, walk_diagonal := fun _ => (),
           walk_gap := fun _ => ((0, 0), ()) }

/-- A target without carry-over and without adjusted matrix. -/
def plain_target (seq : List Nat) (target_idx : Int) : DpTarget :=
  { seq := seq, target_idx := target_idx, carry_over := ⟨0, 0, 0, 0⟩, adjusted_matrix := false,
    scores32 := [] }

/-- A worklist of four targets: the second saturates at its second letter, the fourth stays
below the reporting cutoff. -/
def example_targets : List DpTarget :=
  [plain_target [1, 2, 3] 10, plain_target [5, 127, 1] 11, plain_target [9] 12,
   plain_target [1, 2] 13]

/-- The target indices that a state of `swipe` accounts for, as a multiset: those of the
targets appended to the overflow list (`added`), of the `Hsp` in the result list, of the targets
bound to the active channels, and of the pending targets of the worklist. -/
def swipe_ids {D EV : Type} (targets : List DpTarget) (added : List DpTarget)
    (st : SwipeState D EV) : Multiset Int :=
  (added.map DpTarget.target_idx : Multiset Int)
    + (st.out.map Hsp.swipe_target : Multiset Int)
    + (st.active.map (fun c => (st.dp_targets c).target_idx) : Multiset Int)
    + ((targets.drop st.next).map DpTarget.target_idx : Multiset Int)

/-- The invariant of `swipe` behind the overflow handling: the overflow list is the list at the
call followed by the targets added since, and no target index is accounted for twice. -/
def swipe_inv {D EV : Type} (targets : List DpTarget) (overflow0 : List DpTarget)
    (st : SwipeState D EV) : Prop :=
  ∃ added, st.overflow = overflow0 ++ added ∧ (swipe_ids targets added st).Nodup

/-- A state of the example engine: channel 0 is at the last letter of the target 10, whose best
score so far is 2; no target is pending. -/
def example_swipe_state : SwipeState Unit Int where
  active := [0]
  pos := fun _ => 2
  dp_targets := fun _ => plain_target [1, 2, 3] 10
  next := 4
  best := fun _ => 2
  max_col := fun _ => 1
  max_i := fun _ => 0
  max_j := fun _ => 1
  dp := ()
  col := 2
  out := []
  overflow := []

/-- The local `interval_mod` of `search_query_offset` (stage2.cpp:91): the unsigned remainder
`seed_offset % config.left_most_interval` for a positive interval, `window_left` otherwise. -/
def interval_mod (config : Config) (seed_offset : Nat) (window_left : Int) : Int :=
  if config.left_most_interval > 0 then (seed_offset : Int) % config.left_most_interval
  else window_left

/-- The configuration of a protein search (the query is not translated) with the window 48. -/
def protein_config : Config :=
  { short_query_max_len := 30, ungapped_window := 48, left_most_interval := 0,
    tile_size := 1024, query_translated := false, query_contexts := 1 }

/-- One step of the backward walk of the traceback: an aligned pair at the query row `i` and the
target position `j`, or a gap of a length. -/
inductive WalkStep where
  | pair (i j : Int)
  | gap (len : Int)
deriving DecidableEq, Repr

/-- The condition of the loop of the traceback over a `TracebackVectorMatrix`
(full_swipe.h:83): `it.i >= 0 && it.j >= 0 && score < end_score`. -/
def walk_continues {D It EV : Type} (E : SwipeEnv D It EV) (end_score : Int)
    (w : WalkState It) : Bool :=
  decide (E.ops.i w.it ≥ 0 ∧ E.ops.j w.it ≥ 0 ∧ w.score < end_score)

/-- The steps that the loop of the traceback takes (full_swipe.h:83-97), in the order of the
walk: a diagonal step is the pair at the position of the iterator before the step, a gap step
is the length that `walk_gap` returns. -/
def walk_path {D It EV : Type} (E : SwipeEnv D It EV) (query : List Nat)
    (target : DpTarget) (channel : Nat) (end_score : Int) :
    Nat → WalkState It → List WalkStep
  | 0, _ => []
  | fuel + 1, w =>
    if E.ops.i w.it ≥ 0 ∧ E.ops.j w.it ≥ 0 ∧ w.score < end_score then
      if E.ops.gap w.it channel = false then
        let q := query.getD (E.ops.i w.it).toNat 0
        let s := target.seq.getD (E.ops.j w.it).toNat 0
        let matrix := if target.adjusted_matrix then target.scores32 else E.matrix32
        let m := matrix.getD (s * 32 + q) 0
        let m2 := if target.adjusted_matrix then m
          else E.add_cbs_scalar m (E.composition_bias (E.ops.i w.it))
        WalkStep.pair (E.ops.i w.it) (E.ops.j w.it) ::
          walk_path E query target channel end_score fuel
            { it := E.ops.walk_diagonal w.it
              score := w.score + m2
              transcript := w.transcript ++ [TranscriptEntry.matched q s (decide (m > 0))] }
      else
        let g := (E.ops.walk_gap w.it).1
        let it1 := (E.ops.walk_gap w.it).2
        WalkStep.gap g.2 ::
          walk_path E query target channel end_score fuel
            { it := it1
              score := w.score - (E.gap_open + g.2 * E.gap_extend)
              transcript := w.transcript ++ [TranscriptEntry.gap g.1 g.2 (E.ops.j it1 + g.2)] }
    else []

/-- The recomputed score of one step, in the words of the specification: "the substitution
score for the two aligned residues", bias-corrected unless the target has an adjusted matrix,
and for a gap minus "the corresponding affine-gap cost". -/
def step_score {D It EV : Type} (E : SwipeEnv D It EV) (query : List Nat) (target : DpTarget) :
    WalkStep → Int
  | .pair i j =>
    if target.adjusted_matrix then
      target.scores32.getD (target.seq.getD j.toNat 0 * 32 + query.getD i.toNat 0) 0
    else
      E.add_cbs_scalar (E.matrix32.getD (target.seq.getD j.toNat 0 * 32 + query.getD i.toNat 0) 0)
        (E.composition_bias i)
  | .gap len => - (E.gap_open + len * E.gap_extend)

/-- The recomputed score of a path: the sum over its steps. -/
def path_score {D It EV : Type} (E : SwipeEnv D It EV) (query : List Nat) (target : DpTarget)
    (path : List WalkStep) : Int :=
  (path.map (step_score E query target)).sum

/-- An engine with traceback for examples: the iterator is the pair of the coordinates, it
starts at `(max_i, max_j)`, the matrix holds no gaps, every pair of letters scores 1 and the
bias is 0. -/
def example_traceback_env : SwipeEnv Unit (Int × Int) Int where
  traits := { int_score := fun x => x, max_score := 127, zero_score := 0, CHANNELS := 2 }
  MAX_LEN := 1000
  cbs_matrix_scale := 1
  transcript_len_estimate := 1
  evalue := fun s _ _ => s
  report_cutoff := fun s _ => decide (3 ≤ s)
  gap_open := 11
  gap_extend := 1
  matrix32 := [1]
  add_cbs_scalar := fun m b => m + b
  composition_bias := fun _ => 0
  with_traceback := true
  column := fun _ st =>
    { dp := (),
      col_best_ := fun c => (((st.dp_targets c).seq.getD (st.pos c).toNat 0 : Nat) : Int),
      i_max := fun _ => 0 }
  set_zero := fun _ _ => ()
  cols := fun _ => 8
  new_matrix := fun _ _ => ()
  ops := { start := fun _ _ max_i max_j _ => (max_i, max_j), i := fun it => it.1,
           j := fun it => it.2, gap := fun _ _ => false,
           walk_diagonal := fun it => (it.1 - 1, it.2 - 1),
           walk_gap := fun it => ((0, 1), (it.1, it.2 - 1)) }

/-- A target of four letters 0 that carries the carry-over state `(7, 9, 3, 5)`. -/
def carry_target : DpTarget :=
  { seq := [0, 0, 0, 0], target_idx := 10, carry_over := ⟨7, 9, 3, 5⟩, adjusted_matrix := false,
    scores32 := [] }

/-- What `swipe` keeps for the channel `c`: `best[c]`, `max_col[c]`, `max_i[c]`, `max_j[c]`,
the position in the target and the target. -/
def channel_view {D EV : Type} (c : Nat) (st : SwipeState D EV) :
    Int × Int × Int × Int × Int × DpTarget :=
  (st.best c, st.max_col c, st.max_i c, st.max_j c, st.pos c, st.dp_targets c)

/-- The states of the first rounds of `swipe` in the example engine for one target with the
letters 1, 3, 2, 1: the state at the entry of the main loop, then one round after the
other. -/
def example_lifetime : Nat → SwipeState Unit Int
  | 0 => swipe_start example_swipe_env [1, 2, 3, 4] [plain_target [1, 3, 2, 1] 10] 0 []
      (fun _ => 7) (plain_target [] 0)
  | t + 1 => (swipe_column example_swipe_env 5 [1, 2, 3, 4] "q" 0 [plain_target [1, 3, 2, 1] 10]
      (example_lifetime t)).state

/-- The conversion of an integer to `size_t` (64 bits): unsigned arithmetic wraps modulo
`2^64`. -/
def to_size_t (x : Int) : Nat := (x % 2 ^ 64).toNat

/-- `std::vector::resize(n)`: the first `n` elements, filled up with the value-initialised
element `v` when the vector was shorter. -/
def resize {α : Type} (l : List α) (n : Nat) (v : α) : List α :=
  l.take n ++ List.replicate (n - l.length) v

/-- The loop of `std::upper_bound` over the random-access range `[first, first + len)` of the
vector `l`: a binary search for the first element greater than `val`. Every round makes `len`
smaller, so `len` rounds of fuel are enough. -/
def upper_bound_loop (l : List Nat) (val : Nat) : Nat → Nat → Nat → Nat
  | 0, first, _ => first
  | fuel + 1, first, len =>
    if len > 0 then
      let half := len / 2
      let middle := first + half
      if val < l.getD middle 0 then upper_bound_loop l val fuel first half
      else upper_bound_loop l val fuel (middle + 1) (len - half - 1)
    else first

/-- `std::upper_bound(l.begin(), l.end(), val) - l.begin()`. -/
def upper_bound (l : List Nat) (val : Nat) : Nat :=
  upper_bound_loop l val l.length 0 l.length

/-- `StringSetBase<_t, _pchar, _padding>` (string_set.h:30-155): the data vector and the vector
of limits. The template arguments `_pchar` and `_padding` are arguments of the operations. -/
structure StringSetBase (α : Type) where
  data_ : List α
  limits_ : List Nat

/-- `StringSetBase::PERIMETER_PADDING`. -/
def PERIMETER_PADDING : Nat := 256

/-- The constructor of `StringSetBase` (string_set.h:37-41). -/
def StringSetBase.ctor {α : Type} (pchar : α) : StringSetBase α :=
  { data_ := List.replicate PERIMETER_PADDING pchar, limits_ := [PERIMETER_PADDING] }

/-- `StringSetBase::raw_len` (string_set.h:108-109): `limits_.back()`. -/
def StringSetBase.raw_len {α : Type} (s : StringSetBase α) : Nat :=
  s.limits_.getLastD 0

/-- `StringSetBase::reserve(size_t n)` (string_set.h:49-52). -/
def StringSetBase.reserve {α : Type} (padding : Nat) (s : StringSetBase α) (n : Nat) :
    StringSetBase α :=
  { s with limits_ := s.limits_ ++ [to_size_t (s.raw_len + n + padding)] }

/-- `StringSetBase::clear` (string_set.h:59-62); `zero` is the value-initialised `_t()`. -/
def StringSetBase.clear {α : Type} (zero : α) (s : StringSetBase α) : StringSetBase α :=
  { data_ := resize s.data_ PERIMETER_PADDING zero, limits_ := resize s.limits_ 1 0 }

/-- `StringSetBase::push_back(begin, end)` (string_set.h:69-76) for the range with the elements
`xs`. -/
def StringSetBase.push_back {α : Type} (pchar : α) (padding : Nat) (s : StringSetBase α)
    (xs : List α) : StringSetBase α :=
  { data_ := s.data_ ++ xs ++ List.replicate padding pchar
    limits_ := s.limits_ ++ [to_size_t (s.raw_len + xs.length + padding)] }

/-- `StringSetBase::fill(n, v)` (string_set.h:78-83). -/
def StringSetBase.fill {α : Type} (pchar : α) (padding : Nat) (s : StringSetBase α) (n : Nat)
    (v : α) : StringSetBase α :=
  { data_ := s.data_ ++ List.replicate n v ++ List.replicate padding pchar
    limits_ := s.limits_ ++ [to_size_t (s.raw_len + n + padding)] }

/-- `StringSetBase::length(i)` (string_set.h:98-99). -/
def StringSetBase.length {α : Type} (padding : Nat) (s : StringSetBase α) (i : Nat) : Nat :=
  to_size_t ((s.limits_.getD (i + 1) 0 : Int) - s.limits_.getD i 0 - padding)

/-- `StringSetBase::size` (string_set.h:101-102). -/
def StringSetBase.size {α : Type} (s : StringSetBase α) : Nat :=
  to_size_t ((s.limits_.length : Int) - 1)

/-- `StringSetBase::position(i, j)` (string_set.h:120-121). -/
def StringSetBase.position {α : Type} (s : StringSetBase α) (i j : Nat) : Nat :=
  to_size_t (s.limits_.getD i 0 + j)

/-- `StringSetBase::local_position(p)` (string_set.h:123-127). -/
def StringSetBase.local_position {α : Type} (s : StringSetBase α) (p : Nat) : Nat × Nat :=
  let i := to_size_t ((upper_bound s.limits_ p : Int) - 1)
  (i, to_size_t ((p : Int) - s.limits_.getD i 0))

/-- The calls that build a `StringSetBase`. -/
inductive StringSetOp (α : Type) where
  | push_back (xs : List α)
  | fill (n : Nat) (v : α)
  | reserve (n : Nat)
  | clear

/-- One call on a `StringSetBase<_t, pchar, padding>`. -/
def StringSetBase.apply {α : Type} (pchar zero : α) (padding : Nat) (s : StringSetBase α) :
    StringSetOp α → StringSetBase α
  | .push_back xs => s.push_back pchar padding xs
  | .fill n v => s.fill pchar padding n v
  | .reserve n => s.reserve padding n
  | .clear => s.clear zero

/-- The `StringSetBase` reached from the constructor by a sequence of calls. -/
def StringSetBase.build {α : Type} (pchar zero : α) (padding : Nat) (ops : List (StringSetOp α)) :
    StringSetBase α :=
  ops.foldl (StringSetBase.apply pchar zero padding) (StringSetBase.ctor pchar)

/-- The lengths pushed since the last `clear`: the length of the range for `push_back`, `n` for
`fill` and for `reserve`. -/
def pushed_lengths {α : Type} (ops : List (StringSetOp α)) : List Nat :=
  ops.foldl (fun lens op =>
    match op with
    | .push_back xs => lens ++ [xs.length]
    | .fill n _ => lens ++ [n]
    | .reserve n => lens ++ [n]
    | .clear => []) []

/-- The offset at which the string `i` starts when strings of the lengths `lens` are stored one
after the other, each followed by its padding, behind the perimeter padding. -/
def string_offset (padding : Nat) (lens : List Nat) (i : Nat) : Nat :=
  PERIMETER_PADDING + (lens.take i).sum + i * padding

/-- The limits of a `StringSetBase` reached from the constructor: the offsets of the strings
pushed since the last `clear`, each reduced to `size_t`. -/
def limits_of (padding : Nat) (lens : List Nat) : List Nat :=
  (List.range (lens.length + 1)).map (fun i => to_size_t (string_offset padding lens i))

/-- The calls that store a string: `push_back` and `fill`. -/
def StringSetOp.is_push {α : Type} : StringSetOp α → Bool
  | .push_back _ => true
  | .fill _ _ => true
  | .reserve _ => false
  | .clear => false

/-- `StringSetBase::check_idx(i)` (string_set.h:91-96): the test `limits_.size() < i + 2` is in
`size_t` arithmetic; the result is the exception with its message or `i`. -/
def StringSetBase.check_idx {α : Type} (s : StringSetBase α) (i : Nat) : Except String Nat :=
  if to_size_t s.limits_.length < to_size_t ((i : Int) + 2) then
    Except.error "Sequence set index out of bounds."
  else Except.ok i

/-- `SequenceSet::reverse_translated_len(i)` (sequence_set.cpp:69-79) on the store of the
sequence set, whose padding is `padding`. -/
def SequenceSet.reverse_translated_len {α : Type} (s : StringSetBase α) (padding : Nat)
    (i : Nat) : Nat :=
  let j := to_size_t ((i : Int) - (i % 6 : Nat))
  let l := s.length padding j
  if s.length padding (to_size_t ((j : Int) + 2)) = l then to_size_t ((l : Int) * 3 + 2)
  else if s.length padding (to_size_t ((j : Int) + 1)) = l then to_size_t ((l : Int) * 3 + 1)
  else to_size_t ((l : Int) * 3)

/-- The three forward frames of a nucleotide sequence of length 8, stored three times (the
lengths 2, 2, 2), with padding 1. -/
def example_frames : StringSetBase Nat :=
  StringSetBase.build 0 0 1
    [StringSetOp.fill 2 1, StringSetOp.fill 2 1, StringSetOp.fill 2 1, StringSetOp.fill 2 1,
     StringSetOp.fill 2 1, StringSetOp.fill 2 1]

/-- The penalty `open_penalty` that `swipe` sets up (full_swipe.h:128):
`static_cast<Score>(score_matrix.gap_open() + score_matrix.gap_extend())`; `to_score` is the
conversion to `ScoreTraits<_sv>::Score`. -/
def open_penalty {D It EV : Type} (E : SwipeEnv D It EV) (to_score : Int → Int) : Int :=
  to_score (E.gap_open + E.gap_extend)

/-- The penalty `extend_penalty` that `swipe` sets up (full_swipe.h:129):
`static_cast<Score>(score_matrix.gap_extend())`. -/
def extend_penalty {D It EV : Type} (E : SwipeEnv D It EV) (to_score : Int → Int) : Int :=
  to_score E.gap_extend

/-- Modelled from the spec: what the DP (`swipe_cell_update`, not among the sources) charges for
a gap of `len` positions, by the recurrence "`hgap' = max(cell - open, hgap - extend)`": the
first position of the gap costs `open`, every following position costs `extend`. -/
def dp_gap_cost (open_ extend : Int) : Nat → Int
  | 0 => 0
  | 1 => open_
  | len + 2 => dp_gap_cost open_ extend (len + 1) + extend

/-- The conversion to `int8_t`, the `Score` of the 8-bit score vector. -/
def to_int8 (x : Int) : Int := (x + 128) % 256 - 128

/-- The example engine with a matrix that holds a gap of three positions in every cell: the
walk takes gap steps only, each three positions back in the target. -/
def gap_walk_env : SwipeEnv Unit (Int × Int) Int :=
  { example_traceback_env with
    ops := { example_traceback_env.ops with
             gap := fun _ _ => true
             walk_gap := fun it => ((0, 3), (it.1, it.2 - 3)) } }

/-- The engine `gap_walk_env` with the gap penalties 120 and 10. -/
def wide_gap_env : SwipeEnv Unit (Int × Int) Int :=
  { gap_walk_env with gap_open := 120, gap_extend := 10 }

/-- Is the entry of the transcript a match or mismatch operation (pushed by `push_match`)? -/
def TranscriptEntry.is_match : TranscriptEntry → Bool
  | .matched _ _ _ => true
  | _ => false

/-- Is the step of the walk a diagonal step? -/
def WalkStep.is_pair : WalkStep → Bool
  | .pair _ _ => true
  | .gap _ => false

/-- The number of candidates of the query `i` of a tile whose score exceeds the cutoff: the hit
list of the query is scored by `search_query_offset` for the query location `q[query_begin + i]`
against the subject locations from `subject_begin` on. -/
def tile_above_cutoff {FP : Type} (E : Env FP) (hits : FlatArray) (query_begin subject_begin : Nat)
    (q s : Ptr PackedLoc) (context : Context) (shape_id : Nat) (i : Nat) : Nat :=
  ((List.range (hits.list i).length).filter (fun k =>
    decide (candidate_score E (query_locals E ((q.add query_begin) i) context shape_id)
        (s.add subject_begin) (hits.list i) k
      > (query_locals E ((q.add query_begin) i) context shape_id).score_cutoff))).length

/-- The number of candidates of the query `i` of a tile that survive: the score exceeds the
cutoff and the left-most filter accepts the candidate. -/
def tile_survivors {FP : Type} (E : Env FP) (hits : FlatArray) (query_begin subject_begin : Nat)
    (q s : Ptr PackedLoc) (context : Context) (shape_id : Nat) (i : Nat) : Nat :=
  (survivors E (query_locals E ((q.add query_begin) i) context shape_id) context
    (s.add subject_begin) (hits.list i)).length

/-- A hit array of a tile with three queries: two candidates, none, one. -/
def example_tile_hits : FlatArray := ⟨[[0, 1], [], [2]]⟩

/-- The tile passes of `stage1` over `nq` query and `ns` subject fingerprints in the order of
the two loops: the start `(i, j)` of every pass. -/
def tile_passes (tile_size nq ns : Nat) : List (Nat × Nat) :=
  (tile_starts tile_size nq).flatMap (fun i => (tile_starts tile_size ns).map (fun j => (i, j)))

/-- The number of fingerprints of one axis that the pass starting at `i` hands to `all_vs_all`
(stage2.cpp:191): `(uint32_t)std::min(tile_size, size - i)`. -/
def tile_length (tile_size size i : Nat) : Nat := to_uint32 (min tile_size (size - i))

/-- The invariant of the coordinates of the best score in `swipe`, for a query of the length
`qlen` and a matrix with `cols` columns: the column counter is below `cols`; and for every
channel the best score is at least the zero score, the target position is at least 0, and when
the best score is above the zero score, `max_i` is a row of the query, `max_col` a column of the
matrix and `max_j` a target position that has been processed. -/
def coords_inv {D It EV : Type} (E : SwipeEnv D It EV) (qlen : Int) (cols : Nat)
    (st : SwipeState D EV) : Prop :=
  st.col < cols ∧
  ∀ c, E.traits.zero_score ≤ st.best c ∧ 0 ≤ st.pos c ∧
    (E.traits.zero_score < st.best c →
      0 ≤ st.max_i c ∧ st.max_i c < qlen ∧ 0 ≤ st.max_col c ∧ st.max_col c < cols ∧
      0 ≤ st.max_j c ∧ st.max_j c ≤ st.pos c)

/-- The example engine with a reporting cutoff that accepts every score, also the score
zero. -/
def lenient_swipe_env : SwipeEnv Unit Unit Int :=
  { example_swipe_env with report_cutoff := fun _ _ => true }

/-- `StringSetBase::letters` (string_set.h:111-112): `raw_len() - size() - PERIMETER_PADDING`
in `size_t` arithmetic. -/
def StringSetBase.letters {α : Type} (s : StringSetBase α) : Nat :=
  to_size_t ((s.raw_len : Int) - s.size - PERIMETER_PADDING)

/-- Modelled from the spec: `SequenceSet::get_length` (sequence_set.h is not among the
sources), the number of sequences of the set. -/
def SequenceSet.get_length {α : Type} (s : StringSetBase α) : Nat := s.size

/-- The inner loop of `SequenceSet::partition` (sequence_set.cpp:60-61):
`while (i < get_length() && n < l) n += length(i++);` with the `unsigned` counter `i` and the
`size_t` sum `n`. The result is the pair `(i, n)` at the end; `none` is "out of fuel". -/
def partition_inner {α : Type} (s : StringSetBase α) (padding l : Nat) :
    Nat → Nat → Nat → Option (Nat × Nat)
  | 0, _, _ => none
  | fuel + 1, i, n =>
    if i < SequenceSet.get_length s ∧ n < l then
      partition_inner s padding l fuel (to_uint32 (i + 1))
        (to_size_t ((n : Int) + s.length padding i))
    else some (i, n)

/-- The first loop of `SequenceSet::partition` (sequence_set.cpp:58-63):
`for (unsigned i = 0; i < get_length();) { n = 0; ...; v.push_back(i); }`. -/
def partition_outer {α : Type} (s : StringSetBase α) (padding l : Nat) :
    Nat → Nat → List Nat → Option (List Nat)
  | 0, _, _ => none
  | fuel + 1, i, v =>
    if i < SequenceSet.get_length s then
      match partition_inner s padding l (fuel + 1) i 0 with
      | none => none
      | some r => partition_outer s padding l fuel r.1 (v ++ [r.1])
    else some v

/-- The second loop of `SequenceSet::partition` (sequence_set.cpp:64-65):
`for (size_t i = v.size(); i < n_part + 1; ++i) v.push_back(get_length());` where `n_part + 1`
is `unsigned`. -/
def partition_fill {α : Type} (s : StringSetBase α) (n_part : Nat) (v : List Nat) : List Nat :=
  v ++ List.replicate (to_uint32 (n_part + 1) - v.length) (SequenceSet.get_length s)

/-- `SequenceSet::partition(n_part)` (sequence_set.cpp:53-67) on the store of the sequence set,
whose padding is `padding`. The result is `none` when the fuel does not suffice. -/
def SequenceSet.partition {α : Type} (s : StringSetBase α) (padding : Nat) (fuel : Nat)
    (n_part : Nat) : Option (List Nat) :=
  let l := to_size_t ((s.letters : Int) + n_part - 1) / n_part
  (partition_outer s padding l fuel 0 [0]).map (partition_fill s n_part)

/-- The calls that build a sequence set with the sequences of the lengths 3, 1, 2, 4, 2. -/
def example_sequence_ops : List (StringSetOp Nat) :=
  [StringSetOp.fill 3 1, StringSetOp.fill 1 1, StringSetOp.fill 2 1, StringSetOp.fill 4 1,
   StringSetOp.fill 2 1]

/-- The chain of the boundaries pushed by the first loop of `partition` from the boundary `i`
on: each is behind the one before and at most `N`, each part that does not end at `N` holds at
least `l` letters (`S b` is the number of letters before the sequence `b`), and the chain ends
at `N`. -/
def parts_ok (S : Nat → Nat) (l N : Nat) : Nat → List Nat → Prop
  | i, [] => i = N
  | i, b :: bs => i < b ∧ b ≤ N ∧ (b < N → l ≤ S b - S i) ∧ parts_ok S l N b bs

/-- The chain of all the boundaries returned by `partition` from the boundary `i` on: none is
before the one before or behind `N`, and each part that does not end at `N` holds at least `l`
letters. -/
def bounds_ok (S : Nat → Nat) (l N : Nat) : Nat → List Nat → Prop
  | _, [] => True
  | i, b :: bs => i ≤ b ∧ b ≤ N ∧ (b < N → l ≤ S b - S i) ∧ bounds_ok S l N b bs

/-- The letters of the sequences `a`, ..., `b - 1`, each counted by `length`. -/
def part_letters {α : Type} (s : StringSetBase α) (padding a b : Nat) : Nat :=
  ((List.range (b - a)).map (fun t => s.length padding (a + t))).sum

/-- The bytes of the position field of the record that starts at the offset `off` of a hit
buffer. -/
def stored_position (long_subject_offsets : Bool) (data : List Nat) (off : Nat) : List Nat :=
  (data.drop off).take (position_width long_subject_offsets)

/-- The bytes of the score field of the record that starts at the offset `off` of a hit
buffer. -/
def stored_score (long_subject_offsets : Bool) (data : List Nat) (off : Nat) : List Nat :=
  (data.drop (off + position_width long_subject_offsets)).take 2

/-- The example environment with a scorer whose results are 65536 and more: 65536 plus the
subject address modulo 50. -/
def wide_score_env : Env Nat :=
  { example_env with
    window_ungapped_best := fun _ subjects _ _ _ => fun j => subjects.getD j 0 % 50 + 65536 }

/-- The example environment in 4-byte mode (without long subject offsets). -/
def short_offsets_env : Env Nat :=
  { example_env with long_subject_offsets := false }

/-- A state of the example engine with traceback: channel 0 is at the last letter of a target
of four letters 0, whose best score so far is 2. -/
def example_traceback_state : SwipeState Unit Int where
  active := [0]
  pos := fun _ => 3
  dp_targets := fun _ => plain_target [0, 0, 0, 0] 10
  next := 4
  best := fun _ => 2
  max_col := fun _ => 1
  max_i := fun _ => 1
  max_j := fun _ => 1
  dp := ()
  col := 3
  out := []
  overflow := []

/-- The entry of `active` and the state at which the loop over the active channels
(`channel_loop`, full_swipe.h:178-207) comes to the channel `c`: the entries before it are
handled as in `channel_loop`; `none` when the loop ends before it comes to `c`. -/
def channel_loop_visit {D It EV : Type} (E : SwipeEnv D It EV) (fuel : Nat) (query : List Nat)
    (query_string : String) (frame : Int) (targets : List DpTarget) (col_best_ i_max : Nat → Int)
    (c : Nat) : Nat → Nat → SwipeState D EV → Option (Nat × SwipeState D EV)
  | 0, _, _ => none
  | rounds + 1, i, st =>
    if i < st.active.length then
      if st.active.getD i 0 = c then some (i, st)
      else
        match handle_channel E fuel query query_string frame targets col_best_ i_max i st with
        | Run.done r => channel_loop_visit E fuel query query_string frame targets col_best_
            i_max c rounds r.2 r.1
        | Run.thrown _ _ => none
        | Run.no_fuel _ => none
    else none

/-! ## Lemmas and theorems -/

theorem FlatArray.push_back_concat (ls : List (List Nat)) (l : List Nat) (x : Nat) :
    (FlatArray.mk (ls ++ [l])).push_back x = FlatArray.mk (ls ++ [l ++ [x]]) := by
  simp [FlatArray.push_back]

theorem all_vs_all_inner_concat {FP : Type} [DecidableEq FP] (e : FP) (b : Ptr FP) (nb : Nat) (ls : List (List Nat))
    (l : List Nat) :
    all_vs_all_inner e b nb (FlatArray.mk (ls ++ [l]))
      = FlatArray.mk (ls ++ [l ++ (List.range nb).filter (fun j => decide (e = b j))]) := by
  induction nb with
  | zero => simp [all_vs_all_inner]
  | succ n ih =>
    unfold all_vs_all_inner at ih ⊢
    rw [List.range_succ, List.foldl_append, ih, List.filter_append]
    by_cases h : e = b n
    · simp [h, FlatArray.push_back_concat]
    · simp [h]

theorem all_vs_all_lists {FP : Type} [DecidableEq FP] (a : Ptr FP) (na : Nat) (b : Ptr FP) (nb : Nat) (out : FlatArray) :
    (all_vs_all a na b nb out).lists
      = out.lists ++ (List.range na).map
          (fun i => (List.range nb).filter (fun j => decide (a i = b j))) := by
  induction na with
  | zero => simp [all_vs_all]
  | succ n ih =>
    unfold all_vs_all at ih ⊢
    rw [List.range_succ, List.foldl_append, List.map_append]
    simp only [List.foldl_cons, List.foldl_nil, List.map_cons, List.map_nil]
    generalize List.foldl (fun o i => all_vs_all_inner (a i) b nb o.next) out (List.range n) = o
      at ih ⊢
    cases o with
    | mk ls =>
      simp only [FlatArray.next] at ih ⊢
      rw [all_vs_all_inner_concat]
      simp [ih]

theorem range_filter_sorted (n : Nat) (p : Nat → Bool) :
    ((List.range n).filter p).Sorted (fun x y => x < y) :=
  (List.pairwise_lt_range n).sublist (List.filter_sublist _)

/-- C1. `all_vs_all(a, na, b, nb, out)` appends exactly `na` lists to `out`; the `i`-th
appended list is the strictly ascending list of all `j < nb` with `a[i] == b[j]` (every such
index is present, no other index is, none occurs twice). With `nb = 0` every appended list is
empty and with `na = 0` nothing is appended. -/
theorem all_vs_all_spec {FP : Type} [DecidableEq FP] (a : Ptr FP) (na : Nat) (b : Ptr FP) (nb : Nat) (out : FlatArray) :
    ∃ ls : List (List Nat),
      (all_vs_all a na b nb out).lists = out.lists ++ ls ∧
      ls.length = na ∧
      (∀ i, i < na → ∃ l, ls[i]? = some l ∧
          l = (List.range nb).filter (fun j => decide (a i = b j)) ∧
          l.Sorted (fun x y => x < y) ∧ l.Nodup ∧
          (∀ j, j ∈ l ↔ (j < nb ∧ a i = b j))) ∧
      (nb = 0 → ∀ l ∈ ls, l = []) ∧
      (na = 0 → ls = []) := by
  refine ⟨(List.range na).map (fun i => (List.range nb).filter (fun j => decide (a i = b j))),
    all_vs_all_lists a na b nb out, by simp, ?_, ?_, ?_⟩
  · intro i hi
    refine ⟨(List.range nb).filter (fun j => decide (a i = b j)), ?_, rfl,
      range_filter_sorted nb _, (List.nodup_range nb).filter _, ?_⟩
    · simp [List.getElem?_map, List.getElem?_range hi]
    · intro j
      simp
  · intro h l hl
    subst h
    simp at hl
    obtain ⟨_, _, rfl⟩ := hl
    rfl
  · intro h
    subst h
    rfl

/-! ### The tile loops of stage 1 -/


theorem record_foldl {FP : Type} (hits : FlatArray) (q_begin s_begin : Ptr PackedLoc) (l : List Nat)
    (ws : WorkSet FP (List (Nat × PackedLoc))) :
    l.foldl (fun ws i => if hits.list i = [] then ws
        else record_candidates (q_begin i) s_begin (hits.list i) ws) ws
      = { ws with out := (ws.out ++ l.flatMap
          (fun i => (hits.list i).map (fun h => (q_begin i, s_begin h)))) } := by
  induction l generalizing ws with
  | nil => simp
  | cons i l ih =>
    rw [List.foldl_cons, ih]
    by_cases h : hits.list i = []
    · simp [h]
    · simp [h, record_candidates]

theorem search_tile_record {FP : Type} (hits : FlatArray) (qb sb : Nat) (q s : Ptr PackedLoc)
    (ws : WorkSet FP (List (Nat × PackedLoc))) :
    search_tile record_candidates hits qb sb q s ws
      = { ws with
          stats := ws.stats.inc1 hits.data_size
          out := (ws.out ++ (List.range (to_uint32 hits.size)).flatMap
            (fun i => (hits.list i).map (fun h => (q (qb + i), s (sb + h))))) } := by
  unfold search_tile
  simp only [record_foldl, Ptr.add]

theorem for_stride_eq {σ : Type} (size : σ → Nat) (stride : Nat) (body : Nat → σ → Option σ)
    (f : Nat → σ → σ) (n : Nat) (P : σ → Prop) (hP : ∀ st, P st → size st = n)
    (hbody : ∀ i st, P st → i < n → body i st = some (f i st) ∧ P (f i st)) :
    ∀ (k i fuel : Nat) (st : σ), k < fuel → P st → n ≤ i + k * stride →
      (∀ m, m < k → i + m * stride < n) → (∀ m, m < k → i + (m + 1) * stride < 2 ^ 64) →
      for_stride size stride body fuel i st
        = some (((List.range k).map (fun m => i + m * stride)).foldl (fun st i => f i st) st)
        ∧ P (((List.range k).map (fun m => i + m * stride)).foldl (fun st i => f i st) st) := by
  intro k
  induction k with
  | zero =>
    intro i fuel st hf hst hn _ _
    obtain ⟨fuel, rfl⟩ : ∃ g, fuel = g + 1 := ⟨fuel - 1, by omega⟩
    have hsz := hP st hst
    simp only [for_stride, hsz]
    have : ¬ i < n := by omega
    simp [this, hst]
  | succ k ih =>
    intro i fuel st hf hst hn hlt h64
    obtain ⟨fuel, rfl⟩ : ∃ g, fuel = g + 1 := ⟨fuel - 1, by omega⟩
    have hsz := hP st hst
    have hi : i < n := by simpa using hlt 0 (by omega)
    have hw : (i + stride) % 2 ^ 64 = i + stride := by
      have := h64 0 (by omega)
      simp only [Nat.zero_add, Nat.one_mul] at this
      exact Nat.mod_eq_of_lt this
    obtain ⟨hb, hPf⟩ := hbody i st hst hi
    have hmul : ∀ m : Nat, (m + 1) * stride = m * stride + stride := fun m => by ring
    have hrec := ih (i + stride) fuel (f i st) (by omega) hPf
      (by rw [hmul] at hn; omega)
      (fun m hm => by
        have := hlt (m + 1) (by omega)
        rw [hmul] at this
        omega)
      (fun m hm => by
        have := h64 (m + 1) (by omega)
        rw [hmul, hmul] at this
        rw [hmul]
        omega)
    have hl : (List.range (k + 1)).map (fun m => i + m * stride)
        = i :: (List.range k).map (fun m => i + stride + m * stride) := by
      rw [List.range_succ_eq_map]
      simp only [List.map_cons, List.map_map, Nat.zero_mul, Nat.add_zero]
      congr 1
      apply List.map_congr_left
      intro m _
      simp only [Function.comp, Nat.succ_eq_add_one, hmul]
      omega
    simp only [for_stride, hsz, hi, if_true, hb, Option.bind, hw, hl, List.foldl_cons]
    exact hrec


theorem load_fps_getD {FP : Type} [Inhabited FP] (fp : PackedLoc → FP) (p : Ptr PackedLoc) (n k : Nat) (h : k < n) :
    (load_fps fp p n).getD k default = fp (p k) := by
  simp [load_fps, List.getD_eq_getElem?_getD, List.getElem?_map, List.getElem?_range h]

theorem all_vs_all_size {FP : Type} [DecidableEq FP] (a : Ptr FP) (na : Nat) (b : Ptr FP) (nb : Nat) :
    (all_vs_all a na b nb ⟨[]⟩).size = na := by
  simp [FlatArray.size, all_vs_all_lists]

theorem all_vs_all_list {FP : Type} [DecidableEq FP] (a : Ptr FP) (na : Nat) (b : Ptr FP) (nb i : Nat) (hi : i < na) :
    (all_vs_all a na b nb ⟨[]⟩).list i
      = (List.range nb).filter (fun j => decide (a i = b j)) := by
  simp [FlatArray.list, all_vs_all_lists, List.getD_eq_getElem?_getD, List.getElem?_map,
    List.getElem?_range hi]

theorem stage1_tile_record {FP : Type} [DecidableEq FP] [Inhabited FP] (E : Env FP) (tile_size : Nat) (q s : Ptr PackedLoc) (nq ns i j : Nat)
    (ws : WorkSet FP (List (Nat × PackedLoc)))
    (hq : ws.vq = load_fps E.query_fp q nq) (hs : ws.vs = load_fps E.ref_fp s ns) :
    (stage1_tile record_candidates tile_size q s i j ws).vq = ws.vq ∧
    (stage1_tile record_candidates tile_size q s i j ws).vs = ws.vs ∧
    (stage1_tile record_candidates tile_size q s i j ws).out
      = ws.out ++ tile_candidates E q s i j (to_uint32 (min tile_size (nq - i)))
          (to_uint32 (min tile_size (ns - j))) (to_uint32 i) (to_uint32 j) := by
  have hlq : ws.vq.length = nq := by simp [hq, load_fps]
  have hls : ws.vs.length = ns := by simp [hs, load_fps]
  have hna : to_uint32 (min tile_size (nq - i)) ≤ nq - i :=
    le_trans (Nat.mod_le _ _) (Nat.min_le_right _ _)
  have hnb : to_uint32 (min tile_size (ns - j)) ≤ ns - j :=
    le_trans (Nat.mod_le _ _) (Nat.min_le_right _ _)
  have hidem : ∀ x, to_uint32 (to_uint32 x) = to_uint32 x := fun x => by simp [to_uint32]
  simp only [stage1_tile, search_tile_record, FlatArray.clear, hlq, hls, all_vs_all_size,
    tile_candidates, true_and, hidem]
  congr 1
  apply List.flatMap_congr
  intro i' hi'
  rw [List.mem_range] at hi'
  rw [all_vs_all_list _ _ _ _ _ hi']
  congr 1
  apply List.filter_congr
  intro j' hj'
  rw [List.mem_range] at hj'
  have hi2 : i' < to_uint32 (min tile_size (nq - i)) := hi'
  have hj2 : j' < to_uint32 (min tile_size (ns - j)) := hj'
  simp only [Ptr.add, Container.data, hq, hs]
  rw [load_fps_getD _ _ _ _ (by omega), load_fps_getD _ _ _ _ (by omega)]


theorem num_tiles_props (t n : Nat) (ht : 0 < t) :
    n ≤ (n + t - 1) / t * t ∧ ∀ m, m < (n + t - 1) / t → m * t < n := by
  have h1 := Nat.div_add_mod (n + t - 1) t
  have h2 := Nat.mod_lt (n + t - 1) ht
  rw [Nat.mul_comm] at h1
  refine ⟨by omega, fun m hm => ?_⟩
  have h3 : (m + 1) * t ≤ (n + t - 1) / t * t := Nat.mul_le_mul_right t hm
  have h4 : (m + 1) * t = m * t + t := by ring
  omega

theorem stage1_tiles_foldl {FP : Type} [DecidableEq FP] [Inhabited FP] (E : Env FP) (tile_size : Nat) (q s : Ptr PackedLoc) (nq ns i : Nat)
    (l : List Nat) (ws : WorkSet FP (List (Nat × PackedLoc)))
    (hq : ws.vq = load_fps E.query_fp q nq) (hs : ws.vs = load_fps E.ref_fp s ns) :
    (l.foldl (fun ws j => stage1_tile record_candidates tile_size q s i j ws) ws).vq
        = load_fps E.query_fp q nq ∧
    (l.foldl (fun ws j => stage1_tile record_candidates tile_size q s i j ws) ws).vs
        = load_fps E.ref_fp s ns ∧
    (l.foldl (fun ws j => stage1_tile record_candidates tile_size q s i j ws) ws).out
      = ws.out ++ l.flatMap (fun j => tile_candidates E q s i j
          (to_uint32 (min tile_size (nq - i))) (to_uint32 (min tile_size (ns - j)))
          (to_uint32 i) (to_uint32 j)) := by
  induction l generalizing ws with
  | nil => simp [hq, hs]
  | cons j l ih =>
    obtain ⟨h1, h2, h3⟩ := stage1_tile_record E tile_size q s nq ns i j ws hq hs
    obtain ⟨g1, g2, g3⟩ := ih (stage1_tile record_candidates tile_size q s i j ws)
      (h1.trans hq) (h2.trans hs)
    refine ⟨g1, g2, ?_⟩
    rw [List.foldl_cons, g3, h3, List.flatMap_cons, List.append_assoc]

theorem stage1_rows_foldl {FP : Type} [DecidableEq FP] [Inhabited FP] (E : Env FP) (tile_size : Nat) (q s : Ptr PackedLoc) (nq ns : Nat)
    (lj l : List Nat) (ws : WorkSet FP (List (Nat × PackedLoc)))
    (hq : ws.vq = load_fps E.query_fp q nq) (hs : ws.vs = load_fps E.ref_fp s ns) :
    (l.foldl (fun ws i =>
        lj.foldl (fun ws j => stage1_tile record_candidates tile_size q s i j ws) ws) ws).out
      = ws.out ++ l.flatMap (fun i => lj.flatMap (fun j => tile_candidates E q s i j
          (to_uint32 (min tile_size (nq - i))) (to_uint32 (min tile_size (ns - j)))
          (to_uint32 i) (to_uint32 j))) := by
  induction l generalizing ws with
  | nil => simp
  | cons i l ih =>
    obtain ⟨h1, h2, h3⟩ := stage1_tiles_foldl E tile_size q s nq ns i lj ws hq hs
    rw [List.foldl_cons, ih _ h1 h2, h3, List.flatMap_cons, List.append_assoc]

/-- The tile loops of `stage1` with the recording callee, for every input on which the loop
counters do not wrap: the run ends (with enough fuel) and has recorded `tiled_candidates`. -/
theorem stage1_record_run {FP : Type} [DecidableEq FP] [Inhabited FP] (E : Env FP) (fuel : Nat) (q : Ptr PackedLoc) (nq : Nat)
    (s : Ptr PackedLoc) (ns : Nat) (ws : WorkSet FP (List (Nat × PackedLoc)))
    (ht : 0 < E.config.tile_size)
    (hwq : (nq + E.config.tile_size - 1) / E.config.tile_size * E.config.tile_size < 2 ^ 64)
    (hws : (ns + E.config.tile_size - 1) / E.config.tile_size * E.config.tile_size < 2 ^ 64)
    (hfq : (nq + E.config.tile_size - 1) / E.config.tile_size < fuel)
    (hfs : (ns + E.config.tile_size - 1) / E.config.tile_size < fuel) :
    ∃ ws1, stage1 E record_candidates fuel q nq s ns ws = some ws1 ∧
      ws1.out = ws.out ++ tiled_candidates E q nq s ns := by
  obtain ⟨hq1, hq2⟩ := num_tiles_props E.config.tile_size nq ht
  obtain ⟨hs1, hs2⟩ := num_tiles_props E.config.tile_size ns ht
  have hmono : ∀ (k m : Nat), m < k → (m + 1) * E.config.tile_size ≤ k * E.config.tile_size :=
    fun k m hm => Nat.mul_le_mul_right _ hm
  let P : WorkSet FP (List (Nat × PackedLoc)) → Prop :=
    fun w => w.vq = load_fps E.query_fp q nq ∧ w.vs = load_fps E.ref_fp s ns
  have hlen : ∀ (fp : PackedLoc → FP) (p : Ptr PackedLoc) (n : Nat),
      (load_fps fp p n).length = n := fun fp p n => by simp [load_fps]
  -- the loop over the subject tiles, for a fixed query tile
  have hinner : ∀ (i : Nat) (w : WorkSet FP (List (Nat × PackedLoc))), P w →
      for_stride (fun ws => ws.vs.length) E.config.tile_size
          (fun j ws => some (stage1_tile record_candidates E.config.tile_size q s i j ws)) fuel 0 w
        = some ((tile_starts E.config.tile_size ns).foldl
            (fun ws j => stage1_tile record_candidates E.config.tile_size q s i j ws) w) ∧
      P ((tile_starts E.config.tile_size ns).foldl
            (fun ws j => stage1_tile record_candidates E.config.tile_size q s i j ws) w) := by
    intro i w hw
    have := for_stride_eq (fun ws : WorkSet FP (List (Nat × PackedLoc)) => ws.vs.length)
      E.config.tile_size
      (fun j ws => some (stage1_tile record_candidates E.config.tile_size q s i j ws))
      (fun j ws => stage1_tile record_candidates E.config.tile_size q s i j ws) ns P
      (fun st hst => by show st.vs.length = ns; rw [hst.2]; exact hlen _ _ _)
      (fun j st hst _ => by
        obtain ⟨h1, h2, _⟩ := stage1_tile_record E E.config.tile_size q s nq ns i j st hst.1 hst.2
        exact ⟨rfl, h1.trans hst.1, h2.trans hst.2⟩)
      ((ns + E.config.tile_size - 1) / E.config.tile_size) 0 fuel w hfs hw
      (by simpa using hs1) (fun m hm => by simpa using hs2 m hm)
      (fun m hm => by have := hmono _ m hm; omega)
    simpa [tile_starts] using this
  have houter := for_stride_eq (fun ws : WorkSet FP (List (Nat × PackedLoc)) => ws.vq.length)
      E.config.tile_size
      (fun i ws => for_stride (fun ws => ws.vs.length) E.config.tile_size
        (fun j ws => some (stage1_tile record_candidates E.config.tile_size q s i j ws)) fuel 0 ws)
      (fun i ws => (tile_starts E.config.tile_size ns).foldl
            (fun ws j => stage1_tile record_candidates E.config.tile_size q s i j ws) ws) nq P
      (fun st hst => by show st.vq.length = nq; rw [hst.1]; exact hlen _ _ _)
      (fun i st hst _ => hinner i st hst)
      ((nq + E.config.tile_size - 1) / E.config.tile_size) 0 fuel
      { ws with
        stats := ws.stats.inc_seed_hits ((nq * ns) % 2 ^ 64)
        vq := load_fps E.query_fp q nq
        vs := load_fps E.ref_fp s ns }
      hfq ⟨rfl, rfl⟩
      (by simpa using hq1) (fun m hm => by simpa using hq2 m hm)
      (fun m hm => by have := hmono _ m hm; omega)
  refine ⟨(tile_starts E.config.tile_size nq).foldl (fun ws i =>
      (tile_starts E.config.tile_size ns).foldl
        (fun ws j => stage1_tile record_candidates E.config.tile_size q s i j ws) ws)
      { ws with
        stats := ws.stats.inc_seed_hits ((nq * ns) % 2 ^ 64)
        vq := load_fps E.query_fp q nq
        vs := load_fps E.ref_fp s ns }, ?_, ?_⟩
  · simp only [stage1]
    simpa [tile_starts] using houter.1
  · have := stage1_rows_foldl E E.config.tile_size q s nq ns
      (tile_starts E.config.tile_size ns) (tile_starts E.config.tile_size nq)
      { ws with
        stats := ws.stats.inc_seed_hits ((nq * ns) % 2 ^ 64)
        vq := load_fps E.query_fp q nq
        vs := load_fps E.ref_fp s ns } rfl rfl
    simpa [tile_starts, tiled_candidates] using this



theorem range_tiles (t : Nat) : ∀ (k n : Nat), n ≤ k * t →
    List.range n = (List.range k).flatMap
      (fun m => (List.range (min t (n - m * t))).map (fun i => m * t + i)) := by
  intro k
  induction k with
  | zero =>
    intro n hn
    have : n = 0 := by omega
    subst this
    rfl
  | succ k ih =>
    intro n hn
    rw [List.range_succ, List.flatMap_append, List.flatMap_singleton]
    have hmul : (k + 1) * t = k * t + t := by ring
    by_cases h : n ≤ k * t
    · rw [← ih n h]
      have : min t (n - k * t) = 0 := by omega
      simp [this]
    · have e1 : (List.range k).flatMap
          (fun m => (List.range (min t (n - m * t))).map (fun i => m * t + i))
          = (List.range k).flatMap
          (fun m => (List.range (min t (k * t - m * t))).map (fun i => m * t + i)) := by
        apply List.flatMap_congr
        intro m hm
        rw [List.mem_range] at hm
        have h3 : (m + 1) * t ≤ k * t := Nat.mul_le_mul_right t hm
        have h4 : (m + 1) * t = m * t + t := by ring
        have : min t (n - m * t) = min t (k * t - m * t) := by omega
        rw [this]
      rw [e1, ← ih (k * t) (le_refl _)]
      have : min t (n - k * t) = n - k * t := by omega
      rw [this]
      have hn2 : n = k * t + (n - k * t) := by omega
      conv_lhs => rw [hn2]
      rw [List.range_add]

theorem flatMap_tiles {γ : Type} (t n : Nat) (ht : 0 < t) (h : Nat → List γ) :
    (tile_starts t n).flatMap (fun i0 =>
        (List.range (min t (n - i0))).flatMap (fun i => h (i0 + i)))
      = (List.range n).flatMap h := by
  have hk := (num_tiles_props t n ht).1
  conv_rhs => rw [range_tiles t _ n hk]
  rw [List.flatMap_assoc, tile_starts, List.flatMap_map]
  apply List.flatMap_congr
  intro m _
  rw [List.flatMap_map]

theorem flatMap_swap_perm {α β γ : Type} (l1 : List α) (l2 : List β) (f : α → β → List γ) :
    (l1.flatMap (fun a => l2.flatMap (fun b => f a b))).Perm
      (l2.flatMap (fun b => l1.flatMap (fun a => f a b))) := by
  induction l1 with
  | nil => simp
  | cons a l1 ih =>
    simp only [List.flatMap_cons]
    exact (List.Perm.append_left _ ih).trans (List.flatMap_append_perm l2 _ _)

theorem filter_map_eq_flatMap {α β : Type} (p : α → Bool) (f : α → β) (l : List α) :
    (l.filter p).map f = l.flatMap (fun a => if p a then [f a] else []) := by
  induction l with
  | nil => rfl
  | cons a l ih =>
    by_cases h : p a <;> simp [List.filter_cons, h, ih]


theorem untiled_candidates_eq {FP : Type} [DecidableEq FP] (E : Env FP) (q : Ptr PackedLoc)
    (nq : Nat) (s : Ptr PackedLoc) (ns : Nat) :
    untiled_candidates E q nq s ns
      = (List.range nq).flatMap (fun i => (List.range ns).flatMap (fun j =>
          if E.query_fp (q i) = E.ref_fp (s j) then [(q i, s j)] else [])) := by
  unfold untiled_candidates
  apply List.flatMap_congr
  intro i hi
  rw [List.mem_range] at hi
  rw [all_vs_all_list _ _ _ _ _ hi, filter_map_eq_flatMap]
  simp

theorem tile_candidates_eq {FP : Type} [DecidableEq FP] (E : Env FP) (q s : Ptr PackedLoc)
    (i0 j0 na nb : Nat) :
    tile_candidates E q s i0 j0 na nb i0 j0
      = (List.range na).flatMap (fun i => (List.range nb).flatMap (fun j =>
          if E.query_fp (q (i0 + i)) = E.ref_fp (s (j0 + j)) then [(q (i0 + i), s (j0 + j))]
          else [])) := by
  unfold tile_candidates
  apply List.flatMap_congr
  intro i _
  rw [filter_map_eq_flatMap]
  simp

/-- Without the conversions, the candidates of all tile passes are a rearrangement of the
candidates of one untiled comparison. -/
theorem tiles_perm_untiled {FP : Type} [DecidableEq FP] (E : Env FP) (q : Ptr PackedLoc)
    (nq : Nat) (s : Ptr PackedLoc) (ns t : Nat) (ht : 0 < t) :
    ((tile_starts t nq).flatMap (fun i0 => (tile_starts t ns).flatMap (fun j0 =>
        tile_candidates E q s i0 j0 (min t (nq - i0)) (min t (ns - j0)) i0 j0))).Perm
      (untiled_candidates E q nq s ns) := by
  rw [untiled_candidates_eq]
  rw [← flatMap_tiles t nq ht (fun i => (List.range ns).flatMap (fun j =>
          if E.query_fp (q i) = E.ref_fp (s j) then [(q i, s j)] else []))]
  apply List.Perm.flatMap_left
  intro i0 _
  simp only [tile_candidates_eq]
  refine (flatMap_swap_perm _ _ _).trans ?_
  apply List.Perm.flatMap_left
  intro i _
  rw [flatMap_tiles t ns ht (fun j =>
          if E.query_fp (q (i0 + i)) = E.ref_fp (s j) then [(q (i0 + i), s j)] else [])]

theorem tile_starts_mem (t n i0 : Nat) (ht : 0 < t) (h : i0 ∈ tile_starts t n) : i0 < n := by
  simp only [tile_starts, List.mem_map, List.mem_range] at h
  obtain ⟨m, hm, rfl⟩ := h
  exact (num_tiles_props t n ht).2 m hm

theorem tile_wrap_bound (t n : Nat) (ht : 0 < t) (ht64 : t < 2 ^ 64)
    (h : ∀ i0 ∈ tile_starts t n, i0 < 2 ^ 32 ∧ min t (n - i0) < 2 ^ 32) :
    (n + t - 1) / t * t < 2 ^ 64 ∧ (n < 2 ^ 64) := by
  obtain ⟨h1, h2⟩ := num_tiles_props t n ht
  rcases Nat.eq_zero_or_pos ((n + t - 1) / t) with h0 | hpos
  · rw [h0] at h1 ⊢
    omega
  · obtain ⟨k, hk⟩ : ∃ k, (n + t - 1) / t = k + 1 := ⟨(n + t - 1) / t - 1, by omega⟩
    have hmem : k * t ∈ tile_starts t n := by
      simp only [tile_starts, List.mem_map, List.mem_range]
      exact ⟨k, by omega, rfl⟩
    obtain ⟨hlt, hmin⟩ := h _ hmem
    have hkn := h2 k (by omega)
    rw [hk] at h1 ⊢
    have hmul : (k + 1) * t = k * t + t := by ring
    rw [hmul] at h1 ⊢
    rcases Nat.eq_zero_or_pos k with hk0 | hkpos
    · subst hk0
      simp only [Nat.zero_mul, Nat.zero_add] at h1 hmin ⊢
      omega
    · have : t ≤ k * t := Nat.le_mul_of_pos_left t hkpos
      omega


theorem mem_untiled_candidates {FP : Type} [DecidableEq FP] (E : Env FP) (q : Ptr PackedLoc)
    (nq : Nat) (s : Ptr PackedLoc) (ns : Nat) (p : Nat × PackedLoc) :
    p ∈ untiled_candidates E q nq s ns ↔
      ∃ i, i < nq ∧ ∃ j, j < ns ∧ E.query_fp (q i) = E.ref_fp (s j) ∧ p = (q i, s j) := by
  rw [untiled_candidates_eq]
  simp only [List.mem_flatMap, List.mem_range]
  constructor
  · rintro ⟨i, hi, j, hj, h⟩
    by_cases hfp : E.query_fp (q i) = E.ref_fp (s j)
    · rw [if_pos hfp] at h
      exact ⟨i, hi, j, hj, hfp, by simpa using h⟩
    · rw [if_neg hfp] at h
      simp at h
  · rintro ⟨i, hi, j, hj, hfp, rfl⟩
    exact ⟨i, hi, j, hj, by simp [hfp]⟩

theorem mem_tiled_candidates {FP : Type} [DecidableEq FP] (E : Env FP) (q : Ptr PackedLoc)
    (nq : Nat) (s : Ptr PackedLoc) (ns : Nat) (p : Nat × PackedLoc) :
    p ∈ tiled_candidates E q nq s ns ↔
      ∃ m, m < (nq + E.config.tile_size - 1) / E.config.tile_size ∧
      ∃ k, k < (ns + E.config.tile_size - 1) / E.config.tile_size ∧
      ∃ i, i < to_uint32 (min E.config.tile_size (nq - m * E.config.tile_size)) ∧
      ∃ j, j < to_uint32 (min E.config.tile_size (ns - k * E.config.tile_size)) ∧
        E.query_fp (q (m * E.config.tile_size + i)) = E.ref_fp (s (k * E.config.tile_size + j)) ∧
        p = (q (to_uint32 (m * E.config.tile_size) + i),
             s (to_uint32 (k * E.config.tile_size) + j)) := by
  simp only [tiled_candidates, List.mem_flatMap, tile_candidates, List.mem_map, List.mem_filter,
    List.mem_range, tile_starts, decide_eq_true_eq]
  constructor
  · rintro ⟨_, ⟨m, hm, rfl⟩, _, ⟨k, hk, rfl⟩, i, hi, j, ⟨hj, hfp⟩, rfl⟩
    exact ⟨m, hm, k, hk, i, hi, j, hj, hfp, rfl⟩
  · rintro ⟨m, hm, k, hk, i, hi, j, hj, hfp, rfl⟩
    exact ⟨_, ⟨m, hm, rfl⟩, _, ⟨k, hk, rfl⟩, i, hi, j, ⟨hj, hfp⟩, rfl⟩

/-- C2 (amended). For every `tile_size >= 1` and all `nq`, `ns` such that every tile start and
every tile length fits the `uint32_t` it is converted to, the tile loops of `stage1` end (with
fuel above `nq` and `ns`) and hand on, tile after tile, each local hit `(i', j')` of the tile at
`(i0, j0)` as the locations `(q[i0 + i'], s[j0 + j'])`; the candidates handed on over all tiles
are a rearrangement (the same multiset) of the candidates `(q[i], s[j])` of one untiled
`all_vs_all` over the whole arrays. As this holds for every fingerprint function, each pair
`(i, j)` is compared in exactly one tile pass. -/
theorem stage1_tiling {FP : Type} [DecidableEq FP] [Inhabited FP] (E : Env FP) (fuel : Nat)
    (q : Ptr PackedLoc) (nq : Nat) (s : Ptr PackedLoc) (ns : Nat)
    (ws : WorkSet FP (List (Nat × PackedLoc)))
    (ht : 1 ≤ E.config.tile_size) (ht64 : E.config.tile_size < 2 ^ 64)
    (hq : ∀ i0 ∈ tile_starts E.config.tile_size nq,
      i0 < 2 ^ 32 ∧ min E.config.tile_size (nq - i0) < 2 ^ 32)
    (hs : ∀ j0 ∈ tile_starts E.config.tile_size ns,
      j0 < 2 ^ 32 ∧ min E.config.tile_size (ns - j0) < 2 ^ 32)
    (hfq : nq < fuel) (hfs : ns < fuel) :
    ∃ ws1, stage1 E record_candidates fuel q nq s ns ws = some ws1 ∧
      ws1.out = ws.out ++ (tile_starts E.config.tile_size nq).flatMap (fun i0 =>
        (tile_starts E.config.tile_size ns).flatMap (fun j0 =>
          tile_candidates E q s i0 j0 (min E.config.tile_size (nq - i0))
            (min E.config.tile_size (ns - j0)) i0 j0)) ∧
      ((tile_starts E.config.tile_size nq).flatMap (fun i0 =>
        (tile_starts E.config.tile_size ns).flatMap (fun j0 =>
          tile_candidates E q s i0 j0 (min E.config.tile_size (nq - i0))
            (min E.config.tile_size (ns - j0)) i0 j0))).Perm
        (untiled_candidates E q nq s ns) := by
  have ht0 : 0 < E.config.tile_size := ht
  obtain ⟨hwq, _⟩ := tile_wrap_bound _ nq ht0 ht64 hq
  obtain ⟨hws, _⟩ := tile_wrap_bound _ ns ht0 ht64 hs
  have hkq : (nq + E.config.tile_size - 1) / E.config.tile_size < fuel := by
    have := Nat.div_le_self (nq + E.config.tile_size - 1) E.config.tile_size
    have h2 := (Nat.div_lt_iff_lt_mul ht0 (x := nq + E.config.tile_size - 1) (y := nq + 1)).2
      (by
        have : nq + 1 ≤ (nq + 1) * E.config.tile_size := Nat.le_mul_of_pos_right _ ht0
        have e : (nq + 1) * E.config.tile_size = nq * E.config.tile_size + E.config.tile_size := by
          ring
        have : nq ≤ nq * E.config.tile_size := Nat.le_mul_of_pos_right _ ht0
        omega)
    omega
  have hks : (ns + E.config.tile_size - 1) / E.config.tile_size < fuel := by
    have h2 := (Nat.div_lt_iff_lt_mul ht0 (x := ns + E.config.tile_size - 1) (y := ns + 1)).2
      (by
        have e : (ns + 1) * E.config.tile_size = ns * E.config.tile_size + E.config.tile_size := by
          ring
        have : ns ≤ ns * E.config.tile_size := Nat.le_mul_of_pos_right _ ht0
        omega)
    omega
  obtain ⟨ws1, hrun, hout⟩ := stage1_record_run E fuel q nq s ns ws ht0 hwq hws hkq hks
  refine ⟨ws1, hrun, ?_, tiles_perm_untiled E q nq s ns _ ht0⟩
  rw [hout, tiled_candidates]
  congr 1
  apply List.flatMap_congr
  intro i0 hi0
  apply List.flatMap_congr
  intro j0 hj0
  obtain ⟨a1, a2⟩ := hq i0 hi0
  obtain ⟨b1, b2⟩ := hs j0 hj0
  simp only [to_uint32, Nat.mod_eq_of_lt a1, Nat.mod_eq_of_lt a2, Nat.mod_eq_of_lt b1,
    Nat.mod_eq_of_lt b2]

/-- C2, counterexample. With the tile size 1024 and `2 ^ 32 + 1` query locations, the tile that
starts at index `2 ^ 32` is handed to `search_tile` with `query_begin = (uint32_t)2 ^ 32 = 0`:
its hit is handed on for `q[0]`, not for `q[2 ^ 32]`, and the candidates of the tiled run are
not a rearrangement of the untiled ones. -/
theorem stage1_tiling_wide :
    ∃ ws1, stage1 wide_env record_candidates (2 ^ 32 + 2) (fun i => i + 256) (2 ^ 32 + 1)
        (fun j => j + 256) 1 empty_record_set = some ws1 ∧
      (256, 256) ∈ ws1.out ∧
      (256, 256) ∉ untiled_candidates wide_env (fun i => i + 256) (2 ^ 32 + 1) (fun j => j + 256) 1 ∧
      ¬ ws1.out.Perm
        (untiled_candidates wide_env (fun i => i + 256) (2 ^ 32 + 1) (fun j => j + 256) 1) := by
  obtain ⟨ws1, hrun, hout⟩ := stage1_record_run wide_env (2 ^ 32 + 2) (fun i => i + 256)
    (2 ^ 32 + 1) (fun j => j + 256) 1 empty_record_set (by decide) (by decide) (by decide)
    (by decide) (by decide)
  have hin : (256, 256) ∈ ws1.out := by
    rw [hout]
    apply List.mem_append_right
    rw [mem_tiled_candidates]
    exact ⟨2 ^ 22, by decide, 0, by decide, 0, by decide, 0, by decide, by decide, by decide⟩
  have hnot : (256, 256) ∉
      untiled_candidates wide_env (fun i => i + 256) (2 ^ 32 + 1) (fun j => j + 256) 1 := by
    rw [mem_untiled_candidates]
    rintro ⟨i, _, j, _, hfp, h⟩
    simp only [Prod.mk.injEq] at h
    have hi : i = 0 := by omega
    subst hi
    have hr : wide_env.ref_fp (j + 256) = 1 := rfl
    rw [hr] at hfp
    exact absurd hfp (by decide)
  exact ⟨ws1, hrun, hin, hnot, fun hp => hnot (hp.subset hin)⟩

theorem batch_loop_eq_foldl {FP : Type} (E : Env FP) (L : QueryLocals) (s : Ptr PackedLoc) :
    ∀ (fuel : Nat) (rem : List Nat) (scores : Ptr Int) (st : WorkSet FP (List Pushed) × Nat),
      batch_loop E L s fuel rem scores st
        = (scored_lanes E L s fuel rem scores).foldl
            (fun st c => hit_body E L c.1 c.2.1 c.2.2 st) st := by
  intro fuel
  induction fuel with
  | zero => intro rem scores st; rfl
  | succ fuel ih =>
    intro rem scores st
    simp only [batch_loop, scored_lanes]
    by_cases h : 0 < rem.length
    · simp only [h, if_true, List.foldl_append, List.foldl_map]
      rw [ih]
    · simp only [h, if_false, List.foldl_nil]

theorem hit_body_foldl {FP : Type} (E : Env FP) (L : QueryLocals)
    (cs : List (PackedLoc × Int × Int)) :
    ∀ (ws : WorkSet FP (List Pushed)) (hc : Nat),
      cs.foldl (fun st c => hit_body E L c.1 c.2.1 c.2.2 st) (ws, hc)
        = ({ ws with
              stats :=
                { ws.stats with
                  TENTATIVE_MATCHES2 := ws.stats.TENTATIVE_MATCHES2
                    + (cs.filter (fun c => decide (c.2.2 > L.score_cutoff))).length
                  TENTATIVE_MATCHES3 := ws.stats.TENTATIVE_MATCHES3
                    + (cs.filter (lane_passes E L ws.context)).length }
              output_buf :=
                (if cs.filter (lane_passes E L ws.context) = [] then ws.output_buf
                 else (if hc = 0 then E.varint L.query_id ++ E.varint L.seed_offset
                       else ws.output_buf)
                   ++ (cs.filter (lane_passes E L ws.context)).flatMap
                      (fun c => hit_record L.long_subject_offsets c.1 c.2.2)) },
            hc + (cs.filter (lane_passes E L ws.context)).length) := by
  induction cs with
  | nil => intro ws hc; simp
  | cons c cs ih =>
    intro ws hc
    rw [List.foldl_cons]
    by_cases h1 : c.2.2 > L.score_cutoff
    · by_cases h2 : E.left_most_filter L.query_clipped L.interval_overhang
          (c.2.1 + L.interval_overhang) (L.window_left - L.interval_overhang)
          (E.shape_length L.sid) ws.context (decide (L.sid = 0)) L.sid L.score_cutoff = true
      · have hp : lane_passes E L ws.context c = true := by simp [lane_passes, h1, h2]
        have hstep : hit_body E L c.1 c.2.1 c.2.2 (ws, hc)
            = ({ ws with
                  stats := ws.stats.inc2.inc3
                  output_buf := ((if hc = 0 then E.varint L.query_id ++ E.varint L.seed_offset
                      else ws.output_buf) ++ position_bytes L.long_subject_offsets c.1
                      ++ le_bytes 2 (to_uint16 c.2.2)) }, hc + 1) := by
          simp only [hit_body, h1, h2, if_true]
        rw [hstep, ih]
        simp only [List.filter_cons, hp, h1, decide_True, if_true, List.length_cons,
          List.flatMap_cons, hit_record, Statistics.inc2, Statistics.inc3]
        by_cases hz : hc = 0
        · subst hz
          by_cases hnil : cs.filter (lane_passes E L ws.context) = []
          · simp [hnil]
            omega
          · simp [hnil]
            omega
        · by_cases hnil : cs.filter (lane_passes E L ws.context) = []
          · simp [hnil, hz]
            omega
          · simp [hnil, hz]
            omega
      · have hp : lane_passes E L ws.context c = false := by simp [lane_passes, h1, h2]
        have hstep : hit_body E L c.1 c.2.1 c.2.2 (ws, hc)
            = ({ ws with stats := ws.stats.inc2 }, hc) := by
          simp [hit_body, h1, h2]
        rw [hstep, ih]
        simp only [List.filter_cons, hp, h1, decide_True, if_true, List.length_cons,
          Statistics.inc2]
        simp
        omega
    · have hp : lane_passes E L ws.context c = false := by simp [lane_passes, h1]
      have hstep : hit_body E L c.1 c.2.1 c.2.2 (ws, hc) = (ws, hc) := by
        simp only [hit_body, h1, if_false]
      rw [hstep, ih]
      simp only [List.filter_cons, hp, h1, decide_False]
      simp

theorem scored_lanes_nil {FP : Type} (E : Env FP) (L : QueryLocals) (s : Ptr PackedLoc)
    (fuel : Nat) (scores : Ptr Int) : scored_lanes E L s fuel [] scores = [] := by
  cases fuel <;> simp [scored_lanes]

theorem getD_drop_nat (l : List Nat) (a j : Nat) : (l.drop a).getD j 0 = l.getD (a + j) 0 := by
  simp [List.getD_eq_getElem?_getD, List.getElem?_drop]

theorem scored_lanes_index {FP : Type} (E : Env FP) (L : QueryLocals) (s : Ptr PackedLoc)
    (hits : List Nat) :
    ∀ (fuel b : Nat), hits.length - b * E.CHANNELS ≤ fuel →
      scored_lanes E L s fuel (hits.drop (b * E.CHANNELS)) (scores_before E L s hits b)
        = (List.range (hits.length - b * E.CHANNELS)).map (fun j =>
            (s (hits.getD (b * E.CHANNELS + j) 0),
             candidate_subject E L s hits (b * E.CHANNELS + j),
             candidate_score E L s hits (b * E.CHANNELS + j))) := by
  have hN := E.CHANNELS_pos
  intro fuel
  induction fuel with
  | zero =>
    intro b hb
    have : hits.length - b * E.CHANNELS = 0 := by omega
    simp [scored_lanes, this]
  | succ fuel ih =>
    intro b hb
    have hlen : (hits.drop (b * E.CHANNELS)).length = hits.length - b * E.CHANNELS := by simp
    by_cases h0 : 0 < hits.length - b * E.CHANNELS
    · have hmul : (b + 1) * E.CHANNELS = b * E.CHANNELS + E.CHANNELS := by ring
      have hlane : ∀ j, j < E.CHANNELS →
          (b * E.CHANNELS + j) / E.CHANNELS = b ∧ (b * E.CHANNELS + j) % E.CHANNELS = j := by
        intro j hj
        constructor
        · rw [Nat.mul_comm, Nat.mul_add_div hN, Nat.div_eq_of_lt hj, Nat.add_zero]
        · rw [Nat.mul_comm, Nat.mul_add_mod, Nat.mod_eq_of_lt hj]
      simp only [scored_lanes, hlen, h0, if_true]
      have hsplit : hits.length - b * E.CHANNELS
          = min E.CHANNELS (hits.length - b * E.CHANNELS)
            + (hits.length - b * E.CHANNELS - min E.CHANNELS (hits.length - b * E.CHANNELS)) := by
        omega
      conv_rhs => rw [hsplit, List.range_add, List.map_append]
      congr 1
      · apply List.map_congr_left
        intro j hj
        rw [List.mem_range] at hj
        have hjN : j < E.CHANNELS := by omega
        obtain ⟨e1, e2⟩ := hlane j hjN
        have e3 : ((List.range (min E.CHANNELS (hits.length - b * E.CHANNELS))).map
            (fun j => E.ref_data (s ((hits.drop (b * E.CHANNELS)).getD j 0)) - L.window_left)).getD j 0
            = E.ref_data (s ((hits.drop (b * E.CHANNELS)).getD j 0)) - L.window_left := by
          simp [List.getD_eq_getElem?_getD, List.getElem?_map, List.getElem?_range hj]
        rw [e3]
        simp only [getD_drop_nat, candidate_subject, candidate_score, e1, e2, scores_before, hlen]
      · by_cases hfull : E.CHANNELS ≤ hits.length - b * E.CHANNELS
        · have hmin : min E.CHANNELS (hits.length - b * E.CHANNELS) = E.CHANNELS := by omega
          have hdrop : (hits.drop (b * E.CHANNELS)).drop E.CHANNELS
              = hits.drop ((b + 1) * E.CHANNELS) := by
            rw [List.drop_drop, hmul]
          have hsc : E.window_ungapped_best L.query_clipped.data
              ((List.range E.CHANNELS).map
                (fun j => E.ref_data (s ((hits.drop (b * E.CHANNELS)).getD j 0)) - L.window_left))
              E.CHANNELS L.window_clipped (scores_before E L s hits b)
              = scores_before E L s hits (b + 1) := by
            simp only [scores_before, hlen, hmin]
          rw [hmin, hdrop, hsc, ih (b + 1) (by omega)]
          rw [List.map_map]
          have hl2 : hits.length - (b + 1) * E.CHANNELS
              = hits.length - b * E.CHANNELS - E.CHANNELS := by omega
          rw [hl2]
          apply List.map_congr_left
          intro j _
          simp only [Function.comp, hmul, Nat.add_assoc]
        · have hmin : min E.CHANNELS (hits.length - b * E.CHANNELS)
              = hits.length - b * E.CHANNELS := by omega
          have hnil : (hits.drop (b * E.CHANNELS)).drop (hits.length - b * E.CHANNELS) = [] := by
            apply List.drop_of_length_le
            rw [hlen]
          rw [hmin, hnil, scored_lanes_nil]
          simp
    · have hz : hits.length - b * E.CHANNELS = 0 := by omega
      simp [scored_lanes, hlen, hz]

theorem search_query_offset_eq {FP : Type} (E : Env FP) (q : Nat) (s : Ptr PackedLoc)
    (hits : List Nat) (ws : WorkSet FP (List Pushed)) :
    search_query_offset E q s hits ws = search_query_offset_spec E q s hits ws := by
  unfold search_query_offset_spec
  simp only []
  generalize hL : query_locals E q ws.context ws.shape_id = L
  have hlanes := scored_lanes_index E L s hits hits.length 0 (by omega)
  simp only [Nat.zero_mul, List.drop_zero, Nat.sub_zero, Nat.zero_add] at hlanes
  have hsb : scores_before E L s hits 0 = fun _ => INT_MAX := rfl
  rw [hsb] at hlanes
  have hfilter : ((List.range hits.length).map (fun j =>
        (s (hits.getD j 0), candidate_subject E L s hits j, candidate_score E L s hits j))).filter
        (lane_passes E L ws.context)
      = (survivors E L ws.context s hits).map (fun j =>
        (s (hits.getD j 0), candidate_subject E L s hits j, candidate_score E L s hits j)) := by
    rw [List.filter_map]
    rfl
  have hfilter2 : ((List.range hits.length).map (fun j =>
        (s (hits.getD j 0), candidate_subject E L s hits j, candidate_score E L s hits j))).filter
        (fun c => decide (c.2.2 > L.score_cutoff))
      = ((List.range hits.length).filter
          (fun k => decide (candidate_score E L s hits k > L.score_cutoff))).map (fun j =>
        (s (hits.getD j 0), candidate_subject E L s hits j, candidate_score E L s hits j)) := by
    rw [List.filter_map]
    rfl
  simp only [search_query_offset, hL, batch_loop_eq_foldl, hlanes, hit_body_foldl, hfilter,
    hfilter2, List.length_map, List.map_eq_nil_iff, List.flatMap_map, Nat.zero_add, if_true]
  by_cases hnil : survivors E L ws.context s hits = []
  · simp [hnil, stats_after]
  · have hpos : 0 < (survivors E L ws.context s hits).length := List.length_pos.2 hnil
    simp [hnil, hpos, stats_after, hit_buffer, survivor_records, List.flatMap_map]

theorem le_bytes_length (w x : Nat) : (le_bytes w x).length = w := by
  induction w generalizing x with
  | zero => rfl
  | succ w ih => simp [le_bytes, ih]

theorem position_bytes_length (long : Bool) (loc : PackedLoc) :
    (position_bytes long loc).length = position_width long := by
  cases long <;> simp [position_bytes, position_width, PackedLoc.raw, le_bytes_length]

theorem sentinel_bytes_eq (long : Bool) :
    sentinel_bytes long = List.replicate (position_width long) 0 := by
  cases long <;> rfl

theorem mem_survivors {FP : Type} (E : Env FP) (L : QueryLocals) (context : Context)
    (s : Ptr PackedLoc) (hits : List Nat) (k : Nat) :
    k ∈ survivors E L context s hits ↔
      k < hits.length ∧ candidate_score E L s hits k > L.score_cutoff ∧
        candidate_left_most E L context s hits k = true := by
  simp [survivors, List.mem_filter, List.mem_range]

theorem survivors_sorted {FP : Type} (E : Env FP) (L : QueryLocals) (context : Context)
    (s : Ptr PackedLoc) (hits : List Nat) :
    (survivors E L context s hits).Sorted (fun x y => x < y) :=
  range_filter_sorted _ _

theorem search_query_offset_out {FP : Type} (E : Env FP) (q : Nat) (s : Ptr PackedLoc)
    (hits : List Nat) (ws : WorkSet FP (List Pushed)) :
    (search_query_offset E q s hits ws).out
      = if survivors E (query_locals E q ws.context ws.shape_id) ws.context s hits = [] then ws.out
        else ws.out ++ [⟨(query_locals E q ws.context ws.shape_id).query_id
              / E.config.query_contexts,
            hit_buffer E (query_locals E q ws.context ws.shape_id).long_subject_offsets
              (query_locals E q ws.context ws.shape_id).query_id
              (query_locals E q ws.context ws.shape_id).seed_offset
              (survivor_records E (query_locals E q ws.context ws.shape_id) ws.context s hits),
            (survivors E (query_locals E q ws.context ws.shape_id) ws.context s hits).length⟩] := by
  rw [search_query_offset_eq]
  unfold search_query_offset_spec
  by_cases h : survivors E (query_locals E q ws.context ws.shape_id) ws.context s hits = []
  · simp [h]
  · simp [h]

theorem to_uint16_of_range (x : Int) (h0 : 0 ≤ x) (h1 : x < 65536) : (to_uint16 x : Int) = x := by
  unfold to_uint16
  rw [Int.emod_eq_of_lt h0 h1]
  exact Int.toNat_of_nonneg h0

/-- C3. In `search_query_offset` a record is written for a candidate of the hit list exactly
when the score that the batched scorer returned for that same candidate (lane `k % N` of the
call for batch `k / N`) is strictly greater than `ungapped_cutoff(query_len)` and the left-most
filter accepts it. The records of the pushed buffer are those of the surviving candidates, in
the order of the hit list; each holds the subject position of its candidate and, in its
`uint16_t` score field, the scorer result of that same candidate (unchanged for a score between
0 and 65535). A candidate whose score is equal to or below the cutoff is never written. -/
theorem search_query_offset_cutoff {FP : Type} (E : Env FP) (q : Nat) (s : Ptr PackedLoc)
    (hits : List Nat) (ws : WorkSet FP (List Pushed)) :
    ∃ ks : List Nat,
      ks.Sorted (fun x y => x < y) ∧
      (∀ k, k ∈ ks ↔ (k < hits.length ∧
        candidate_score E (query_locals E q ws.context ws.shape_id) s hits k
          > ungapped_cutoff E.config
              (E.query_length (to_uint32 (E.query_local_position q).1)) ws.context ∧
        candidate_left_most E (query_locals E q ws.context ws.shape_id) ws.context s hits k
          = true)) ∧
      (∀ k, candidate_score E (query_locals E q ws.context ws.shape_id) s hits k
          ≤ ungapped_cutoff E.config
              (E.query_length (to_uint32 (E.query_local_position q).1)) ws.context → k ∉ ks) ∧
      (search_query_offset E q s hits ws).out
        = (if ks = [] then ws.out
           else ws.out ++ [⟨to_uint32 (E.query_local_position q).1 / E.config.query_contexts,
              E.varint (to_uint32 (E.query_local_position q).1)
                ++ E.varint (to_uint32 (E.query_local_position q).2)
                ++ ks.flatMap (fun k =>
                    position_bytes E.long_subject_offsets (s (hits.getD k 0))
                      ++ le_bytes 2 (to_uint16
                          (candidate_score E (query_locals E q ws.context ws.shape_id) s hits k)))
                ++ sentinel_bytes E.long_subject_offsets,
              ks.length⟩]) ∧
      (∀ k, 0 ≤ candidate_score E (query_locals E q ws.context ws.shape_id) s hits k →
        candidate_score E (query_locals E q ws.context ws.shape_id) s hits k < 65536 →
        (to_uint16 (candidate_score E (query_locals E q ws.context ws.shape_id) s hits k) : Int)
          = candidate_score E (query_locals E q ws.context ws.shape_id) s hits k) := by
  refine ⟨survivors E (query_locals E q ws.context ws.shape_id) ws.context s hits,
    survivors_sorted _ _ _ _ _, fun k => mem_survivors _ _ _ _ _ k, ?_, ?_,
    fun k h0 h1 => to_uint16_of_range _ h0 h1⟩
  · intro k hle hmem
    have := ((mem_survivors _ _ _ _ _ k).1 hmem).2.1
    exact absurd this (not_lt.2 hle)
  · rw [search_query_offset_out]
    simp only [hit_buffer, survivor_records, List.flatMap_map, hit_record]
    rfl

theorem records_length (long : Bool) (recs : List (PackedLoc × Int)) :
    (recs.flatMap (fun r => hit_record long r.1 r.2)).length
      = recs.length * (position_width long + 2) := by
  induction recs with
  | nil => simp
  | cons r recs ih =>
    rw [List.flatMap_cons, List.length_append, ih]
    simp only [hit_record, List.length_append, position_bytes_length, le_bytes_length,
      List.length_cons]
    ring

theorem survivor_records_length {FP : Type} (E : Env FP) (L : QueryLocals) (context : Context)
    (s : Ptr PackedLoc) (hits : List Nat) :
    (survivor_records E L context s hits).length = (survivors E L context s hits).length := by
  simp [survivor_records]

/-- C4. When `k >= 1` candidates survive, the buffer that `search_query_offset` pushes to the
sink is `varint(query_id)`, `varint(seed_offset)`, then `k` records, each a `w`-byte subject
position followed by a 2-byte score, then `w` zero bytes as the sentinel, with `w = 5` for long
subject offsets and `w = 4` otherwise. Its size is `|varint(query_id)| + |varint(seed_offset)| +
k * (w + 2) + w`, the reported hit count is `k`, and the buffer does not depend on what the
thread-local buffer held before the call. -/
theorem search_query_offset_buffer {FP : Type} (E : Env FP) (q : Nat) (s : Ptr PackedLoc)
    (hits : List Nat) (ws : WorkSet FP (List Pushed))
    (hk : survivors E (query_locals E q ws.context ws.shape_id) ws.context s hits ≠ []) :
    ∃ (recs : List (List Nat × List Nat)) (buf : List Nat),
      recs.length
        = (survivors E (query_locals E q ws.context ws.shape_id) ws.context s hits).length ∧
      (∀ r ∈ recs, r.1.length = position_width E.long_subject_offsets ∧ r.2.length = 2) ∧
      buf = E.varint (to_uint32 (E.query_local_position q).1)
          ++ E.varint (to_uint32 (E.query_local_position q).2)
          ++ recs.flatMap (fun r => r.1 ++ r.2)
          ++ List.replicate (position_width E.long_subject_offsets) 0 ∧
      buf.length = (E.varint (to_uint32 (E.query_local_position q).1)).length
          + (E.varint (to_uint32 (E.query_local_position q).2)).length
          + recs.length * (position_width E.long_subject_offsets + 2)
          + position_width E.long_subject_offsets ∧
      (search_query_offset E q s hits ws).out
        = ws.out ++ [⟨to_uint32 (E.query_local_position q).1 / E.config.query_contexts, buf,
            recs.length⟩] ∧
      (search_query_offset E q s hits ws).output_buf = buf ∧
      (∀ old : List Nat, (search_query_offset E q s hits { ws with output_buf := old }).out
        = (search_query_offset E q s hits ws).out) := by
  refine ⟨(survivor_records E (query_locals E q ws.context ws.shape_id) ws.context s hits).map
      (fun r => (position_bytes E.long_subject_offsets r.1, le_bytes 2 (to_uint16 r.2))),
    hit_buffer E E.long_subject_offsets (to_uint32 (E.query_local_position q).1)
      (to_uint32 (E.query_local_position q).2)
      (survivor_records E (query_locals E q ws.context ws.shape_id) ws.context s hits),
    ?_, ?_, ?_, ?_, ?_, ?_, ?_⟩
  · simp [survivor_records_length]
  · intro r hr
    simp only [List.mem_map] at hr
    obtain ⟨r0, _, rfl⟩ := hr
    exact ⟨position_bytes_length _ _, le_bytes_length _ _⟩
  · simp only [hit_buffer, sentinel_bytes_eq, List.flatMap_map, hit_record]
  · simp only [hit_buffer, sentinel_bytes_eq, List.length_append, records_length,
      List.length_replicate, List.length_map]
  · rw [search_query_offset_out, if_neg hk]
    simp only [List.length_map, survivor_records_length]
    rfl
  · rw [search_query_offset_eq]
    unfold search_query_offset_spec
    simp only [if_neg hk]
    rfl
  · intro old
    rw [search_query_offset_out, search_query_offset_out]

/-- C4, witness: seven candidates in batches of four, of which the candidates 0 and 5
survive. -/
theorem search_query_offset_buffer_witness :
    ∃ (recs : List (List Nat × List Nat)) (buf : List Nat),
      recs.length
        = (survivors example_env (query_locals example_env 12345 example_work_set.context
            example_work_set.shape_id) example_work_set.context (fun k => 2000 + 7 * k)
            [0, 1, 2, 3, 4, 6, 7]).length ∧
      (∀ r ∈ recs, r.1.length = position_width example_env.long_subject_offsets ∧
        r.2.length = 2) ∧
      buf = example_env.varint (to_uint32 (example_env.query_local_position 12345).1)
          ++ example_env.varint (to_uint32 (example_env.query_local_position 12345).2)
          ++ recs.flatMap (fun r => r.1 ++ r.2)
          ++ List.replicate (position_width example_env.long_subject_offsets) 0 ∧
      buf.length = (example_env.varint (to_uint32 (example_env.query_local_position 12345).1)).length
          + (example_env.varint (to_uint32 (example_env.query_local_position 12345).2)).length
          + recs.length * (position_width example_env.long_subject_offsets + 2)
          + position_width example_env.long_subject_offsets ∧
      (search_query_offset example_env 12345 (fun k => 2000 + 7 * k) [0, 1, 2, 3, 4, 6, 7]
          example_work_set).out
        = example_work_set.out ++ [⟨to_uint32 (example_env.query_local_position 12345).1
            / example_env.config.query_contexts, buf, recs.length⟩] ∧
      (search_query_offset example_env 12345 (fun k => 2000 + 7 * k) [0, 1, 2, 3, 4, 6, 7]
          example_work_set).output_buf = buf ∧
      (∀ old : List Nat, (search_query_offset example_env 12345 (fun k => 2000 + 7 * k)
          [0, 1, 2, 3, 4, 6, 7] { example_work_set with output_buf := old }).out
        = (search_query_offset example_env 12345 (fun k => 2000 + 7 * k) [0, 1, 2, 3, 4, 6, 7]
          example_work_set).out) :=
  search_query_offset_buffer example_env 12345 (fun k => 2000 + 7 * k) [0, 1, 2, 3, 4, 6, 7]
    example_work_set (by decide)

theorem search_tile_congr {FP Sink : Type}
    (sqo1 sqo2 : Nat → Ptr PackedLoc → List Nat → WorkSet FP Sink → WorkSet FP Sink)
    (hits : FlatArray) (query_begin subject_begin : Nat) (q s : Ptr PackedLoc)
    (ws : WorkSet FP Sink)
    (h : ∀ (q0 : Nat) (s0 : Ptr PackedLoc) (r : List Nat) (w : WorkSet FP Sink), r ≠ [] →
      sqo1 q0 s0 r w = sqo2 q0 s0 r w) :
    search_tile sqo1 hits query_begin subject_begin q s ws
      = search_tile sqo2 hits query_begin subject_begin q s ws := by
  unfold search_tile
  simp only []
  congr 1
  funext w i
  by_cases he : hits.list i = []
  · simp [he]
  · simp [he, h _ _ _ _ he]

/-- C6. `search_query_offset` pushes to the sink exactly once if at least one candidate passes
both the score cutoff and the left-most filter, and the hit count it reports is the number of
records in the pushed buffer; otherwise it pushes nothing. In particular, when no candidate
has a score above the cutoff, neither the sink nor the thread-local buffer changes.
`search_tile` never calls `search_query_offset` with an empty hit list: its result does not
depend on what the callee does for an empty list. -/
theorem search_query_offset_push {FP : Type} (E : Env FP) (q : Nat) (s : Ptr PackedLoc)
    (hits : List Nat) (ws : WorkSet FP (List Pushed)) :
    ((∃ k, k < hits.length ∧
        candidate_score E (query_locals E q ws.context ws.shape_id) s hits k
          > ungapped_cutoff E.config
              (E.query_length (to_uint32 (E.query_local_position q).1)) ws.context ∧
        candidate_left_most E (query_locals E q ws.context ws.shape_id) ws.context s hits k
          = true) →
      ∃ p : Pushed, (search_query_offset E q s hits ws).out = ws.out ++ [p] ∧
        p.hit_count
          = (survivor_records E (query_locals E q ws.context ws.shape_id) ws.context s hits).length
        ∧ 0 < p.hit_count ∧
        p.data = hit_buffer E E.long_subject_offsets (to_uint32 (E.query_local_position q).1)
          (to_uint32 (E.query_local_position q).2)
          (survivor_records E (query_locals E q ws.context ws.shape_id) ws.context s hits)) ∧
    ((¬ ∃ k, k < hits.length ∧
        candidate_score E (query_locals E q ws.context ws.shape_id) s hits k
          > ungapped_cutoff E.config
              (E.query_length (to_uint32 (E.query_local_position q).1)) ws.context ∧
        candidate_left_most E (query_locals E q ws.context ws.shape_id) ws.context s hits k
          = true) →
      (search_query_offset E q s hits ws).out = ws.out) ∧
    ((∀ k, k < hits.length →
        candidate_score E (query_locals E q ws.context ws.shape_id) s hits k
          ≤ ungapped_cutoff E.config
              (E.query_length (to_uint32 (E.query_local_position q).1)) ws.context) →
      (search_query_offset E q s hits ws).out = ws.out ∧
      (search_query_offset E q s hits ws).output_buf = ws.output_buf) ∧
    (∀ (sqo1 sqo2 : Nat → Ptr PackedLoc → List Nat → WorkSet FP (List Pushed)
          → WorkSet FP (List Pushed))
        (tile_hits : FlatArray) (query_begin subject_begin : Nat) (qs ss : Ptr PackedLoc)
        (w : WorkSet FP (List Pushed)),
      (∀ (q0 : Nat) (s0 : Ptr PackedLoc) (r : List Nat) (w0 : WorkSet FP (List Pushed)),
        r ≠ [] → sqo1 q0 s0 r w0 = sqo2 q0 s0 r w0) →
      search_tile sqo1 tile_hits query_begin subject_begin qs ss w
        = search_tile sqo2 tile_hits query_begin subject_begin qs ss w) := by
  have hne : (∃ k, k < hits.length ∧
        candidate_score E (query_locals E q ws.context ws.shape_id) s hits k
          > ungapped_cutoff E.config
              (E.query_length (to_uint32 (E.query_local_position q).1)) ws.context ∧
        candidate_left_most E (query_locals E q ws.context ws.shape_id) ws.context s hits k
          = true) ↔
      survivors E (query_locals E q ws.context ws.shape_id) ws.context s hits ≠ [] := by
    constructor
    · rintro ⟨k, hk⟩ hnil
      have := (mem_survivors E _ ws.context s hits k).2 hk
      rw [hnil] at this
      simp at this
    · intro hnil
      obtain ⟨k, hk⟩ := List.exists_mem_of_ne_nil _ hnil
      exact ⟨k, (mem_survivors E _ ws.context s hits k).1 hk⟩
  refine ⟨fun h => ?_, fun h => ?_, fun h => ?_, fun sqo1 sqo2 tile_hits qb sb qs ss w hagree =>
    search_tile_congr sqo1 sqo2 tile_hits qb sb qs ss w hagree⟩
  · have hk := hne.1 h
    refine ⟨(⟨to_uint32 (E.query_local_position q).1 / E.config.query_contexts,
      hit_buffer E E.long_subject_offsets (to_uint32 (E.query_local_position q).1)
        (to_uint32 (E.query_local_position q).2)
        (survivor_records E (query_locals E q ws.context ws.shape_id) ws.context s hits),
      (survivors E (query_locals E q ws.context ws.shape_id) ws.context s hits).length⟩ : Pushed),
      ?_, ?_, ?_, ?_⟩
    · rw [search_query_offset_out, if_neg hk]
      rfl
    · simp [survivor_records_length]
    · exact List.length_pos.2 hk
    · rfl
  · have hk : survivors E (query_locals E q ws.context ws.shape_id) ws.context s hits = [] := by
      by_contra hc
      exact h (hne.2 hc)
    rw [search_query_offset_out, if_pos hk]
  · have hk : survivors E (query_locals E q ws.context ws.shape_id) ws.context s hits = [] := by
      by_contra hc
      obtain ⟨k, hk1, hk2, _⟩ := hne.2 hc
      exact absurd hk2 (not_lt.2 (h k hk1))
    refine ⟨by rw [search_query_offset_out, if_pos hk], ?_⟩
    rw [search_query_offset_eq]
    unfold search_query_offset_spec
    simp only [if_pos hk]

theorem candidate_score_independent {FP : Type} (E : Env FP) (L : QueryLocals)
    (s : Ptr PackedLoc) (hits : List Nat) (score1 : Int → Int → Int → Int)
    (hind : ∀ (query : Int) (subjects : List Int) (n : Nat) (window : Int) (scores : Ptr Int)
      (j : Nat), j < n → j < subjects.length →
      E.window_ungapped_best query subjects n window scores j
        = score1 query window (subjects.getD j 0))
    (k : Nat) (hk : k < hits.length) :
    candidate_score E L s hits k
      = score1 L.query_clipped.data L.window_clipped (candidate_subject E L s hits k) := by
  have hN := E.CHANNELS_pos
  have hj : k % E.CHANNELS < E.CHANNELS := Nat.mod_lt _ hN
  have hdm : k / E.CHANNELS * E.CHANNELS + k % E.CHANNELS = k := by
    rw [Nat.mul_comm]
    exact Nat.div_add_mod k E.CHANNELS
  have hlen : (hits.drop (k / E.CHANNELS * E.CHANNELS)).length
      = hits.length - k / E.CHANNELS * E.CHANNELS := by simp
  have hjn : k % E.CHANNELS < min E.CHANNELS (hits.drop (k / E.CHANNELS * E.CHANNELS)).length := by
    rw [hlen]
    omega
  unfold candidate_score
  simp only [scores_before]
  rw [hind _ _ _ _ _ _ hjn (by simpa using hjn)]
  congr 1
  simp only [List.getD_eq_getElem?_getD, List.getElem?_map, List.getElem?_range hjn,
    Option.map_some', Option.getD_some, candidate_subject, List.getElem?_drop, hdm]

theorem le_value_le_bytes (w x : Nat) : le_value (le_bytes w x) = x % 256 ^ w := by
  induction w generalizing x with
  | zero => simp [le_bytes, le_value, Nat.mod_one]
  | succ w ih =>
    simp only [le_bytes, le_value, ih]
    rw [pow_succ, Nat.mul_comm (256 ^ w) 256, Nat.mod_mul]

theorem read_position_bytes (long : Bool) (loc : PackedLoc) :
    read_position long (position_bytes long loc) = loc % 2 ^ (8 * position_width long) := by
  cases long
  · show le_value (le_bytes 4 (PackedLoc.low loc)) = loc % 2 ^ (8 * 4)
    rw [le_value_le_bytes]
    unfold PackedLoc.low
    norm_num
  · show PackedLoc.high loc * 2 ^ 32 + le_value (le_bytes 4 (PackedLoc.low loc))
      = loc % 2 ^ (8 * 5)
    rw [le_value_le_bytes]
    unfold PackedLoc.low PackedLoc.high
    have h := Nat.mod_mul (x := loc) (a := 2 ^ 32) (b := 2 ^ 8)
    norm_num at h ⊢
    omega

theorem read_hits_records (long : Bool) (rest : List Nat) :
    ∀ (recs : List (PackedLoc × Int)) (fuel : Nat), recs.length < fuel →
      (∀ r ∈ recs, r.1 % 2 ^ (8 * position_width long) ≠ 0) →
      read_hits long fuel
          (recs.flatMap (fun r => hit_record long r.1 r.2) ++ (sentinel_bytes long ++ rest))
        = some (recs.map (fun r => (r.1 % 2 ^ (8 * position_width long), to_uint16 r.2)),
            rest) := by
  intro recs
  induction recs with
  | nil =>
    intro fuel hf _
    obtain ⟨fuel, rfl⟩ : ∃ g, fuel = g + 1 := ⟨fuel - 1, by simp at hf; omega⟩
    have hlen : (sentinel_bytes long).length = position_width long := by
      simp [sentinel_bytes_eq]
    have htake : (sentinel_bytes long ++ rest).take (position_width long) = sentinel_bytes long := by
      rw [← hlen, List.take_left]
    have hdrop : (sentinel_bytes long ++ rest).drop (position_width long) = rest := by
      rw [← hlen, List.drop_left]
    have hzero : read_position long (sentinel_bytes long) = 0 := by
      cases long <;> rfl
    simp only [List.flatMap_nil, List.nil_append, read_hits, htake, hdrop, hzero, if_true,
      List.map_nil]
    rw [if_neg]
    simp [hlen]
  | cons r recs ih =>
    intro fuel hf hnz
    obtain ⟨fuel, rfl⟩ : ∃ g, fuel = g + 1 := ⟨fuel - 1, by simp at hf; omega⟩
    have hp := position_bytes_length long r.1
    have hnz0 : r.1 % 2 ^ (8 * position_width long) ≠ 0 := hnz r (List.mem_cons_self _ _)
    have hrest := ih fuel (by simp at hf; omega) (fun r0 h0 => hnz r0 (List.mem_cons_of_mem _ h0))
    generalize htl : recs.flatMap (fun r => hit_record long r.1 r.2) ++ (sentinel_bytes long ++ rest)
      = tl at hrest
    have hbs : (r :: recs).flatMap (fun r => hit_record long r.1 r.2)
        ++ (sentinel_bytes long ++ rest)
        = position_bytes long r.1 ++ (le_bytes 2 (to_uint16 r.2) ++ tl) := by
      rw [← htl]
      simp [hit_record, List.append_assoc]
    have htake : (position_bytes long r.1 ++ (le_bytes 2 (to_uint16 r.2) ++ tl)).take
        (position_width long) = position_bytes long r.1 := by
      rw [← hp, List.take_left]
    have hdrop : (position_bytes long r.1 ++ (le_bytes 2 (to_uint16 r.2) ++ tl)).drop
        (position_width long) = le_bytes 2 (to_uint16 r.2) ++ tl := by
      rw [← hp, List.drop_left]
    have hdrop2 : (position_bytes long r.1 ++ (le_bytes 2 (to_uint16 r.2) ++ tl)).drop
        (position_width long + 2) = tl := by
      rw [← List.drop_drop, hdrop]
      exact List.drop_left' (le_bytes_length 2 _)
    have htake2 : (le_bytes 2 (to_uint16 r.2) ++ tl).take 2 = le_bytes 2 (to_uint16 r.2) :=
      List.take_left' (le_bytes_length 2 _)
    have hu16 : to_uint16 r.2 % 256 ^ 2 = to_uint16 r.2 := by
      apply Nat.mod_eq_of_lt
      unfold to_uint16
      have h1 : r.2 % 65536 < 65536 := Int.emod_lt_of_pos _ (by norm_num)
      have h2 : 0 ≤ r.2 % 65536 := Int.emod_nonneg _ (by norm_num)
      omega
    rw [hbs]
    simp only [read_hits, htake, hdrop, hdrop2, htake2, read_position_bytes, hnz0, if_false,
      hrest, le_value_le_bytes, hu16, List.map_cons]
    rw [if_neg, if_neg]
    · simp [le_bytes_length]
    · simp [hp]

/-- C5 (amended). Round trip of the hit buffer. If the records that `search_query_offset`
serializes have subject positions that are not zero and fit the `w` bytes of a stored position,
and scores between 0 and 65535, then a reader that reads the two varints and then `w`-byte
position / 2-byte score records until it meets a zero position recovers the query id, the seed
offset and exactly the original (subject position, score) sequence in the same order, and it
stops exactly at the sentinel: nothing of the buffer is left after it. -/
theorem hit_buffer_round_trip {FP : Type} (E : Env FP)
    (read_varint : List Nat → Option (Nat × List Nat)) (q : Nat) (s : Ptr PackedLoc)
    (hits : List Nat) (ws : WorkSet FP (List Pushed))
    (hv : ∀ (x : Nat) (rest : List Nat), read_varint (E.varint x ++ rest) = some (x, rest))
    (hk : survivors E (query_locals E q ws.context ws.shape_id) ws.context s hits ≠ [])
    (hr : ∀ r ∈ survivor_records E (query_locals E q ws.context ws.shape_id) ws.context s hits,
      0 < r.1 ∧ r.1 < 2 ^ (8 * position_width E.long_subject_offsets) ∧
        0 ≤ r.2 ∧ r.2 < 65536) :
    ∃ (p : Pushed) (recs : List (Nat × Nat)),
      (search_query_offset E q s hits ws).out = ws.out ++ [p] ∧
      (∀ fuel, p.hit_count < fuel →
        read_hit_buffer read_varint E.long_subject_offsets fuel p.data
          = some (to_uint32 (E.query_local_position q).1,
              to_uint32 (E.query_local_position q).2, recs, [])) ∧
      recs.map (fun x => (x.1, (x.2 : Int)))
        = survivor_records E (query_locals E q ws.context ws.shape_id) ws.context s hits := by
  refine ⟨(⟨to_uint32 (E.query_local_position q).1 / E.config.query_contexts,
      hit_buffer E E.long_subject_offsets (to_uint32 (E.query_local_position q).1)
        (to_uint32 (E.query_local_position q).2)
        (survivor_records E (query_locals E q ws.context ws.shape_id) ws.context s hits),
      (survivors E (query_locals E q ws.context ws.shape_id) ws.context s hits).length⟩ : Pushed),
    (survivor_records E (query_locals E q ws.context ws.shape_id) ws.context s hits).map
      (fun r => (r.1 % 2 ^ (8 * position_width E.long_subject_offsets), to_uint16 r.2)),
    ?_, ?_, ?_⟩
  · rw [search_query_offset_out, if_neg hk]
    rfl
  · intro fuel hf
    have hnz : ∀ r ∈ survivor_records E (query_locals E q ws.context ws.shape_id) ws.context
        s hits, r.1 % 2 ^ (8 * position_width E.long_subject_offsets) ≠ 0 := by
      intro r hmem
      obtain ⟨h1, h2, _, _⟩ := hr r hmem
      rw [Nat.mod_eq_of_lt h2]
      exact Nat.ne_of_gt h1
    have hrec := read_hits_records E.long_subject_offsets []
      (survivor_records E (query_locals E q ws.context ws.shape_id) ws.context s hits) fuel
      (by rw [survivor_records_length]; exact hf) hnz
    simp only [List.append_nil] at hrec
    simp only [read_hit_buffer, hit_buffer, List.append_assoc, hv, hrec]
  · rw [List.map_map]
    conv_rhs => rw [← List.map_id (survivor_records E (query_locals E q ws.context ws.shape_id)
      ws.context s hits)]
    apply List.map_congr_left
    intro r hmem
    obtain ⟨_, h2, h3, h4⟩ := hr r hmem
    simp only [Function.comp, id, Nat.mod_eq_of_lt h2, to_uint16_of_range r.2 h3 h4]

/-- C5, witness: the seven candidates of the example, read back with the one-byte varint
reader. -/
theorem hit_buffer_round_trip_witness :
    ∃ (p : Pushed) (recs : List (Nat × Nat)),
      (search_query_offset example_env 12345 (fun k => 2000 + 7 * k) [0, 1, 2, 3, 4, 6, 7]
          example_work_set).out = example_work_set.out ++ [p] ∧
      (∀ fuel, p.hit_count < fuel →
        read_hit_buffer read_byte example_env.long_subject_offsets fuel p.data
          = some (to_uint32 (example_env.query_local_position 12345).1,
              to_uint32 (example_env.query_local_position 12345).2, recs, [])) ∧
      recs.map (fun x => (x.1, (x.2 : Int)))
        = survivor_records example_env
            (query_locals example_env 12345 example_work_set.context example_work_set.shape_id)
            example_work_set.context (fun k => 2000 + 7 * k) [0, 1, 2, 3, 4, 6, 7] :=
  hit_buffer_round_trip example_env read_byte 12345 (fun k => 2000 + 7 * k)
    [0, 1, 2, 3, 4, 6, 7] example_work_set (fun _ _ => rfl) (by decide) (by decide)

theorem traceback_error_kind {D It EV : Type} (E : SwipeEnv D It EV) (fuel : Nat)
    (query : List Nat) (query_string : String) (frame : Int) (dp : D) (target : DpTarget)
    (max_score : Int) (evalue : EV) (max_col max_i max_j : Int) (channel : Nat) (e : SwipeError)
    (h : traceback E fuel query query_string frame dp target max_score evalue max_col max_i
      max_j channel = some (Except.error e)) :
    e = SwipeError.traceback query_string := by
  unfold traceback at h
  by_cases hw : E.with_traceback = true
  · rw [if_pos hw] at h
    unfold traceback_vector at h
    simp only [] at h
    split at h
    · exact absurd h (by simp)
    · split at h
      · simp only [Option.some.injEq, Except.error.injEq] at h
        exact h.symm
      · simp at h
  · rw [if_neg hw] at h
    simp at h

theorem handle_channel_thrown {D It EV : Type} (E : SwipeEnv D It EV) (fuel : Nat)
    (query : List Nat) (query_string : String) (frame : Int) (targets : List DpTarget)
    (col_best_ i_max : Nat → Int) (i : Nat) (st : SwipeState D EV) (e : SwipeError)
    (r : SwipeState D EV × Nat)
    (h : handle_channel E fuel query query_string frame targets col_best_ i_max i st
      = Run.thrown e r) :
    e = SwipeError.traceback query_string := by
  unfold handle_channel at h
  simp only [] at h
  split at h
  · simp at h
  · split at h
    · split at h
      · split at h
        · simp at h
        · rename_i e0 htb
          simp only [Run.thrown.injEq] at h
          rw [← h.1]
          exact traceback_error_kind _ _ _ _ _ _ _ _ _ _ _ _ _ _ htb
        · simp at h
      · simp at h
    · simp at h

theorem channel_loop_thrown {D It EV : Type} (E : SwipeEnv D It EV) (fuel : Nat)
    (query : List Nat) (query_string : String) (frame : Int) (targets : List DpTarget)
    (col_best_ i_max : Nat → Int) :
    ∀ (rounds i : Nat) (st st1 : SwipeState D EV) (e : SwipeError),
      channel_loop E fuel query query_string frame targets col_best_ i_max rounds i st
        = Run.thrown e st1 → e = SwipeError.traceback query_string := by
  intro rounds
  induction rounds with
  | zero => intro i st st1 e h; simp [channel_loop] at h
  | succ rounds ih =>
    intro i st st1 e h
    unfold channel_loop at h
    split at h
    · split at h
      · exact ih _ _ _ _ h
      · rename_i e0 r0 hh
        simp only [Run.thrown.injEq] at h
        rw [← h.1]
        exact handle_channel_thrown _ _ _ _ _ _ _ _ _ _ _ _ hh
      · simp at h
    · simp at h

theorem swipe_loop_thrown {D It EV : Type} (E : SwipeEnv D It EV) (query : List Nat)
    (query_string : String) (frame : Int) (targets : List DpTarget) :
    ∀ (fuel : Nat) (st st1 : SwipeState D EV) (e : SwipeError),
      swipe_loop E query query_string frame targets fuel st = Run.thrown e st1 →
      e = SwipeError.traceback query_string := by
  intro fuel
  induction fuel with
  | zero => intro st st1 e h; simp [swipe_loop] at h
  | succ fuel ih =>
    intro st st1 e h
    unfold swipe_loop at h
    split at h
    · split at h
      · exact ih _ _ _ h
      · rename_i e0 r0 hh
        simp only [Run.thrown.injEq] at h
        rw [← h.1]
        unfold swipe_column at hh
        simp only [] at hh
        split at hh
        · simp at hh
        · rename_i e1 r1 h1
          simp only [Run.thrown.injEq] at hh
          rw [← hh.1]
          exact channel_loop_thrown _ _ _ _ _ _ _ _ _ _ _ _ _ h1
        · simp at hh
      · simp at h
    · simp at h

theorem to_int32_of_lt (n : Nat) (h : n < 2 ^ 31) : to_int32 n = (n : Int) := by
  unfold to_int32
  have h1 : n % 2 ^ 32 = n := Nat.mod_eq_of_lt (by omega)
  rw [h1, if_pos h]

/-- C8. `swipe` fails at entry, before any target is processed: it throws "Query length exceeds
row counter maximum." if and only if the query length (as the `int` `qlen` that the code
compares) is greater than `RowCounter::MAX_LEN`, and otherwise throws "Matrix scale != 1.0 not
supported." if and only if `config.cbs_matrix_scale != 1`. In both cases the result does not
depend on the targets, no `Hsp` is produced and the overflow list is left unchanged; when
neither condition holds, neither error is raised. -/
theorem swipe_entry_errors {D It EV : Type} (E : SwipeEnv D It EV) (fuel : Nat)
    (query : List Nat) (query_string : String) (frame : Int) (targets : List DpTarget)
    (next : Nat) (overflow : List DpTarget) (junk : Nat → Int) (idle : DpTarget) :
    (to_int32 query.length > E.MAX_LEN →
      swipe E fuel query query_string frame targets next overflow junk idle
        = some ⟨Except.error SwipeError.query_length, overflow⟩) ∧
    (¬ to_int32 query.length > E.MAX_LEN → E.cbs_matrix_scale ≠ 1 →
      swipe E fuel query query_string frame targets next overflow junk idle
        = some ⟨Except.error SwipeError.matrix_scale, overflow⟩) ∧
    (∀ r, swipe E fuel query query_string frame targets next overflow junk idle = some r →
      (r.result = Except.error SwipeError.query_length ↔ to_int32 query.length > E.MAX_LEN)) ∧
    (∀ r, swipe E fuel query query_string frame targets next overflow junk idle = some r →
      (r.result = Except.error SwipeError.matrix_scale ↔
        (¬ to_int32 query.length > E.MAX_LEN ∧ E.cbs_matrix_scale ≠ 1))) ∧
    SwipeError.query_length.what = "Query length exceeds row counter maximum." ∧
    SwipeError.matrix_scale.what = "Matrix scale != 1.0 not supported." ∧
    (query.length < 2 ^ 31 → to_int32 query.length = (query.length : Int)) := by
  have hloop : ∀ r, ¬ to_int32 query.length > E.MAX_LEN → E.cbs_matrix_scale = 1 →
      swipe E fuel query query_string frame targets next overflow junk idle = some r →
      r.result ≠ Except.error SwipeError.query_length ∧
      r.result ≠ Except.error SwipeError.matrix_scale := by
    intro r h1 h2 hr
    unfold swipe at hr
    simp only [h1, if_false, h2, ne_eq, not_true_eq_false] at hr
    split at hr
    · simp only [Option.some.injEq] at hr
      rw [← hr]
      simp
    · rename_i e st hth
      simp only [Option.some.injEq] at hr
      have he := swipe_loop_thrown _ _ _ _ _ _ _ _ _ hth
      rw [← hr, he]
      simp
    · simp at hr
  refine ⟨fun h => ?_, fun h1 h2 => ?_, fun r hr => ⟨fun h => ?_, fun h => ?_⟩,
    fun r hr => ⟨fun h => ?_, fun h => ?_⟩, rfl, rfl, fun h => to_int32_of_lt _ h⟩
  · simp [swipe, h]
  · simp [swipe, h1, h2]
  · by_contra h1
    by_cases h2 : E.cbs_matrix_scale = 1
    · exact (hloop r h1 h2 hr).1 h
    · simp only [swipe, h1, if_false, ne_eq, h2, not_false_eq_true, if_true,
        Option.some.injEq] at hr
      rw [← hr] at h
      simp at h
  · simp only [swipe, h, if_true, Option.some.injEq] at hr
    rw [← hr]
  · by_cases h1 : to_int32 query.length > E.MAX_LEN
    · simp only [swipe, h1, if_true, Option.some.injEq] at hr
      rw [← hr] at h
      simp at h
    · refine ⟨h1, fun h2 => (hloop r h1 h2 hr).2 h⟩
  · simp only [swipe, h.1, if_false, ne_eq, h.2, not_false_eq_true, if_true,
      Option.some.injEq] at hr
    rw [← hr]

theorem map_set_at_of_not_mem {α : Type} (l : List Nat) (f : Nat → α) (g : α → Int) (c : Nat)
    (v : α) (h : c ∉ l) : l.map (fun x => g (set_at f c v x)) = l.map (fun x => g (f x)) := by
  apply List.map_congr_left
  intro x hx
  have : x ≠ c := fun e => h (e ▸ hx)
  simp [set_at, this]

theorem active_split (l : List Nat) (i : Nat) (hi : i < l.length) :
    l = l.take i ++ l.getD i 0 :: l.drop (i + 1) ∧ l.eraseIdx i = l.take i ++ l.drop (i + 1) := by
  constructor
  · have h1 : l.getD i 0 = l[i] := by
      simp [List.getD_eq_getElem?_getD, List.getElem?_eq_getElem hi]
    rw [h1, ← List.drop_eq_getElem_cons hi, List.take_append_drop]
  · exact List.eraseIdx_eq_take_drop_succ l i

theorem active_ids_split (l : List Nat) (g : Nat → Int) (i : Nat) (hi : i < l.length)
    (hnd : (l.map g).Nodup) :
    l.getD i 0 ∉ l.eraseIdx i ∧
    ((l.map g : List Int) : Multiset Int)
      = {g (l.getD i 0)} + (((l.eraseIdx i).map g : List Int) : Multiset Int) := by
  obtain ⟨h1, h2⟩ := active_split l i hi
  have hnd2 : l.Nodup := List.Nodup.of_map g hnd
  rw [h1] at hnd2
  have hnot : l.getD i 0 ∉ l.take i ++ l.drop (i + 1) := by
    have := List.nodup_middle.1 hnd2
    exact (List.nodup_cons.1 this).1
  refine ⟨by rw [h2]; exact hnot, ?_⟩
  rw [h2]
  conv_lhs => rw [h1]
  simp only [List.map_append, List.map_cons, ← Multiset.coe_add, ← Multiset.cons_coe,
    Multiset.singleton_add]
  exact Multiset.add_cons _ _ _

theorem split_ids_set (pre post : List Nat) (F : Nat → DpTarget) (c : Nat) (v : DpTarget)
    (hnot : c ∉ pre ++ post) :
    (((pre ++ c :: post).map (fun x => (set_at F c v x).target_idx) : List Int) : Multiset Int)
      = {v.target_idx}
        + (((pre ++ post).map (fun x => (F x).target_idx) : List Int) : Multiset Int) := by
  have hpre : c ∉ pre := fun h => hnot (List.mem_append_left _ h)
  have hpost : c ∉ post := fun h => hnot (List.mem_append_right _ h)
  rw [List.map_append, List.map_cons,
    map_set_at_of_not_mem _ F DpTarget.target_idx _ v hpre,
    map_set_at_of_not_mem _ F DpTarget.target_idx _ v hpost]
  have hself : (set_at F c v c).target_idx = v.target_idx := by
    simp [set_at]
  rw [hself, List.map_append]
  simp only [← Multiset.coe_add, ← Multiset.cons_coe, Multiset.singleton_add]
  exact Multiset.add_cons _ _ _

theorem active_ids_set (l : List Nat) (F : Nat → DpTarget) (i : Nat) (hi : i < l.length)
    (v : DpTarget) (hnot : l.getD i 0 ∉ l.eraseIdx i) :
    ((l.map (fun x => (set_at F (l.getD i 0) v x).target_idx) : List Int) : Multiset Int)
      = {v.target_idx}
        + (((l.eraseIdx i).map (fun x => (F x).target_idx) : List Int) : Multiset Int) := by
  obtain ⟨h1, h2⟩ := active_split l i hi
  rw [h2] at hnot ⊢
  have := split_ids_set (l.take i) (l.drop (i + 1)) F (l.getD i 0) v hnot
  rw [← h1] at this
  exact this

theorem reinit_channel_ids {D It EV : Type} (E : SwipeEnv D It EV) (targets : List DpTarget)
    (i : Nat) (st : SwipeState D EV) (hi : i < st.active.length)
    (hnd : (st.active.map (fun x => (st.dp_targets x).target_idx)).Nodup) :
    (reinit_channel E targets i (st.active.getD i 0) st).1.out = st.out ∧
    (reinit_channel E targets i (st.active.getD i 0) st).1.overflow = st.overflow ∧
    (((reinit_channel E targets i (st.active.getD i 0) st).1.active.map
        (fun x => ((reinit_channel E targets i (st.active.getD i 0) st).1.dp_targets x).target_idx)
        : List Int) : Multiset Int)
      + (((targets.drop (reinit_channel E targets i (st.active.getD i 0) st).1.next).map
          DpTarget.target_idx : List Int) : Multiset Int)
      + {(st.dp_targets (st.active.getD i 0)).target_idx}
      = ((st.active.map (fun x => (st.dp_targets x).target_idx) : List Int) : Multiset Int)
        + (((targets.drop st.next).map DpTarget.target_idx : List Int) : Multiset Int) := by
  obtain ⟨hnot, hsplit⟩ := active_ids_split st.active
    (fun x => (st.dp_targets x).target_idx) i hi hnd
  unfold reinit_channel init_target
  cases hget : targets[st.next]? with
  | none =>
    have hlen : targets.length ≤ st.next := List.getElem?_eq_none_iff.1 hget
    have hd1 : targets.drop st.next = [] := List.drop_of_length_le hlen
    have hd2 : targets.drop (st.next + 1) = [] := List.drop_of_length_le (by omega)
    simp only [Bool.false_eq_true, if_false, hd1, hd2, List.map_nil, Multiset.coe_nil, add_zero,
      true_and]
    rw [hsplit, add_comm]
  | some t =>
    obtain ⟨hlt, hget2⟩ := List.getElem?_eq_some_iff.1 hget
    have hd : targets.drop st.next = t :: targets.drop (st.next + 1) := by
      rw [List.drop_eq_getElem_cons hlt, hget2]
    simp only [if_true, true_and]
    rw [active_ids_set st.active st.dp_targets i hi t hnot, hsplit, hd, List.map_cons,
      ← Multiset.cons_coe, ← Multiset.singleton_add]
    simp only [add_assoc, add_comm, add_left_comm]

theorem update_best_fields {D It EV : Type} (E : SwipeEnv D It EV) (col_best_ i_max : Nat → Int)
    (c : Nat) (st : SwipeState D EV) :
    (update_best E col_best_ i_max c st).active = st.active ∧
    (update_best E col_best_ i_max c st).dp_targets = st.dp_targets ∧
    (update_best E col_best_ i_max c st).next = st.next ∧
    (update_best E col_best_ i_max c st).out = st.out ∧
    (update_best E col_best_ i_max c st).overflow = st.overflow ∧
    (update_best E col_best_ i_max c st).pos = st.pos := by
  unfold update_best
  split <;> simp

theorem traceback_swipe_target {D It EV : Type} (E : SwipeEnv D It EV) (fuel : Nat)
    (query : List Nat) (query_string : String) (frame : Int) (dp : D) (target : DpTarget)
    (max_score : Int) (evalue : EV) (max_col max_i max_j : Int) (channel : Nat) (h : Hsp EV)
    (htb : traceback E fuel query query_string frame dp target max_score evalue max_col max_i
      max_j channel = some (Except.ok h)) :
    h.swipe_target = target.target_idx ∧ h.evalue = evalue ∧ h.frame = frame ∧
    h.score = (if E.with_traceback = true ∧ target.adjusted_matrix = true
      then E.traits.int_score max_score
      else E.traits.int_score max_score * E.cbs_matrix_scale) := by
  unfold traceback at htb
  by_cases hw : E.with_traceback = true
  · rw [if_pos hw] at htb
    unfold traceback_vector at htb
    simp only [] at htb
    split at htb
    · exact absurd htb (by simp)
    · split at htb
      · simp at htb
      · simp only [Option.some.injEq, Except.ok.injEq] at htb
        rw [← htb]
        by_cases ha : target.adjusted_matrix = true <;> simp [hw, ha]
  · rw [if_neg hw] at htb
    simp only [Option.some.injEq, Except.ok.injEq] at htb
    rw [← htb]
    unfold traceback_score
    simp only [hw, false_and, if_false]
    split <;> simp

theorem inv_after_reinit {D It EV : Type} (E : SwipeEnv D It EV) (targets : List DpTarget)
    (i : Nat) (st : SwipeState D EV) (hi : i < st.active.length)
    (added_old : List DpTarget) (out_old : List (Hsp EV)) (added : List DpTarget)
    (hnd : ((added_old.map DpTarget.target_idx : Multiset Int)
      + (out_old.map Hsp.swipe_target : Multiset Int)
      + (st.active.map (fun c => (st.dp_targets c).target_idx) : Multiset Int)
      + ((targets.drop st.next).map DpTarget.target_idx : Multiset Int)).Nodup)
    (hmove : (added.map DpTarget.target_idx : Multiset Int)
        + (st.out.map Hsp.swipe_target : Multiset Int)
      ≤ (added_old.map DpTarget.target_idx : Multiset Int)
        + (out_old.map Hsp.swipe_target : Multiset Int)
        + {(st.dp_targets (st.active.getD i 0)).target_idx}) :
    (swipe_ids targets added (reinit_channel E targets i (st.active.getD i 0) st).1).Nodup := by
  have hact : (st.active.map (fun c => (st.dp_targets c).target_idx)).Nodup := by
    have h1 := Multiset.nodup_of_le (Multiset.le_add_right _ _) hnd
    have h2 := Multiset.nodup_of_le (Multiset.le_add_left _ _) h1
    exact Multiset.coe_nodup.1 h2
  obtain ⟨h1, _, h3⟩ := reinit_channel_ids E targets i st hi hact
  apply Multiset.nodup_of_le _ hnd
  unfold swipe_ids
  rw [h1]
  calc (added.map DpTarget.target_idx : Multiset Int)
        + (st.out.map Hsp.swipe_target : Multiset Int)
        + (((reinit_channel E targets i (st.active.getD i 0) st).1.active.map
            (fun x => ((reinit_channel E targets i (st.active.getD i 0) st).1.dp_targets
              x).target_idx) : List Int) : Multiset Int)
        + (((targets.drop (reinit_channel E targets i (st.active.getD i 0) st).1.next).map
            DpTarget.target_idx : List Int) : Multiset Int)
      = ((added.map DpTarget.target_idx : Multiset Int)
          + (st.out.map Hsp.swipe_target : Multiset Int))
        + ((((reinit_channel E targets i (st.active.getD i 0) st).1.active.map
            (fun x => ((reinit_channel E targets i (st.active.getD i 0) st).1.dp_targets
              x).target_idx) : List Int) : Multiset Int)
          + (((targets.drop (reinit_channel E targets i (st.active.getD i 0) st).1.next).map
            DpTarget.target_idx : List Int) : Multiset Int)) := by
        simp only [add_assoc]
    _ ≤ ((added_old.map DpTarget.target_idx : Multiset Int)
          + (out_old.map Hsp.swipe_target : Multiset Int)
          + {(st.dp_targets (st.active.getD i 0)).target_idx})
        + ((((reinit_channel E targets i (st.active.getD i 0) st).1.active.map
            (fun x => ((reinit_channel E targets i (st.active.getD i 0) st).1.dp_targets
              x).target_idx) : List Int) : Multiset Int)
          + (((targets.drop (reinit_channel E targets i (st.active.getD i 0) st).1.next).map
            DpTarget.target_idx : List Int) : Multiset Int)) :=
        add_le_add_right hmove _
    _ = (added_old.map DpTarget.target_idx : Multiset Int)
          + (out_old.map Hsp.swipe_target : Multiset Int)
          + (st.active.map (fun c => (st.dp_targets c).target_idx) : Multiset Int)
          + ((targets.drop st.next).map DpTarget.target_idx : Multiset Int) := by
        conv_rhs => rw [add_assoc, ← h3]
        simp only [add_assoc, add_comm, add_left_comm]

theorem inc_target_fields {D EV : Type} (c : Nat) (st : SwipeState D EV) :
    (inc_target c st).1.active = st.active ∧
    (inc_target c st).1.dp_targets = st.dp_targets ∧
    (inc_target c st).1.next = st.next ∧
    (inc_target c st).1.out = st.out ∧
    (inc_target c st).1.overflow = st.overflow ∧
    (inc_target c st).1.best = st.best := by
  simp [inc_target]

/-- The handling of one channel after a column, started in a state that satisfies the
invariant, ends in a state that satisfies it, however it ends. -/
theorem handle_channel_inv {D It EV : Type} (E : SwipeEnv D It EV) (fuel : Nat)
    (query : List Nat) (query_string : String) (frame : Int) (targets : List DpTarget)
    (col_best_ i_max : Nat → Int) (i : Nat) (st : SwipeState D EV)
    (overflow0 : List DpTarget) (hi : i < st.active.length)
    (hinv : swipe_inv targets overflow0 st) :
    swipe_inv targets overflow0
      (handle_channel E fuel query query_string frame targets col_best_ i_max i st).state.1 := by
  obtain ⟨ha, hd, hn, ho, hv, _⟩ := update_best_fields E col_best_ i_max (st.active.getD i 0) st
  have hinv1 : swipe_inv targets overflow0
      (update_best E col_best_ i_max (st.active.getD i 0) st) := by
    obtain ⟨added, h1, h2⟩ := hinv
    refine ⟨added, by rw [hv]; exact h1, ?_⟩
    unfold swipe_ids at h2 ⊢
    rw [ha, hd, hn, ho]
    exact h2
  have hi1 : i < (update_best E col_best_ i_max (st.active.getD i 0) st).active.length := by
    rw [ha]
    exact hi
  have hc : st.active.getD i 0
      = (update_best E col_best_ i_max (st.active.getD i 0) st).active.getD i 0 := by
    rw [ha]
  unfold handle_channel
  simp only []
  generalize update_best E col_best_ i_max (st.active.getD i 0) st = st1 at hinv1 hi1 hc ⊢
  clear ha hd hn ho hv hinv hi
  rw [hc]
  clear hc
  obtain ⟨added, hov, hnd⟩ := hinv1
  unfold swipe_ids at hnd
  by_cases hsat : col_best_ (st1.active.getD i 0) = E.traits.max_score
  · rw [if_pos hsat]
    refine ⟨added ++ [st1.dp_targets (st1.active.getD i 0)], ?_, ?_⟩
    · have := (reinit_channel_ids E targets i
        { st1 with overflow := st1.overflow ++ [st1.dp_targets (st1.active.getD i 0)] } hi1
        (by
          have h1 := Multiset.nodup_of_le (Multiset.le_add_right _ _) hnd
          have h2 := Multiset.nodup_of_le (Multiset.le_add_left _ _) h1
          exact Multiset.coe_nodup.1 h2)).2.1
      simp only [Run.state]
      rw [this, hov, List.append_assoc]
    · simp only [Run.state]
      refine inv_after_reinit E targets i
        { st1 with overflow := st1.overflow ++ [st1.dp_targets (st1.active.getD i 0)] } hi1
        added st1.out _ hnd ?_
      apply le_of_eq
      simp only [List.map_append, List.map_cons, List.map_nil, ← Multiset.coe_add,
        ← Multiset.cons_coe, Multiset.coe_nil, Multiset.cons_zero]
      simp only [add_assoc, add_comm, add_left_comm]
  · rw [if_neg hsat]
    obtain ⟨ka, kd, kn, ko, kv, _⟩ := inc_target_fields (st1.active.getD i 0) st1
    have hi2 : i < (inc_target (st1.active.getD i 0) st1).1.active.length := by
      rw [ka]
      exact hi1
    have hc2 : st1.active.getD i 0 = (inc_target (st1.active.getD i 0) st1).1.active.getD i 0 := by
      rw [ka]
    have hov2 : (inc_target (st1.active.getD i 0) st1).1.overflow = overflow0 ++ added := by
      rw [kv]
      exact hov
    have hnd2 : ((added.map DpTarget.target_idx : Multiset Int)
        + ((inc_target (st1.active.getD i 0) st1).1.out.map Hsp.swipe_target : Multiset Int)
        + ((inc_target (st1.active.getD i 0) st1).1.active.map
            (fun c => ((inc_target (st1.active.getD i 0) st1).1.dp_targets c).target_idx)
            : Multiset Int)
        + ((targets.drop (inc_target (st1.active.getD i 0) st1).1.next).map
            DpTarget.target_idx : Multiset Int)).Nodup := by
      rw [ka, kd, kn, ko]
      exact hnd
    have hsame : swipe_inv targets overflow0 (inc_target (st1.active.getD i 0) st1).1 :=
      ⟨added, hov2, hnd2⟩
    have hact2 : ((inc_target (st1.active.getD i 0) st1).1.active.map
        (fun c => ((inc_target (st1.active.getD i 0) st1).1.dp_targets c).target_idx)).Nodup := by
      have h1 := Multiset.nodup_of_le (Multiset.le_add_right _ _) hnd2
      have h2 := Multiset.nodup_of_le (Multiset.le_add_left _ _) h1
      exact Multiset.coe_nodup.1 h2
    generalize hr : inc_target (st1.active.getD i 0) st1 = r at hi2 hc2 hov2 hnd2 hsame hact2 ⊢
    clear ka kd kn ko kv
    by_cases hmore : r.2 = false
    · rw [if_pos hmore]
      split
      · split
        · exact hsame
        · exact hsame
        · rename_i h htb
          have htgt := (traceback_swipe_target _ _ _ _ _ _ _ _ _ _ _ _ _ _ htb).1
          simp only [Run.state]
          rw [hc2] at htgt ⊢
          refine ⟨added, ?_, ?_⟩
          · have := (reinit_channel_ids E targets i { r.1 with out := r.1.out ++ [h] } hi2
              hact2).2.1
            rw [this]
            exact hov2
          · refine inv_after_reinit E targets i { r.1 with out := r.1.out ++ [h] } hi2
              added r.1.out _ hnd2 ?_
            apply le_of_eq
            simp only [List.map_append, List.map_cons, List.map_nil, ← Multiset.coe_add,
              ← Multiset.cons_coe, Multiset.coe_nil, Multiset.cons_zero, htgt]
            simp only [add_assoc, add_comm, add_left_comm]
      · simp only [Run.state]
        rw [hc2]
        refine ⟨added, ?_, ?_⟩
        · have := (reinit_channel_ids E targets i r.1 hi2 hact2).2.1
          rw [this]
          exact hov2
        · exact inv_after_reinit E targets i r.1 hi2 added r.1.out _ hnd2
            (Multiset.le_add_right _ _)
    · rw [if_neg hmore]
      exact hsame

theorem channel_loop_inv {D It EV : Type} (E : SwipeEnv D It EV) (fuel : Nat)
    (query : List Nat) (query_string : String) (frame : Int) (targets : List DpTarget)
    (col_best_ i_max : Nat → Int) (overflow0 : List DpTarget) :
    ∀ (rounds i : Nat) (st : SwipeState D EV), swipe_inv targets overflow0 st →
      swipe_inv targets overflow0
        (channel_loop E fuel query query_string frame targets col_best_ i_max rounds i
          st).state := by
  intro rounds
  induction rounds with
  | zero => intro i st h; exact h
  | succ rounds ih =>
    intro i st h
    unfold channel_loop
    by_cases hi : i < st.active.length
    · rw [if_pos hi]
      have hstep := handle_channel_inv E fuel query query_string frame targets col_best_ i_max
        i st overflow0 hi h
      split
      · rename_i r hr
        rw [hr] at hstep
        exact ih _ _ hstep
      · rename_i e r hr
        rw [hr] at hstep
        exact hstep
      · rename_i r hr
        rw [hr] at hstep
        exact hstep
    · rw [if_neg hi]
      exact h

theorem swipe_column_inv {D It EV : Type} (E : SwipeEnv D It EV) (fuel : Nat)
    (query : List Nat) (query_string : String) (frame : Int) (targets : List DpTarget)
    (overflow0 : List DpTarget) (st : SwipeState D EV) (h : swipe_inv targets overflow0 st) :
    swipe_inv targets overflow0
      (swipe_column E fuel query query_string frame targets st).state := by
  unfold swipe_column
  simp only []
  have h1 : swipe_inv targets overflow0 { st with dp := (E.column query st).dp } := h
  have h2 := channel_loop_inv E fuel query query_string frame targets
    (E.column query st).col_best_ (E.column query st).i_max overflow0 st.active.length 0 _ h1
  split
  · rename_i st2 hr
    rw [hr] at h2
    exact h2
  · rename_i e st2 hr
    rw [hr] at h2
    exact h2
  · rename_i st2 hr
    rw [hr] at h2
    exact h2

theorem swipe_loop_inv {D It EV : Type} (E : SwipeEnv D It EV) (query : List Nat)
    (query_string : String) (frame : Int) (targets : List DpTarget)
    (overflow0 : List DpTarget) :
    ∀ (fuel : Nat) (st : SwipeState D EV), swipe_inv targets overflow0 st →
      swipe_inv targets overflow0
        (swipe_loop E query query_string frame targets fuel st).state := by
  intro fuel
  induction fuel with
  | zero => intro st h; exact h
  | succ fuel ih =>
    intro st h
    unfold swipe_loop
    by_cases ha : st.active.length > 0
    · rw [if_pos ha]
      have h2 := swipe_column_inv E (fuel + 1) query query_string frame targets overflow0 st h
      split
      · rename_i st1 hr
        rw [hr] at h2
        exact ih _ h2
      · rename_i e st1 hr
        rw [hr] at h2
        exact h2
      · rename_i st1 hr
        rw [hr] at h2
        exact h2
    · rw [if_neg ha]
      exact h

theorem init_buffer_ids {D EV : Type} (targets : List DpTarget) :
    ∀ (n : Nat) (st : SwipeState D EV), (∀ c ∈ st.active, c < 0) →
      (init_buffer targets n st).out = st.out ∧
      (init_buffer targets n st).overflow = st.overflow ∧
      (∀ c ∈ (init_buffer targets n st).active, c < n) ∧
      (((init_buffer targets n st).active.map
          (fun c => ((init_buffer targets n st).dp_targets c).target_idx) : List Int)
          : Multiset Int)
        + (((targets.drop (init_buffer targets n st).next).map DpTarget.target_idx : List Int)
          : Multiset Int)
        = ((st.active.map (fun c => (st.dp_targets c).target_idx) : List Int) : Multiset Int)
          + (((targets.drop st.next).map DpTarget.target_idx : List Int) : Multiset Int) := by
  intro n
  induction n with
  | zero =>
    intro st h
    exact ⟨rfl, rfl, h, rfl⟩
  | succ n ih =>
    intro st h
    obtain ⟨h1, h2, h3, h4⟩ := ih st h
    unfold init_buffer at h1 h2 h3 h4 ⊢
    rw [List.range_succ, List.foldl_append]
    simp only [List.foldl_cons, List.foldl_nil]
    generalize List.foldl _ st (List.range n) = s1 at h1 h2 h3 h4 ⊢
    cases hget : targets[s1.next]? with
    | none =>
      simp only []
      exact ⟨h1, h2, fun c hc => Nat.lt_succ_of_lt (h3 c hc), h4⟩
    | some t =>
      obtain ⟨hlt, hget2⟩ := List.getElem?_eq_some_iff.1 hget
      have hd : targets.drop s1.next = t :: targets.drop (s1.next + 1) := by
        rw [List.drop_eq_getElem_cons hlt, hget2]
      have hfresh : n ∉ s1.active := fun hm => Nat.lt_irrefl _ (h3 n hm)
      simp only []
      refine ⟨h1, h2, ?_, ?_⟩
      · intro c hc
        rw [List.mem_append, List.mem_singleton] at hc
        rcases hc with hc | hc
        · exact Nat.lt_succ_of_lt (h3 c hc)
        · rw [hc]
          exact Nat.lt_succ_self n
      · rw [← h4, hd, List.map_append, map_set_at_of_not_mem _ _ DpTarget.target_idx _ _ hfresh]
        simp only [List.map_cons, List.map_nil, set_at, if_true, ← Multiset.coe_add,
          ← Multiset.cons_coe, Multiset.coe_nil, Multiset.cons_zero]
        simp only [← Multiset.singleton_add, add_assoc, add_comm, add_left_comm]

theorem reinit_channel_cases {D It EV : Type} (E : SwipeEnv D It EV) (targets : List DpTarget)
    (i c : Nat) (st : SwipeState D EV) :
    (reinit_channel E targets i c st).1.out = st.out ∧
    (reinit_channel E targets i c st).1.overflow = st.overflow ∧
    ((∃ t, targets[st.next]? = some t ∧
        (reinit_channel E targets i c st).1.active = st.active ∧
        (reinit_channel E targets i c st).1.dp_targets c = t ∧
        (reinit_channel E targets i c st).1.pos c = 0 ∧
        (reinit_channel E targets i c st).1.best c = E.traits.zero_score ∧
        (reinit_channel E targets i c st).2 = i + 1) ∨
     (targets[st.next]? = none ∧
        (reinit_channel E targets i c st).1.active = st.active.eraseIdx i ∧
        (reinit_channel E targets i c st).2 = i)) := by
  unfold reinit_channel init_target
  cases hget : targets[st.next]? with
  | none => simp
  | some t => simp [set_at]

/-- C9. Overflow handling in `swipe`. After a column, for an active channel whose column best
equals `ScoreTraits::max_score()`, the handling of the channel appends the channel's `DpTarget`
to the overflow list exactly once, appends no `Hsp` (whatever the position of the target, also
at its last column) and reinitialises the channel: it takes the next pending target at
position 0 with the zero score, or it leaves `active` when the worklist is empty. For a column
best different from `max_score()` the overflow list is unchanged. Within one call of `swipe`
over a worklist with distinct target indices, the targets added to the overflow list have
distinct indices, and none of them is the `swipe_target` of a returned `Hsp`. -/
theorem swipe_overflow {D It EV : Type} (E : SwipeEnv D It EV) (fuel : Nat) (query : List Nat)
    (query_string : String) (frame : Int) (targets : List DpTarget) :
    (∀ (col_best_ i_max : Nat → Int) (i : Nat) (st : SwipeState D EV), i < st.active.length →
      col_best_ (st.active.getD i 0) = E.traits.max_score →
      ∃ (st1 : SwipeState D EV) (i1 : Nat),
        handle_channel E fuel query query_string frame targets col_best_ i_max i st
          = Run.done (st1, i1) ∧
        st1.overflow = st.overflow ++ [st.dp_targets (st.active.getD i 0)] ∧
        st1.out = st.out ∧
        ((∃ t, targets[st.next]? = some t ∧ st1.active = st.active ∧
            st1.dp_targets (st.active.getD i 0) = t ∧ st1.pos (st.active.getD i 0) = 0 ∧
            st1.best (st.active.getD i 0) = E.traits.zero_score ∧ i1 = i + 1) ∨
         (targets[st.next]? = none ∧ st1.active = st.active.eraseIdx i ∧ i1 = i))) ∧
    (∀ (col_best_ i_max : Nat → Int) (i : Nat) (st : SwipeState D EV),
      col_best_ (st.active.getD i 0) ≠ E.traits.max_score →
      (handle_channel E fuel query query_string frame targets col_best_ i_max i
        st).state.1.overflow = st.overflow) ∧
    (∀ (next : Nat) (overflow : List DpTarget) (junk : Nat → Int) (idle : DpTarget)
        (r : SwipeResult EV),
      (targets.map DpTarget.target_idx).Nodup →
      swipe E fuel query query_string frame targets next overflow junk idle = some r →
      ∃ added : List DpTarget, r.overflow = overflow ++ added ∧
        (added.map DpTarget.target_idx).Nodup ∧
        ∀ hsps, r.result = Except.ok hsps →
          ∀ h ∈ hsps, ∀ t ∈ added, h.swipe_target ≠ t.target_idx) := by
  refine ⟨?_, ?_, ?_⟩
  · intro col_best_ i_max i st hi hsat
    obtain ⟨ha, hd, hn, ho, hv, _⟩ := update_best_fields E col_best_ i_max (st.active.getD i 0) st
    obtain ⟨st2, hst2⟩ : ∃ st2 : SwipeState D EV, st2 =
        { update_best E col_best_ i_max (st.active.getD i 0) st with
          overflow := (update_best E col_best_ i_max (st.active.getD i 0) st).overflow
            ++ [(update_best E col_best_ i_max (st.active.getD i 0) st).dp_targets
                (st.active.getD i 0)] } := ⟨_, rfl⟩
    have hrun : handle_channel E fuel query query_string frame targets col_best_ i_max i st
        = Run.done (reinit_channel E targets i (st.active.getD i 0) st2) := by
      unfold handle_channel
      simp only [hsat, if_true]
      rw [hst2]
    have f1 : st2.overflow = st.overflow ++ [st.dp_targets (st.active.getD i 0)] := by
      rw [hst2]
      simp only [hv, hd]
    have f2 : st2.out = st.out := by rw [hst2]; exact ho
    have f3 : st2.next = st.next := by rw [hst2]; exact hn
    have f4 : st2.active = st.active := by rw [hst2]; exact ha
    obtain ⟨h1, h2, h3⟩ := reinit_channel_cases E targets i (st.active.getD i 0) st2
    refine ⟨(reinit_channel E targets i (st.active.getD i 0) st2).1,
      (reinit_channel E targets i (st.active.getD i 0) st2).2, hrun, ?_, ?_, ?_⟩
    · rw [h2, f1]
    · rw [h1, f2]
    · rw [f3, f4] at h3
      exact h3
  · intro col_best_ i_max i st hsat
    obtain ⟨_, _, _, _, hv, _⟩ := update_best_fields E col_best_ i_max (st.active.getD i 0) st
    obtain ⟨_, _, _, _, kv, _⟩ := inc_target_fields (st.active.getD i 0)
      (update_best E col_best_ i_max (st.active.getD i 0) st)
    unfold handle_channel
    simp only [hsat, if_false]
    split
    · split
      · split
        · simp only [Run.state]
          rw [kv, hv]
        · simp only [Run.state]
          rw [kv, hv]
        · simp only [Run.state]
          rw [(reinit_channel_cases E targets i _ _).2.1]
          simp only []
          rw [kv, hv]
      · simp only [Run.state]
        rw [(reinit_channel_cases E targets i _ _).2.1, kv, hv]
    · simp only [Run.state]
      rw [kv, hv]
  · intro next overflow junk idle r hnodup hr
    unfold swipe at hr
    simp only [] at hr
    split at hr
    · simp only [Option.some.injEq] at hr
      rw [← hr]
      exact ⟨[], by simp, by simp, by intro hsps h; simp at h⟩
    · split at hr
      · simp only [Option.some.injEq] at hr
        rw [← hr]
        exact ⟨[], by simp, by simp, by intro hsps h; simp at h⟩
      · have hinv0 : swipe_inv targets overflow
            (swipe_start E query targets next overflow junk idle) := by
          unfold swipe_start
          obtain ⟨b1, b2, _, b4⟩ := init_buffer_ids targets E.traits.CHANNELS
            ({ active := []
               pos := fun _ => 0
               dp_targets := fun _ => idle
               next := next
               best := fun _ => E.traits.zero_score
               max_col := junk
               max_i := junk
               max_j := junk
               dp := E.new_matrix (to_int32 query.length) (max_len targets)
               col := 0
               out := []
               overflow := overflow } : SwipeState D EV) (by simp)
          refine ⟨[], by rw [b2]; simp, ?_⟩
          unfold swipe_ids
          rw [b1]
          simp only [List.map_nil, Multiset.coe_nil, zero_add]
          rw [b4]
          simp only [List.map_nil, Multiset.coe_nil, zero_add, Multiset.coe_nodup]
          exact List.Nodup.sublist (List.Sublist.map _ (List.drop_sublist _ _)) hnodup
        have hfin := swipe_loop_inv E query query_string frame targets overflow fuel _ hinv0
        have hkey : ∀ st : SwipeState D EV, swipe_inv targets overflow st →
            ∃ added : List DpTarget, st.overflow = overflow ++ added ∧
              (added.map DpTarget.target_idx).Nodup ∧
              ∀ h ∈ st.out, ∀ t ∈ added, h.swipe_target ≠ t.target_idx := by
          intro st ⟨added, e1, e2⟩
          refine ⟨added, e1, ?_, ?_⟩
          · unfold swipe_ids at e2
            have h1 := Multiset.nodup_of_le (Multiset.le_add_right _ _) e2
            have h2 := Multiset.nodup_of_le (Multiset.le_add_right _ _) h1
            have h3 := Multiset.nodup_of_le (Multiset.le_add_right _ _) h2
            exact Multiset.coe_nodup.1 h3
          · intro h hh t ht heq
            unfold swipe_ids at e2
            have h1 := Multiset.nodup_of_le (Multiset.le_add_right _ _) e2
            have h2 := Multiset.nodup_of_le (Multiset.le_add_right _ _) h1
            rw [Multiset.coe_add, Multiset.coe_nodup, List.nodup_append] at h2
            exact h2.2.2 (List.mem_map.2 ⟨t, ht, rfl⟩) (List.mem_map.2 ⟨h, hh, heq⟩)
        split at hr
        · rename_i st hrun
          rw [hrun] at hfin
          obtain ⟨added, e1, e2, e3⟩ := hkey st hfin
          simp only [Option.some.injEq] at hr
          rw [← hr]
          refine ⟨added, e1, e2, ?_⟩
          intro hsps hh
          simp only [Except.ok.injEq] at hh
          rw [← hh]
          exact e3
        · rename_i e st hrun
          rw [hrun] at hfin
          obtain ⟨added, e1, e2, _⟩ := hkey st hfin
          simp only [Option.some.injEq] at hr
          rw [← hr]
          exact ⟨added, e1, e2, by intro hsps hh; simp at hh⟩
        · simp at hr

/-- C9, witness: the run over the example worklist (distinct target indices) puts the
saturating target 11 on the overflow list and reports the targets 10 and 12. -/
theorem swipe_overflow_witness :
    ∃ r, swipe example_swipe_env 20 [1, 2, 3, 4] "q" 0 example_targets 0 [] (fun _ => 0)
        (plain_target [] 0) = some r ∧
      r.overflow = [plain_target [5, 127, 1] 11] ∧
      ∃ added : List DpTarget, r.overflow = [] ++ added ∧
        (added.map DpTarget.target_idx).Nodup ∧
        ∀ hsps, r.result = Except.ok hsps →
          ∀ h ∈ hsps, ∀ t ∈ added, h.swipe_target ≠ t.target_idx :=
  ⟨_, rfl, rfl,
    (swipe_overflow example_swipe_env 20 [1, 2, 3, 4] "q" 0 example_targets).2.2 0 []
      (fun _ => 0) (plain_target [] 0) _ (by decide) rfl⟩

/-- C15 (amended). `ungapped_window(query_len)` returns `query_len` for every query of length at
most `SHORT_QUERY_LEN = 85` when the query is translated (`align_mode.query_translated`); it
returns `config.ungapped_window` for every longer query and for every query that is not
translated, whatever its length. -/
theorem ungapped_window_cases (config : Config) (query_len : Int) :
    SHORT_QUERY_LEN = 85 ∧
    (query_len ≤ 85 ∧ config.query_translated = true →
      ungapped_window config query_len = query_len) ∧
    (85 < query_len → ungapped_window config query_len = config.ungapped_window) ∧
    (config.query_translated = false →
      ungapped_window config query_len = config.ungapped_window) := by
  refine ⟨rfl, fun h => ?_, fun h => ?_, fun h => ?_⟩
  · simp [ungapped_window, SHORT_QUERY_LEN, h.1, h.2]
  · have h1 : ¬ query_len ≤ 85 := not_le.mpr h
    simp [ungapped_window, SHORT_QUERY_LEN, h1]
  · simp [ungapped_window, h]

/-- C15, the claim as written fails: a query of length 40 that is not translated is short, and
`ungapped_window` returns the configured window 48 for it, not 40. -/
theorem ungapped_window_untranslated :
    (40 : Int) ≤ SHORT_QUERY_LEN ∧ ungapped_window protein_config 40 = 48 ∧
    ¬ (∀ (config : Config) (query_len : Int), query_len ≤ SHORT_QUERY_LEN →
        ungapped_window config query_len = query_len) := by
  refine ⟨by decide, by decide, fun h => ?_⟩
  have h1 := h protein_config 40 (by decide)
  revert h1
  decide

/-- C19. `ungapped_cutoff` (default build) takes exactly one of three cases, which cover every
query length: the short-query constant when `query_len <= config.short_query_max_len`;
otherwise `cutoff_table_short(query_len)` when `query_len <= 85` and the query is translated;
otherwise `cutoff_table(query_len)`. The constant takes precedence over both tables. -/
theorem ungapped_cutoff_cases (config : Config) (query_len : Int) (context : Context) :
    SHORT_QUERY_LEN = 85 ∧
    (query_len ≤ config.short_query_max_len →
      ungapped_cutoff config query_len context = context.short_query_ungapped_cutoff) ∧
    (config.short_query_max_len < query_len → query_len ≤ 85 ∧ config.query_translated = true →
      ungapped_cutoff config query_len context = context.cutoff_table_short query_len) ∧
    (config.short_query_max_len < query_len →
      ¬ (query_len ≤ 85 ∧ config.query_translated = true) →
      ungapped_cutoff config query_len context = context.cutoff_table query_len) ∧
    (query_len ≤ config.short_query_max_len ∨
      (config.short_query_max_len < query_len ∧
        (query_len ≤ 85 ∧ config.query_translated = true)) ∨
      (config.short_query_max_len < query_len ∧
        ¬ (query_len ≤ 85 ∧ config.query_translated = true))) := by
  refine ⟨rfl, fun h => ?_, fun h1 h2 => ?_, fun h1 h2 => ?_, ?_⟩
  · simp [ungapped_cutoff, h]
  · have h3 : ¬ query_len ≤ config.short_query_max_len := not_le.mpr h1
    simp [ungapped_cutoff, SHORT_QUERY_LEN, h3, h2.1, h2.2]
  · have h3 : ¬ query_len ≤ config.short_query_max_len := not_le.mpr h1
    unfold ungapped_cutoff
    rw [if_neg h3, if_neg]
    simpa [SHORT_QUERY_LEN] using h2
  · by_cases h : query_len ≤ config.short_query_max_len
    · exact Or.inl h
    · by_cases h2 : query_len ≤ 85 ∧ config.query_translated = true
      · exact Or.inr (Or.inl ⟨not_le.mp h, h2⟩)
      · exact Or.inr (Or.inr ⟨not_le.mp h, h2⟩)

/-- C18. Left-most interval in `search_query_offset`: `interval_mod` is
`seed_offset mod left_most_interval` for a positive interval and `window_left` for the interval
zero, and `interval_overhang = max(window_left - interval_mod, 0)`. For every query location
with `window_left >= 0` this gives `0 <= interval_overhang <= window_left` and
`window_left - interval_overhang = min(window_left, interval_mod)`, and for the interval zero
the overhang is 0. -/
theorem search_query_offset_interval {FP : Type} (E : Env FP) (q : Nat) (context : Context)
    (shape_id : Nat) (hw : 0 ≤ (query_locals E q context shape_id).window_left) :
    (query_locals E q context shape_id).interval_overhang
      = max ((query_locals E q context shape_id).window_left
          - interval_mod E.config (query_locals E q context shape_id).seed_offset
              (query_locals E q context shape_id).window_left) 0 ∧
    (0 < E.config.left_most_interval →
      interval_mod E.config (query_locals E q context shape_id).seed_offset
          (query_locals E q context shape_id).window_left
        = ((query_locals E q context shape_id).seed_offset : Int)
            % E.config.left_most_interval) ∧
    (E.config.left_most_interval = 0 →
      interval_mod E.config (query_locals E q context shape_id).seed_offset
          (query_locals E q context shape_id).window_left
        = (query_locals E q context shape_id).window_left) ∧
    0 ≤ (query_locals E q context shape_id).interval_overhang ∧
    (query_locals E q context shape_id).interval_overhang
      ≤ (query_locals E q context shape_id).window_left ∧
    (query_locals E q context shape_id).window_left
        - (query_locals E q context shape_id).interval_overhang
      = min (query_locals E q context shape_id).window_left
          (interval_mod E.config (query_locals E q context shape_id).seed_offset
            (query_locals E q context shape_id).window_left) ∧
    (E.config.left_most_interval = 0 →
      (query_locals E q context shape_id).interval_overhang = 0) := by
  have h0 : (query_locals E q context shape_id).interval_overhang
      = max ((query_locals E q context shape_id).window_left
          - interval_mod E.config (query_locals E q context shape_id).seed_offset
              (query_locals E q context shape_id).window_left) 0 := rfl
  generalize (query_locals E q context shape_id).interval_overhang = ov at h0 ⊢
  generalize (query_locals E q context shape_id).window_left = wl at h0 hw ⊢
  generalize (query_locals E q context shape_id).seed_offset = so at h0 ⊢
  have hm : 0 ≤ interval_mod E.config so wl := by
    unfold interval_mod
    split
    · rename_i hpos
      exact Int.emod_nonneg _ (ne_of_gt hpos)
    · exact hw
  have hz : E.config.left_most_interval = 0 → interval_mod E.config so wl = wl := by
    intro h
    simp [interval_mod, h]
  refine ⟨h0, fun h => ?_, hz, ?_, ?_, ?_, fun h => ?_⟩
  · simp [interval_mod, h]
  · rw [h0]; exact le_max_right _ _
  · rw [h0]; exact max_le (by omega) hw
  · rw [h0]
    rcases le_total (wl - interval_mod E.config so wl) 0 with h | h
    · rw [max_eq_right h, min_eq_left (by omega)]; omega
    · rw [max_eq_left h, min_eq_right (by omega)]; omega
  · rw [h0, hz h]; simp

/-- C18, witness: the query location 123 of the example, where the window margin is 8 and the
interval is zero. -/
theorem search_query_offset_interval_witness :
    (query_locals example_env 123 example_work_set.context 0).interval_overhang = 0 ∧
    (query_locals example_env 123 example_work_set.context 0).window_left = 8 :=
  ⟨(search_query_offset_interval example_env 123 example_work_set.context 0
      (by decide)).2.2.2.2.2.2 rfl, by decide⟩

theorem traceback_walk_score {D It EV : Type} (E : SwipeEnv D It EV) (query : List Nat)
    (target : DpTarget) (channel : Nat) (end_score : Int) (fuel : Nat) :
    ∀ (w w1 : WalkState It), traceback_walk E query target channel end_score fuel w = some w1 →
      w1.score = w.score
        + path_score E query target (walk_path E query target channel end_score fuel w) := by
  induction fuel with
  | zero => intro w w1 h; simp [traceback_walk] at h
  | succ n ih =>
    intro w w1 h
    unfold traceback_walk at h
    unfold walk_path
    by_cases hc : E.ops.i w.it ≥ 0 ∧ E.ops.j w.it ≥ 0 ∧ w.score < end_score
    · rw [if_pos hc] at h ⊢
      by_cases hg : E.ops.gap w.it channel = false
      · rw [if_pos hg] at h ⊢
        have h2 := ih _ _ h
        rw [h2]
        simp only [path_score, List.map_cons, List.sum_cons, step_score]
        by_cases ha : target.adjusted_matrix = true
        · simp only [ha, if_true]; ring
        · simp only [ha, if_false]
          simp only [Bool.false_eq_true, if_false]
          ring
      · rw [if_neg hg] at h ⊢
        have h2 := ih _ _ h
        rw [h2]
        simp only [path_score, List.map_cons, List.sum_cons, step_score]
        ring
    · rw [if_neg hc] at h ⊢
      simp only [Option.some.injEq] at h
      simp [path_score, h]

theorem traceback_walk_stops {D It EV : Type} (E : SwipeEnv D It EV) (query : List Nat)
    (target : DpTarget) (channel : Nat) (end_score : Int) (fuel : Nat) :
    ∀ (w w1 : WalkState It), traceback_walk E query target channel end_score fuel w = some w1 →
      walk_continues E end_score w1 = false := by
  induction fuel with
  | zero => intro w w1 h; simp [traceback_walk] at h
  | succ n ih =>
    intro w w1 h
    unfold traceback_walk at h
    by_cases hc : E.ops.i w.it ≥ 0 ∧ E.ops.j w.it ≥ 0 ∧ w.score < end_score
    · rw [if_pos hc] at h
      by_cases hg : E.ops.gap w.it channel = false
      · rw [if_pos hg] at h
        exact ih _ _ h
      · rw [if_neg hg] at h
        exact ih _ _ h
    · rw [if_neg hc] at h
      simp only [Option.some.injEq] at h
      rw [← h]
      simp only [walk_continues, decide_eq_false_iff_not]
      exact hc

theorem traceback_walk_measure {D It EV : Type} (E : SwipeEnv D It EV) (query : List Nat)
    (target : DpTarget) (channel : Nat) (end_score : Int) (μ : It → Nat)
    (hμ : ∀ it, 0 ≤ E.ops.i it → 0 ≤ E.ops.j it →
      μ (E.ops.walk_diagonal it) < μ it ∧ μ (E.ops.walk_gap it).2 < μ it) (fuel : Nat) :
    ∀ (w : WalkState It), μ w.it < fuel →
      ∃ w1, traceback_walk E query target channel end_score fuel w = some w1 := by
  induction fuel with
  | zero => intro w h; omega
  | succ n ih =>
    intro w h
    unfold traceback_walk
    by_cases hc : E.ops.i w.it ≥ 0 ∧ E.ops.j w.it ≥ 0 ∧ w.score < end_score
    · rw [if_pos hc]
      have h2 := hμ w.it hc.1 hc.2.1
      by_cases hg : E.ops.gap w.it channel = false
      · rw [if_pos hg]
        exact ih _ (by simp only; omega)
      · rw [if_neg hg]
        exact ih _ (by simp only; omega)
    · rw [if_neg hc]
      exact ⟨w, rfl⟩

/-- C11. The traceback over a `TracebackVectorMatrix`: once the backward walk has ended, the
running score is the recomputed score of the path walked (the substitution scores of the
aligned pairs, bias-corrected unless the target has an adjusted matrix, minus the gap costs);
the function returns an `Hsp` if and only if that score equals the stored best score, and
otherwise it throws the `runtime_error` "Traceback error. " followed by the query. So every
`Hsp` returned has a path whose recomputed score is the best score. -/
theorem traceback_vector_check {D It EV : Type} (E : SwipeEnv D It EV) (fuel : Nat)
    (query : List Nat) (query_string : String) (frame : Int) (dp : D) (target : DpTarget)
    (max_score : Int) (evalue : EV) (max_col max_i max_j : Int) (channel : Nat)
    (w : WalkState It)
    (hw : traceback_walk E query target channel (E.traits.int_score max_score) fuel
      ⟨E.ops.start dp max_col max_i max_j channel, 0, []⟩ = some w) :
    w.score = path_score E query target
      (walk_path E query target channel (E.traits.int_score max_score) fuel
        ⟨E.ops.start dp max_col max_i max_j channel, 0, []⟩) ∧
    ((∃ h, traceback_vector E fuel query query_string frame dp target max_score evalue max_col
        max_i max_j channel = some (Except.ok h)) ↔ w.score = E.traits.int_score max_score) ∧
    (w.score ≠ E.traits.int_score max_score →
      traceback_vector E fuel query query_string frame dp target max_score evalue max_col
        max_i max_j channel = some (Except.error (SwipeError.traceback query_string))) ∧
    (SwipeError.traceback query_string).what = "Traceback error. " ++ query_string ∧
    (∀ h, traceback_vector E fuel query query_string frame dp target max_score evalue max_col
        max_i max_j channel = some (Except.ok h) →
      path_score E query target
        (walk_path E query target channel (E.traits.int_score max_score) fuel
          ⟨E.ops.start dp max_col max_i max_j channel, 0, []⟩) = E.traits.int_score max_score) := by
  have hs := traceback_walk_score E query target channel (E.traits.int_score max_score) fuel _ _ hw
  simp only [zero_add] at hs
  have hiff : (∃ h, traceback_vector E fuel query query_string frame dp target max_score evalue
      max_col max_i max_j channel = some (Except.ok h)) ↔
      w.score = E.traits.int_score max_score := by
    unfold traceback_vector
    simp only [hw]
    by_cases hsc : w.score = E.traits.int_score max_score
    · simp [hsc]
    · simp [hsc]
  refine ⟨hs, hiff, fun hne => ?_, rfl, fun h hh => ?_⟩
  · unfold traceback_vector
    simp only [hw]
    simp [hne]
  · rw [← hs]
    exact hiff.mp ⟨h, hh⟩

/-- C11, witness: in the example engine with traceback the walk from the cell (3, 3) up to the
best score 2 takes two diagonal steps, and an `Hsp` is returned. -/
theorem traceback_vector_check_witness :
    ∃ h, traceback_vector example_traceback_env 5 [0, 0, 0, 0] "q" 0 () carry_target 2 2 0 3 3 0
      = some (Except.ok h) :=
  (traceback_vector_check example_traceback_env 5 [0, 0, 0, 0] "q" 0 () carry_target 2 2 0 3 3 0
    ⟨(1, 1), 2, [TranscriptEntry.matched 0 0 true, TranscriptEntry.matched 0 0 true]⟩
    rfl).2.1.mpr rfl

/-- C12 (amended). For a `DpTarget` that carries carry-over state (`carry_over.i1 != 0`), the
`Hsp` of the score-only traceback has `query_range.end_ = carry_over.i1` and
`subject_range.end_ = carry_over.j1`, not `max_i + 1` and `max_j + 1`. The traceback over a
`TracebackVectorMatrix` does not read the carry-over state: the end coordinates of every `Hsp`
it returns are those of the start of the iterator, `it.i + 1` and `it.j + 1`. -/
theorem traceback_carry_over_end {D It EV : Type} (E : SwipeEnv D It EV) (fuel : Nat)
    (query : List Nat) (query_string : String) (frame : Int) (dp : D) (target : DpTarget)
    (max_score : Int) (evalue : EV) (max_col max_i max_j : Int) (channel : Nat)
    (hc : target.carry_over.i1 ≠ 0) :
    (traceback_score E query frame target max_score evalue max_i max_j).query_range.end_
      = target.carry_over.i1 ∧
    (traceback_score E query frame target max_score evalue max_i max_j).subject_range.end_
      = target.carry_over.j1 ∧
    (∀ h, traceback_vector E fuel query query_string frame dp target max_score evalue max_col
        max_i max_j channel = some (Except.ok h) →
      h.query_range.end_ = E.ops.i (E.ops.start dp max_col max_i max_j channel) + 1 ∧
      h.subject_range.end_ = E.ops.j (E.ops.start dp max_col max_i max_j channel) + 1) := by
  refine ⟨?_, ?_, fun h hh => ?_⟩
  · simp [traceback_score, hc]
  · simp [traceback_score, hc]
  · unfold traceback_vector at hh
    cases hwk : traceback_walk E query target channel (E.traits.int_score max_score) fuel
        ⟨E.ops.start dp max_col max_i max_j channel, 0, []⟩ with
    | none => simp [hwk] at hh
    | some w =>
      simp only [hwk] at hh
      by_cases hsc : w.score ≠ E.traits.int_score max_score
      · rw [if_pos hsc] at hh
        simp at hh
      · rw [if_neg hsc] at hh
        simp only [Option.some.injEq, Except.ok.injEq] at hh
        rw [← hh]
        exact ⟨rfl, rfl⟩

/-- C12, witness: the score-only traceback of the target with the carry-over end coordinates 7
and 9. -/
theorem traceback_carry_over_end_witness :
    (traceback_score example_swipe_env [0, 0, 0, 0] 0 carry_target 2 2 3 3).query_range.end_ = 7 ∧
    (traceback_score example_swipe_env [0, 0, 0, 0] 0 carry_target 2 2 3 3).subject_range.end_
      = 9 :=
  ⟨(traceback_carry_over_end example_swipe_env 5 [0, 0, 0, 0] "q" 0 () carry_target 2 2 0 3 3 0
      (by decide)).1,
   (traceback_carry_over_end example_swipe_env 5 [0, 0, 0, 0] "q" 0 () carry_target 2 2 0 3 3 0
      (by decide)).2.1⟩

/-- C12, the claim as written fails for the overload over a `TracebackVectorMatrix`: for a
target with the carry-over end coordinates 7 and 9 and the best score at row 3 and position 3,
the `Hsp` returned has the end coordinates 4 and 4. -/
theorem traceback_vector_ignores_carry_over :
    carry_target.carry_over.i1 = 7 ∧ carry_target.carry_over.j1 = 9 ∧
    ∃ h, traceback_vector example_traceback_env 5 [0, 0, 0, 0] "q" 0 () carry_target 2 2 0 3 3 0
        = some (Except.ok h) ∧
      h.query_range.end_ = 4 ∧ h.subject_range.end_ = 4 ∧
      h.query_range.end_ ≠ carry_target.carry_over.i1 ∧
      h.subject_range.end_ ≠ carry_target.carry_over.j1 :=
  ⟨rfl, rfl, _, rfl, rfl, rfl, by decide, by decide⟩

/-- C17. The score-only traceback (the overload over `Matrix<Cell>`): for a target with
carry-over state (`carry_over.i1 != 0`) the end coordinates, identities and length of the `Hsp`
are `carry_over.i1`, `carry_over.j1`, `carry_over.ident` and `carry_over.len`, and the begin
coordinates are `query.length() - 1 - max_i` and `target.seq.length() - 1 - max_j`; for a
target without carry-over the end coordinates are `max_i + 1` and `max_j + 1` and the begin
coordinates and the counters keep their defaults. -/
theorem traceback_score_coordinates {D It EV : Type} (E : SwipeEnv D It EV) (query : List Nat)
    (frame : Int) (target : DpTarget) (max_score : Int) (evalue : EV) (max_i max_j : Int) :
    (target.carry_over.i1 ≠ 0 →
      (traceback_score E query frame target max_score evalue max_i max_j).query_range.end_
        = target.carry_over.i1 ∧
      (traceback_score E query frame target max_score evalue max_i max_j).subject_range.end_
        = target.carry_over.j1 ∧
      (traceback_score E query frame target max_score evalue max_i max_j).identities
        = target.carry_over.ident ∧
      (traceback_score E query frame target max_score evalue max_i max_j).length
        = target.carry_over.len ∧
      (traceback_score E query frame target max_score evalue max_i max_j).query_range.begin_
        = to_int32 query.length - 1 - max_i ∧
      (traceback_score E query frame target max_score evalue max_i max_j).subject_range.begin_
        = to_int32 target.seq.length - 1 - max_j) ∧
    (target.carry_over.i1 = 0 →
      (traceback_score E query frame target max_score evalue max_i max_j).query_range.end_
        = max_i + 1 ∧
      (traceback_score E query frame target max_score evalue max_i max_j).subject_range.end_
        = max_j + 1 ∧
      (traceback_score E query frame target max_score evalue max_i max_j).query_range.begin_ = 0 ∧
      (traceback_score E query frame target max_score evalue max_i max_j).subject_range.begin_
        = 0 ∧
      (traceback_score E query frame target max_score evalue max_i max_j).identities = 0 ∧
      (traceback_score E query frame target max_score evalue max_i max_j).length = 0) := by
  refine ⟨fun hc => ?_, fun hc => ?_⟩
  · simp [traceback_score, hc]
  · simp [traceback_score, hc]

/-- C20 (amended). The backward walk of the traceback over a `TracebackVectorMatrix` ends when
the running recomputed score is no longer below the stored best score (it counts up from zero)
or when the query or subject coordinate is below 0: it takes no step once either condition
holds, it takes a step as long as neither holds, and the state it ends in satisfies one of them.
With an iterator whose steps decrease a measure while both coordinates are at least 0, the walk
ends. -/
theorem traceback_walk_termination {D It EV : Type} (E : SwipeEnv D It EV) (query : List Nat)
    (target : DpTarget) (channel : Nat) (end_score : Int) :
    (∀ (fuel : Nat) (w : WalkState It),
      (E.ops.i w.it < 0 ∨ E.ops.j w.it < 0 ∨ end_score ≤ w.score) →
      traceback_walk E query target channel end_score (fuel + 1) w = some w ∧
      walk_path E query target channel end_score (fuel + 1) w = []) ∧
    (∀ (fuel : Nat) (w : WalkState It),
      (0 ≤ E.ops.i w.it ∧ 0 ≤ E.ops.j w.it ∧ w.score < end_score) →
      walk_path E query target channel end_score (fuel + 1) w ≠ []) ∧
    (∀ (fuel : Nat) (w w1 : WalkState It),
      traceback_walk E query target channel end_score fuel w = some w1 →
      (E.ops.i w1.it < 0 ∨ E.ops.j w1.it < 0 ∨ end_score ≤ w1.score)) ∧
    (∀ μ : It → Nat,
      (∀ it, 0 ≤ E.ops.i it → 0 ≤ E.ops.j it →
        μ (E.ops.walk_diagonal it) < μ it ∧ μ (E.ops.walk_gap it).2 < μ it) →
      ∀ w : WalkState It,
        ∃ w1, traceback_walk E query target channel end_score (μ w.it + 1) w = some w1) := by
  refine ⟨fun fuel w h => ?_, fun fuel w h => ?_, fun fuel w w1 h => ?_, fun μ hμ w => ?_⟩
  · have hc : ¬ (E.ops.i w.it ≥ 0 ∧ E.ops.j w.it ≥ 0 ∧ w.score < end_score) := by
      rintro ⟨h1, h2, h3⟩
      rcases h with h | h | h <;> omega
    constructor
    · unfold traceback_walk
      rw [if_neg hc]
    · unfold walk_path
      rw [if_neg hc]
  · have hc : E.ops.i w.it ≥ 0 ∧ E.ops.j w.it ≥ 0 ∧ w.score < end_score := h
    unfold walk_path
    rw [if_pos hc]
    split <;> simp
  · have h1 := traceback_walk_stops E query target channel end_score fuel w w1 h
    simp only [walk_continues, decide_eq_false_iff_not] at h1
    by_contra hn
    apply h1
    refine ⟨?_, ?_, ?_⟩ <;> omega
  · exact traceback_walk_measure E query target channel end_score μ hμ _ w (Nat.lt_succ_self _)

/-- C20, witness: in the example engine every step decreases the sum of the two coordinates, so
the walk from the cell (3, 3) ends. -/
theorem traceback_walk_termination_witness :
    ∃ w1, traceback_walk example_traceback_env [0, 0, 0, 0] carry_target 0 2
      ((3 + 1 : Int).toNat + (3 + 1 : Int).toNat + 1) ⟨(3, 3), 0, []⟩ = some w1 :=
  (traceback_walk_termination example_traceback_env [0, 0, 0, 0] carry_target 0 2).2.2.2
    (fun it => (it.1 + 1).toNat + (it.2 + 1).toNat)
    (fun it h1 h2 => by
      have e1 : example_traceback_env.ops.walk_diagonal it = (it.1 - 1, it.2 - 1) := rfl
      have e2 : (example_traceback_env.ops.walk_gap it).2 = (it.1, it.2 - 1) := rfl
      have e3 : example_traceback_env.ops.i it = it.1 := rfl
      have e4 : example_traceback_env.ops.j it = it.2 := rfl
      rw [e3] at h1
      rw [e4] at h2
      rw [e1, e2]
      constructor <;> simp only <;> omega)
    ⟨(3, 3), 0, []⟩

/-- C20, the claim as written fails: at the start of the walk the running score is zero, and
the walk goes on; here it takes two diagonal steps from the cell (3, 3) up to the best score
2. -/
theorem traceback_walk_from_zero :
    (⟨(3, 3), 0, []⟩ : WalkState (Int × Int)).score = 0 ∧
    walk_path example_traceback_env [0, 0, 0, 0] carry_target 0 2 5 ⟨(3, 3), 0, []⟩
      = [WalkStep.pair 3 3, WalkStep.pair 2 2] ∧
    (traceback_walk example_traceback_env [0, 0, 0, 0] carry_target 0 2 5 ⟨(3, 3), 0, []⟩).map
      (fun w => (w.it, w.score)) = some ((1, 1), 2) ∧
    ¬ (∀ (fuel : Nat) (w : WalkState (Int × Int)), w.score = 0 →
        walk_path example_traceback_env [0, 0, 0, 0] carry_target 0 2 (fuel + 1) w = []) := by
  refine ⟨rfl, by decide, by decide, fun h => ?_⟩
  have h1 := h 4 ⟨(3, 3), 0, []⟩ rfl
  revert h1
  decide

theorem update_best_view {D It EV : Type} (E : SwipeEnv D It EV) (col_best_ i_max : Nat → Int)
    (c c1 : Nat) (st : SwipeState D EV) (hc : c ≠ c1) :
    channel_view c (update_best E col_best_ i_max c1 st) = channel_view c st ∧
    (update_best E col_best_ i_max c1 st).col = st.col := by
  unfold update_best
  split <;> simp [channel_view, set_at, hc]

theorem inc_target_view {D EV : Type} (c c1 : Nat) (st : SwipeState D EV) (hc : c ≠ c1) :
    channel_view c (inc_target c1 st).1 = channel_view c st ∧
    (inc_target c1 st).1.col = st.col := by
  simp [inc_target, channel_view, set_at, hc]

theorem drop_eraseIdx_self (l : List Nat) (i : Nat) (hi : i < l.length) :
    (l.eraseIdx i).drop i = l.drop (i + 1) := by
  rw [(active_split l i hi).2]
  exact List.drop_left' (by simp [List.length_take]; omega)

theorem mem_eraseIdx_of_ne (l : List Nat) (i c : Nat) (hi : i < l.length)
    (hc : c ≠ l.getD i 0) (hm : c ∈ l) : c ∈ l.eraseIdx i := by
  rw [(active_split l i hi).2]
  rw [(active_split l i hi).1] at hm
  simp only [List.mem_append, List.mem_cons] at hm ⊢
  rcases hm with h | h | h
  · exact Or.inl h
  · exact absurd h hc
  · exact Or.inr h

theorem length_eraseIdx_sub (l : List Nat) (i : Nat) (hi : i < l.length) :
    (l.eraseIdx i).length - i = l.length - (i + 1) := by
  rw [(active_split l i hi).2, List.length_append, List.length_take, List.length_drop]
  omega

theorem reinit_channel_frame {D It EV : Type} (E : SwipeEnv D It EV) (targets : List DpTarget)
    (i c : Nat) (st : SwipeState D EV) (hi : i < st.active.length)
    (hc : c ≠ st.active.getD i 0) :
    channel_view c (reinit_channel E targets i (st.active.getD i 0) st).1 = channel_view c st ∧
    (reinit_channel E targets i (st.active.getD i 0) st).1.col = st.col ∧
    (reinit_channel E targets i (st.active.getD i 0) st).1.active.drop
        (reinit_channel E targets i (st.active.getD i 0) st).2 = st.active.drop (i + 1) ∧
    (c ∈ st.active → c ∈ (reinit_channel E targets i (st.active.getD i 0) st).1.active) ∧
    (st.active.Nodup → (reinit_channel E targets i (st.active.getD i 0) st).1.active.Nodup) ∧
    (reinit_channel E targets i (st.active.getD i 0) st).1.active.length
        - (reinit_channel E targets i (st.active.getD i 0) st).2
      = st.active.length - (i + 1) := by
  have hc2 : c ≠ st.active[i]?.getD 0 := by
    simpa [List.getD_eq_getElem?_getD] using hc
  unfold reinit_channel init_target
  cases hget : targets[st.next]? with
  | none =>
    refine ⟨by simp [channel_view], by simp, ?_, ?_, ?_, ?_⟩
    · simpa using drop_eraseIdx_self _ _ hi
    · simpa using mem_eraseIdx_of_ne _ _ _ hi hc
    · intro h
      simpa using h.sublist (List.eraseIdx_sublist _ _)
    · simpa using length_eraseIdx_sub _ _ hi
  | some t =>
    refine ⟨by simp [channel_view, set_at, hc2], by simp, by simp, ?_, ?_, by simp⟩
    · intro h
      simpa using h
    · intro h
      simpa using h

theorem reinit_channel_after {D It EV : Type} (E : SwipeEnv D It EV) (targets : List DpTarget)
    (i c : Nat) (st st2 : SwipeState D EV) (hi : i < st.active.length)
    (hc : c ≠ st.active.getD i 0) (ha : st2.active = st.active)
    (hv : channel_view c st2 = channel_view c st) (hcol : st2.col = st.col) :
    channel_view c (reinit_channel E targets i (st.active.getD i 0) st2).1 = channel_view c st ∧
    (reinit_channel E targets i (st.active.getD i 0) st2).1.col = st.col ∧
    (reinit_channel E targets i (st.active.getD i 0) st2).1.active.drop
        (reinit_channel E targets i (st.active.getD i 0) st2).2 = st.active.drop (i + 1) ∧
    (c ∈ st.active → c ∈ (reinit_channel E targets i (st.active.getD i 0) st2).1.active) ∧
    (st.active.Nodup → (reinit_channel E targets i (st.active.getD i 0) st2).1.active.Nodup) ∧
    (reinit_channel E targets i (st.active.getD i 0) st2).1.active.length
        - (reinit_channel E targets i (st.active.getD i 0) st2).2
      = st.active.length - (i + 1) := by
  have h := reinit_channel_frame E targets i c st2 (by rw [ha]; exact hi) (by rw [ha]; exact hc)
  rw [ha] at h
  rw [← hv, ← hcol]
  exact h

/-- The handling of the entry `i` of `active` leaves what `swipe` keeps for another channel
untouched, and the entries of `active` still to be handled are the same afterwards. -/
theorem handle_channel_frame {D It EV : Type} (E : SwipeEnv D It EV) (fuel : Nat)
    (query : List Nat) (query_string : String) (frame : Int) (targets : List DpTarget)
    (col_best_ i_max : Nat → Int) (i c : Nat) (st st1 : SwipeState D EV) (i1 : Nat)
    (hi : i < st.active.length) (hc : c ≠ st.active.getD i 0)
    (h : handle_channel E fuel query query_string frame targets col_best_ i_max i st
      = Run.done (st1, i1)) :
    channel_view c st1 = channel_view c st ∧ st1.col = st.col ∧
    st1.active.drop i1 = st.active.drop (i + 1) ∧
    (c ∈ st.active → c ∈ st1.active) ∧ (st.active.Nodup → st1.active.Nodup) ∧
    st1.active.length - i1 = st.active.length - (i + 1) := by
  have hu := update_best_view E col_best_ i_max c (st.active.getD i 0) st hc
  have hua := (update_best_fields E col_best_ i_max (st.active.getD i 0) st).1
  have hn := inc_target_view c (st.active.getD i 0)
    (update_best E col_best_ i_max (st.active.getD i 0) st) hc
  have hna := (inc_target_fields (st.active.getD i 0)
    (update_best E col_best_ i_max (st.active.getD i 0) st)).1
  unfold handle_channel at h
  simp only at h
  split at h
  · simp only [Run.done.injEq] at h
    have := reinit_channel_after E targets i c st
      { update_best E col_best_ i_max (st.active.getD i 0) st with
        overflow := (update_best E col_best_ i_max (st.active.getD i 0) st).overflow ++
          [(update_best E col_best_ i_max (st.active.getD i 0) st).dp_targets
            (st.active.getD i 0)] } hi hc hua hu.1 hu.2
    rw [h] at this
    exact this
  · split at h
    · split at h
      · split at h
        · simp at h
        · simp at h
        · rename_i hsp htb
          simp only [Run.done.injEq] at h
          have := reinit_channel_after E targets i c st
            { (inc_target (st.active.getD i 0)
                (update_best E col_best_ i_max (st.active.getD i 0) st)).1 with
              out := (inc_target (st.active.getD i 0)
                (update_best E col_best_ i_max (st.active.getD i 0) st)).1.out ++ [hsp] }
            hi hc (hna.trans hua) (hn.1.trans hu.1) (hn.2.trans hu.2)
          rw [h] at this
          exact this
      · simp only [Run.done.injEq] at h
        have := reinit_channel_after E targets i c st
          (inc_target (st.active.getD i 0)
            (update_best E col_best_ i_max (st.active.getD i 0) st)).1
          hi hc (hna.trans hua) (hn.1.trans hu.1) (hn.2.trans hu.2)
        rw [h] at this
        exact this
    · simp only [Run.done.injEq, Prod.mk.injEq] at h
      obtain ⟨h1, h2⟩ := h
      subst h1
      subst h2
      refine ⟨hn.1.trans hu.1, hn.2.trans hu.2, by rw [hna, hua], ?_, ?_, by rw [hna, hua]⟩
      · intro hm
        rw [hna, hua]
        exact hm
      · intro hm
        rw [hna, hua]
        exact hm

/-- The handling of the entry `i` of `active` when the channel there is neither saturated nor
at the end of its target: the best score becomes the greater of the old best and the column
best, the coordinates are rewritten on a strict improvement only, and the target moves on by
one position. -/
theorem handle_channel_own {D It EV : Type} (E : SwipeEnv D It EV) (fuel : Nat)
    (query : List Nat) (query_string : String) (frame : Int) (targets : List DpTarget)
    (col_best_ i_max : Nat → Int) (i : Nat) (st : SwipeState D EV)
    (hsat : col_best_ (st.active.getD i 0) ≠ E.traits.max_score)
    (hlen : st.pos (st.active.getD i 0) + 1
      < to_int32 (st.dp_targets (st.active.getD i 0)).seq.length) :
    ∃ st1, handle_channel E fuel query query_string frame targets col_best_ i_max i st
        = Run.done (st1, i + 1) ∧
      st1.active = st.active ∧ st1.col = st.col ∧
      st1.best (st.active.getD i 0)
        = max (st.best (st.active.getD i 0)) (col_best_ (st.active.getD i 0)) ∧
      (st.best (st.active.getD i 0) < col_best_ (st.active.getD i 0) →
        st1.max_col (st.active.getD i 0) = st.col ∧
        st1.max_i (st.active.getD i 0) = E.traits.int_score (i_max (st.active.getD i 0)) ∧
        st1.max_j (st.active.getD i 0) = st.pos (st.active.getD i 0)) ∧
      (col_best_ (st.active.getD i 0) ≤ st.best (st.active.getD i 0) →
        st1.max_col (st.active.getD i 0) = st.max_col (st.active.getD i 0) ∧
        st1.max_i (st.active.getD i 0) = st.max_i (st.active.getD i 0) ∧
        st1.max_j (st.active.getD i 0) = st.max_j (st.active.getD i 0)) ∧
      st1.pos (st.active.getD i 0) = st.pos (st.active.getD i 0) + 1 ∧
      st1.dp_targets (st.active.getD i 0) = st.dp_targets (st.active.getD i 0) := by
  generalize hcdef : st.active.getD i 0 = c at hsat hlen ⊢
  have hinc : (inc_target c (update_best E col_best_ i_max c st)).2 = true := by
    have hp := (update_best_fields E col_best_ i_max c st).2.2.2.2.2
    have hd := (update_best_fields E col_best_ i_max c st).2.1
    simp only [inc_target, decide_eq_true_eq, set_at, if_true, hp, hd]
    exact hlen
  refine ⟨(inc_target c (update_best E col_best_ i_max c st)).1, ?_, ?_, ?_, ?_, ?_, ?_, ?_, ?_⟩
  · unfold handle_channel
    simp only [hcdef, hsat, if_false, hinc, Bool.true_eq_false]
  · rw [(inc_target_fields c _).1, (update_best_fields E col_best_ i_max c st).1]
  · unfold inc_target update_best
    split <;> rfl
  · rw [(inc_target_fields c _).2.2.2.2.2]
    unfold update_best
    by_cases hgt : col_best_ c > st.best c
    · rw [if_pos hgt]
      simp only [set_at, if_true]
      exact (max_eq_right (le_of_lt hgt)).symm
    · rw [if_neg hgt]
      exact (max_eq_left (not_lt.mp hgt)).symm
  · intro hgt
    unfold inc_target update_best
    rw [if_pos hgt]
    simp [set_at]
  · intro hle
    unfold inc_target update_best
    rw [if_neg (not_lt.mpr hle)]
    simp
  · unfold inc_target update_best
    split <;> simp [set_at]
  · rw [(inc_target_fields c _).2.1, (update_best_fields E col_best_ i_max c st).2.1]

theorem channel_view_eq {D EV : Type} (c : Nat) (a b : SwipeState D EV) :
    channel_view c a = channel_view c b ↔
      a.best c = b.best c ∧ a.max_col c = b.max_col c ∧ a.max_i c = b.max_i c ∧
      a.max_j c = b.max_j c ∧ a.pos c = b.pos c ∧ a.dp_targets c = b.dp_targets c := by
  simp [channel_view, Prod.mk.injEq]

theorem drop_eq_getD_cons (l : List Nat) (i : Nat) (hi : i < l.length) :
    l.drop i = l.getD i 0 :: l.drop (i + 1) := by
  have h1 : l.getD i 0 = l[i] := by
    simp [List.getD_eq_getElem?_getD, List.getElem?_eq_getElem hi]
  rw [h1]
  exact List.drop_eq_getElem_cons hi

/-- The rest of the loop over the active channels leaves a channel that is not among the
entries still to be handled untouched. -/
theorem channel_loop_frame {D It EV : Type} (E : SwipeEnv D It EV) (fuel : Nat)
    (query : List Nat) (query_string : String) (frame : Int) (targets : List DpTarget)
    (col_best_ i_max : Nat → Int) (c : Nat) (rounds : Nat) :
    ∀ (i : Nat) (st st1 : SwipeState D EV), c ∉ st.active.drop i →
      channel_loop E fuel query query_string frame targets col_best_ i_max rounds i st
        = Run.done st1 →
      channel_view c st1 = channel_view c st ∧ st1.col = st.col ∧
      (c ∈ st.active → c ∈ st1.active) ∧ (st.active.Nodup → st1.active.Nodup) := by
  induction rounds with
  | zero =>
    intro i st st1 _ h
    simp only [channel_loop, Run.done.injEq] at h
    subst h
    exact ⟨rfl, rfl, fun h => h, fun h => h⟩
  | succ n ih =>
    intro i st st1 hnot h
    unfold channel_loop at h
    by_cases hi : i < st.active.length
    · rw [if_pos hi] at h
      rw [drop_eq_getD_cons _ _ hi, List.mem_cons, not_or] at hnot
      cases hh : handle_channel E fuel query query_string frame targets col_best_ i_max i st with
      | done r =>
        simp only [hh] at h
        obtain ⟨f1, f2, f3, f4, f5, _⟩ := handle_channel_frame E fuel query query_string frame
          targets col_best_ i_max i c st r.1 r.2 hi hnot.1 hh
        obtain ⟨g1, g2, g3, g4⟩ := ih r.2 r.1 st1 (by rw [f3]; exact hnot.2) h
        exact ⟨g1.trans f1, g2.trans f2, fun hm => g3 (f4 hm), fun hm => g4 (f5 hm)⟩
      | thrown e r => simp [hh] at h
      | no_fuel r => simp [hh] at h
    · rw [if_neg hi] at h
      simp only [Run.done.injEq] at h
      subst h
      exact ⟨rfl, rfl, fun h => h, fun h => h⟩

/-- The loop over the active channels after a column, for a channel that is still to be
handled, is not saturated by this column and is not at the end of its target. -/
theorem channel_loop_own {D It EV : Type} (E : SwipeEnv D It EV) (fuel : Nat)
    (query : List Nat) (query_string : String) (frame : Int) (targets : List DpTarget)
    (col_best_ i_max : Nat → Int) (c : Nat) (hsat : col_best_ c ≠ E.traits.max_score)
    (rounds : Nat) :
    ∀ (i : Nat) (st st1 : SwipeState D EV), st.active.Nodup → c ∈ st.active.drop i →
      st.active.length - i ≤ rounds →
      st.pos c + 1 < to_int32 (st.dp_targets c).seq.length →
      channel_loop E fuel query query_string frame targets col_best_ i_max rounds i st
        = Run.done st1 →
      st1.col = st.col ∧ st1.best c = max (st.best c) (col_best_ c) ∧
      (st.best c < col_best_ c →
        st1.max_col c = st.col ∧ st1.max_i c = E.traits.int_score (i_max c) ∧
        st1.max_j c = st.pos c) ∧
      (col_best_ c ≤ st.best c →
        st1.max_col c = st.max_col c ∧ st1.max_i c = st.max_i c ∧ st1.max_j c = st.max_j c) ∧
      st1.pos c = st.pos c + 1 ∧ st1.dp_targets c = st.dp_targets c ∧
      c ∈ st1.active ∧ st1.active.Nodup := by
  induction rounds with
  | zero =>
    intro i st st1 _ hmem hr _ _
    have : st.active.drop i = [] := List.drop_eq_nil_of_le (by omega)
    rw [this] at hmem
    simp at hmem
  | succ n ih =>
    intro i st st1 hnd hmem hr hlen h
    have hi : i < st.active.length := by
      by_contra hge
      have : st.active.drop i = [] := List.drop_eq_nil_of_le (by omega)
      rw [this] at hmem
      simp at hmem
    unfold channel_loop at h
    rw [if_pos hi] at h
    have hsplit := (active_split st.active i hi).1
    by_cases hc : c = st.active.getD i 0
    · subst hc
      obtain ⟨st2, e1, e2, e3, e4, e5, e6, e7, e8⟩ := handle_channel_own E fuel query
        query_string frame targets col_best_ i_max i st hsat hlen
      simp only [e1] at h
      have hnot : st.active.getD i 0 ∉ st2.active.drop (i + 1) := by
        rw [e2]
        have hnd2 := hnd
        rw [hsplit] at hnd2
        have := (List.nodup_append.mp hnd2).2.1
        exact (List.nodup_cons.mp this).1
      obtain ⟨g1, g2, g3, g4⟩ := channel_loop_frame E fuel query query_string frame targets
        col_best_ i_max (st.active.getD i 0) n (i + 1) st2 st1 hnot h
      obtain ⟨v1, v2, v3, v4, v5, v6⟩ := (channel_view_eq _ _ _).mp g1
      have hin : st.active.getD i 0 ∈ st.active := List.mem_of_mem_drop hmem
      refine ⟨g2.trans e3, v1.trans e4, fun hlt => ?_, fun hle => ?_, v5.trans e7, v6.trans e8,
        g3 (by rw [e2]; exact hin), g4 (by rw [e2]; exact hnd)⟩
      · obtain ⟨a1, a2, a3⟩ := e5 hlt
        exact ⟨v2.trans a1, v3.trans a2, v4.trans a3⟩
      · obtain ⟨a1, a2, a3⟩ := e6 hle
        exact ⟨v2.trans a1, v3.trans a2, v4.trans a3⟩
    · cases hh : handle_channel E fuel query query_string frame targets col_best_ i_max i st with
      | done r =>
        simp only [hh] at h
        obtain ⟨f1, f2, f3, f4, f5, f6⟩ := handle_channel_frame E fuel query query_string frame
          targets col_best_ i_max i c st r.1 r.2 hi hc hh
        obtain ⟨v1, v2, v3, v4, v5, v6⟩ := (channel_view_eq _ _ _).mp f1
        have hmem2 : c ∈ r.1.active.drop r.2 := by
          rw [f3]
          rw [drop_eq_getD_cons _ _ hi, List.mem_cons] at hmem
          rcases hmem with hm | hm
          · exact absurd hm hc
          · exact hm
        have hres := ih r.2 r.1 st1 (f5 hnd) hmem2 (by rw [f6]; omega)
          (by rw [v5, v6]; exact hlen) h
        rw [f2, v1, v2, v3, v4, v5, v6] at hres
        exact hres
      | thrown e r => simp [hh] at h
      | no_fuel r => simp [hh] at h

/-- One round of the main loop of `swipe` for a channel that is active, is not saturated by
this column and is not at the end of its target. -/
theorem swipe_column_own {D It EV : Type} (E : SwipeEnv D It EV) (fuel : Nat)
    (query : List Nat) (query_string : String) (frame : Int) (targets : List DpTarget)
    (c : Nat) (st st1 : SwipeState D EV) (hnd : st.active.Nodup) (hmem : c ∈ st.active)
    (hsat : (E.column query st).col_best_ c ≠ E.traits.max_score)
    (hlen : st.pos c + 1 < to_int32 (st.dp_targets c).seq.length)
    (h : swipe_column E fuel query query_string frame targets st = Run.done st1) :
    st1.best c = max (st.best c) ((E.column query st).col_best_ c) ∧
    (st.best c < (E.column query st).col_best_ c →
      st1.max_col c = st.col ∧
      st1.max_i c = E.traits.int_score ((E.column query st).i_max c) ∧
      st1.max_j c = st.pos c) ∧
    ((E.column query st).col_best_ c ≤ st.best c →
      st1.max_col c = st.max_col c ∧ st1.max_i c = st.max_i c ∧ st1.max_j c = st.max_j c) ∧
    st1.pos c = st.pos c + 1 ∧ st1.dp_targets c = st.dp_targets c ∧
    c ∈ st1.active ∧ st1.active.Nodup := by
  unfold swipe_column at h
  simp only at h
  cases hl : channel_loop E fuel query query_string frame targets (E.column query st).col_best_
      (E.column query st).i_max st.active.length 0 { st with dp := (E.column query st).dp } with
  | done st2 =>
    simp only [hl, Run.done.injEq] at h
    obtain ⟨_, g2, g3, g4, g5, g6, g7, g8⟩ := channel_loop_own E fuel query query_string frame
      targets (E.column query st).col_best_ (E.column query st).i_max c hsat st.active.length 0
      { st with dp := (E.column query st).dp } st2 hnd (by simpa using hmem) (by simp) hlen hl
    subst h
    exact ⟨g2, g3, g4, g5, g6, g7, g8⟩
  | thrown e r => simp [hl] at h
  | no_fuel r => simp [hl] at h

theorem foldl_max_succ (f : Nat → Int) (b : Int) (t : Nat) :
    (List.range (t + 1)).foldl (fun m u => max m (f u)) b
      = max ((List.range t).foldl (fun m u => max m (f u)) b) (f t) := by
  rw [List.range_succ, List.foldl_append]
  rfl

theorem init_buffer_best {D EV : Type} (targets : List DpTarget) (n : Nat)
    (st : SwipeState D EV) : (init_buffer targets n st).best = st.best := by
  unfold init_buffer
  induction n with
  | zero => rfl
  | succ m ih =>
    rw [List.range_succ, List.foldl_append, List.foldl_cons, List.foldl_nil]
    split
    · exact ih
    · exact ih

/-- The invariant of the lifetime of one target in the channel `c`: the states `s 0`, ...,
`s k` are consecutive rounds of the main loop of `swipe` in which the channel is neither
saturated nor at the end of its target. -/
theorem lifetime_inv {D It EV : Type} (E : SwipeEnv D It EV) (fuel : Nat)
    (query : List Nat) (query_string : String) (frame : Int) (targets : List DpTarget)
    (c k : Nat) (s : Nat → SwipeState D EV)
    (hnd : (s 0).active.Nodup) (hmem : c ∈ (s 0).active)
    (hstep : ∀ t < k, swipe_column E fuel query query_string frame targets (s t)
      = Run.done (s (t + 1)))
    (hsat : ∀ t < k, (E.column query (s t)).col_best_ c ≠ E.traits.max_score)
    (hlen : (s 0).pos c + k < to_int32 ((s 0).dp_targets c).seq.length) (t : Nat) :
    t ≤ k →
      (s t).pos c = (s 0).pos c + t ∧ (s t).dp_targets c = (s 0).dp_targets c ∧
      c ∈ (s t).active ∧ (s t).active.Nodup ∧
      (s t).best c = (List.range t).foldl
        (fun m u => max m ((E.column query (s u)).col_best_ c)) ((s 0).best c) ∧
      (s 0).best c ≤ (s t).best c ∧
      (∀ v < t, (E.column query (s v)).col_best_ c ≤ (s t).best c) ∧
      ((s 0).best c < (s t).best c →
        ∃ u < t, (E.column query (s u)).col_best_ c = (s t).best c ∧
          (∀ v < u, (E.column query (s v)).col_best_ c < (E.column query (s u)).col_best_ c) ∧
          (s t).max_col c = (s u).col ∧
          (s t).max_i c = E.traits.int_score ((E.column query (s u)).i_max c) ∧
          (s t).max_j c = (s u).pos c) ∧
      ((s t).best c = (s 0).best c →
        (s t).max_col c = (s 0).max_col c ∧ (s t).max_i c = (s 0).max_i c ∧
        (s t).max_j c = (s 0).max_j c) := by
  induction t with
  | zero =>
    intro _
    refine ⟨by simp, rfl, hmem, hnd, rfl, le_refl _, fun v hv => absurd hv (Nat.not_lt_zero v),
      fun h => absurd h (lt_irrefl _), fun _ => ⟨rfl, rfl, rfl⟩⟩
  | succ n ih =>
    intro hk
    obtain ⟨i1, i2, i3, i4, i5, i6, i7, i8, i9⟩ := ih (by omega)
    have hn : n < k := by omega
    obtain ⟨c1, c2, c3, c4, c5, c6, c7⟩ := swipe_column_own E fuel query query_string frame
      targets c (s n) (s (n + 1)) i4 i3 (hsat n hn)
      (by rw [i1, i2]; omega) (hstep n hn)
    have hle : (s n).best c ≤ (s (n + 1)).best c := by rw [c1]; exact le_max_left _ _
    refine ⟨by rw [c4, i1]; push_cast; ring, c5.trans i2, c6, c7, ?_, le_trans i6 hle, ?_, ?_, ?_⟩
    · rw [foldl_max_succ, c1, i5]
    · intro v hv
      rcases Nat.lt_succ_iff_lt_or_eq.mp hv with h | h
      · exact le_trans (i7 v h) hle
      · rw [h, c1]; exact le_max_right _ _
    · intro hlt
      by_cases hgt : (s n).best c < (E.column query (s n)).col_best_ c
      · obtain ⟨a1, a2, a3⟩ := c2 hgt
        refine ⟨n, Nat.lt_succ_self n, ?_, fun v hv => lt_of_le_of_lt (i7 v hv) hgt, a1, a2, a3⟩
        rw [c1]
        exact (max_eq_right (le_of_lt hgt)).symm
      · have hle2 := not_lt.mp hgt
        obtain ⟨a1, a2, a3⟩ := c3 hle2
        have hb : (s (n + 1)).best c = (s n).best c := by
          rw [c1]; exact max_eq_left hle2
        rw [hb] at hlt
        obtain ⟨u, hu, b1, b2, b3, b4, b5⟩ := i8 hlt
        exact ⟨u, Nat.lt_succ_of_lt hu, by rw [hb]; exact b1, b2, a1.trans b3, a2.trans b4,
          a3.trans b5⟩
    · intro heq
      have hb : (s n).best c = (s 0).best c := le_antisymm (by rw [← heq]; exact hle) i6
      have hle2 : (E.column query (s n)).col_best_ c ≤ (s n).best c := by
        have := le_max_right ((s n).best c) ((E.column query (s n)).col_best_ c)
        rw [← c1, heq, ← hb] at this
        exact this
      obtain ⟨a1, a2, a3⟩ := c3 hle2
      obtain ⟨b1, b2, b3⟩ := i9 hb
      exact ⟨a1.trans b1, a2.trans b2, a3.trans b3⟩

/-- C13, the claim as written fails for the coordinates: for a target whose column bests are
zero the maximum of zero and the column bests is reached by the first column (column 0, target
position 0), yet `max_col` and `max_j` of the channel are not written: they keep the
indeterminate content of the arrays (7 here). -/
theorem swipe_best_zero_target :
    ∃ st1,
      swipe_column example_swipe_env 5 [1, 2, 3, 4] "q" 0 [plain_target [0, 0, 0] 10]
          (swipe_start example_swipe_env [1, 2, 3, 4] [plain_target [0, 0, 0] 10] 0 []
            (fun _ => 7) (plain_target [] 0)) = Run.done st1 ∧
      (example_swipe_env.column [1, 2, 3, 4]
          (swipe_start example_swipe_env [1, 2, 3, 4] [plain_target [0, 0, 0] 10] 0 []
            (fun _ => 7) (plain_target [] 0))).col_best_ 0 = 0 ∧
      st1.best 0 = max example_swipe_env.traits.zero_score 0 ∧
      (swipe_start example_swipe_env [1, 2, 3, 4] [plain_target [0, 0, 0] 10] 0 []
          (fun _ => 7) (plain_target [] 0) : SwipeState Unit Int).col = 0 ∧
      (swipe_start example_swipe_env [1, 2, 3, 4] [plain_target [0, 0, 0] 10] 0 []
          (fun _ => 7) (plain_target [] 0) : SwipeState Unit Int).pos 0 = 0 ∧
      st1.max_col 0 = 7 ∧ st1.max_j 0 = 7 :=
  ⟨_, rfl, by decide, by decide, by decide, by decide, by decide, by decide⟩

theorem to_size_t_of_lt (x : Nat) (h : x < 2 ^ 64) : to_size_t (x : Int) = x := by
  unfold to_size_t
  have h1 : ((x : Int) % 2 ^ 64) = x := Int.emod_eq_of_lt (by omega) (by exact_mod_cast h)
  rw [h1]
  simp

theorem to_size_t_lt (x : Int) : to_size_t x < 2 ^ 64 := by
  unfold to_size_t
  have h1 : 0 ≤ x % 2 ^ 64 := Int.emod_nonneg _ (by norm_num)
  have h2 : x % 2 ^ 64 < 2 ^ 64 := Int.emod_lt_of_pos _ (by norm_num)
  omega

theorem to_size_t_add (a : Nat) (b : Nat) :
    to_size_t (((to_size_t (a : Int) : Nat) : Int) + b) = to_size_t ((a : Int) + b) := by
  unfold to_size_t
  have h1 : 0 ≤ (a : Int) % 2 ^ 64 := Int.emod_nonneg _ (by norm_num)
  rw [Int.toNat_of_nonneg h1, Int.emod_add_emod]

theorem string_offset_snoc (padding : Nat) (lens : List Nat) (n i : Nat) (hi : i ≤ lens.length) :
    string_offset padding (lens ++ [n]) i = string_offset padding lens i := by
  unfold string_offset
  rw [List.take_append_of_le_length hi]

theorem string_offset_last (padding : Nat) (lens : List Nat) (n : Nat) :
    string_offset padding (lens ++ [n]) (lens.length + 1)
      = string_offset padding lens lens.length + n + padding := by
  unfold string_offset
  have h1 : (lens ++ [n]).take (lens.length + 1) = lens ++ [n] :=
    List.take_of_length_le (by simp)
  rw [h1, List.take_of_length_le (le_refl _), List.sum_append]
  simp only [List.sum_cons, List.sum_nil]
  ring

theorem string_offset_mono (padding : Nat) (lens : List Nat) (i j : Nat) (hij : i ≤ j) :
    string_offset padding lens i ≤ string_offset padding lens j := by
  unfold string_offset
  have h1 : (lens.take i).sum ≤ (lens.take j).sum := by
    have h2 : lens.take i = (lens.take j).take i := by
      rw [List.take_take, min_eq_left hij]
    rw [h2]
    conv_rhs => rw [← List.take_append_drop i (lens.take j)]
    rw [List.sum_append]
    exact Nat.le_add_right _ _
  have h3 : i * padding ≤ j * padding := Nat.mul_le_mul_right _ hij
  omega

theorem string_offset_succ (padding : Nat) (lens : List Nat) (i : Nat) (hi : i < lens.length) :
    string_offset padding lens (i + 1) = string_offset padding lens i + lens.getD i 0 + padding := by
  unfold string_offset
  have h1 : lens.getD i 0 = lens[i] := by
    simp [List.getD_eq_getElem?_getD, List.getElem?_eq_getElem hi]
  rw [List.take_succ, List.sum_append, List.getElem?_eq_getElem hi, h1]
  simp only [Option.toList_some, List.sum_cons, List.sum_nil]
  ring

theorem limits_of_snoc (padding : Nat) (lens : List Nat) (n : Nat) :
    limits_of padding (lens ++ [n])
      = limits_of padding lens
        ++ [to_size_t (((limits_of padding lens).getLastD 0 : Nat) + (n : Int) + padding)] := by
  have hlast : (limits_of padding lens).getLastD 0
      = to_size_t (string_offset padding lens lens.length) := by
    unfold limits_of
    rw [List.range_succ, List.map_append]
    simp
  rw [hlast]
  unfold limits_of
  rw [List.length_append, List.length_singleton, List.range_succ, List.map_append]
  congr 1
  · apply List.map_congr_left
    intro i hi
    rw [List.mem_range] at hi
    rw [string_offset_snoc padding lens n i (by omega)]
  · simp only [List.map_cons, List.map_nil, List.cons.injEq, and_true]
    rw [string_offset_last]
    have h := to_size_t_add (string_offset padding lens lens.length) (n + padding)
    push_cast at h ⊢
    rw [← add_assoc] at h
    rw [h, add_assoc]

theorem limits_of_ne_nil (padding : Nat) (lens : List Nat) : limits_of padding lens ≠ [] := by
  unfold limits_of
  rw [List.range_succ]
  simp

theorem limits_of_nil (padding : Nat) : limits_of padding [] = [PERIMETER_PADDING] := by
  have h : to_size_t (PERIMETER_PADDING : Nat) = PERIMETER_PADDING := by decide
  have h2 : string_offset padding [] 0 = PERIMETER_PADDING := by simp [string_offset]
  show [to_size_t (string_offset padding [] 0 : Nat)] = [PERIMETER_PADDING]
  rw [h2, h]

theorem limits_of_take_one (padding : Nat) (lens : List Nat) :
    resize (limits_of padding lens) 1 0 = [PERIMETER_PADDING] := by
  unfold resize limits_of
  rw [List.range_succ_eq_map]
  simp only [List.map_cons, List.take_succ_cons, List.take_zero, List.length_cons]
  have h1 : to_size_t (string_offset padding lens 0 : Nat) = PERIMETER_PADDING := by
    have : string_offset padding lens 0 = PERIMETER_PADDING := by simp [string_offset]
    rw [this]
    decide
  rw [h1]
  simp

theorem pushed_lengths_snoc {α : Type} (ops : List (StringSetOp α)) (op : StringSetOp α) :
    pushed_lengths (ops ++ [op])
      = match op with
        | .push_back xs => pushed_lengths ops ++ [xs.length]
        | .fill n _ => pushed_lengths ops ++ [n]
        | .reserve n => pushed_lengths ops ++ [n]
        | .clear => [] := by
  unfold pushed_lengths
  rw [List.foldl_append]
  rfl

theorem build_snoc {α : Type} (pchar zero : α) (padding : Nat) (ops : List (StringSetOp α))
    (op : StringSetOp α) :
    StringSetBase.build pchar zero padding (ops ++ [op])
      = StringSetBase.apply pchar zero padding (StringSetBase.build pchar zero padding ops) op := by
  unfold StringSetBase.build
  rw [List.foldl_append]
  rfl

/-- The limits of every `StringSetBase` reached from the constructor are the offsets of the
strings pushed since the last `clear`, reduced to `size_t`. -/
theorem build_limits {α : Type} (pchar zero : α) (padding : Nat) (ops : List (StringSetOp α)) :
    (StringSetBase.build pchar zero padding ops).limits_
      = limits_of padding (pushed_lengths ops) := by
  induction ops using List.reverseRecOn with
  | nil => exact (limits_of_nil padding).symm
  | append_singleton ops op ih =>
    rw [build_snoc, pushed_lengths_snoc]
    cases op with
    | push_back xs =>
      simp only [StringSetBase.apply, StringSetBase.push_back, StringSetBase.raw_len]
      rw [ih, limits_of_snoc]
    | fill n v =>
      simp only [StringSetBase.apply, StringSetBase.fill, StringSetBase.raw_len]
      rw [ih, limits_of_snoc]
    | reserve n =>
      simp only [StringSetBase.apply, StringSetBase.reserve, StringSetBase.raw_len]
      rw [ih, limits_of_snoc]
    | clear =>
      simp only [StringSetBase.apply, StringSetBase.clear]
      rw [ih, limits_of_take_one, limits_of_nil]

theorem limits_of_length (padding : Nat) (lens : List Nat) :
    (limits_of padding lens).length = lens.length + 1 := by
  simp [limits_of]

theorem limits_of_getD (padding : Nat) (lens : List Nat) (i : Nat) (hi : i ≤ lens.length) :
    (limits_of padding lens).getD i 0 = to_size_t (string_offset padding lens i) := by
  unfold limits_of
  rw [List.getD_eq_getElem?_getD, List.getElem?_map, List.getElem?_range (by omega)]
  rfl

theorem string_offset_strict (padding : Nat) (lens : List Nat) (i j : Nat) (hp : 1 ≤ padding)
    (hij : i < j) : string_offset padding lens i < string_offset padding lens j := by
  have h1 := string_offset_mono padding lens (i + 1) j hij
  have h2 : string_offset padding lens i < string_offset padding lens (i + 1) := by
    have h3 := string_offset_mono 0 lens i (i + 1) (Nat.le_succ i)
    unfold string_offset at h3 ⊢
    simp only [Nat.mul_zero, Nat.add_zero] at h3
    have h4 : (i + 1) * padding = i * padding + padding := by ring
    omega
  omega

/-- Without overflow the limits are the offsets themselves. -/
theorem limits_of_getD_fit (padding : Nat) (lens : List Nat)
    (hfit : string_offset padding lens lens.length < 2 ^ 64) (i : Nat) (hi : i ≤ lens.length) :
    (limits_of padding lens).getD i 0 = string_offset padding lens i := by
  rw [limits_of_getD padding lens i hi]
  exact to_size_t_of_lt _ (lt_of_le_of_lt (string_offset_mono padding lens i lens.length hi) hfit)

theorem limits_of_fit (padding : Nat) (lens : List Nat)
    (hfit : string_offset padding lens lens.length < 2 ^ 64) :
    limits_of padding lens
      = (List.range (lens.length + 1)).map (fun i => string_offset padding lens i) := by
  unfold limits_of
  apply List.map_congr_left
  intro i hi
  rw [List.mem_range] at hi
  exact to_size_t_of_lt _
    (lt_of_le_of_lt (string_offset_mono padding lens i lens.length (by omega)) hfit)

/-- The loop of `std::upper_bound` on a non-decreasing vector: it returns the position behind
the last element that is not greater than `val`. -/
theorem upper_bound_loop_spec (l : List Nat) (val : Nat)
    (hmono : ∀ a b, a ≤ b → b < l.length → l.getD a 0 ≤ l.getD b 0) (fuel : Nat) :
    ∀ first len, len ≤ fuel → first + len ≤ l.length →
      (∀ k < first, l.getD k 0 ≤ val) →
      (∀ k, first + len ≤ k → k < l.length → val < l.getD k 0) →
      upper_bound_loop l val fuel first len ≤ l.length ∧
      (∀ k < upper_bound_loop l val fuel first len, l.getD k 0 ≤ val) ∧
      (∀ k, upper_bound_loop l val fuel first len ≤ k → k < l.length → val < l.getD k 0) := by
  induction fuel with
  | zero =>
    intro first len hlen hb hlo hhi
    have h0 : len = 0 := by omega
    subst h0
    exact ⟨by simpa [upper_bound_loop] using hb, by simpa [upper_bound_loop] using hlo,
      by simpa [upper_bound_loop] using hhi⟩
  | succ n ih =>
    intro first len hlen hb hlo hhi
    unfold upper_bound_loop
    by_cases hpos : len > 0
    · rw [if_pos hpos]
      simp only
      have hhalf : len / 2 < len := Nat.div_lt_self hpos (by decide)
      by_cases hlt : val < l.getD (first + len / 2) 0
      · rw [if_pos hlt]
        apply ih first (len / 2) (by omega) (by omega) hlo
        intro k hk1 hk2
        exact lt_of_lt_of_le hlt (hmono _ _ hk1 hk2)
      · rw [if_neg hlt]
        apply ih (first + len / 2 + 1) (len - len / 2 - 1) (by omega) (by omega)
        · intro k hk
          exact le_trans (hmono k (first + len / 2) (by omega) (by omega)) (not_lt.mp hlt)
        · intro k hk1 hk2
          exact hhi k (by omega) hk2
    · rw [if_neg hpos]
      have h0 : len = 0 := by omega
      subst h0
      exact ⟨hb, hlo, by simpa using hhi⟩

theorem upper_bound_spec (l : List Nat) (val : Nat)
    (hmono : ∀ a b, a ≤ b → b < l.length → l.getD a 0 ≤ l.getD b 0) :
    upper_bound l val ≤ l.length ∧
    (∀ k < upper_bound l val, l.getD k 0 ≤ val) ∧
    (∀ k, upper_bound l val ≤ k → k < l.length → val < l.getD k 0) := by
  unfold upper_bound
  apply upper_bound_loop_spec l val hmono l.length 0 l.length (le_refl _) (by omega)
  · intro k hk
    omega
  · intro k hk1 hk2
    omega

/-- On strictly increasing limits, `std::upper_bound` of a position between the limits `i` and
`i + 1` is `i + 1`. -/
theorem upper_bound_between (l : List Nat) (p i : Nat)
    (hmono : ∀ a b, a ≤ b → b < l.length → l.getD a 0 ≤ l.getD b 0)
    (hi : i + 1 < l.length) (h1 : l.getD i 0 ≤ p) (h2 : p < l.getD (i + 1) 0) :
    upper_bound l p = i + 1 := by
  obtain ⟨_, s2, s3⟩ := upper_bound_spec l p hmono
  have a1 : i < upper_bound l p := by
    by_contra hn
    have := s3 i (not_lt.mp hn) (by omega)
    omega
  have a2 : upper_bound l p ≤ i + 1 := by
    by_contra hn
    have := s2 (i + 1) (not_le.mp hn)
    omega
  omega

theorem limits_of_last (padding : Nat) (lens : List Nat) :
    (limits_of padding lens).getLastD 0 = to_size_t (string_offset padding lens lens.length) := by
  unfold limits_of
  rw [List.range_succ, List.map_append]
  simp

theorem length_le_string_offset (padding : Nat) (lens : List Nat) (hp : 1 ≤ padding) (i : Nat) :
    i ≤ string_offset padding lens i := by
  unfold string_offset
  have : i * 1 ≤ i * padding := Nat.mul_le_mul_left i hp
  omega

/-- In a store without overflow, `length(i)` is the length pushed as string `i` and `size()` is
the number of strings. -/
theorem store_length_size {α : Type} (s : StringSetBase α) (padding : Nat) (lens : List Nat)
    (hL : s.limits_ = limits_of padding lens) (hp : 1 ≤ padding)
    (hfit : string_offset padding lens lens.length < 2 ^ 64) :
    (∀ i < lens.length, s.limits_.getD (i + 1) 0
      = s.limits_.getD i 0 + lens.getD i 0 + padding) ∧
    (∀ i < lens.length, s.length padding i = lens.getD i 0) ∧
    s.size = lens.length := by
  have hstep : ∀ i < lens.length, s.limits_.getD (i + 1) 0
      = s.limits_.getD i 0 + lens.getD i 0 + padding := by
    intro i hi
    rw [hL, limits_of_getD_fit padding lens hfit (i + 1) hi,
      limits_of_getD_fit padding lens hfit i (le_of_lt hi), string_offset_succ padding lens i hi]
  refine ⟨hstep, fun i hi => ?_, ?_⟩
  · unfold StringSetBase.length
    rw [hstep i hi]
    have hlt : lens.getD i 0 < 2 ^ 64 := by
      have h1 := string_offset_mono padding lens (i + 1) lens.length hi
      rw [string_offset_succ padding lens i hi] at h1
      omega
    have he : (((s.limits_.getD i 0 + lens.getD i 0 + padding : Nat) : Int)
        - (s.limits_.getD i 0 : Nat) - (padding : Nat)) = ((lens.getD i 0 : Nat) : Int) := by
      push_cast
      ring
    rw [he]
    exact to_size_t_of_lt _ hlt
  · unfold StringSetBase.size
    rw [hL, limits_of_length]
    have he : (((lens.length + 1 : Nat) : Int) - 1) = ((lens.length : Nat) : Int) := by
      push_cast
      ring
    rw [he]
    exact to_size_t_of_lt _
      (lt_of_le_of_lt (length_le_string_offset padding lens hp lens.length) hfit)

/-- C16 (amended). Offsets invariant of the packed store: in every `StringSetBase` with padding
at least 1 reached from the constructor by `push_back`, `fill`, `reserve(n)` and `clear`, as
long as `PERIMETER_PADDING` plus the lengths pushed since the last `clear` plus their paddings
stays below `2^64`: `limits_[0] = PERIMETER_PADDING`, `limits_` is strictly increasing, the
difference of two consecutive limits is the pushed length plus the padding, `length(i)` is the
number of elements pushed as string `i` and `size()` is the number of strings pushed since the
last `clear`. -/
theorem string_set_limits {α : Type} (pchar zero : α) (padding : Nat)
    (ops : List (StringSetOp α)) (hp : 1 ≤ padding)
    (hfit : string_offset padding (pushed_lengths ops) (pushed_lengths ops).length < 2 ^ 64) :
    (StringSetBase.build pchar zero padding ops).limits_.getD 0 0 = PERIMETER_PADDING ∧
    (StringSetBase.build pchar zero padding ops).limits_.Pairwise (fun a b => a < b) ∧
    (∀ i < (pushed_lengths ops).length,
      (StringSetBase.build pchar zero padding ops).limits_.getD (i + 1) 0
        = (StringSetBase.build pchar zero padding ops).limits_.getD i 0
          + (pushed_lengths ops).getD i 0 + padding) ∧
    (∀ i < (pushed_lengths ops).length,
      (StringSetBase.build pchar zero padding ops).length padding i
        = (pushed_lengths ops).getD i 0) ∧
    (StringSetBase.build pchar zero padding ops).size = (pushed_lengths ops).length := by
  have hL := build_limits pchar zero padding ops
  obtain ⟨h1, h2, h3⟩ := store_length_size _ padding _ hL hp hfit
  refine ⟨?_, ?_, h1, h2, h3⟩
  · rw [hL, limits_of_getD_fit padding _ hfit 0 (Nat.zero_le _)]
    simp [string_offset]
  · rw [hL, limits_of_fit padding _ hfit, List.pairwise_map]
    exact List.Pairwise.imp (fun hab => string_offset_strict padding _ _ _ hp hab)
      (List.pairwise_lt_range _)

/-- C16, witness: a store built by a `push_back`, a `clear`, a `fill`, a `reserve` and a
`push_back` of the empty string, with padding 1. -/
theorem string_set_limits_witness :
    (StringSetBase.build 0 0 1
      [StringSetOp.push_back [1, 2, 3], StringSetOp.clear, StringSetOp.fill 2 7,
        StringSetOp.reserve 4, StringSetOp.push_back []]).limits_.Pairwise (fun a b => a < b) ∧
    (StringSetBase.build 0 0 1
      [StringSetOp.push_back [1, 2, 3], StringSetOp.clear, StringSetOp.fill 2 7,
        StringSetOp.reserve 4, StringSetOp.push_back []]).size = 3 :=
  ⟨(string_set_limits 0 0 1
      [StringSetOp.push_back [1, 2, 3], StringSetOp.clear, StringSetOp.fill 2 7,
        StringSetOp.reserve 4, StringSetOp.push_back []] (by decide) (by decide)).2.1,
   (string_set_limits 0 0 1
      [StringSetOp.push_back [1, 2, 3], StringSetOp.clear, StringSetOp.fill 2 7,
        StringSetOp.reserve 4, StringSetOp.push_back []] (by decide) (by decide)).2.2.2.2⟩

/-- C16, the claim as written fails: `reserve(n)` only pushes the limit
`raw_len() + n + _padding` in `size_t` arithmetic, so after `reserve(2^64 - 257)` on a new store
with padding 1 the limits are 256 and 0, which is not increasing. -/
theorem string_set_reserve_wraps :
    (StringSetBase.build (0 : Nat) 0 1 [StringSetOp.reserve (2 ^ 64 - 257)]).limits_ = [256, 0] ∧
    ¬ (StringSetBase.build (0 : Nat) 0 1
        [StringSetOp.reserve (2 ^ 64 - 257)]).limits_.Pairwise (fun a b => a < b) := by
  have h : (StringSetBase.build (0 : Nat) 0 1 [StringSetOp.reserve (2 ^ 64 - 257)]).limits_
      = [256, 0] := by decide
  refine ⟨h, ?_⟩
  rw [h]
  decide

/-- A store built by `push_back` and `fill` alone holds every string with its padding: the
size of the data vector is the offset behind the last string. -/
theorem build_data_length {α : Type} (pchar zero : α) (padding : Nat)
    (ops : List (StringSetOp α)) :
    (∀ op ∈ ops, op.is_push = true) →
      (StringSetBase.build pchar zero padding ops).data_.length
        = string_offset padding (pushed_lengths ops) (pushed_lengths ops).length := by
  induction ops using List.reverseRecOn with
  | nil =>
    intro _
    simp [StringSetBase.build, StringSetBase.ctor, pushed_lengths, string_offset]
  | append_singleton ops op ih =>
    intro hops
    have ih2 := ih (fun o ho => hops o (List.mem_append_left _ ho))
    have hop := hops op (by simp)
    rw [build_snoc, pushed_lengths_snoc]
    cases op with
    | push_back xs =>
      simp only [StringSetBase.apply, StringSetBase.push_back, List.length_append,
        List.length_replicate, List.length_singleton]
      rw [ih2, string_offset_last]
    | fill n v =>
      simp only [StringSetBase.apply, StringSetBase.fill, List.length_append,
        List.length_replicate, List.length_singleton]
      rw [ih2, string_offset_last]
    | reserve n => simp [StringSetOp.is_push] at hop
    | clear => simp [StringSetOp.is_push] at hop

theorem local_position_eq {α : Type} (s : StringSetBase α) (p r : Nat)
    (h : upper_bound s.limits_ p = r + 1) (hr : r < 2 ^ 64) (hle : s.limits_.getD r 0 ≤ p)
    (hp : p < 2 ^ 64) : s.local_position p = (r, p - s.limits_.getD r 0) := by
  unfold StringSetBase.local_position
  have h1 : to_size_t ((upper_bound s.limits_ p : Int) - 1) = r := by
    rw [h]
    have he : (((r + 1 : Nat) : Int) - 1) = ((r : Nat) : Int) := by
      push_cast
      ring
    rw [he]
    exact to_size_t_of_lt r hr
  simp only [h1]
  have he : ((p : Int) - (s.limits_.getD r 0 : Nat)) = ((p - s.limits_.getD r 0 : Nat) : Int) := by
    omega
  rw [he, to_size_t_of_lt _ (by omega)]

/-- Reverse lookup in a store whose limits are the offsets of its strings, without overflow. -/
theorem local_position_store {α : Type} (s : StringSetBase α) (padding : Nat) (lens : List Nat)
    (hL : s.limits_ = limits_of padding lens) (hp : 1 ≤ padding)
    (hfit : string_offset padding lens lens.length < 2 ^ 64) :
    (∀ i j, i < lens.length → j < lens.getD i 0 + padding →
      s.local_position (s.position i j) = (i, j)) ∧
    (∀ p, PERIMETER_PADDING ≤ p → p < s.raw_len →
      (s.local_position p).1 < lens.length ∧
      s.limits_.getD (s.local_position p).1 0 ≤ p ∧
      p < s.limits_.getD ((s.local_position p).1 + 1) 0 ∧
      s.position (s.local_position p).1 (s.local_position p).2 = p) := by
  have hlen : s.limits_.length = lens.length + 1 := by rw [hL, limits_of_length]
  have hget : ∀ i ≤ lens.length, s.limits_.getD i 0 = string_offset padding lens i := by
    intro i hi
    rw [hL]
    exact limits_of_getD_fit padding lens hfit i hi
  have hbound : ∀ i ≤ lens.length, s.limits_.getD i 0 < 2 ^ 64 := by
    intro i hi
    rw [hget i hi]
    exact lt_of_le_of_lt (string_offset_mono padding lens i lens.length hi) hfit
  have hmono : ∀ a b, a ≤ b → b < s.limits_.length → s.limits_.getD a 0 ≤ s.limits_.getD b 0 := by
    intro a b hab hb
    rw [hget a (by omega), hget b (by omega)]
    exact string_offset_mono padding lens a b hab
  have hsmall : lens.length < 2 ^ 64 :=
    lt_of_le_of_lt (length_le_string_offset padding lens hp lens.length) hfit
  have hstep := (store_length_size s padding lens hL hp hfit).1
  constructor
  · intro i j hi hj
    have h1 := hstep i hi
    have h2 := hbound (i + 1) hi
    have hpos : s.position i j = s.limits_.getD i 0 + j := by
      unfold StringSetBase.position
      have he : ((s.limits_.getD i 0 : Nat) : Int) + (j : Nat)
          = ((s.limits_.getD i 0 + j : Nat) : Int) := by
        push_cast
        rfl
      rw [he]
      exact to_size_t_of_lt _ (by omega)
    rw [hpos]
    have hub := upper_bound_between s.limits_ (s.limits_.getD i 0 + j) i hmono (by omega)
      (by omega) (by omega)
    rw [local_position_eq s _ i hub (by omega) (by omega) (by omega)]
    simp
  · intro p hp1 hp2
    obtain ⟨s1, s2, s3⟩ := upper_bound_spec s.limits_ p hmono
    have hraw : s.raw_len = s.limits_.getD lens.length 0 := by
      unfold StringSetBase.raw_len
      rw [hget lens.length (le_refl _), hL, limits_of_last]
      exact to_size_t_of_lt _ hfit
    have h0 : s.limits_.getD 0 0 = PERIMETER_PADDING := by
      rw [hget 0 (Nat.zero_le _)]
      simp [string_offset]
    have r1 : 1 ≤ upper_bound s.limits_ p := by
      by_contra hn
      have := s3 0 (by omega) (by omega)
      omega
    have r2 : upper_bound s.limits_ p ≤ lens.length := by
      by_contra hn
      have := s2 lens.length (by omega)
      omega
    obtain ⟨r, hr⟩ : ∃ r, upper_bound s.limits_ p = r + 1 := ⟨upper_bound s.limits_ p - 1, by omega⟩
    have hle : s.limits_.getD r 0 ≤ p := s2 r (by omega)
    have hlt : p < s.limits_.getD (r + 1) 0 := s3 (r + 1) (by omega) (by omega)
    have hb := hbound (r + 1) (by omega)
    rw [local_position_eq s p r hr (by omega) hle (by omega)]
    refine ⟨by simp only; omega, hle, hlt, ?_⟩
    unfold StringSetBase.position
    simp only
    have he : ((s.limits_.getD r 0 : Nat) : Int) + ((p - s.limits_.getD r 0 : Nat) : Int)
        = ((p : Nat) : Int) := by omega
    rw [he]
    exact to_size_t_of_lt _ (by omega)

/-- C14. Reverse lookup of the packed store: for every `StringSetBase` with padding at least 1
built by `push_back` and `fill` (its data vector has a size, a `size_t`), every `i < size()` and
every `j < length(i) + padding`, `local_position(position(i, j)) = (i, j)`; and for every global
position `p` with `PERIMETER_PADDING <= p < raw_len()`, `local_position(p)` is a pair `(i, off)`
with `i < size()`, `limits[i] <= p < limits[i+1]` and `position(i, off) = p`. -/
theorem local_position_position {α : Type} (pchar zero : α) (padding : Nat)
    (ops : List (StringSetOp α)) (hp : 1 ≤ padding) (hops : ∀ op ∈ ops, op.is_push = true)
    (hfit : (StringSetBase.build pchar zero padding ops).data_.length < 2 ^ 64) :
    (∀ i j, i < (StringSetBase.build pchar zero padding ops).size →
      j < (StringSetBase.build pchar zero padding ops).length padding i + padding →
      (StringSetBase.build pchar zero padding ops).local_position
        ((StringSetBase.build pchar zero padding ops).position i j) = (i, j)) ∧
    (∀ p, PERIMETER_PADDING ≤ p → p < (StringSetBase.build pchar zero padding ops).raw_len →
      ((StringSetBase.build pchar zero padding ops).local_position p).1
        < (StringSetBase.build pchar zero padding ops).size ∧
      (StringSetBase.build pchar zero padding ops).limits_.getD
        ((StringSetBase.build pchar zero padding ops).local_position p).1 0 ≤ p ∧
      p < (StringSetBase.build pchar zero padding ops).limits_.getD
        (((StringSetBase.build pchar zero padding ops).local_position p).1 + 1) 0 ∧
      (StringSetBase.build pchar zero padding ops).position
        ((StringSetBase.build pchar zero padding ops).local_position p).1
        ((StringSetBase.build pchar zero padding ops).local_position p).2 = p) := by
  have hL := build_limits pchar zero padding ops
  rw [build_data_length pchar zero padding ops hops] at hfit
  obtain ⟨_, h2, h3⟩ := store_length_size _ padding _ hL hp hfit
  obtain ⟨a, b⟩ := local_position_store _ padding _ hL hp hfit
  constructor
  · intro i j hi hj
    rw [h3] at hi
    rw [h2 i hi] at hj
    exact a i j hi hj
  · intro p hp1 hp2
    rw [h3]
    exact b p hp1 hp2

/-- C14, witness: the position 2 of the string 1 in a store of three strings with
padding 1. -/
theorem local_position_position_witness :
    (StringSetBase.build 0 0 1
      [StringSetOp.push_back [1, 2, 3], StringSetOp.fill 2 7,
        StringSetOp.push_back []]).local_position
      ((StringSetBase.build 0 0 1
        [StringSetOp.push_back [1, 2, 3], StringSetOp.fill 2 7,
          StringSetOp.push_back []]).position 1 2) = (1, 2) :=
  (local_position_position 0 0 1
    [StringSetOp.push_back [1, 2, 3], StringSetOp.fill 2 7, StringSetOp.push_back []]
    (by decide) (by decide)
    (by rw [build_data_length 0 0 1 _ (by decide)]; decide)).1 1 2 (by decide) (by decide)

/-- C27. `reverse_translated_len` recovers the source length: if the sequences `j`, `j + 1`,
`j + 2` (`j` a multiple of 6) have the lengths `n / 3`, `(n - 1) / 3`, `(n - 2) / 3` of the three
forward frames of a nucleotide sequence of length `n >= 2`, then `reverse_translated_len(i) = n`
for every `i` from `j` to `j + 5`. -/
theorem reverse_translated_len_source {α : Type} (s : StringSetBase α) (padding : Nat)
    (j n i : Nat) (hn : 2 ≤ n) (hn64 : n < 2 ^ 64) (hj : j % 6 = 0) (hj64 : j + 5 < 2 ^ 64)
    (h0 : s.length padding j = n / 3) (h1 : s.length padding (j + 1) = (n - 1) / 3)
    (h2 : s.length padding (j + 2) = (n - 2) / 3) (hi1 : j ≤ i) (hi2 : i ≤ j + 5) :
    SequenceSet.reverse_translated_len s padding i = n := by
  have hij : to_size_t ((i : Int) - (i % 6 : Nat)) = j := by
    have e : ((i : Int) - (i % 6 : Nat)) = ((j : Nat) : Int) := by omega
    rw [e]
    exact to_size_t_of_lt j (by omega)
  have hj1 : to_size_t ((j : Int) + 1) = j + 1 := by
    have e : ((j : Int) + 1) = ((j + 1 : Nat) : Int) := by push_cast; ring
    rw [e]
    exact to_size_t_of_lt _ (by omega)
  have hj2 : to_size_t ((j : Int) + 2) = j + 2 := by
    have e : ((j : Int) + 2) = ((j + 2 : Nat) : Int) := by push_cast; ring
    rw [e]
    exact to_size_t_of_lt _ (by omega)
  unfold SequenceSet.reverse_translated_len
  simp only [hij, hj1, hj2, h0, h1, h2]
  by_cases c2 : (n - 2) / 3 = n / 3
  · rw [if_pos c2]
    have e : (((n / 3 : Nat) : Int) * 3 + 2) = ((n : Nat) : Int) := by omega
    rw [e]
    exact to_size_t_of_lt n hn64
  · rw [if_neg c2]
    by_cases c1 : (n - 1) / 3 = n / 3
    · rw [if_pos c1]
      have e : (((n / 3 : Nat) : Int) * 3 + 1) = ((n : Nat) : Int) := by omega
      rw [e]
      exact to_size_t_of_lt n hn64
    · rw [if_neg c1]
      have e : (((n / 3 : Nat) : Int) * 3) = ((n : Nat) : Int) := by omega
      rw [e]
      exact to_size_t_of_lt n hn64

/-- C27, witness: a nucleotide sequence of length 8, whose three forward frames have the
length 2; the index 3 belongs to the group that starts at 0. -/
theorem reverse_translated_len_source_witness :
    SequenceSet.reverse_translated_len example_frames 1 3 = 8 :=
  reverse_translated_len_source example_frames 1 0 8 3 (by decide) (by decide) (by decide)
    (by decide) (by decide) (by decide) (by decide) (by decide) (by decide)

/-- C28. `StringSetBase::check_idx(i)` tests `limits_.size() < i + 2` in `size_t` arithmetic. As
long as `i + 2` does not wrap it returns `i` exactly for `i < size()` and throws "Sequence set
index out of bounds." otherwise; for the two indices `2^64 - 2` and `2^64 - 1` the sum wraps to
0 and 1 and the index is returned although it is not below `size()`. -/
theorem check_idx_wraps {α : Type} (pchar zero : α) (padding : Nat)
    (ops : List (StringSetOp α)) :
    (∀ i, i + 2 < 2 ^ 64 →
      (StringSetBase.build pchar zero padding ops).limits_.length < 2 ^ 64 →
      (i < (StringSetBase.build pchar zero padding ops).size →
        (StringSetBase.build pchar zero padding ops).check_idx i = Except.ok i) ∧
      ((StringSetBase.build pchar zero padding ops).size ≤ i →
        (StringSetBase.build pchar zero padding ops).check_idx i
          = Except.error "Sequence set index out of bounds.")) ∧
    (StringSetBase.ctor (0 : Nat)).size = 0 ∧
    (StringSetBase.ctor (0 : Nat)).check_idx (2 ^ 64 - 1) = Except.ok (2 ^ 64 - 1) ∧
    (StringSetBase.ctor (0 : Nat)).check_idx (2 ^ 64 - 2) = Except.ok (2 ^ 64 - 2) := by
  refine ⟨fun i hi hl => ?_, by decide, rfl, rfl⟩
  have hL := build_limits pchar zero padding ops
  have hlen : (StringSetBase.build pchar zero padding ops).limits_.length
      = (pushed_lengths ops).length + 1 := by rw [hL, limits_of_length]
  have hsize : (StringSetBase.build pchar zero padding ops).size = (pushed_lengths ops).length := by
    unfold StringSetBase.size
    rw [hlen]
    have e : ((((pushed_lengths ops).length + 1 : Nat) : Int) - 1)
        = (((pushed_lengths ops).length : Nat) : Int) := by push_cast; ring
    rw [e]
    exact to_size_t_of_lt _ (by omega)
  have h1 : to_size_t ((StringSetBase.build pchar zero padding ops).limits_.length : Int)
      = (pushed_lengths ops).length + 1 := by
    rw [hlen]
    exact to_size_t_of_lt _ (by omega)
  have h2 : to_size_t ((i : Int) + 2) = i + 2 := by
    have e : ((i : Int) + 2) = ((i + 2 : Nat) : Int) := by push_cast; ring
    rw [e]
    exact to_size_t_of_lt _ hi
  unfold StringSetBase.check_idx
  rw [hsize]
  simp only [h1, h2]
  constructor
  · intro h
    rw [if_neg (by omega)]
  · intro h
    rw [if_pos (by omega)]

theorem dp_gap_cost_eq (open_ extend : Int) (len : Nat) :
    dp_gap_cost open_ extend (len + 1) = open_ + len * extend := by
  induction len with
  | zero => simp [dp_gap_cost]
  | succ n ih =>
    show dp_gap_cost open_ extend (n + 1) + extend = _
    rw [ih]
    push_cast
    ring

/-- The edit operations pushed during the backward walk follow the transcript the walk started
with: one operation per step, none of them a terminator; and with an iterator whose diagonal
step lowers both coordinates by one, a walk of diagonal steps alone lowers the coordinates by
the number of operations. -/
theorem traceback_walk_transcript {D It EV : Type} (E : SwipeEnv D It EV) (query : List Nat)
    (target : DpTarget) (channel : Nat) (end_score : Int) (fuel : Nat) :
    ∀ (w0 w : WalkState It), traceback_walk E query target channel end_score fuel w0 = some w →
      ∃ ops : List TranscriptEntry, w.transcript = w0.transcript ++ ops ∧
        (∀ e ∈ ops, e ≠ TranscriptEntry.terminator) ∧
        ops.length = (walk_path E query target channel end_score fuel w0).length ∧
        ops.countP TranscriptEntry.is_match
          = (walk_path E query target channel end_score fuel w0).countP WalkStep.is_pair ∧
        ((∀ it, E.ops.i (E.ops.walk_diagonal it) = E.ops.i it - 1 ∧
            E.ops.j (E.ops.walk_diagonal it) = E.ops.j it - 1) →
          (∀ st ∈ walk_path E query target channel end_score fuel w0, st.is_pair = true) →
          (ops.length : Int) = E.ops.i w0.it - E.ops.i w.it ∧
          (ops.length : Int) = E.ops.j w0.it - E.ops.j w.it) := by
  induction fuel with
  | zero => intro w0 w h; simp [traceback_walk] at h
  | succ n ih =>
    intro w0 w h
    unfold traceback_walk at h
    unfold walk_path
    by_cases hc : E.ops.i w0.it ≥ 0 ∧ E.ops.j w0.it ≥ 0 ∧ w0.score < end_score
    · rw [if_pos hc] at h ⊢
      by_cases hg : E.ops.gap w0.it channel = false
      · rw [if_pos hg] at h ⊢
        obtain ⟨ops, e1, e2, e3, e4, e5⟩ := ih _ _ h
        refine ⟨_ :: ops, by rw [e1, List.append_assoc]; rfl, ?_, ?_, ?_, ?_⟩
        · intro e he
          rcases List.mem_cons.mp he with h1 | h1
          · rw [h1]; simp
          · exact e2 e h1
        · simp only [List.length_cons, e3]
        · simp only [List.countP_cons, e4, TranscriptEntry.is_match, WalkStep.is_pair]
        · intro hdiag hall
          obtain ⟨a1, a2⟩ := e5 hdiag (fun st hst => hall st (List.mem_cons_of_mem _ hst))
          obtain ⟨d1, d2⟩ := hdiag w0.it
          simp only [List.length_cons] at a1 a2 ⊢
          push_cast
          simp only [d1, d2] at a1 a2
          constructor <;> omega
      · rw [if_neg hg] at h ⊢
        obtain ⟨ops, e1, e2, e3, e4, e5⟩ := ih _ _ h
        refine ⟨_ :: ops, by rw [e1, List.append_assoc]; rfl, ?_, ?_, ?_, ?_⟩
        · intro e he
          rcases List.mem_cons.mp he with h1 | h1
          · rw [h1]; simp
          · exact e2 e h1
        · simp only [List.length_cons, e3]
        · simp only [List.countP_cons, e4, TranscriptEntry.is_match, WalkStep.is_pair]
        · intro hdiag hall
          have := hall _ (List.mem_cons_self _ _)
          simp [WalkStep.is_pair] at this
    · rw [if_neg hc] at h ⊢
      simp only [Option.some.injEq] at h
      subst h
      exact ⟨[], by simp, by simp, rfl, rfl, fun _ _ => by simp⟩

/-- C21. For every successful traceback over a `TracebackVectorMatrix`: the transcript of the
`Hsp` is the reverse of the edit operations pushed during the backward walk followed by one
terminator, which is its last element and its only terminator; the begin coordinates are the
final `(i + 1, j + 1)` of the iterator and the end coordinates its starting `(i + 1, j + 1)`;
and in a walk without gap steps (with an iterator whose diagonal step lowers both coordinates by
one) the number of match/mismatch operations is `end - begin` on the query and on the subject
axis. -/
theorem traceback_vector_transcript {D It EV : Type} (E : SwipeEnv D It EV) (fuel : Nat)
    (query : List Nat) (query_string : String) (frame : Int) (dp : D) (target : DpTarget)
    (max_score : Int) (evalue : EV) (max_col max_i max_j : Int) (channel : Nat)
    (w : WalkState It) (h : Hsp EV)
    (hw : traceback_walk E query target channel (E.traits.int_score max_score) fuel
      ⟨E.ops.start dp max_col max_i max_j channel, 0, []⟩ = some w)
    (hh : traceback_vector E fuel query query_string frame dp target max_score evalue max_col
      max_i max_j channel = some (Except.ok h)) :
    h.transcript = w.transcript.reverse ++ [TranscriptEntry.terminator] ∧
    w.transcript.length
      = (walk_path E query target channel (E.traits.int_score max_score) fuel
          ⟨E.ops.start dp max_col max_i max_j channel, 0, []⟩).length ∧
    (∀ e ∈ w.transcript, e ≠ TranscriptEntry.terminator) ∧
    h.transcript.getLast? = some TranscriptEntry.terminator ∧
    h.transcript.count TranscriptEntry.terminator = 1 ∧
    h.query_range.begin_ = E.ops.i w.it + 1 ∧ h.subject_range.begin_ = E.ops.j w.it + 1 ∧
    h.query_range.end_ = E.ops.i (E.ops.start dp max_col max_i max_j channel) + 1 ∧
    h.subject_range.end_ = E.ops.j (E.ops.start dp max_col max_i max_j channel) + 1 ∧
    ((∀ it, E.ops.i (E.ops.walk_diagonal it) = E.ops.i it - 1 ∧
        E.ops.j (E.ops.walk_diagonal it) = E.ops.j it - 1) →
      (∀ st ∈ walk_path E query target channel (E.traits.int_score max_score) fuel
          ⟨E.ops.start dp max_col max_i max_j channel, 0, []⟩, st.is_pair = true) →
      (h.transcript.countP TranscriptEntry.is_match : Int)
        = h.query_range.end_ - h.query_range.begin_ ∧
      (h.transcript.countP TranscriptEntry.is_match : Int)
        = h.subject_range.end_ - h.subject_range.begin_) := by
  obtain ⟨ops, e1, e2, e3, e4, e5⟩ := traceback_walk_transcript E query target channel
    (E.traits.int_score max_score) fuel _ _ hw
  simp only [List.nil_append] at e1
  have hform : h = { swipe_target := target.target_idx
                     score := if target.adjusted_matrix then E.traits.int_score max_score
                       else E.traits.int_score max_score * E.cbs_matrix_scale
                     evalue := evalue
                     frame := frame
                     query_range := ⟨E.ops.i w.it + 1,
                       E.ops.i (E.ops.start dp max_col max_i max_j channel) + 1⟩
                     subject_range := ⟨E.ops.j w.it + 1,
                       E.ops.j (E.ops.start dp max_col max_i max_j channel) + 1⟩
                     identities := 0
                     length := 0
                     target_seq := []
                     transcript := w.transcript.reverse ++ [TranscriptEntry.terminator] } := by
    unfold traceback_vector at hh
    simp only [hw] at hh
    by_cases hsc : w.score ≠ E.traits.int_score max_score
    · rw [if_pos hsc] at hh
      simp at hh
    · rw [if_neg hsc] at hh
      simp only [Option.some.injEq, Except.ok.injEq] at hh
      exact hh.symm
  have hcount : (w.transcript.reverse ++ [TranscriptEntry.terminator]).count
      TranscriptEntry.terminator = 1 := by
    rw [List.count_append, List.count_reverse, List.count_eq_zero_of_not_mem]
    · simp
    · intro hm
      rw [e1] at hm
      exact e2 _ hm rfl
  have hmatch : (w.transcript.reverse ++ [TranscriptEntry.terminator]).countP
      TranscriptEntry.is_match = ops.countP TranscriptEntry.is_match := by
    rw [List.countP_append, List.countP_reverse, e1]
    simp [TranscriptEntry.is_match]
  rw [hform]
  refine ⟨rfl, by rw [e1]; exact e3, by rw [e1]; exact e2, by simp, hcount, rfl, rfl, rfl, rfl,
    fun hdiag hall => ?_⟩
  obtain ⟨a1, a2⟩ := e5 hdiag hall
  simp only at a1 a2
  have hall2 : ops.countP TranscriptEntry.is_match = ops.length := by
    rw [e4, e3]
    exact List.countP_eq_length.mpr hall
  simp only [hmatch, hall2]
  constructor <;> omega

/-- C21, witness: the walk of the example from the cell (3, 3) up to the best score 2: two
match operations and the terminator. -/
theorem traceback_vector_transcript_witness :
    ∃ h : Hsp Int,
      traceback_vector example_traceback_env 5 [0, 0, 0, 0] "q" 0 () carry_target 2 2 0 3 3 0
        = some (Except.ok h) ∧
      h.transcript = [TranscriptEntry.matched 0 0 true, TranscriptEntry.matched 0 0 true,
        TranscriptEntry.terminator] :=
  ⟨_, rfl,
    (traceback_vector_transcript example_traceback_env 5 [0, 0, 0, 0] "q" 0 () carry_target 2 2 0
      3 3 0 ⟨(1, 1), 2, [TranscriptEntry.matched 0 0 true, TranscriptEntry.matched 0 0 true]⟩ _
      rfl rfl).1⟩

theorem tile_survivors_le {FP : Type} (E : Env FP) (hits : FlatArray)
    (query_begin subject_begin : Nat) (q s : Ptr PackedLoc) (context : Context) (shape_id : Nat)
    (i : Nat) :
    tile_survivors E hits query_begin subject_begin q s context shape_id i
      ≤ tile_above_cutoff E hits query_begin subject_begin q s context shape_id i ∧
    tile_above_cutoff E hits query_begin subject_begin q s context shape_id i
      ≤ (hits.list i).length := by
  unfold tile_survivors tile_above_cutoff survivors
  constructor
  · rw [← List.countP_eq_length_filter, ← List.countP_eq_length_filter]
    apply List.countP_mono_left
    intro k _ hk
    simp only [Bool.and_eq_true] at hk
    exact hk.1
  · exact le_trans (List.length_filter_le _ _) (by simp)

theorem range_map_getD (l : List (List Nat)) :
    (List.range l.length).map (fun i => l.getD i []) = l := by
  apply List.ext_getElem
  · simp
  · intro n h1 h2
    simp [List.getD_eq_getElem?_getD, List.getElem?_eq_getElem h2]

theorem data_size_eq_sum (hits : FlatArray) :
    hits.data_size = ((List.range hits.size).map (fun i => (hits.list i).length)).sum := by
  unfold FlatArray.data_size FlatArray.size FlatArray.list
  conv_lhs => rw [← range_map_getD hits.lists]
  rw [List.map_map]
  rfl

theorem sum_map_le (l : List Nat) (f g : Nat → Nat) (h : ∀ i, f i ≤ g i) :
    (l.map f).sum ≤ (l.map g).sum := by
  induction l with
  | nil => simp
  | cons a l ih =>
    simp only [List.map_cons, List.sum_cons]
    have := h a
    omega

/-- The loop of `search_tile` over the queries in the list `l`, with `search_query_offset` as
the callee: the counters grow by the candidates above the cutoff and by the survivors, and the
hit counts pushed to the sink add up to the survivors. -/
theorem search_tile_fold_stats {FP : Type} (E : Env FP) (hits : FlatArray)
    (query_begin subject_begin : Nat) (q s : Ptr PackedLoc) (context : Context) (shape_id : Nat)
    (l : List Nat) :
    ∀ ws : WorkSet FP (List Pushed), ws.context = context → ws.shape_id = shape_id →
      ∃ pushed : List Pushed,
        (l.foldl (fun ws i => if hits.list i = [] then ws
          else search_query_offset E ((q.add query_begin) i) (s.add subject_begin) (hits.list i) ws)
          ws).out = ws.out ++ pushed ∧
        (pushed.map Pushed.hit_count).sum
          = (l.map (tile_survivors E hits query_begin subject_begin q s context shape_id)).sum ∧
        (l.foldl (fun ws i => if hits.list i = [] then ws
          else search_query_offset E ((q.add query_begin) i) (s.add subject_begin) (hits.list i) ws)
          ws).stats.TENTATIVE_MATCHES1 = ws.stats.TENTATIVE_MATCHES1 ∧
        (l.foldl (fun ws i => if hits.list i = [] then ws
          else search_query_offset E ((q.add query_begin) i) (s.add subject_begin) (hits.list i) ws)
          ws).stats.TENTATIVE_MATCHES2 = ws.stats.TENTATIVE_MATCHES2
            + (l.map (tile_above_cutoff E hits query_begin subject_begin q s context
                shape_id)).sum ∧
        (l.foldl (fun ws i => if hits.list i = [] then ws
          else search_query_offset E ((q.add query_begin) i) (s.add subject_begin) (hits.list i) ws)
          ws).stats.TENTATIVE_MATCHES3 = ws.stats.TENTATIVE_MATCHES3
            + (l.map (tile_survivors E hits query_begin subject_begin q s context
                shape_id)).sum := by
  induction l with
  | nil =>
    intro ws _ _
    exact ⟨[], by simp, by simp, rfl, by simp, by simp⟩
  | cons i l ih =>
    intro ws hc hs
    rw [List.foldl_cons]
    by_cases he : hits.list i = []
    · rw [if_pos he]
      obtain ⟨pushed, p1, p2, p3, p4, p5⟩ := ih ws hc hs
      have ha : tile_above_cutoff E hits query_begin subject_begin q s context shape_id i = 0 := by
        simp [tile_above_cutoff, he]
      have hv : tile_survivors E hits query_begin subject_begin q s context shape_id i = 0 := by
        simp [tile_survivors, survivors, he]
      refine ⟨pushed, p1, ?_, p3, ?_, ?_⟩
      · rw [p2, List.map_cons, List.sum_cons, hv, Nat.zero_add]
      · rw [p4, List.map_cons, List.sum_cons, ha, Nat.zero_add]
      · rw [p5, List.map_cons, List.sum_cons, hv, Nat.zero_add]
    · rw [if_neg he, search_query_offset_eq]
      have hctx : (search_query_offset_spec E ((q.add query_begin) i) (s.add subject_begin)
          (hits.list i) ws).context = context := by
        unfold search_query_offset_spec
        simp only
        split <;> exact hc
      have hsid : (search_query_offset_spec E ((q.add query_begin) i) (s.add subject_begin)
          (hits.list i) ws).shape_id = shape_id := by
        unfold search_query_offset_spec
        simp only
        split <;> exact hs
      obtain ⟨pushed, p1, p2, p3, p4, p5⟩ := ih _ hctx hsid
      have hst : (search_query_offset_spec E ((q.add query_begin) i) (s.add subject_begin)
          (hits.list i) ws).stats = stats_after E
            (query_locals E ((q.add query_begin) i) context shape_id) context
            (s.add subject_begin) (hits.list i) ws.stats := by
        unfold search_query_offset_spec
        simp only [hc, hs]
        split <;> rfl
      have hout : ∃ p0 : List Pushed,
          (search_query_offset_spec E ((q.add query_begin) i) (s.add subject_begin)
            (hits.list i) ws).out = ws.out ++ p0 ∧
          (p0.map Pushed.hit_count).sum
            = tile_survivors E hits query_begin subject_begin q s context shape_id i := by
        unfold search_query_offset_spec tile_survivors
        simp only [hc, hs]
        split
        · rename_i hnil
          exact ⟨[], by simp, by simp [hnil]⟩
        · exact ⟨[_], rfl, by simp⟩
      obtain ⟨p0, q1, q2⟩ := hout
      refine ⟨p0 ++ pushed, ?_, ?_, ?_, ?_, ?_⟩
      · rw [p1, q1, List.append_assoc]
      · rw [List.map_append, List.sum_append, p2, q2, List.map_cons, List.sum_cons]
      · rw [p3, hst]
        rfl
      · rw [p4, hst, List.map_cons, List.sum_cons, ← Nat.add_assoc]
        rfl
      · rw [p5, hst, List.map_cons, List.sum_cons, ← Nat.add_assoc]
        rfl

/-- C23. Stage-2 statistics for one `search_tile` call (on a hit array with fewer than `2^32`
lists, as `all_vs_all` fills it): `TENTATIVE_MATCHES1` grows by the number of hit entries of the
tile, `TENTATIVE_MATCHES2` by the number of candidates whose score exceeds the cutoff and
`TENTATIVE_MATCHES3` by the number of those that also pass the left-most filter; the three
increments satisfy `M3 <= M2 <= M1`, and `M3` is the sum of the hit counts pushed to the sink
for the tile. -/
theorem search_tile_statistics {FP : Type} (E : Env FP) (hits : FlatArray)
    (query_begin subject_begin : Nat) (q s : Ptr PackedLoc) (ws : WorkSet FP (List Pushed))
    (hsize : hits.size < 2 ^ 32) :
    (search_tile (search_query_offset E) hits query_begin subject_begin q s
        ws).stats.TENTATIVE_MATCHES1 = ws.stats.TENTATIVE_MATCHES1 + hits.data_size ∧
    (search_tile (search_query_offset E) hits query_begin subject_begin q s
        ws).stats.TENTATIVE_MATCHES2 = ws.stats.TENTATIVE_MATCHES2
          + ((List.range hits.size).map (tile_above_cutoff E hits query_begin subject_begin q s
              ws.context ws.shape_id)).sum ∧
    (search_tile (search_query_offset E) hits query_begin subject_begin q s
        ws).stats.TENTATIVE_MATCHES3 = ws.stats.TENTATIVE_MATCHES3
          + ((List.range hits.size).map (tile_survivors E hits query_begin subject_begin q s
              ws.context ws.shape_id)).sum ∧
    ((List.range hits.size).map (tile_survivors E hits query_begin subject_begin q s
        ws.context ws.shape_id)).sum
      ≤ ((List.range hits.size).map (tile_above_cutoff E hits query_begin subject_begin q s
          ws.context ws.shape_id)).sum ∧
    ((List.range hits.size).map (tile_above_cutoff E hits query_begin subject_begin q s
        ws.context ws.shape_id)).sum ≤ hits.data_size ∧
    ∃ pushed : List Pushed,
      (search_tile (search_query_offset E) hits query_begin subject_begin q s ws).out
        = ws.out ++ pushed ∧
      (pushed.map Pushed.hit_count).sum
        = ((List.range hits.size).map (tile_survivors E hits query_begin subject_begin q s
            ws.context ws.shape_id)).sum := by
  have hq : to_uint32 hits.size = hits.size := Nat.mod_eq_of_lt hsize
  obtain ⟨pushed, p1, p2, p3, p4, p5⟩ := search_tile_fold_stats E hits query_begin subject_begin
    q s ws.context ws.shape_id (List.range hits.size)
    { ws with stats := ws.stats.inc1 hits.data_size } rfl rfl
  have hrun : search_tile (search_query_offset E) hits query_begin subject_begin q s ws
      = (List.range hits.size).foldl (fun ws i => if hits.list i = [] then ws
          else search_query_offset E ((q.add query_begin) i) (s.add subject_begin) (hits.list i) ws)
          { ws with stats := ws.stats.inc1 hits.data_size } := by
    unfold search_tile
    simp only [hq]
  rw [hrun]
  refine ⟨by rw [p3]; rfl, by rw [p4]; rfl, by rw [p5]; rfl, ?_, ?_, pushed, p1, p2⟩
  · exact sum_map_le _ _ _ (fun i =>
      (tile_survivors_le E hits query_begin subject_begin q s ws.context ws.shape_id i).1)
  · rw [data_size_eq_sum]
    exact sum_map_le _ _ _ (fun i =>
      (tile_survivors_le E hits query_begin subject_begin q s ws.context ws.shape_id i).2)

/-- C23, witness: a tile of the example with three hit entries; two of them score above the
cutoff and one of these passes the left-most filter. -/
theorem search_tile_statistics_witness :
    (search_tile (search_query_offset example_env) example_tile_hits 0 0
        (fun k => 12345 + k) (fun k => 2000 + 7 * k) example_work_set).stats
      = ⟨0, 3, 2, 1⟩ ∧
    (search_tile (search_query_offset example_env) example_tile_hits 0 0
        (fun k => 12345 + k) (fun k => 2000 + 7 * k) example_work_set).stats.TENTATIVE_MATCHES1
      = example_work_set.stats.TENTATIVE_MATCHES1 + example_tile_hits.data_size :=
  ⟨by decide,
    (search_tile_statistics example_env example_tile_hits 0 0 (fun k => 12345 + k)
      (fun k => 2000 + 7 * k) example_work_set (by decide)).1⟩

theorem search_tile_keeps {FP Sink : Type}
    (sqo : Nat → Ptr PackedLoc → List Nat → WorkSet FP Sink → WorkSet FP Sink)
    (hsqo : ∀ q0 s0 r w, (sqo q0 s0 r w).vq = w.vq ∧ (sqo q0 s0 r w).vs = w.vs)
    (hits : FlatArray) (query_begin subject_begin : Nat) (q s : Ptr PackedLoc)
    (ws : WorkSet FP Sink) :
    (search_tile sqo hits query_begin subject_begin q s ws).vq = ws.vq ∧
    (search_tile sqo hits query_begin subject_begin q s ws).vs = ws.vs := by
  unfold search_tile
  simp only
  generalize List.range (to_uint32 hits.size) = l
  have key : ∀ (l : List Nat) (w : WorkSet FP Sink),
      (l.foldl (fun ws i => if hits.list i = [] then ws
        else sqo ((q.add query_begin) i) (s.add subject_begin) (hits.list i) ws) w).vq = w.vq ∧
      (l.foldl (fun ws i => if hits.list i = [] then ws
        else sqo ((q.add query_begin) i) (s.add subject_begin) (hits.list i) ws) w).vs = w.vs := by
    intro l
    induction l with
    | nil => intro w; exact ⟨rfl, rfl⟩
    | cons i l ih =>
      intro w
      rw [List.foldl_cons]
      by_cases he : hits.list i = []
      · rw [if_pos he]
        exact ih w
      · rw [if_neg he]
        obtain ⟨h1, h2⟩ := ih (sqo ((q.add query_begin) i) (s.add subject_begin) (hits.list i) w)
        obtain ⟨g1, g2⟩ := hsqo ((q.add query_begin) i) (s.add subject_begin) (hits.list i) w
        exact ⟨h1.trans g1, h2.trans g2⟩
  exact key l _

theorem stage1_tile_keeps {FP Sink : Type} [DecidableEq FP] [Inhabited FP]
    (sqo : Nat → Ptr PackedLoc → List Nat → WorkSet FP Sink → WorkSet FP Sink)
    (hsqo : ∀ q0 s0 r w, (sqo q0 s0 r w).vq = w.vq ∧ (sqo q0 s0 r w).vs = w.vs)
    (tile_size : Nat) (q s : Ptr PackedLoc) (i j : Nat) (ws : WorkSet FP Sink) :
    (stage1_tile sqo tile_size q s i j ws).vq = ws.vq ∧
    (stage1_tile sqo tile_size q s i j ws).vs = ws.vs := by
  unfold stage1_tile
  simp only
  exact search_tile_keeps sqo hsqo _ _ _ q s _

theorem search_query_offset_keeps {FP : Type} (E : Env FP) (q0 : Nat) (s0 : Ptr PackedLoc)
    (r : List Nat) (w : WorkSet FP (List Pushed)) :
    (search_query_offset E q0 s0 r w).vq = w.vq ∧ (search_query_offset E q0 s0 r w).vs = w.vs := by
  rw [search_query_offset_eq]
  unfold search_query_offset_spec
  simp only
  split <;> exact ⟨rfl, rfl⟩

/-- The tile loops of `stage1` with a callee that leaves the fingerprint vectors alone, for
every input on which the loop counters do not wrap: the run ends (with enough fuel) and is the
sequence of the passes over the tile starts. -/
theorem stage1_run {FP Sink : Type} [DecidableEq FP] [Inhabited FP] (E : Env FP)
    (sqo : Nat → Ptr PackedLoc → List Nat → WorkSet FP Sink → WorkSet FP Sink)
    (hsqo : ∀ q0 s0 r w, (sqo q0 s0 r w).vq = w.vq ∧ (sqo q0 s0 r w).vs = w.vs)
    (fuel : Nat) (q : Ptr PackedLoc) (nq : Nat) (s : Ptr PackedLoc) (ns : Nat)
    (ws : WorkSet FP Sink) (ht : 0 < E.config.tile_size)
    (hwq : (nq + E.config.tile_size - 1) / E.config.tile_size * E.config.tile_size < 2 ^ 64)
    (hws : (ns + E.config.tile_size - 1) / E.config.tile_size * E.config.tile_size < 2 ^ 64)
    (hfq : (nq + E.config.tile_size - 1) / E.config.tile_size < fuel)
    (hfs : (ns + E.config.tile_size - 1) / E.config.tile_size < fuel) :
    stage1 E sqo fuel q nq s ns ws
      = some ((tile_starts E.config.tile_size nq).foldl (fun ws i =>
          (tile_starts E.config.tile_size ns).foldl
            (fun ws j => stage1_tile sqo E.config.tile_size q s i j ws) ws)
          { ws with
            stats := ws.stats.inc_seed_hits ((nq * ns) % 2 ^ 64)
            vq := load_fps E.query_fp q nq
            vs := load_fps E.ref_fp s ns }) := by
  obtain ⟨hq1, hq2⟩ := num_tiles_props E.config.tile_size nq ht
  obtain ⟨hs1, hs2⟩ := num_tiles_props E.config.tile_size ns ht
  have hmono : ∀ (k m : Nat), m < k → (m + 1) * E.config.tile_size ≤ k * E.config.tile_size :=
    fun k m hm => Nat.mul_le_mul_right _ hm
  let P : WorkSet FP Sink → Prop := fun w => w.vq.length = nq ∧ w.vs.length = ns
  have hstep : ∀ i j (w : WorkSet FP Sink), P w →
      P (stage1_tile sqo E.config.tile_size q s i j w) := by
    intro i j w hw
    obtain ⟨h1, h2⟩ := stage1_tile_keeps sqo hsqo E.config.tile_size q s i j w
    exact ⟨by rw [h1]; exact hw.1, by rw [h2]; exact hw.2⟩
  have hinner : ∀ (i : Nat) (w : WorkSet FP Sink), P w →
      for_stride (fun ws => ws.vs.length) E.config.tile_size
          (fun j ws => some (stage1_tile sqo E.config.tile_size q s i j ws)) fuel 0 w
        = some ((tile_starts E.config.tile_size ns).foldl
            (fun ws j => stage1_tile sqo E.config.tile_size q s i j ws) w) ∧
      P ((tile_starts E.config.tile_size ns).foldl
            (fun ws j => stage1_tile sqo E.config.tile_size q s i j ws) w) := by
    intro i w hw
    have := for_stride_eq (fun ws : WorkSet FP Sink => ws.vs.length)
      E.config.tile_size
      (fun j ws => some (stage1_tile sqo E.config.tile_size q s i j ws))
      (fun j ws => stage1_tile sqo E.config.tile_size q s i j ws) ns P
      (fun st hst => hst.2)
      (fun j st hst _ => ⟨rfl, hstep i j st hst⟩)
      ((ns + E.config.tile_size - 1) / E.config.tile_size) 0 fuel w hfs hw
      (by simpa using hs1) (fun m hm => by simpa using hs2 m hm)
      (fun m hm => by have := hmono _ m hm; omega)
    simpa [tile_starts] using this
  have houter := for_stride_eq (fun ws : WorkSet FP Sink => ws.vq.length)
      E.config.tile_size
      (fun i ws => for_stride (fun ws => ws.vs.length) E.config.tile_size
        (fun j ws => some (stage1_tile sqo E.config.tile_size q s i j ws)) fuel 0 ws)
      (fun i ws => (tile_starts E.config.tile_size ns).foldl
            (fun ws j => stage1_tile sqo E.config.tile_size q s i j ws) ws) nq P
      (fun st hst => hst.1)
      (fun i st hst _ => hinner i st hst)
      ((nq + E.config.tile_size - 1) / E.config.tile_size) 0 fuel
      { ws with
        stats := ws.stats.inc_seed_hits ((nq * ns) % 2 ^ 64)
        vq := load_fps E.query_fp q nq
        vs := load_fps E.ref_fp s ns }
      hfq ⟨by simp [load_fps], by simp [load_fps]⟩
      (by simpa using hq1) (fun m hm => by simpa using hq2 m hm)
      (fun m hm => by have := hmono _ m hm; omega)
  simp only [stage1]
  simpa [tile_starts] using houter.1

theorem foldl_tile_passes {σ : Type} (f : σ → Nat → Nat → σ) (lj : List Nat) (li : List Nat) :
    ∀ st : σ, li.foldl (fun st i => lj.foldl (fun st j => f st i j) st) st
      = (li.flatMap (fun i => lj.map (fun j => (i, j)))).foldl (fun st p => f st p.1 p.2) st := by
  induction li with
  | nil => intro st; rfl
  | cons i li ih =>
    intro st
    rw [List.foldl_cons, ih, List.flatMap_cons, List.foldl_append, List.foldl_map]

theorem tiles_no_wrap (t n : Nat) (ht : 0 < t) (ht64 : t < 2 ^ 64) (hn : n < 2 ^ 63) :
    (n + t - 1) / t * t < 2 ^ 64 ∧ (n + t - 1) / t ≤ n := by
  obtain ⟨h1, h2⟩ := num_tiles_props t n ht
  rcases Nat.eq_zero_or_pos ((n + t - 1) / t) with h0 | hpos
  · rw [h0]
    exact ⟨by norm_num, Nat.zero_le _⟩
  · obtain ⟨k, hk⟩ : ∃ k, (n + t - 1) / t = k + 1 := ⟨(n + t - 1) / t - 1, by omega⟩
    have hkn := h2 k (by omega)
    rw [hk]
    have hmul : (k + 1) * t = k * t + t := by ring
    have hkt : k ≤ k * t := Nat.le_mul_of_pos_right _ ht
    constructor
    · rw [hmul]
      by_cases hbig : t ≤ 2 ^ 63
      · omega
      · have hk0 : k = 0 := by
          by_contra hne
          have : t ≤ k * t := Nat.le_mul_of_pos_left _ (Nat.pos_of_ne_zero hne)
          omega
        rw [hk0]
        omega
    · omega

theorem mem_tile_passes (t nq ns : Nat) (p : Nat × Nat) :
    p ∈ tile_passes t nq ns ↔ p.1 ∈ tile_starts t nq ∧ p.2 ∈ tile_starts t ns := by
  unfold tile_passes
  simp only [List.mem_flatMap, List.mem_map]
  constructor
  · rintro ⟨i, hi, j, hj, rfl⟩
    exact ⟨hi, hj⟩
  · rintro ⟨hi, hj⟩
    exact ⟨p.1, hi, p.2, hj, rfl⟩

theorem tile_passes_length (t nq ns : Nat) :
    (tile_passes t nq ns).length = (nq + t - 1) / t * ((ns + t - 1) / t) := by
  have key : ∀ (l1 l2 : List Nat),
      (l1.flatMap (fun i => l2.map (fun j => (i, j)))).length = l1.length * l2.length := by
    intro l1 l2
    induction l1 with
    | nil => simp
    | cons a l ih =>
      rw [List.flatMap_cons, List.length_append, ih, List.length_map, List.length_cons]
      ring
  unfold tile_passes
  rw [key]
  simp [tile_starts]

theorem coords_inv_congr {D It EV : Type} (E : SwipeEnv D It EV) (qlen : Int) (cols : Nat)
    (st st1 : SwipeState D EV) (h : coords_inv E qlen cols st) (hcol : st1.col = st.col)
    (hbest : st1.best = st.best) (hpos : st1.pos = st.pos) (h1 : st1.max_i = st.max_i)
    (h2 : st1.max_col = st.max_col) (h3 : st1.max_j = st.max_j) :
    coords_inv E qlen cols st1 := by
  unfold coords_inv at h ⊢
  rw [hcol, hbest, hpos, h1, h2, h3]
  exact h

theorem coords_inv_update_best {D It EV : Type} (E : SwipeEnv D It EV) (qlen : Int) (cols : Nat)
    (col_best_ i_max : Nat → Int) (c1 : Nat) (st : SwipeState D EV)
    (h : coords_inv E qlen cols st)
    (hrow : E.traits.zero_score < col_best_ c1 →
      0 ≤ E.traits.int_score (i_max c1) ∧ E.traits.int_score (i_max c1) < qlen) :
    coords_inv E qlen cols (update_best E col_best_ i_max c1 st) := by
  unfold update_best
  by_cases hgt : col_best_ c1 > st.best c1
  · rw [if_pos hgt]
    obtain ⟨hc, hall⟩ := h
    refine ⟨hc, fun c => ?_⟩
    obtain ⟨a1, a2, a3⟩ := hall c
    by_cases hcc : c = c1
    · subst hcc
      have hz : E.traits.zero_score < col_best_ c := lt_of_le_of_lt a1 hgt
      obtain ⟨r1, r2⟩ := hrow hz
      simp only [set_at, if_true]
      exact ⟨le_of_lt hz, a2, fun _ => ⟨r1, r2, by omega, by exact_mod_cast hc, a2, le_refl _⟩⟩
    · simp only [set_at, hcc, if_false]
      exact ⟨a1, a2, a3⟩
  · rw [if_neg hgt]
    exact h

theorem coords_inv_inc_target {D It EV : Type} (E : SwipeEnv D It EV) (qlen : Int) (cols : Nat)
    (c1 : Nat) (st : SwipeState D EV) (h : coords_inv E qlen cols st) :
    coords_inv E qlen cols (inc_target c1 st).1 := by
  obtain ⟨hc, hall⟩ := h
  refine ⟨hc, fun c => ?_⟩
  obtain ⟨a1, a2, a3⟩ := hall c
  by_cases hcc : c = c1
  · subst hcc
    simp only [inc_target, set_at, if_true]
    refine ⟨a1, by omega, fun hz => ?_⟩
    obtain ⟨b1, b2, b3, b4, b5, b6⟩ := a3 hz
    exact ⟨b1, b2, b3, b4, b5, by omega⟩
  · simp only [inc_target, set_at, hcc, if_false]
    exact ⟨a1, a2, a3⟩

theorem coords_inv_reinit {D It EV : Type} (E : SwipeEnv D It EV) (qlen : Int) (cols : Nat)
    (targets : List DpTarget) (i c1 : Nat) (st : SwipeState D EV)
    (h : coords_inv E qlen cols st) :
    coords_inv E qlen cols (reinit_channel E targets i c1 st).1 := by
  obtain ⟨hc, hall⟩ := h
  unfold reinit_channel init_target
  cases hget : targets[st.next]? with
  | none => exact ⟨hc, hall⟩
  | some t =>
    refine ⟨hc, fun c => ?_⟩
    obtain ⟨a1, a2, a3⟩ := hall c
    by_cases hcc : c = c1
    · subst hcc
      simp only [set_at, if_true]
      exact ⟨le_refl _, le_refl _, fun hz => absurd hz (lt_irrefl _)⟩
    · simp only [set_at, hcc, if_false, if_true]
      exact ⟨a1, a2, a3⟩

/-- The handling of one channel after a column keeps the invariant, however it ends. -/
theorem coords_inv_handle {D It EV : Type} (E : SwipeEnv D It EV) (qlen : Int) (cols : Nat)
    (fuel : Nat) (query : List Nat) (query_string : String) (frame : Int)
    (targets : List DpTarget) (col_best_ i_max : Nat → Int) (i : Nat) (st : SwipeState D EV)
    (h : coords_inv E qlen cols st)
    (hrow : ∀ c, E.traits.zero_score < col_best_ c →
      0 ≤ E.traits.int_score (i_max c) ∧ E.traits.int_score (i_max c) < qlen) :
    coords_inv E qlen cols
      (handle_channel E fuel query query_string frame targets col_best_ i_max i st).state.1 := by
  have hu := coords_inv_update_best E qlen cols col_best_ i_max (st.active.getD i 0) st h
    (hrow _)
  have hn := coords_inv_inc_target E qlen cols (st.active.getD i 0) _ hu
  unfold handle_channel
  simp only
  split
  · exact coords_inv_reinit E qlen cols targets i _ _
      (coords_inv_congr E qlen cols _ _ hu rfl rfl rfl rfl rfl rfl)
  · split
    · split
      · split
        · exact hn
        · exact hn
        · exact coords_inv_reinit E qlen cols targets i _ _
            (coords_inv_congr E qlen cols _ _ hn rfl rfl rfl rfl rfl rfl)
      · exact coords_inv_reinit E qlen cols targets i _ _ hn
    · exact hn

theorem coords_inv_channel_loop {D It EV : Type} (E : SwipeEnv D It EV) (qlen : Int)
    (cols : Nat) (fuel : Nat) (query : List Nat) (query_string : String) (frame : Int)
    (targets : List DpTarget) (col_best_ i_max : Nat → Int)
    (hrow : ∀ c, E.traits.zero_score < col_best_ c →
      0 ≤ E.traits.int_score (i_max c) ∧ E.traits.int_score (i_max c) < qlen)
    (rounds : Nat) :
    ∀ (i : Nat) (st : SwipeState D EV), coords_inv E qlen cols st →
      coords_inv E qlen cols
        (channel_loop E fuel query query_string frame targets col_best_ i_max rounds i
          st).state := by
  induction rounds with
  | zero => intro i st h; exact h
  | succ n ih =>
    intro i st h
    unfold channel_loop
    by_cases hi : i < st.active.length
    · rw [if_pos hi]
      have hh := coords_inv_handle E qlen cols fuel query query_string frame targets col_best_
        i_max i st h hrow
      cases hc : handle_channel E fuel query query_string frame targets col_best_ i_max i st with
      | done r =>
        rw [hc] at hh
        exact ih r.2 r.1 hh
      | thrown e r =>
        rw [hc] at hh
        exact hh
      | no_fuel r =>
        rw [hc] at hh
        exact hh
    · rw [if_neg hi]
      exact h

/-- One round of the main loop of `swipe` keeps the invariant, however it ends. -/
theorem coords_inv_column {D It EV : Type} (E : SwipeEnv D It EV) (cols : Nat)
    (fuel : Nat) (query : List Nat) (query_string : String) (frame : Int)
    (targets : List DpTarget) (hK : 0 < cols) (hcols : ∀ d, E.cols d = cols)
    (hrow : ∀ (st : SwipeState D EV) c, E.traits.zero_score < (E.column query st).col_best_ c →
      0 ≤ E.traits.int_score ((E.column query st).i_max c) ∧
      E.traits.int_score ((E.column query st).i_max c) < to_int32 query.length)
    (st : SwipeState D EV) (h : coords_inv E (to_int32 query.length) cols st) :
    coords_inv E (to_int32 query.length) cols
      (swipe_column E fuel query query_string frame targets st).state := by
  have h1 : coords_inv E (to_int32 query.length) cols { st with dp := (E.column query st).dp } :=
    coords_inv_congr E _ cols _ _ h rfl rfl rfl rfl rfl rfl
  have h2 := coords_inv_channel_loop E (to_int32 query.length) cols fuel query query_string
    frame targets (E.column query st).col_best_ (E.column query st).i_max (hrow st)
    st.active.length 0 _ h1
  unfold swipe_column
  simp only
  cases hl : channel_loop E fuel query query_string frame targets (E.column query st).col_best_
      (E.column query st).i_max st.active.length 0 { st with dp := (E.column query st).dp } with
  | done st2 =>
    rw [hl] at h2
    obtain ⟨_, hall⟩ := h2
    refine ⟨?_, hall⟩
    show (st2.col + 1) % E.cols st2.dp < cols
    rw [hcols]
    exact Nat.mod_lt _ hK
  | thrown e st2 =>
    rw [hl] at h2
    exact h2
  | no_fuel st2 =>
    rw [hl] at h2
    exact h2

theorem coords_inv_loop {D It EV : Type} (E : SwipeEnv D It EV) (cols : Nat)
    (query : List Nat) (query_string : String) (frame : Int)
    (targets : List DpTarget) (hK : 0 < cols) (hcols : ∀ d, E.cols d = cols)
    (hrow : ∀ (st : SwipeState D EV) c, E.traits.zero_score < (E.column query st).col_best_ c →
      0 ≤ E.traits.int_score ((E.column query st).i_max c) ∧
      E.traits.int_score ((E.column query st).i_max c) < to_int32 query.length)
    (fuel : Nat) :
    ∀ st : SwipeState D EV, coords_inv E (to_int32 query.length) cols st →
      coords_inv E (to_int32 query.length) cols
        (swipe_loop E query query_string frame targets fuel st).state := by
  induction fuel with
  | zero => intro st h; exact h
  | succ n ih =>
    intro st h
    unfold swipe_loop
    by_cases ha : st.active.length > 0
    · rw [if_pos ha]
      have hc := coords_inv_column E cols (n + 1) query query_string frame targets hK hcols
        hrow st h
      cases hs : swipe_column E (n + 1) query query_string frame targets st with
      | done st1 =>
        rw [hs] at hc
        exact ih st1 hc
      | thrown e st1 =>
        rw [hs] at hc
        exact hc
      | no_fuel st1 =>
        rw [hs] at hc
        exact hc
    · rw [if_neg ha]
      exact h

theorem init_buffer_pos {D EV : Type} (targets : List DpTarget) (n : Nat)
    (st : SwipeState D EV) (h : ∀ c, 0 ≤ st.pos c) :
    (∀ c, 0 ≤ (init_buffer targets n st).pos c) ∧ (init_buffer targets n st).col = st.col := by
  unfold init_buffer
  induction n with
  | zero => exact ⟨h, rfl⟩
  | succ m ih =>
    rw [List.range_succ, List.foldl_append, List.foldl_cons, List.foldl_nil]
    split
    · refine ⟨fun c => ?_, ih.2⟩
      simp only [set_at]
      split
      · exact le_refl _
      · exact ih.1 c
    · exact ih

theorem coords_inv_start {D It EV : Type} (E : SwipeEnv D It EV) (cols : Nat)
    (query : List Nat) (targets : List DpTarget) (next : Nat) (overflow : List DpTarget)
    (junk : Nat → Int) (idle : DpTarget) (hK : 0 < cols) :
    coords_inv E (to_int32 query.length) cols
      (swipe_start E query targets next overflow junk idle) := by
  unfold swipe_start
  obtain ⟨hp, hc⟩ := init_buffer_pos targets E.traits.CHANNELS
    ({ active := [], pos := fun _ => 0, dp_targets := fun _ => idle, next := next,
       best := fun _ => E.traits.zero_score, max_col := junk, max_i := junk, max_j := junk,
       dp := E.new_matrix (to_int32 query.length) (max_len targets), col := 0, out := [],
       overflow := overflow } : SwipeState D EV) (fun _ => le_refl _)
  refine ⟨by rw [hc]; exact hK, fun c => ⟨?_, hp c, fun hz => ?_⟩⟩
  · rw [init_buffer_best]
  · rw [init_buffer_best] at hz
    exact absurd hz (lt_irrefl _)

/-- C24. With a row counter that gives a row of the query for every column best above zero and a
matrix with a fixed positive number of columns, `coords_inv` is an invariant of `swipe`: it
holds at the entry of the main loop and every round and every handling of a channel keeps it
(a reinitialisation sets the best score to zero and leaves the coordinates). Hence whenever
`swipe` calls `traceback` for a channel whose best score is above zero, `max_col`, `max_i` and
`max_j` were written for the target bound to the channel, with `0 <= max_i < query length`,
`0 <= max_col < dp.cols()` and `max_j` a processed target position. When `report_cutoff` rejects
the score zero, every call of `traceback` is of this kind; with a cutoff that accepts the score
zero the indeterminate initial coordinates (7 in the example) reach `traceback`. -/
theorem swipe_traceback_coordinates {D It EV : Type} (E : SwipeEnv D It EV) (cols : Nat)
    (fuel : Nat) (query : List Nat) (query_string : String) (frame : Int)
    (targets : List DpTarget) (hK : 0 < cols) (hcols : ∀ d, E.cols d = cols)
    (hrow : ∀ (st : SwipeState D EV) c, E.traits.zero_score < (E.column query st).col_best_ c →
      0 ≤ E.traits.int_score ((E.column query st).i_max c) ∧
      E.traits.int_score ((E.column query st).i_max c) < to_int32 query.length) :
    (∀ next overflow junk idle, coords_inv E (to_int32 query.length) cols
      (swipe_start E query targets next overflow junk idle)) ∧
    (∀ st : SwipeState D EV, coords_inv E (to_int32 query.length) cols st →
      coords_inv E (to_int32 query.length) cols
        (swipe_column E fuel query query_string frame targets st).state) ∧
    (∀ (n : Nat) (st : SwipeState D EV), coords_inv E (to_int32 query.length) cols st →
      coords_inv E (to_int32 query.length) cols
        (swipe_loop E query query_string frame targets n st).state) ∧
    (∀ (st0 st : SwipeState D EV) (i : Nat), coords_inv E (to_int32 query.length) cols st →
      coords_inv E (to_int32 query.length) cols
        (handle_channel E fuel query query_string frame targets (E.column query st0).col_best_
          (E.column query st0).i_max i st).state.1) ∧
    (∀ (st0 st R : SwipeState D EV) (i c : Nat) (s : Int) (e : EV),
      coords_inv E (to_int32 query.length) cols st →
      c = st.active.getD i 0 →
      R = (inc_target c (update_best E (E.column query st0).col_best_
        (E.column query st0).i_max c st)).1 →
      s = E.traits.int_score (R.best c) * E.cbs_matrix_scale →
      e = E.evalue s (to_int32 query.length) (to_uint32 (R.dp_targets c).seq.length) →
      (E.column query st0).col_best_ c ≠ E.traits.max_score →
      (inc_target c (update_best E (E.column query st0).col_best_
        (E.column query st0).i_max c st)).2 = false →
      E.report_cutoff s e = true →
      handle_channel E fuel query query_string frame targets (E.column query st0).col_best_
          (E.column query st0).i_max i st
        = (match traceback E fuel query query_string frame R.dp (R.dp_targets c) (R.best c) e
              (R.max_col c) (R.max_i c) (R.max_j c) c with
          | none => Run.no_fuel (R, i)
          | some (Except.error er) => Run.thrown er (R, i)
          | some (Except.ok h) =>
            Run.done (reinit_channel E targets i c { R with out := R.out ++ [h] })) ∧
      (E.traits.zero_score < R.best c →
        0 ≤ R.max_i c ∧ R.max_i c < to_int32 query.length ∧
        0 ≤ R.max_col c ∧ R.max_col c < cols ∧ 0 ≤ R.max_j c ∧ R.max_j c < R.pos c) ∧
      ((∀ e1, E.report_cutoff (E.traits.int_score E.traits.zero_score * E.cbs_matrix_scale) e1
          = false) → E.traits.zero_score < R.best c)) ∧
    (∃ r h, swipe lenient_swipe_env 20 [1, 2, 3, 4] "q" 0 [plain_target [0] 10] 0 []
        (fun _ => 7) (plain_target [] 0) = some r ∧
      r.result = Except.ok [h] ∧ h.score = 0 ∧ h.query_range.end_ = 7 + 1 ∧
      h.subject_range.end_ = 7 + 1) := by
  refine ⟨fun next overflow junk idle => coords_inv_start E cols query targets next overflow junk
      idle hK,
    fun st h => coords_inv_column E cols fuel query query_string frame targets hK hcols hrow st h,
    fun n st h => coords_inv_loop E cols query query_string frame targets hK hcols hrow n st h,
    fun st0 st i h => coords_inv_handle E _ cols fuel query query_string frame targets _ _ i st h
      (hrow st0),
    ?_, ⟨_, _, rfl, rfl, rfl, rfl, rfl⟩⟩
  intro st0 st R i c s e hinv hc hR hs he hsat hlast hcut
  have hu := coords_inv_update_best E (to_int32 query.length) cols (E.column query st0).col_best_
    (E.column query st0).i_max c st hinv (hrow st0 c)
  have hpos : R.pos c = (update_best E (E.column query st0).col_best_
      (E.column query st0).i_max c st).pos c + 1 := by
    rw [hR]
    simp [inc_target, set_at]
  have hn := coords_inv_inc_target E (to_int32 query.length) cols c _ hu
  rw [← hR] at hn
  obtain ⟨_, hall⟩ := hn
  obtain ⟨a1, a2, a3⟩ := hall c
  obtain ⟨_, hallu⟩ := hu
  obtain ⟨u1, u2, u3⟩ := hallu c
  have hbest : R.best c = (update_best E (E.column query st0).col_best_
      (E.column query st0).i_max c st).best c := by
    rw [hR]
    rfl
  have hmj : R.max_j c = (update_best E (E.column query st0).col_best_
      (E.column query st0).i_max c st).max_j c := by
    rw [hR]
    rfl
  refine ⟨?_, fun hz => ?_, fun hrej => ?_⟩
  · subst hc
    subst hR
    subst hs
    subst he
    unfold handle_channel
    simp only [hsat, if_false, hlast, if_true, hcut]
    try rfl
  · obtain ⟨b1, b2, b3, b4, b5, b6⟩ := a3 hz
    rw [hbest] at hz
    obtain ⟨_, _, _, _, _, d6⟩ := u3 hz
    refine ⟨b1, b2, b3, b4, b5, ?_⟩
    rw [hpos, hmj]
    omega
  · rcases lt_or_eq_of_le a1 with hlt | heq
    · exact hlt
    · exfalso
      rw [hs, ← heq] at hcut
      rw [hrej] at hcut
      exact Bool.false_ne_true hcut

/-- C24, witness: the example engine, whose row counter gives the row 0 and whose matrix has 8
columns, with a query of length 4. -/
theorem swipe_traceback_coordinates_witness :
    coords_inv example_swipe_env (to_int32 ([1, 2, 3, 4] : List Nat).length) 8
      (swipe_loop example_swipe_env [1, 2, 3, 4] "q" 0 example_targets 20
        (swipe_start example_swipe_env [1, 2, 3, 4] example_targets 0 [] (fun _ => 7)
          (plain_target [] 0))).state :=
  (swipe_traceback_coordinates example_swipe_env 8 5 [1, 2, 3, 4] "q" 0 example_targets
      (by decide) (fun _ => rfl)
      (fun _ _ _ => ⟨le_refl (0 : Int),
        (by decide : (0 : Int) < to_int32 ([1, 2, 3, 4] : List Nat).length)⟩)).2.2.1 20 _
    ((swipe_traceback_coordinates example_swipe_env 8 5 [1, 2, 3, 4] "q" 0 example_targets
      (by decide) (fun _ => rfl)
      (fun _ _ _ => ⟨le_refl (0 : Int),
        (by decide : (0 : Int) < to_int32 ([1, 2, 3, 4] : List Nat).length)⟩)).1 0 [] (fun _ => 7) (plain_target [] 0))

theorem take_sum_succ (lens : List Nat) (i : Nat) (hi : i < lens.length) :
    (lens.take (i + 1)).sum = (lens.take i).sum + lens.getD i 0 := by
  have h := string_offset_succ 0 lens i hi
  unfold string_offset at h
  omega

theorem take_sum_mono (lens : List Nat) (i j : Nat) (hij : i ≤ j) :
    (lens.take i).sum ≤ (lens.take j).sum := by
  have h := string_offset_mono 0 lens i j hij
  unfold string_offset at h
  omega

theorem take_sum_le (lens : List Nat) (i : Nat) : (lens.take i).sum ≤ lens.sum := by
  by_cases h : i ≤ lens.length
  · have := take_sum_mono lens i lens.length h
    rwa [List.take_length] at this
  · rw [List.take_of_length_le (by omega)]

theorem take_sum_strict (lens : List Nat) (hpos : ∀ x ∈ lens, 1 ≤ x) (i j : Nat) (hij : i < j)
    (hj : j ≤ lens.length) : (lens.take i).sum < (lens.take j).sum := by
  have hi : i < lens.length := by omega
  have h1 := take_sum_succ lens i hi
  have h2 := take_sum_mono lens (i + 1) j hij
  have h3 : lens.getD i 0 = lens[i] := by
    simp [List.getD_eq_getElem?_getD, List.getElem?_eq_getElem hi]
  have h4 := hpos lens[i] (List.getElem_mem _)
  omega

/-- The inner loop of `partition` from the sequence `i` with the sum `n`: it stops at a sequence
`j` with the letters of the sequences `i`, ..., `j - 1` added to the sum. -/
theorem partition_inner_spec {α : Type} (s : StringSetBase α) (padding l : Nat)
    (lens : List Nat) (hsize : SequenceSet.get_length s = lens.length)
    (hlen : ∀ i < lens.length, s.length padding i = lens.getD i 0)
    (hN : lens.length < 2 ^ 32) (hL : lens.sum < 2 ^ 64) :
    ∀ fuel i n, i ≤ lens.length → lens.length - i < fuel → n ≤ (lens.take i).sum →
      ∃ j, partition_inner s padding l fuel i n
          = some (j, n + ((lens.take j).sum - (lens.take i).sum))
        ∧ i ≤ j ∧ j ≤ lens.length
        ∧ (j < lens.length → l ≤ n + ((lens.take j).sum - (lens.take i).sum))
        ∧ (i < lens.length → n < l → i < j) := by
  intro fuel
  induction fuel with
  | zero => intro i n _ h; omega
  | succ fuel ih =>
    intro i n hi hf hn
    unfold partition_inner
    rw [hsize]
    by_cases hc : i < lens.length ∧ n < l
    · rw [if_pos hc]
      have e1 : to_uint32 (i + 1) = i + 1 := Nat.mod_eq_of_lt (by omega)
      have hs := take_sum_succ lens i hc.1
      have hle := take_sum_le lens (i + 1)
      have e2 : to_size_t ((n : Int) + s.length padding i) = n + lens.getD i 0 := by
        rw [hlen i hc.1]
        have : ((n : Int) + (lens.getD i 0 : Nat)) = ((n + lens.getD i 0 : Nat) : Int) := by
          push_cast
          rfl
        rw [this]
        exact to_size_t_of_lt _ (by omega)
      rw [e1, e2]
      obtain ⟨j, hj, h1, h2, h3, _⟩ := ih (i + 1) (n + lens.getD i 0) hc.1 (by omega) (by omega)
      have hm := take_sum_mono lens (i + 1) j h1
      have e3 : n + lens.getD i 0 + ((lens.take j).sum - (lens.take (i + 1)).sum)
          = n + ((lens.take j).sum - (lens.take i).sum) := by omega
      rw [e3] at hj h3
      exact ⟨j, hj, by omega, h2, h3, fun _ _ => by omega⟩
    · rw [if_neg hc]
      refine ⟨i, by simp, le_refl _, hi, fun h => ?_, fun h1 h2 => absurd ⟨h1, h2⟩ hc⟩
      have : ¬ n < l := fun h2 => hc ⟨h, h2⟩
      omega

/-- The first loop of `partition` from the sequence `i`: it ends and pushes a chain of
boundaries that ends at the number of sequences. -/
theorem partition_outer_spec {α : Type} (s : StringSetBase α) (padding l : Nat)
    (lens : List Nat) (hsize : SequenceSet.get_length s = lens.length)
    (hlen : ∀ i < lens.length, s.length padding i = lens.getD i 0)
    (hN : lens.length < 2 ^ 32) (hL : lens.sum < 2 ^ 64) (hl : lens.length = 0 ∨ 1 ≤ l) :
    ∀ fuel i v, i ≤ lens.length → lens.length - i < fuel →
      ∃ bs, partition_outer s padding l fuel i v = some (v ++ bs)
        ∧ parts_ok (fun j => (lens.take j).sum) l lens.length i bs := by
  intro fuel
  induction fuel with
  | zero => intro i v _ h; omega
  | succ fuel ih =>
    intro i v hi hf
    unfold partition_outer
    rw [hsize]
    by_cases hc : i < lens.length
    · rw [if_pos hc]
      obtain ⟨j, hj, h1, h2, h3, h4⟩ :=
        partition_inner_spec s padding l lens hsize hlen hN hL (fuel + 1) i 0 hi hf
          (Nat.zero_le _)
      have hij : i < j := h4 hc (by omega)
      rw [hj]
      obtain ⟨bs, hbs, hp⟩ := ih j (v ++ [j]) h2 (by omega)
      refine ⟨j :: bs, ?_, hij, h2, fun h => ?_, hp⟩
      · show partition_outer s padding l fuel j (v ++ [j]) = some (v ++ j :: bs)
        rw [hbs, List.append_assoc]
        rfl
      · have := h3 h
        simpa using this
    · rw [if_neg hc]
      exact ⟨[], by simp, by show i = lens.length; omega⟩

theorem parts_ok_count (S : Nat → Nat) (l N : Nat)
    (hmono : ∀ a b, a ≤ b → S a ≤ S b) (hstrict : ∀ a b, a < b → b ≤ N → S a < S b) :
    ∀ bs i, parts_ok S l N i bs → bs ≠ [] → (bs.length - 1) * l + 1 ≤ S N - S i := by
  intro bs
  induction bs with
  | nil => intro i _ h; exact absurd rfl h
  | cons b bs ih =>
    intro i h _
    obtain ⟨h1, h2, h3, h4⟩ := h
    cases bs with
    | nil =>
      have hb : b = N := h4
      have := hstrict i b h1 h2
      rw [hb] at this
      simp only [List.length_singleton, Nat.sub_self, Nat.zero_mul]
      omega
    | cons c cs =>
      have ih2 := ih b h4 (by simp)
      have hbN : b < N := lt_of_lt_of_le h4.1 h4.2.1
      have h5 := h3 hbN
      have h6 := hmono i b (le_of_lt h1)
      have h7 := hmono b N h2
      have e : ((b :: c :: cs).length - 1) * l = ((c :: cs).length - 1) * l + l := by
        simp only [List.length_cons, Nat.add_sub_cancel]
        ring
      rw [e]
      omega

theorem parts_ok_last (S : Nat → Nat) (l N : Nat) :
    ∀ bs i, parts_ok S l N i bs → (i :: bs).getLast? = some N := by
  intro bs
  induction bs with
  | nil =>
    intro i h
    have hi : i = N := h
    simp [hi]
  | cons b bs ih =>
    intro i h
    rw [List.getLast?_cons_cons]
    exact ih b h.2.2.2

theorem bounds_ok_replicate (S : Nat → Nat) (l N : Nat) (m : Nat) :
    bounds_ok S l N N (List.replicate m N) := by
  induction m with
  | zero => trivial
  | succ m ih => exact ⟨le_refl _, le_refl _, fun h => absurd h (lt_irrefl _), ih⟩

theorem parts_ok_bounds_ok (S : Nat → Nat) (l N : Nat) (m : Nat) :
    ∀ bs i, parts_ok S l N i bs → bounds_ok S l N i (bs ++ List.replicate m N) := by
  intro bs
  induction bs with
  | nil =>
    intro i h
    have hi : i = N := h
    rw [hi]
    exact bounds_ok_replicate S l N m
  | cons b bs ih =>
    intro i h
    exact ⟨le_of_lt h.1, h.2.1, h.2.2.1, ih b h.2.2.2⟩

theorem bounds_ok_mem (S : Nat → Nat) (l N : Nat) :
    ∀ w i, bounds_ok S l N i w → ∀ x ∈ w, i ≤ x ∧ x ≤ N := by
  intro w
  induction w with
  | nil => intro i _ x hx; simp at hx
  | cons b w ih =>
    intro i h x hx
    rcases List.mem_cons.mp hx with hx | hx
    · rw [hx]
      exact ⟨h.1, h.2.1⟩
    · have := ih b h.2.2.2 x hx
      exact ⟨le_trans h.1 this.1, this.2⟩

theorem bounds_ok_pairwise (S : Nat → Nat) (l N : Nat) :
    ∀ w i, bounds_ok S l N i w → (i :: w).Pairwise (fun a b => a ≤ b) := by
  intro w
  induction w with
  | nil => intro i _; simp
  | cons b w ih =>
    intro i h
    rw [List.pairwise_cons]
    exact ⟨fun x hx => (bounds_ok_mem S l N (b :: w) i h x hx).1, ih b h.2.2.2⟩

theorem bounds_ok_part (S : Nat → Nat) (l N : Nat) :
    ∀ w i k, bounds_ok S l N i w → k < w.length → w.getD k 0 < N →
      l ≤ S (w.getD k 0) - S ((i :: w).getD k 0) := by
  intro w
  induction w with
  | nil => intro i k _ hk; simp at hk
  | cons b w ih =>
    intro i k h hk hlt
    cases k with
    | zero =>
      simp only [List.getD_cons_zero] at hlt ⊢
      exact h.2.2.1 hlt
    | succ k =>
      simp only [List.getD_cons_succ] at hlt ⊢
      simp only [List.length_cons, Nat.add_lt_add_iff_right] at hk
      exact ih b k h.2.2.2 hk hlt

theorem part_letters_eq {α : Type} (s : StringSetBase α) (padding : Nat) (lens : List Nat)
    (hlen : ∀ i < lens.length, s.length padding i = lens.getD i 0) (a b : Nat) (hab : a ≤ b)
    (hb : b ≤ lens.length) :
    part_letters s padding a b = (lens.take b).sum - (lens.take a).sum := by
  have key : ∀ d, a + d ≤ lens.length →
      ((List.range d).map (fun t => s.length padding (a + t))).sum
        = (lens.take (a + d)).sum - (lens.take a).sum := by
    intro d
    induction d with
    | zero => intro _; simp
    | succ d ih =>
      intro hd
      rw [List.range_succ, List.map_append, List.sum_append, ih (by omega)]
      simp only [List.map_cons, List.map_nil, List.sum_cons, List.sum_nil, Nat.add_zero]
      rw [hlen (a + d) (by omega)]
      have h1 := take_sum_succ lens (a + d) (by omega)
      have h2 := take_sum_mono lens a (a + d) (by omega)
      have e : a + (d + 1) = a + d + 1 := by ring
      rw [e]
      omega
  unfold part_letters
  rw [key (b - a) (by omega)]
  have e : a + (b - a) = b := by omega
  rw [e]

/-- In a store with padding 1 built without overflow, `letters()` is the sum of the lengths
pushed. -/
theorem store_letters {α : Type} (s : StringSetBase α) (lens : List Nat)
    (hL : s.limits_ = limits_of 1 lens)
    (hfit : string_offset 1 lens lens.length < 2 ^ 64) :
    s.letters = lens.sum := by
  have hsize := (store_length_size s 1 lens hL (le_refl _) hfit).2.2
  unfold StringSetBase.letters
  rw [hsize]
  unfold StringSetBase.raw_len
  rw [hL, limits_of_last, to_size_t_of_lt _ hfit]
  unfold string_offset at hfit ⊢
  rw [List.take_length] at hfit ⊢
  have e : (((PERIMETER_PADDING + lens.sum + lens.length * 1 : Nat) : Int) - (lens.length : Nat)
      - (PERIMETER_PADDING : Nat)) = ((lens.sum : Nat) : Int) := by
    push_cast
    ring
  rw [e]
  exact to_size_t_of_lt _ (by omega)

theorem part_letters_sub {α : Type} (s : StringSetBase α) (padding : Nat) (lens : List Nat)
    (hlen : ∀ i < lens.length, s.length padding i = lens.getD i 0) (a b : Nat)
    (hb : b ≤ lens.length) :
    part_letters s padding a b = (lens.take b).sum - (lens.take a).sum := by
  by_cases hab : a ≤ b
  · exact part_letters_eq s padding lens hlen a b hab hb
  · have h1 := take_sum_mono lens b a (by omega)
    have h2 : b - a = 0 := by omega
    unfold part_letters
    rw [h2]
    simp only [List.range_zero, List.map_nil, List.sum_nil]
    omega

theorem partition_inner_fuel {α : Type} (s : StringSetBase α) (padding l : Nat) :
    ∀ fuel i n r, partition_inner s padding l fuel i n = some r →
      ∀ k, partition_inner s padding l (fuel + k) i n = some r := by
  intro fuel
  induction fuel with
  | zero =>
    intro i n r h
    simp [partition_inner] at h
  | succ fuel ih =>
    intro i n r h k
    have e : fuel + 1 + k = (fuel + k) + 1 := by ring
    rw [e]
    unfold partition_inner at h ⊢
    by_cases hc : i < SequenceSet.get_length s ∧ n < l
    · rw [if_pos hc] at h ⊢
      exact ih _ _ r h k
    · rw [if_neg hc] at h ⊢
      exact h

theorem partition_outer_fuel {α : Type} (s : StringSetBase α) (padding l : Nat) :
    ∀ fuel i v r, partition_outer s padding l fuel i v = some r →
      ∀ k, partition_outer s padding l (fuel + k) i v = some r := by
  intro fuel
  induction fuel with
  | zero =>
    intro i v r h
    simp [partition_outer] at h
  | succ fuel ih =>
    intro i v r h k
    have e : fuel + 1 + k = (fuel + k) + 1 := by ring
    rw [e]
    unfold partition_outer at h ⊢
    by_cases hc : i < SequenceSet.get_length s
    · rw [if_pos hc] at h ⊢
      cases hin : partition_inner s padding l (fuel + 1) i 0 with
      | none =>
        rw [hin] at h
        simp at h
      | some r1 =>
        rw [hin] at h
        have h2 := partition_inner_fuel s padding l (fuel + 1) i 0 r1 hin k
        rw [e] at h2
        rw [h2]
        exact ih _ _ r h k
    · rw [if_neg hc] at h ⊢
      exact h

/-- The result of `partition` on a store that holds sequences of the lengths `lens`, each at
least 1: with `n_part + 1` and the number of sequences below `2^32` and `l` the quotient of the
code, with `letters <= l * n_part`. -/
theorem partition_store {α : Type} (s : StringSetBase α) (lens : List Nat) (n_part : Nat)
    (hn : 1 ≤ n_part) (hn32 : n_part + 1 < 2 ^ 32)
    (hsize : SequenceSet.get_length s = lens.length)
    (hlen : ∀ i < lens.length, s.length 1 i = lens.getD i 0)
    (hlet : s.letters = lens.sum)
    (hN : lens.length < 2 ^ 32) (hl : lens.sum + n_part ≤ 2 ^ 64)
    (hpos : ∀ x ∈ lens, 1 ≤ x) :
    ∃ v, (∀ fuel, lens.length < fuel → SequenceSet.partition s 1 fuel n_part = some v)
      ∧ v.length = n_part + 1
      ∧ v.Pairwise (fun a b => a ≤ b)
      ∧ v.head? = some 0
      ∧ v.getLast? = some (SequenceSet.get_length s)
      ∧ ∀ k, k + 2 < v.length → v.getD (k + 1) 0 < v.getD (k + 2) 0 →
          (s.letters + n_part - 1) / n_part
            ≤ part_letters s 1 (v.getD k 0) (v.getD (k + 1) 0) := by
  have hL : lens.sum < 2 ^ 64 := by omega
  have hq : to_size_t ((s.letters : Int) + n_part - 1) = s.letters + n_part - 1 := by
    have e : ((s.letters : Int) + n_part - 1) = ((s.letters + n_part - 1 : Nat) : Int) := by
      omega
    rw [e]
    exact to_size_t_of_lt _ (by omega)
  have hceil := (num_tiles_props n_part lens.sum hn).1
  have hstrict := take_sum_strict lens hpos
  have hmono := take_sum_mono lens
  have hSN : (lens.take lens.length).sum = lens.sum := by rw [List.take_length]
  have hS0 : (lens.take 0).sum = 0 := by simp
  have hl1 : lens.length = 0 ∨ 1 ≤ (lens.sum + n_part - 1) / n_part := by
    by_cases h0 : lens.length = 0
    · exact Or.inl h0
    · right
      have h1 := hstrict 0 lens.length (by omega) (le_refl _)
      rw [hSN, hS0] at h1
      by_contra hc
      have h2 : (lens.sum + n_part - 1) / n_part = 0 := Nat.lt_one_iff.mp (not_le.mp hc)
      rw [h2] at hceil
      omega
  obtain ⟨bs, hbs, hp⟩ := partition_outer_spec s 1 ((lens.sum + n_part - 1) / n_part) lens
    hsize hlen hN hL hl1 (lens.length + 1) 0 [0] (Nat.zero_le _) (by omega)
  have hP : bs.length ≤ n_part := by
    by_cases hnil : bs = []
    · rw [hnil]
      exact Nat.zero_le _
    · have h1 := parts_ok_count (fun j => (lens.take j).sum)
        ((lens.sum + n_part - 1) / n_part) lens.length hmono hstrict bs 0 hp hnil
      simp only [hSN, hS0] at h1
      by_contra hc
      have h2 : n_part ≤ bs.length - 1 := by omega
      have h3 := Nat.mul_le_mul_right ((lens.sum + n_part - 1) / n_part) h2
      rw [Nat.mul_comm n_part] at h3
      omega
  have e32 : to_uint32 (n_part + 1) = n_part + 1 := Nat.mod_eq_of_lt hn32
  have hv : partition_fill s n_part ([0] ++ bs)
      = 0 :: (bs ++ List.replicate (n_part - bs.length) lens.length) := by
    unfold partition_fill
    rw [e32, hsize]
    have e : n_part + 1 - ([0] ++ bs).length = n_part - bs.length := by
      simp only [List.length_append, List.length_singleton]
      omega
    rw [e]
    rfl
  have hbw := parts_ok_bounds_ok (fun j => (lens.take j).sum)
    ((lens.sum + n_part - 1) / n_part) lens.length (n_part - bs.length) bs 0 hp
  refine ⟨0 :: (bs ++ List.replicate (n_part - bs.length) lens.length), ?_, ?_, ?_, rfl, ?_, ?_⟩
  · intro fuel hf
    unfold SequenceSet.partition
    simp only []
    rw [hq, hlet]
    have h1 := partition_outer_fuel s 1 _ _ _ _ _ hbs (fuel - (lens.length + 1))
    have e : lens.length + 1 + (fuel - (lens.length + 1)) = fuel := by omega
    rw [e] at h1
    rw [h1, Option.map_some', hv]
  · simp only [List.length_cons, List.length_append, List.length_replicate]
    omega
  · exact bounds_ok_pairwise _ _ _ _ 0 hbw
  · rw [hsize]
    by_cases hm : n_part - bs.length = 0
    · rw [hm]
      simp only [List.replicate_zero, List.append_nil]
      exact parts_ok_last _ _ _ bs 0 hp
    · obtain ⟨m, hm2⟩ := Nat.exists_eq_succ_of_ne_zero hm
      rw [hm2, List.replicate_succ', ← List.append_assoc, ← List.cons_append]
      exact List.getLast?_concat _
  · intro k hk hlt
    simp only [List.length_cons] at hk
    simp only [List.getD_cons_succ] at hlt ⊢
    have hk1 : k + 1 < (bs ++ List.replicate (n_part - bs.length) lens.length).length := by
      omega
    have hmem : (bs ++ List.replicate (n_part - bs.length) lens.length).getD (k + 1) 0
        ≤ lens.length := by
      have h1 : (bs ++ List.replicate (n_part - bs.length) lens.length).getD (k + 1) 0
          = (bs ++ List.replicate (n_part - bs.length) lens.length)[k + 1] := by
        simp [List.getD_eq_getElem?_getD, List.getElem?_eq_getElem hk1]
      rw [h1]
      exact (bounds_ok_mem _ _ _ _ 0 hbw _ (List.getElem_mem _)).2
    have h2 := bounds_ok_part _ _ _ _ 0 k hbw (by omega) (by omega)
    rw [hlet, part_letters_sub s 1 lens hlen _ _ (by omega)]
    exact h2

/-- C26 (amended). `SequenceSet::partition(n_part)` on a sequence set (a store with padding 1
reached from the constructor, without overflow of the offsets) in which each sequence has
length at least 1 (or which is empty): for `1 <= n_part` with `n_part + 1 < 2^32`, fewer than
`2^32` sequences and `letters + n_part <= 2^64`, the call terminates (every fuel above the
number of sequences gives the same result) and returns a non-decreasing vector of exactly
`n_part + 1` boundaries whose first entry is 0 and whose last entry is the number of sequences;
every part that is followed by another non-empty part holds at least
`(letters + n_part - 1) / n_part`, the ceiling of `letters / n_part`, letters. -/
theorem partition_boundaries {α : Type} (pchar zero : α) (ops : List (StringSetOp α))
    (n_part : Nat) (hn : 1 ≤ n_part) (hn32 : n_part + 1 < 2 ^ 32)
    (hfit : string_offset 1 (pushed_lengths ops) (pushed_lengths ops).length < 2 ^ 64)
    (hN : (pushed_lengths ops).length < 2 ^ 32)
    (hl : (pushed_lengths ops).sum + n_part ≤ 2 ^ 64)
    (hpos : ∀ x ∈ pushed_lengths ops, 1 ≤ x) :
    SequenceSet.get_length (StringSetBase.build pchar zero 1 ops) = (pushed_lengths ops).length
    ∧ (∀ i < (pushed_lengths ops).length,
        (StringSetBase.build pchar zero 1 ops).length 1 i = (pushed_lengths ops).getD i 0)
    ∧ (StringSetBase.build pchar zero 1 ops).letters = (pushed_lengths ops).sum
    ∧ ∃ v, (∀ fuel, (pushed_lengths ops).length < fuel →
          SequenceSet.partition (StringSetBase.build pchar zero 1 ops) 1 fuel n_part = some v)
      ∧ v.length = n_part + 1
      ∧ v.Pairwise (fun a b => a ≤ b)
      ∧ v.head? = some 0
      ∧ v.getLast? = some (SequenceSet.get_length (StringSetBase.build pchar zero 1 ops))
      ∧ ∀ k, k + 2 < v.length → v.getD (k + 1) 0 < v.getD (k + 2) 0 →
          ((StringSetBase.build pchar zero 1 ops).letters + n_part - 1) / n_part
            ≤ part_letters (StringSetBase.build pchar zero 1 ops) 1 (v.getD k 0)
                (v.getD (k + 1) 0) := by
  have hLim := build_limits pchar zero 1 ops
  obtain ⟨_, hlen, hsz⟩ := store_length_size (StringSetBase.build pchar zero 1 ops) 1
    (pushed_lengths ops) hLim (le_refl _) hfit
  have hlet := store_letters (StringSetBase.build pchar zero 1 ops) (pushed_lengths ops) hLim hfit
  exact ⟨hsz, hlen, hlet,
    partition_store (StringSetBase.build pchar zero 1 ops) (pushed_lengths ops) n_part hn hn32
      hsz hlen hlet hN hl hpos⟩

/-- C26, an instance: the sequence set with the sequences of the lengths 3, 1, 2, 4, 2 and
`n_part = 3`. -/
theorem partition_boundaries_witness :
    (1 ≤ 3 ∧ 3 + 1 < 2 ^ 32
      ∧ string_offset 1 (pushed_lengths example_sequence_ops)
          (pushed_lengths example_sequence_ops).length < 2 ^ 64
      ∧ (pushed_lengths example_sequence_ops).length < 2 ^ 32
      ∧ (pushed_lengths example_sequence_ops).sum + 3 ≤ 2 ^ 64
      ∧ ∀ x ∈ pushed_lengths example_sequence_ops, 1 ≤ x)
    ∧ SequenceSet.partition (StringSetBase.build 0 0 1 example_sequence_ops) 1 6 3
        = some [0, 2, 4, 5]
    ∧ (SequenceSet.get_length (StringSetBase.build 0 0 1 example_sequence_ops)
        = (pushed_lengths example_sequence_ops).length
      ∧ (∀ i < (pushed_lengths example_sequence_ops).length,
          (StringSetBase.build 0 0 1 example_sequence_ops).length 1 i
            = (pushed_lengths example_sequence_ops).getD i 0)
      ∧ (StringSetBase.build 0 0 1 example_sequence_ops).letters
          = (pushed_lengths example_sequence_ops).sum
      ∧ ∃ v, (∀ fuel, (pushed_lengths example_sequence_ops).length < fuel →
            SequenceSet.partition (StringSetBase.build 0 0 1 example_sequence_ops) 1 fuel 3
              = some v)
        ∧ v.length = 3 + 1
        ∧ v.Pairwise (fun a b => a ≤ b)
        ∧ v.head? = some 0
        ∧ v.getLast?
            = some (SequenceSet.get_length (StringSetBase.build 0 0 1 example_sequence_ops))
        ∧ ∀ k, k + 2 < v.length → v.getD (k + 1) 0 < v.getD (k + 2) 0 →
            ((StringSetBase.build 0 0 1 example_sequence_ops).letters + 3 - 1) / 3
              ≤ part_letters (StringSetBase.build 0 0 1 example_sequence_ops) 1 (v.getD k 0)
                  (v.getD (k + 1) 0)) :=
  ⟨⟨by decide, by decide, by decide, by decide, by decide, by decide⟩, by decide,
   partition_boundaries 0 0 example_sequence_ops 3 (by decide) (by decide) (by decide)
     (by decide) (by decide) (by decide)⟩

theorem pushed_lengths_replicate {α : Type} (v : α) (k : Nat) :
    pushed_lengths (List.replicate k (StringSetOp.fill 1 v)) = List.replicate k 1 := by
  induction k with
  | zero => rfl
  | succ k ih => rw [List.replicate_succ', pushed_lengths_snoc, ih, List.replicate_succ']

theorem partition_inner_uint32 {α : Type} (s : StringSetBase α) (padding l : Nat) :
    ∀ fuel i n r, i < 2 ^ 32 → partition_inner s padding l fuel i n = some r →
      r.1 < 2 ^ 32 := by
  intro fuel
  induction fuel with
  | zero =>
    intro i n r _ h
    simp [partition_inner] at h
  | succ fuel ih =>
    intro i n r hi h
    unfold partition_inner at h
    by_cases hc : i < SequenceSet.get_length s ∧ n < l
    · rw [if_pos hc] at h
      exact ih _ _ r (Nat.mod_lt _ (by decide)) h
    · rw [if_neg hc] at h
      have e : r = (i, n) := (Option.some.inj h).symm
      rw [e]
      exact hi

/-- With `2^32` sequences or more, the `unsigned` counter of the first loop of `partition`
never reaches `get_length()`. -/
theorem partition_outer_uint32 {α : Type} (s : StringSetBase α) (padding l : Nat)
    (hN : 2 ^ 32 ≤ SequenceSet.get_length s) :
    ∀ fuel i v, i < 2 ^ 32 → partition_outer s padding l fuel i v = none := by
  intro fuel
  induction fuel with
  | zero => intro i v _; rfl
  | succ fuel ih =>
    intro i v hi
    unfold partition_outer
    rw [if_pos (lt_of_lt_of_le hi hN)]
    cases hin : partition_inner s padding l (fuel + 1) i 0 with
    | none => rfl
    | some r =>
      exact ih r.1 _ (partition_inner_uint32 s padding l (fuel + 1) i 0 r hi hin)

/-- With `l = 0` the inner loop of `partition` takes no sequence, and the first loop does not
end on a set that is not empty. -/
theorem partition_outer_zero {α : Type} (s : StringSetBase α) (padding : Nat) :
    ∀ fuel i v, i < SequenceSet.get_length s → partition_outer s padding 0 fuel i v = none := by
  intro fuel
  induction fuel with
  | zero => intro i v _; rfl
  | succ fuel ih =>
    intro i v hi
    unfold partition_outer
    rw [if_pos hi]
    have hin : partition_inner s padding 0 (fuel + 1) i 0 = some (i, 0) := by
      unfold partition_inner
      rw [if_neg (fun h => absurd h.2 (Nat.not_lt_zero _))]
    rw [hin]
    exact ih i _ hi

/-- On a set of `k` sequences of length 1 with `k` at least `2^32`, `partition` does not
terminate. -/
theorem partition_many_sequences {α : Type} (pchar zero : α) (k : Nat) (hk : 2 ^ 32 ≤ k)
    (hfit : PERIMETER_PADDING + k + k < 2 ^ 64) (n_part fuel : Nat) :
    SequenceSet.partition
      (StringSetBase.build pchar zero 1 (List.replicate k (StringSetOp.fill 1 zero)))
      1 fuel n_part = none := by
  have hLim := build_limits pchar zero 1 (List.replicate k (StringSetOp.fill 1 zero))
  rw [pushed_lengths_replicate] at hLim
  have hfit2 : string_offset 1 (List.replicate k 1) (List.replicate k 1).length < 2 ^ 64 := by
    unfold string_offset
    rw [List.take_length, List.sum_replicate, List.length_replicate, smul_eq_mul]
    omega
  have hsz := (store_length_size _ 1 _ hLim (le_refl _) hfit2).2.2
  rw [List.length_replicate] at hsz
  have hN : 2 ^ 32 ≤ SequenceSet.get_length
      (StringSetBase.build pchar zero 1 (List.replicate k (StringSetOp.fill 1 zero))) := by
    unfold SequenceSet.get_length
    rw [hsz]
    exact hk
  unfold SequenceSet.partition
  simp only []
  rw [partition_outer_uint32 _ 1 _ hN fuel 0 [0] (by decide)]
  rfl

/-- C26, the claim as written fails. (1) For `n_part = 2^32 - 1` the bound `n_part + 1` of the
second loop is 0 in `unsigned` arithmetic, so on the empty set the result is the one boundary
`[0]`, not `n_part + 1` boundaries. (2) On a set with `2^32` sequences of length 1 the
`unsigned` counter `i` stays below `get_length()`, and the call does not terminate.
(3) For one sequence of `2^64 - 300` letters and `n_part = 1000` the sum
`letters() + n_part - 1` wraps to 699 in `size_t`, `l` is 0 and the call does not terminate. -/
theorem partition_wraps :
    (∀ fuel, SequenceSet.partition (StringSetBase.build (0 : Nat) 0 1 []) 1 (fuel + 1)
        4294967295 = some [0])
    ∧ (∀ fuel, SequenceSet.partition
        (StringSetBase.build (0 : Nat) 0 1 (List.replicate (2 ^ 32) (StringSetOp.fill 1 0)))
        1 fuel 1 = none)
    ∧ (∀ fuel, SequenceSet.partition
        (StringSetBase.build (0 : Nat) 0 1 [StringSetOp.reserve (2 ^ 64 - 300)])
        1 fuel 1000 = none) := by
  refine ⟨fun fuel => rfl, fun fuel => ?_, fun fuel => ?_⟩
  · exact partition_many_sequences 0 0 (2 ^ 32) (le_refl _) (by decide) 1 fuel
  · have hl0 : to_size_t
        (((StringSetBase.build (0 : Nat) 0 1 [StringSetOp.reserve (2 ^ 64 - 300)]).letters : Int)
          + (1000 : Nat) - 1) / 1000 = 0 := by decide
    have hN : 0 < SequenceSet.get_length
        (StringSetBase.build (0 : Nat) 0 1 [StringSetOp.reserve (2 ^ 64 - 300)]) := by decide
    unfold SequenceSet.partition
    simp only []
    rw [hl0, partition_outer_zero _ 1 fuel 0 [0] hN]
    rfl

/-- C2, witness: 5 query and 4 subject locations with the tile size 2 and the fingerprint
"location modulo 3": six pairs have equal fingerprints, five of them in tiles that do not start
at 0, and the tiled run hands the same pairs on in another order. -/
theorem stage1_tiling_witness :
    untiled_candidates example_env (fun i => i + 256) 5 (fun j => j + 300) 4
      = [(256, 301), (257, 302), (258, 300), (258, 303), (259, 301), (260, 302)] ∧
    (tile_starts example_env.config.tile_size 5).flatMap
        (fun i0 => (tile_starts example_env.config.tile_size 4).flatMap (fun j0 =>
          tile_candidates example_env (fun i => i + 256) (fun j => j + 300) i0 j0
            (min example_env.config.tile_size (5 - i0))
            (min example_env.config.tile_size (4 - j0)) i0 j0))
      = [(256, 301), (257, 302), (258, 300), (259, 301), (258, 303), (260, 302)] ∧
    ∃ ws1, stage1 example_env record_candidates 6 (fun i => i + 256) 5 (fun j => j + 300) 4
        empty_record_set = some ws1 ∧
      ws1.out = empty_record_set.out ++ (tile_starts example_env.config.tile_size 5).flatMap
        (fun i0 => (tile_starts example_env.config.tile_size 4).flatMap (fun j0 =>
          tile_candidates example_env (fun i => i + 256) (fun j => j + 300) i0 j0
            (min example_env.config.tile_size (5 - i0))
            (min example_env.config.tile_size (4 - j0)) i0 j0)) ∧
      ((tile_starts example_env.config.tile_size 5).flatMap
        (fun i0 => (tile_starts example_env.config.tile_size 4).flatMap (fun j0 =>
          tile_candidates example_env (fun i => i + 256) (fun j => j + 300) i0 j0
            (min example_env.config.tile_size (5 - i0))
            (min example_env.config.tile_size (4 - j0)) i0 j0))).Perm
        (untiled_candidates example_env (fun i => i + 256) 5 (fun j => j + 300) 4) :=
  ⟨by decide, by decide,
    stage1_tiling example_env 6 (fun i => i + 256) 5 (fun j => j + 300) 4 empty_record_set
      (by decide) (by decide) (by decide) (by decide) (by decide) (by decide)⟩

/-- C29. The tile loops of `stage1` terminate for all sizes `nq`, `ns` of the fingerprint
vectors whenever `config.tile_size >= 1`, after exactly
`ceil(nq / tile_size) * ceil(ns / tile_size)` tile passes, one for every pair of tile starts.
Every pass is given `min(tile_size, size - start)` query and subject fingerprints: at most
`tile_size` of each (at most `tile_size^2` comparisons) and at least one of each. The tile size
is a 32-bit value (the code converts every tile length to `uint32_t`), and `nq`, `ns` are the
sizes of two `std::vector`, which hold at most `PTRDIFF_MAX = 2^63 - 1` elements. -/
theorem stage1_tile_passes {FP Sink : Type} [DecidableEq FP] [Inhabited FP] (E : Env FP)
    (sqo : Nat → Ptr PackedLoc → List Nat → WorkSet FP Sink → WorkSet FP Sink)
    (hsqo : ∀ q0 s0 r w, (sqo q0 s0 r w).vq = w.vq ∧ (sqo q0 s0 r w).vs = w.vs)
    (fuel : Nat) (q : Ptr PackedLoc) (nq : Nat) (s : Ptr PackedLoc) (ns : Nat)
    (ws : WorkSet FP Sink) (ht : 1 ≤ E.config.tile_size) (ht32 : E.config.tile_size < 2 ^ 32)
    (hq63 : nq < 2 ^ 63) (hs63 : ns < 2 ^ 63) (hfq : nq < fuel) (hfs : ns < fuel) :
    stage1 E sqo fuel q nq s ns ws
      = some ((tile_passes E.config.tile_size nq ns).foldl
          (fun ws p => stage1_tile sqo E.config.tile_size q s p.1 p.2 ws)
          { ws with
            stats := ws.stats.inc_seed_hits ((nq * ns) % 2 ^ 64)
            vq := load_fps E.query_fp q nq
            vs := load_fps E.ref_fp s ns }) ∧
    (tile_passes E.config.tile_size nq ns).length
      = (nq + E.config.tile_size - 1) / E.config.tile_size
        * ((ns + E.config.tile_size - 1) / E.config.tile_size) ∧
    (∀ i j (w : WorkSet FP Sink), w.vq.length = nq → w.vs.length = ns →
      stage1_tile sqo E.config.tile_size q s i j w
        = search_tile sqo
            (all_vs_all ((Container.data w.vq).add i) (tile_length E.config.tile_size nq i)
              ((Container.data w.vs).add j) (tile_length E.config.tile_size ns j) ⟨[]⟩)
            (to_uint32 i) (to_uint32 j) q s
            { w with hits := (all_vs_all ((Container.data w.vq).add i)
                (tile_length E.config.tile_size nq i) ((Container.data w.vs).add j)
                (tile_length E.config.tile_size ns j) ⟨[]⟩) }) ∧
    (∀ p ∈ tile_passes E.config.tile_size nq ns,
      p.1 < nq ∧ p.2 < ns ∧
      tile_length E.config.tile_size nq p.1 = min E.config.tile_size (nq - p.1) ∧
      tile_length E.config.tile_size ns p.2 = min E.config.tile_size (ns - p.2) ∧
      1 ≤ tile_length E.config.tile_size nq p.1 ∧
      tile_length E.config.tile_size nq p.1 ≤ E.config.tile_size ∧
      1 ≤ tile_length E.config.tile_size ns p.2 ∧
      tile_length E.config.tile_size ns p.2 ≤ E.config.tile_size ∧
      tile_length E.config.tile_size nq p.1 * tile_length E.config.tile_size ns p.2
        ≤ E.config.tile_size * E.config.tile_size) := by
  have ht0 : 0 < E.config.tile_size := ht
  have ht64 : E.config.tile_size < 2 ^ 64 := lt_trans ht32 (by norm_num)
  obtain ⟨hwq, hcq⟩ := tiles_no_wrap _ nq ht0 ht64 hq63
  obtain ⟨hws, hcs⟩ := tiles_no_wrap _ ns ht0 ht64 hs63
  have hrun := stage1_run E sqo hsqo fuel q nq s ns ws ht0 hwq hws (by omega) (by omega)
  refine ⟨?_, tile_passes_length _ _ _, ?_, ?_⟩
  · rw [hrun, foldl_tile_passes (fun ws i j => stage1_tile sqo E.config.tile_size q s i j ws)]
    rfl
  · intro i j w hq hs
    unfold stage1_tile tile_length
    simp only [hq, hs, FlatArray.clear]
  · intro p hp
    obtain ⟨hp1, hp2⟩ := (mem_tile_passes _ _ _ p).mp hp
    have h1 := tile_starts_mem _ _ _ ht0 hp1
    have h2 := tile_starts_mem _ _ _ ht0 hp2
    have l1 : tile_length E.config.tile_size nq p.1 ≤ E.config.tile_size :=
      le_trans (Nat.mod_le _ _) (Nat.min_le_left _ _)
    have l2 : tile_length E.config.tile_size ns p.2 ≤ E.config.tile_size :=
      le_trans (Nat.mod_le _ _) (Nat.min_le_left _ _)
    have m1 : 1 ≤ min E.config.tile_size (nq - p.1) := le_min ht (by omega)
    have m2 : 1 ≤ min E.config.tile_size (ns - p.2) := le_min ht (by omega)
    have e1 : tile_length E.config.tile_size nq p.1 = min E.config.tile_size (nq - p.1) :=
      Nat.mod_eq_of_lt (lt_of_le_of_lt (Nat.min_le_left _ _) ht32)
    have e2 : tile_length E.config.tile_size ns p.2 = min E.config.tile_size (ns - p.2) :=
      Nat.mod_eq_of_lt (lt_of_le_of_lt (Nat.min_le_left _ _) ht32)
    exact ⟨h1, h2, e1, e2, by rw [e1]; exact m1, l1, by rw [e2]; exact m2, l2,
      Nat.mul_le_mul l1 l2⟩

/-- C29, witness: the tile loops of the example (tile size 2) over 5 query and 3 subject
locations with `search_query_offset` as the callee: 3 * 2 passes, the last query tile with one
fingerprint. -/
theorem stage1_tile_passes_witness :
    tile_passes example_env.config.tile_size 5 3
      = [(0, 0), (0, 2), (2, 0), (2, 2), (4, 0), (4, 2)] ∧
    tile_length example_env.config.tile_size 5 4 = 1 ∧
    (∃ ws1, stage1 example_env (search_query_offset example_env) 10 (fun k => 100 + k) 5
      (fun k => 2000 + 7 * k) 3 example_work_set = some ws1) ∧
    (tile_passes example_env.config.tile_size 5 3).length
      = (5 + example_env.config.tile_size - 1) / example_env.config.tile_size
        * ((3 + example_env.config.tile_size - 1) / example_env.config.tile_size) :=
  ⟨by decide, by decide,
    ⟨_, (stage1_tile_passes example_env (search_query_offset example_env)
      (search_query_offset_keeps example_env) 10 (fun k => 100 + k) 5 (fun k => 2000 + 7 * k) 3
      example_work_set (by decide) (by decide) (by decide) (by decide) (by decide)
      (by decide)).1⟩,
    (stage1_tile_passes example_env (search_query_offset example_env)
      (search_query_offset_keeps example_env) 10 (fun k => 100 + k) 5 (fun k => 2000 + 7 * k) 3
      example_work_set (by decide) (by decide) (by decide) (by decide) (by decide)
      (by decide)).2.1⟩

theorem flatMap_drop_fixed {α β : Type} (f : α → List β) (m : Nat) :
    ∀ (l : List α) (n : Nat), (∀ a ∈ l, (f a).length = m) →
      (l.flatMap f).drop (n * m) = (l.drop n).flatMap f := by
  intro l
  induction l with
  | nil => intro n _; simp
  | cons a l ih =>
    intro n hf
    cases n with
    | zero => simp
    | succ n =>
      have ha : (f a).length = m := hf a (List.mem_cons_self _ _)
      have e : (n + 1) * m = (f a).length + n * m := by rw [ha]; ring
      rw [List.flatMap_cons, e, ← List.drop_drop, List.drop_left, List.drop_succ_cons]
      exact ih n (fun b hb => hf b (List.mem_cons_of_mem _ hb))

theorem hit_record_length (long : Bool) (r : PackedLoc × Int) :
    (hit_record long r.1 r.2).length = position_width long + 2 := by
  simp [hit_record, position_bytes_length, le_bytes_length]

/-- The record number `n` of a hit buffer starts behind the two varints and `n` records. -/
theorem hit_buffer_drop {FP : Type} (E : Env FP) (long : Bool) (query_id seed_offset : Nat)
    (recs : List (PackedLoc × Int)) (n : Nat) (hn : n < recs.length) :
    (hit_buffer E long query_id seed_offset recs).drop
        ((E.varint query_id).length + (E.varint seed_offset).length
          + n * (position_width long + 2))
      = position_bytes long (recs.get ⟨n, hn⟩).1
        ++ (le_bytes 2 (to_uint16 (recs.get ⟨n, hn⟩).2)
          ++ ((recs.drop (n + 1)).flatMap (fun r => hit_record long r.1 r.2)
            ++ sentinel_bytes long)) := by
  have hlen : (E.varint query_id ++ E.varint seed_offset).length
      = (E.varint query_id).length + (E.varint seed_offset).length := List.length_append _ _
  have hd := flatMap_drop_fixed (fun r : PackedLoc × Int => hit_record long r.1 r.2)
    (position_width long + 2) recs n (fun r _ => hit_record_length long r)
  have hle : n * (position_width long + 2)
      ≤ (recs.flatMap (fun r => hit_record long r.1 r.2)).length := by
    rw [records_length]
    exact Nat.mul_le_mul_right _ (le_of_lt hn)
  unfold hit_buffer
  rw [List.append_assoc, List.append_assoc, ← List.append_assoc (E.varint query_id),
    ← hlen, ← List.drop_drop, List.drop_left, List.drop_append_of_le_length hle, hd,
    List.drop_eq_getElem_cons hn, List.flatMap_cons]
  simp [hit_record, List.append_assoc]

theorem stored_fields {FP : Type} (E : Env FP) (long : Bool) (query_id seed_offset : Nat)
    (recs : List (PackedLoc × Int)) (n : Nat) (hn : n < recs.length) :
    stored_position long (hit_buffer E long query_id seed_offset recs)
        ((E.varint query_id).length + (E.varint seed_offset).length
          + n * (position_width long + 2))
      = position_bytes long (recs.get ⟨n, hn⟩).1 ∧
    stored_score long (hit_buffer E long query_id seed_offset recs)
        ((E.varint query_id).length + (E.varint seed_offset).length
          + n * (position_width long + 2))
      = le_bytes 2 (to_uint16 (recs.get ⟨n, hn⟩).2) := by
  have h := hit_buffer_drop E long query_id seed_offset recs n hn
  constructor
  · unfold stored_position
    rw [h]
    exact List.take_left' (position_bytes_length _ _)
  · unfold stored_score
    rw [← List.drop_drop, h, List.drop_left' (position_bytes_length _ _)]
    exact List.take_left' (le_bytes_length _ _)

theorem score_field_value (score : Int) :
    (le_value (le_bytes 2 (to_uint16 score)) : Int) = score % 2 ^ 16 ∧
    (0 ≤ score ∧ score ≤ 65535 → (le_value (le_bytes 2 (to_uint16 score)) : Int) = score) ∧
    (65536 ≤ score → (le_value (le_bytes 2 (to_uint16 score)) : Int) ≠ score) := by
  have hlt : to_uint16 score < 65536 := by
    unfold to_uint16
    have h1 : 0 ≤ score % 65536 := Int.emod_nonneg _ (by norm_num)
    have h2 : score % 65536 < 65536 := Int.emod_lt_of_pos _ (by norm_num)
    omega
  have hv : le_value (le_bytes 2 (to_uint16 score)) = to_uint16 score := by
    rw [le_value_le_bytes]
    exact Nat.mod_eq_of_lt (by norm_num; exact hlt)
  have hmod : (to_uint16 score : Int) = score % 2 ^ 16 := by
    unfold to_uint16
    have h1 : 0 ≤ score % 65536 := Int.emod_nonneg _ (by norm_num)
    rw [Int.toNat_of_nonneg h1]
    norm_num
  refine ⟨by rw [hv, hmod], fun h => ?_, fun h => ?_⟩
  · rw [hv]
    exact to_uint16_of_range score h.1 (by omega)
  · rw [hv]
    omega

theorem position_field_value (loc : PackedLoc) :
    position_bytes false loc = le_bytes 4 (loc % 2 ^ 32) ∧
    le_value (position_bytes false loc) = loc % 2 ^ 32 ∧
    (le_value (position_bytes false loc) = loc ↔ loc < 2 ^ 32) := by
  have hp : le_value (position_bytes false loc) = loc % 2 ^ 32 := by
    show le_value (le_bytes 4 (PackedLoc.low loc)) = loc % 2 ^ 32
    rw [le_value_le_bytes]
    unfold PackedLoc.low
    norm_num
  refine ⟨rfl, hp, ?_⟩
  rw [hp]
  constructor
  · intro h
    rw [← h]
    exact Nat.mod_lt _ (by norm_num)
  · intro h
    exact Nat.mod_eq_of_lt h

/-- C25. The buffer that `search_query_offset` pushes holds, behind the two varints, one record
of `w + 2` bytes for every surviving hit, in the order of the hit list (`w = 5` with long
subject offsets, `w = 4` otherwise). The score field of the record of a hit, its last two bytes,
holds the ungapped score of the hit reduced modulo `2^16` (the cast to `uint16_t`): for a score
from 0 to 65535 the stored value is the score, for a score of 65536 or more it differs from the
score. In 4-byte mode the position field holds the field `low`, the low 32 bits of the packed
subject location: the stored value is the location exactly when the location is below
`2^32`. -/
theorem hit_record_fields {FP : Type} (E : Env FP) (q : Nat) (s : Ptr PackedLoc)
    (hits : List Nat) (ws : WorkSet FP (List Pushed)) :
    ∃ (ks : List Nat) (data : List Nat),
      ks = survivors E (query_locals E q ws.context ws.shape_id) ws.context s hits ∧
      (search_query_offset E q s hits ws).out
        = (if ks = [] then ws.out
           else ws.out ++ [⟨to_uint32 (E.query_local_position q).1 / E.config.query_contexts,
              data, ks.length⟩]) ∧
      ∀ n, n < ks.length →
        stored_position E.long_subject_offsets data
            ((E.varint (to_uint32 (E.query_local_position q).1)).length
              + (E.varint (to_uint32 (E.query_local_position q).2)).length
              + n * (position_width E.long_subject_offsets + 2))
          = position_bytes E.long_subject_offsets (s (hits.getD (ks.getD n 0) 0)) ∧
        (le_value (stored_score E.long_subject_offsets data
            ((E.varint (to_uint32 (E.query_local_position q).1)).length
              + (E.varint (to_uint32 (E.query_local_position q).2)).length
              + n * (position_width E.long_subject_offsets + 2))) : Int)
          = candidate_score E (query_locals E q ws.context ws.shape_id) s hits (ks.getD n 0)
              % 2 ^ 16 ∧
        (0 ≤ candidate_score E (query_locals E q ws.context ws.shape_id) s hits (ks.getD n 0) ∧
          candidate_score E (query_locals E q ws.context ws.shape_id) s hits (ks.getD n 0)
            ≤ 65535 →
          (le_value (stored_score E.long_subject_offsets data
            ((E.varint (to_uint32 (E.query_local_position q).1)).length
              + (E.varint (to_uint32 (E.query_local_position q).2)).length
              + n * (position_width E.long_subject_offsets + 2))) : Int)
            = candidate_score E (query_locals E q ws.context ws.shape_id) s hits
                (ks.getD n 0)) ∧
        (65536 ≤ candidate_score E (query_locals E q ws.context ws.shape_id) s hits
            (ks.getD n 0) →
          (le_value (stored_score E.long_subject_offsets data
            ((E.varint (to_uint32 (E.query_local_position q).1)).length
              + (E.varint (to_uint32 (E.query_local_position q).2)).length
              + n * (position_width E.long_subject_offsets + 2))) : Int)
            ≠ candidate_score E (query_locals E q ws.context ws.shape_id) s hits
                (ks.getD n 0)) ∧
        (E.long_subject_offsets = false →
          stored_position E.long_subject_offsets data
              ((E.varint (to_uint32 (E.query_local_position q).1)).length
                + (E.varint (to_uint32 (E.query_local_position q).2)).length
                + n * (position_width E.long_subject_offsets + 2))
            = le_bytes 4 (PackedLoc.low (s (hits.getD (ks.getD n 0) 0))) ∧
          le_value (stored_position E.long_subject_offsets data
              ((E.varint (to_uint32 (E.query_local_position q).1)).length
                + (E.varint (to_uint32 (E.query_local_position q).2)).length
                + n * (position_width E.long_subject_offsets + 2)))
            = s (hits.getD (ks.getD n 0) 0) % 2 ^ 32 ∧
          (le_value (stored_position E.long_subject_offsets data
              ((E.varint (to_uint32 (E.query_local_position q).1)).length
                + (E.varint (to_uint32 (E.query_local_position q).2)).length
                + n * (position_width E.long_subject_offsets + 2)))
            = s (hits.getD (ks.getD n 0) 0) ↔ s (hits.getD (ks.getD n 0) 0) < 2 ^ 32)) := by
  refine ⟨survivors E (query_locals E q ws.context ws.shape_id) ws.context s hits,
    hit_buffer E E.long_subject_offsets (to_uint32 (E.query_local_position q).1)
      (to_uint32 (E.query_local_position q).2)
      (survivor_records E (query_locals E q ws.context ws.shape_id) ws.context s hits),
    rfl, ?_, ?_⟩
  · rw [search_query_offset_out]
    rfl
  · intro n hn
    have hn2 : n < (survivor_records E (query_locals E q ws.context ws.shape_id) ws.context
        s hits).length := by
      rw [survivor_records_length]
      exact hn
    obtain ⟨hp, hs⟩ := stored_fields E E.long_subject_offsets
      (to_uint32 (E.query_local_position q).1) (to_uint32 (E.query_local_position q).2)
      (survivor_records E (query_locals E q ws.context ws.shape_id) ws.context s hits) n hn2
    have hget : (survivor_records E (query_locals E q ws.context ws.shape_id) ws.context
        s hits).get ⟨n, hn2⟩
        = (s (hits.getD ((survivors E (query_locals E q ws.context ws.shape_id) ws.context
              s hits).getD n 0) 0),
            candidate_score E (query_locals E q ws.context ws.shape_id) s hits
              ((survivors E (query_locals E q ws.context ws.shape_id) ws.context
                s hits).getD n 0)) := by
      have hk : (survivors E (query_locals E q ws.context ws.shape_id) ws.context
          s hits).getD n 0
          = (survivors E (query_locals E q ws.context ws.shape_id) ws.context s hits)[n] := by
        simp [List.getD_eq_getElem?_getD, List.getElem?_eq_getElem hn]
      rw [hk]
      simp [survivor_records]
    rw [hget] at hp hs
    simp only [] at hp hs
    obtain ⟨v1, v2, v3⟩ := score_field_value (candidate_score E
      (query_locals E q ws.context ws.shape_id) s hits
      ((survivors E (query_locals E q ws.context ws.shape_id) ws.context s hits).getD n 0))
    rw [hs, hp]
    refine ⟨rfl, v1, v2, v3, fun hmode => ?_⟩
    rw [hmode]
    obtain ⟨p1, p2, p3⟩ := position_field_value
      (s (hits.getD ((survivors E (query_locals E q ws.context ws.shape_id) ws.context
        s hits).getD n 0) 0))
    exact ⟨rfl, p2, p3⟩

/-- C25, an instance: in 4-byte mode two hits survive, at the subject locations `2^32 + 2000`
and 2042; the record of the first holds the position 2000, not its location, and its score 38,
the record of the second holds its location 2042. -/
theorem hit_record_fields_witness :
    survivors short_offsets_env
        (query_locals short_offsets_env 12345 example_work_set.context example_work_set.shape_id)
        example_work_set.context (fun k => if k = 0 then 4294969296 else 2042) [0, 1] = [0, 1] ∧
    ∃ (ks : List Nat) (data : List Nat),
      ks = survivors short_offsets_env
        (query_locals short_offsets_env 12345 example_work_set.context example_work_set.shape_id)
        example_work_set.context (fun k => if k = 0 then 4294969296 else 2042) [0, 1] ∧
      (search_query_offset short_offsets_env 12345 (fun k => if k = 0 then 4294969296 else 2042) [0, 1]
          example_work_set).out
        = (if ks = [] then example_work_set.out
           else example_work_set.out ++ [⟨to_uint32 (short_offsets_env.query_local_position 12345).1
              / short_offsets_env.config.query_contexts, data, ks.length⟩]) ∧
      le_value (stored_position false data 2) = 2000 ∧
      (le_value (stored_score false data 2) : Int) = 38 ∧
      le_value (stored_position false data 8) = 2042 := by
  have hks : survivors short_offsets_env
        (query_locals short_offsets_env 12345 example_work_set.context example_work_set.shape_id)
        example_work_set.context (fun k => if k = 0 then 4294969296 else 2042) [0, 1] = [0, 1] := by
    decide
  obtain ⟨ks, data, h1, h2, h3⟩ := hit_record_fields short_offsets_env 12345
    (fun k => if k = 0 then 4294969296 else 2042) [0, 1] example_work_set
  refine ⟨hks, ks, data, h1, h2, ?_, ?_, ?_⟩
  · have h := ((h3 0 (by rw [h1, hks]; decide)).2.2.2.2 rfl).2.1
    rw [h1, hks] at h
    exact h
  · have h := (h3 0 (by rw [h1, hks]; decide)).2.1
    rw [h1, hks] at h
    exact h
  · have h := ((h3 1 (by rw [h1, hks]; decide)).2.2.2.2 rfl).2.1
    rw [h1, hks] at h
    exact h

/-- C5, the claim as written fails. (1) A hit at the subject location 2000 with the score 65578:
the record holds the score modulo `2^16`, and the reader recovers the score 42. (2) In 4-byte mode
a hit at the subject location `2^32 + 2000`: the record holds the low 32 bits of the location,
and the reader recovers the position 2000. -/
theorem hit_buffer_round_trip_narrow :
    (survivor_records wide_score_env
        (query_locals wide_score_env 12345 example_work_set.context example_work_set.shape_id)
        example_work_set.context (fun k => 2000 + 7 * k) [0] = [(2000, 65578)] ∧
      (search_query_offset wide_score_env 12345 (fun k => 2000 + 7 * k) [0] example_work_set).out
        = [⟨123, [123, 45, 0, 208, 7, 0, 0, 42, 0, 0, 0, 0, 0, 0], 1⟩] ∧
      read_hit_buffer read_byte true 2 [123, 45, 0, 208, 7, 0, 0, 42, 0, 0, 0, 0, 0, 0]
        = some (123, 45, [(2000, 42)], [])) ∧
    (survivor_records short_offsets_env
        (query_locals short_offsets_env 12345 example_work_set.context example_work_set.shape_id)
        example_work_set.context (fun k => 4294969296 + 7 * k) [0] = [(4294969296, 38)] ∧
      (search_query_offset short_offsets_env 12345 (fun k => 4294969296 + 7 * k) [0]
          example_work_set).out
        = [⟨123, [123, 45, 208, 7, 0, 0, 38, 0, 0, 0, 0, 0], 1⟩] ∧
      read_hit_buffer read_byte false 2 [123, 45, 208, 7, 0, 0, 38, 0, 0, 0, 0, 0]
        = some (123, 45, [(2000, 38)], [])) := by
  refine ⟨⟨by decide, by decide, by decide⟩, ⟨by decide, by decide, by decide⟩⟩

/-- With a scorer that scores each subject of a batch on its own, the batched run of
`search_query_offset` is the run with one channel, and the survivors are the candidates that
pass when each is scored alone. -/
theorem batching_survivors {FP : Type} (E : Env FP) (q : Nat) (s : Ptr PackedLoc)
    (hits : List Nat) (ws : WorkSet FP (List Pushed)) (score1 : Int → Int → Int → Int)
    (hind : ∀ (query : Int) (subjects : List Int) (n : Nat) (window : Int) (scores : Ptr Int)
      (j : Nat), j < n → j < subjects.length →
      E.window_ungapped_best query subjects n window scores j
        = score1 query window (subjects.getD j 0)) :
    search_query_offset E q s hits ws = search_query_offset (single_channel E) q s hits ws ∧
    survivors E (query_locals E q ws.context ws.shape_id) ws.context s hits
      = (List.range hits.length).filter (fun k =>
          decide (score1 (query_locals E q ws.context ws.shape_id).query_clipped.data
              (query_locals E q ws.context ws.shape_id).window_clipped
              (candidate_subject E (query_locals E q ws.context ws.shape_id) s hits k)
            > (query_locals E q ws.context ws.shape_id).score_cutoff) &&
          candidate_left_most E (query_locals E q ws.context ws.shape_id) ws.context s hits k) ∧
    survivor_records E (query_locals E q ws.context ws.shape_id) ws.context s hits
      = (((List.range hits.length).filter (fun k =>
          decide (score1 (query_locals E q ws.context ws.shape_id).query_clipped.data
              (query_locals E q ws.context ws.shape_id).window_clipped
              (candidate_subject E (query_locals E q ws.context ws.shape_id) s hits k)
            > (query_locals E q ws.context ws.shape_id).score_cutoff) &&
          candidate_left_most E (query_locals E q ws.context ws.shape_id) ws.context s hits k)).map
        (fun k => (s (hits.getD k 0),
          score1 (query_locals E q ws.context ws.shape_id).query_clipped.data
            (query_locals E q ws.context ws.shape_id).window_clipped
            (candidate_subject E (query_locals E q ws.context ws.shape_id) s hits k)))) := by
  have hind1 : ∀ (query : Int) (subjects : List Int) (n : Nat) (window : Int) (scores : Ptr Int)
      (j : Nat), j < n → j < subjects.length →
      (single_channel E).window_ungapped_best query subjects n window scores j
        = score1 query window (subjects.getD j 0) := hind
  generalize hLE : query_locals E q ws.context ws.shape_id = L
  have hL : query_locals (single_channel E) q ws.context ws.shape_id = L := by
    rw [← hLE]
    rfl
  have hsc : ∀ k, k ∈ List.range hits.length →
      candidate_score E L s hits k = score1 L.query_clipped.data L.window_clipped
        (candidate_subject E L s hits k) := fun k hk =>
    candidate_score_independent E L s hits score1 hind k (List.mem_range.1 hk)
  have hsc1 : ∀ k, k ∈ List.range hits.length →
      candidate_score (single_channel E) L s hits k = score1 L.query_clipped.data L.window_clipped
        (candidate_subject E L s hits k) := fun k hk =>
    candidate_score_independent (single_channel E) L s hits score1 hind1 k (List.mem_range.1 hk)
  have hsurv : survivors E L ws.context s hits
      = (List.range hits.length).filter (fun k =>
          decide (score1 L.query_clipped.data L.window_clipped (candidate_subject E L s hits k)
            > L.score_cutoff) && candidate_left_most E L ws.context s hits k) := by
    unfold survivors
    apply List.filter_congr
    intro k hk
    rw [hsc k hk]
  have hsurv1 : survivors (single_channel E) L ws.context s hits
      = (List.range hits.length).filter (fun k =>
          decide (score1 L.query_clipped.data L.window_clipped (candidate_subject E L s hits k)
            > L.score_cutoff) && candidate_left_most E L ws.context s hits k) := by
    unfold survivors
    apply List.filter_congr
    intro k hk
    rw [hsc1 k hk]
    rfl
  have hmem : ∀ k, k ∈ survivors E L ws.context s hits → k ∈ List.range hits.length :=
    fun k hk => List.mem_range.2 ((mem_survivors E L ws.context s hits k).1 hk).1
  have hrec : survivor_records E L ws.context s hits
      = ((List.range hits.length).filter (fun k =>
          decide (score1 L.query_clipped.data L.window_clipped (candidate_subject E L s hits k)
            > L.score_cutoff) && candidate_left_most E L ws.context s hits k)).map
        (fun k => (s (hits.getD k 0),
          score1 L.query_clipped.data L.window_clipped (candidate_subject E L s hits k))) := by
    unfold survivor_records
    rw [← hsurv]
    apply List.map_congr_left
    intro k hk
    rw [hsc k (hmem k hk)]
  have hrec1 : survivor_records (single_channel E) L ws.context s hits
      = survivor_records E L ws.context s hits := by
    rw [hrec]
    unfold survivor_records
    rw [hsurv1]
    apply List.map_congr_left
    intro k hk
    rw [hsc1 k (List.mem_of_mem_filter hk)]
  have hst : stats_after (single_channel E) L ws.context s hits ws.stats
      = stats_after E L ws.context s hits ws.stats := by
    unfold stats_after
    rw [hsurv, hsurv1]
    have : (List.range hits.length).filter
          (fun k => decide (candidate_score (single_channel E) L s hits k > L.score_cutoff))
        = (List.range hits.length).filter
          (fun k => decide (candidate_score E L s hits k > L.score_cutoff)) := by
      apply List.filter_congr
      intro k hk
      rw [hsc k hk, hsc1 k hk]
    rw [this]
  refine ⟨?_, hsurv, hrec⟩
  rw [search_query_offset_eq, search_query_offset_eq]
  unfold search_query_offset_spec
  simp only [hL, hLE, hrec1, hst, hsurv, hsurv1]
  rfl

/-- C7. If the scorer scores each subject of a batch on its own (`score1` is its result for one
subject), then for every hit list (also one whose length is not a multiple of `N`) and every
number `N >= 1` of SIMD channels: the buffer that `search_query_offset` pushes holds, between
the two varints and the sentinel, exactly the records of the survivors `ks`, the candidates of
the hit list that pass the cutoff and the left-most filter when each is scored alone, in the
ascending order of their place in the hit list, each with its own position and score; without a
survivor nothing is pushed. The run with `N` channels does exactly what the run with one channel
does. -/
theorem search_query_offset_batching {FP : Type} (E : Env FP) (q : Nat) (s : Ptr PackedLoc)
    (hits : List Nat) (ws : WorkSet FP (List Pushed)) (score1 : Int → Int → Int → Int)
    (hind : ∀ (query : Int) (subjects : List Int) (n : Nat) (window : Int) (scores : Ptr Int)
      (j : Nat), j < n → j < subjects.length →
      E.window_ungapped_best query subjects n window scores j
        = score1 query window (subjects.getD j 0)) :
    ∃ ks : List Nat,
      ks = (List.range hits.length).filter (fun k =>
          decide (score1 (query_locals E q ws.context ws.shape_id).query_clipped.data
              (query_locals E q ws.context ws.shape_id).window_clipped
              (E.ref_data (s (hits.getD k 0))
                - (query_locals E q ws.context ws.shape_id).window_left)
            > ungapped_cutoff E.config
                (E.query_length (to_uint32 (E.query_local_position q).1)) ws.context) &&
          candidate_left_most E (query_locals E q ws.context ws.shape_id) ws.context s hits k) ∧
      ks.Sorted (fun x y => x < y) ∧
      (search_query_offset E q s hits ws).out
        = (if ks = [] then ws.out
           else ws.out ++ [⟨to_uint32 (E.query_local_position q).1 / E.config.query_contexts,
              E.varint (to_uint32 (E.query_local_position q).1)
                ++ E.varint (to_uint32 (E.query_local_position q).2)
                ++ ks.flatMap (fun k =>
                    position_bytes E.long_subject_offsets (s (hits.getD k 0))
                      ++ le_bytes 2 (to_uint16
                          (score1 (query_locals E q ws.context ws.shape_id).query_clipped.data
                            (query_locals E q ws.context ws.shape_id).window_clipped
                            (E.ref_data (s (hits.getD k 0))
                              - (query_locals E q ws.context ws.shape_id).window_left))))
                ++ sentinel_bytes E.long_subject_offsets,
              ks.length⟩]) ∧
      search_query_offset E q s hits ws = search_query_offset (single_channel E) q s hits ws := by
  obtain ⟨heq, hsurv, hrec⟩ := batching_survivors E q s hits ws score1 hind
  refine ⟨_, rfl, range_filter_sorted _ _, ?_, heq⟩
  rw [search_query_offset_out, hrec, hsurv]
  simp only [hit_buffer, List.flatMap_map, hit_record, List.length_map]
  rfl

/-- C7, witness: seven candidates with four channels (a batch of four and a batch of three);
the scorer of `example_env` scores the subject address modulo 50, whatever else is in the batch.
The candidates 0 and 5 survive, and the pushed buffer holds their two records in this order. -/
theorem search_query_offset_batching_witness :
    (search_query_offset example_env 12345 (fun k => 2000 + 7 * k) [0, 1, 2, 3, 4, 6, 7]
        example_work_set).out
      = [⟨123, [123, 45, 0, 208, 7, 0, 0, 42, 0, 0, 250, 7, 0, 0, 34, 0, 0, 0, 0, 0, 0], 2⟩] ∧
    ∃ ks : List Nat,
      ks = (List.range ([0, 1, 2, 3, 4, 6, 7] : List Nat).length).filter (fun k =>
          decide ((fun (_ _ subject : Int) => subject % 50)
              (query_locals example_env 12345 example_work_set.context
                example_work_set.shape_id).query_clipped.data
              (query_locals example_env 12345 example_work_set.context
                example_work_set.shape_id).window_clipped
              (example_env.ref_data ((fun k => 2000 + 7 * k)
                  (([0, 1, 2, 3, 4, 6, 7] : List Nat).getD k 0))
                - (query_locals example_env 12345 example_work_set.context
                    example_work_set.shape_id).window_left)
            > ungapped_cutoff example_env.config
                (example_env.query_length (to_uint32 (example_env.query_local_position 12345).1))
                example_work_set.context) &&
          candidate_left_most example_env (query_locals example_env 12345
            example_work_set.context example_work_set.shape_id) example_work_set.context
            (fun k => 2000 + 7 * k) [0, 1, 2, 3, 4, 6, 7] k) ∧
      ks.Sorted (fun x y => x < y) ∧
      (search_query_offset example_env 12345 (fun k => 2000 + 7 * k) [0, 1, 2, 3, 4, 6, 7]
          example_work_set).out
        = (if ks = [] then example_work_set.out
           else example_work_set.out ++ [⟨to_uint32 (example_env.query_local_position 12345).1
                / example_env.config.query_contexts,
              example_env.varint (to_uint32 (example_env.query_local_position 12345).1)
                ++ example_env.varint (to_uint32 (example_env.query_local_position 12345).2)
                ++ ks.flatMap (fun k =>
                    position_bytes example_env.long_subject_offsets
                        ((fun k => 2000 + 7 * k) (([0, 1, 2, 3, 4, 6, 7] : List Nat).getD k 0))
                      ++ le_bytes 2 (to_uint16
                          ((fun (_ _ subject : Int) => subject % 50)
                            (query_locals example_env 12345 example_work_set.context
                              example_work_set.shape_id).query_clipped.data
                            (query_locals example_env 12345 example_work_set.context
                              example_work_set.shape_id).window_clipped
                            (example_env.ref_data ((fun k => 2000 + 7 * k)
                                (([0, 1, 2, 3, 4, 6, 7] : List Nat).getD k 0))
                              - (query_locals example_env 12345 example_work_set.context
                                  example_work_set.shape_id).window_left))))
                ++ sentinel_bytes example_env.long_subject_offsets,
              ks.length⟩]) ∧
      search_query_offset example_env 12345 (fun k => 2000 + 7 * k) [0, 1, 2, 3, 4, 6, 7]
          example_work_set
        = search_query_offset (single_channel example_env) 12345 (fun k => 2000 + 7 * k)
          [0, 1, 2, 3, 4, 6, 7] example_work_set :=
  ⟨by decide,
    search_query_offset_batching example_env 12345 (fun k => 2000 + 7 * k) [0, 1, 2, 3, 4, 6, 7]
      example_work_set (fun _ _ subject => subject % 50) (fun _ _ _ _ _ _ _ _ => rfl)⟩

/-- One round of the loop of the traceback at a cell marked as a gap (full_swipe.h:92-96). -/
theorem traceback_walk_gap_step {D It EV : Type} (E : SwipeEnv D It EV)
    (query : List Nat) (target : DpTarget) (channel : Nat) (end_score : Int) (fuel : Nat)
    (w : WalkState It) (L : Int)
    (hi : 0 ≤ E.ops.i w.it) (hj : 0 ≤ E.ops.j w.it) (hs : w.score < end_score)
    (hgap : E.ops.gap w.it channel = true) (hlen : (E.ops.walk_gap w.it).1.2 = L) :
    traceback_walk E query target channel end_score (fuel + 1) w
      = traceback_walk E query target channel end_score fuel
          { it := (E.ops.walk_gap w.it).2
            score := w.score - (E.gap_open + L * E.gap_extend)
            transcript := w.transcript ++
              [TranscriptEntry.gap (E.ops.walk_gap w.it).1.1 L
                (E.ops.j (E.ops.walk_gap w.it).2 + L)] } := by
  have hc : E.ops.i w.it ≥ 0 ∧ E.ops.j w.it ≥ 0 ∧ w.score < end_score := ⟨hi, hj, hs⟩
  conv_lhs => unfold traceback_walk
  rw [if_pos hc, if_neg (by rw [hgap]; simp)]
  simp only [hlen]

/-- C22 (amended). Gap cost agreement between DP and traceback. When the loop of the traceback
over a `TracebackVectorMatrix` takes a step at a cell marked as a gap and `walk_gap` returns the
walked length `L >= 1`, the running score of the walk is lowered by `gap_open + L * gap_extend`
(and the gap is pushed to the transcript); if the step leaves the matrix, the walk ends with that
score. When the two penalties that `swipe` sets up are representable in `Score` (the conversion
leaves `gap_open + gap_extend` and `gap_extend` unchanged), this is what the DP charges for the
gap: `open_penalty` for the first position and `extend_penalty` for each of the `L - 1`
following positions. -/
theorem gap_cost_agreement {D It EV : Type} (E : SwipeEnv D It EV) (to_score : Int → Int)
    (query : List Nat) (target : DpTarget) (channel : Nat) (end_score : Int) (fuel : Nat)
    (w : WalkState It) (L : Nat)
    (hi : 0 ≤ E.ops.i w.it) (hj : 0 ≤ E.ops.j w.it) (hs : w.score < end_score)
    (hgap : E.ops.gap w.it channel = true)
    (hlen : (E.ops.walk_gap w.it).1.2 = (L : Int)) (hL : 1 ≤ L)
    (hopen : to_score (E.gap_open + E.gap_extend) = E.gap_open + E.gap_extend)
    (hext : to_score E.gap_extend = E.gap_extend) :
    traceback_walk E query target channel end_score (fuel + 1) w
      = traceback_walk E query target channel end_score fuel
          { it := (E.ops.walk_gap w.it).2
            score := w.score - (E.gap_open + L * E.gap_extend)
            transcript := w.transcript ++
              [TranscriptEntry.gap (E.ops.walk_gap w.it).1.1 L
                (E.ops.j (E.ops.walk_gap w.it).2 + L)] } ∧
    ((E.ops.i (E.ops.walk_gap w.it).2 < 0 ∨ E.ops.j (E.ops.walk_gap w.it).2 < 0) →
      ∃ w1, traceback_walk E query target channel end_score (fuel + 2) w = some w1 ∧
        w1.it = (E.ops.walk_gap w.it).2 ∧
        w.score - w1.score = E.gap_open + L * E.gap_extend ∧
        w.score - w1.score
          = dp_gap_cost (open_penalty E to_score) (extend_penalty E to_score) L) ∧
    E.gap_open + L * E.gap_extend
      = dp_gap_cost (open_penalty E to_score) (extend_penalty E to_score) L ∧
    dp_gap_cost (open_penalty E to_score) (extend_penalty E to_score) L
      = open_penalty E to_score + (L - 1 : Nat) * extend_penalty E to_score := by
  obtain ⟨n, rfl⟩ : ∃ n, L = n + 1 := ⟨L - 1, by omega⟩
  have hcost : E.gap_open + ((n + 1 : Nat) : Int) * E.gap_extend
      = dp_gap_cost (open_penalty E to_score) (extend_penalty E to_score) (n + 1) := by
    rw [dp_gap_cost_eq]
    unfold open_penalty extend_penalty
    rw [hopen, hext]
    push_cast
    ring
  refine ⟨traceback_walk_gap_step E query target channel end_score fuel w _ hi hj hs hgap hlen,
    fun hout => ?_, hcost, ?_⟩
  · refine ⟨{ it := (E.ops.walk_gap w.it).2
              score := w.score - (E.gap_open + ((n + 1 : Nat) : Int) * E.gap_extend)
              transcript := w.transcript ++
                [TranscriptEntry.gap (E.ops.walk_gap w.it).1.1 ((n + 1 : Nat) : Int)
                  (E.ops.j (E.ops.walk_gap w.it).2 + ((n + 1 : Nat) : Int))] }, ?_, rfl, ?_, ?_⟩
    · rw [traceback_walk_gap_step E query target channel end_score (fuel + 1) w _ hi hj hs
        hgap hlen]
      unfold traceback_walk
      rw [if_neg]
      rintro ⟨h1, h2, _⟩
      simp only at h1 h2
      rcases hout with h | h <;> omega
    · simp only
      ring
    · simp only
      rw [← hcost]
      ring
  · rw [dp_gap_cost_eq]
    simp

/-- C22, witness: the penalties 11 and 1 of the example engine with `Score = int8_t` and a gap
of three positions walked from the cell (3, 2): the walk ends at (3, -1) with the running score
lowered by 14, which is what the DP charges. -/
theorem gap_cost_agreement_witness :
    (traceback_walk gap_walk_env [] carry_target 0 5 2 ⟨(3, 2), 0, []⟩).map
        (fun w => (w.it, w.score, w.transcript))
      = some ((3, -1), -14, [TranscriptEntry.gap 0 3 2]) ∧
    dp_gap_cost (open_penalty gap_walk_env to_int8) (extend_penalty gap_walk_env to_int8) 3
      = 14 ∧
    ∃ w1, traceback_walk gap_walk_env [] carry_target 0 5 (0 + 2) ⟨(3, 2), 0, []⟩ = some w1 ∧
      w1.it = (gap_walk_env.ops.walk_gap (⟨(3, 2), 0, []⟩ : WalkState (Int × Int)).it).2 ∧
      (⟨(3, 2), 0, []⟩ : WalkState (Int × Int)).score - w1.score
        = gap_walk_env.gap_open + (3 : Nat) * gap_walk_env.gap_extend ∧
      (⟨(3, 2), 0, []⟩ : WalkState (Int × Int)).score - w1.score
        = dp_gap_cost (open_penalty gap_walk_env to_int8) (extend_penalty gap_walk_env to_int8)
            3 :=
  ⟨by decide, by decide,
    (gap_cost_agreement gap_walk_env to_int8 [] carry_target 0 5 0 ⟨(3, 2), 0, []⟩ 3
      (by decide) (by decide) (by decide) rfl rfl (by decide) (by decide) (by decide)).2.1
      (Or.inr (by decide))⟩

/-- C22, the claim as written fails: with `Score = int8_t` and the gap penalties 120 and 10
`swipe` sets up `open_penalty = (int8_t)130 = -126`. For a gap of three positions, walked from
the cell (3, 2), the traceback lowers the running score by 150, and the DP charges
`-126 + 2 * 10 = -106`. -/
theorem gap_cost_narrow_score :
    open_penalty wide_gap_env to_int8 = -126 ∧
    extend_penalty wide_gap_env to_int8 = 10 ∧
    wide_gap_env.gap_open + wide_gap_env.gap_extend = 130 ∧
    (traceback_walk wide_gap_env [] carry_target 0 5 2 ⟨(3, 2), 0, []⟩).map
        (fun w => (w.it, w.score, w.transcript))
      = some ((3, -1), -150, [TranscriptEntry.gap 0 3 2]) ∧
    dp_gap_cost (open_penalty wide_gap_env to_int8) (extend_penalty wide_gap_env to_int8) 3
      = -106 ∧
    wide_gap_env.gap_open + (3 : Nat) * wide_gap_env.gap_extend
      ≠ dp_gap_cost (open_penalty wide_gap_env to_int8) (extend_penalty wide_gap_env to_int8) 3 := by
  refine ⟨by decide, by decide, by decide, by decide, by decide, by decide⟩

/-- The handling of a channel that is not saturated and at the last residue of its target, with
`config.cbs_matrix_scale = 1`: the report is decided on the best score after the update of
lines 180-185, and the traceback is called with that score, the matrix and the target of the
channel and the coordinates after the update. -/
theorem handle_channel_last {D It EV : Type} (E : SwipeEnv D It EV) (fuel : Nat)
    (query : List Nat) (query_string : String) (frame : Int) (targets : List DpTarget)
    (col_best_ i_max : Nat → Int) (i : Nat) (st : SwipeState D EV) (c : Nat)
    (b : SwipeState D EV) (hc : st.active.getD i 0 = c)
    (hb : update_best E col_best_ i_max c st = b)
    (hscale : E.cbs_matrix_scale = 1) (hsat : col_best_ c ≠ E.traits.max_score)
    (hlast : (inc_target c b).2 = false) :
    (E.report_cutoff (E.traits.int_score (b.best c))
        (E.evalue (E.traits.int_score (b.best c)) (to_int32 query.length)
          (to_uint32 (st.dp_targets c).seq.length)) = false →
      handle_channel E fuel query query_string frame targets col_best_ i_max i st
        = Run.done (reinit_channel E targets i c (inc_target c b).1)) ∧
    (E.report_cutoff (E.traits.int_score (b.best c))
        (E.evalue (E.traits.int_score (b.best c)) (to_int32 query.length)
          (to_uint32 (st.dp_targets c).seq.length)) = true →
      (∀ h, traceback E fuel query query_string frame st.dp (st.dp_targets c) (b.best c)
          (E.evalue (E.traits.int_score (b.best c)) (to_int32 query.length)
            (to_uint32 (st.dp_targets c).seq.length))
          (b.max_col c) (b.max_i c) (b.max_j c) c = some (Except.ok h) →
        handle_channel E fuel query query_string frame targets col_best_ i_max i st
          = Run.done (reinit_channel E targets i c
              { (inc_target c b).1 with out := (inc_target c b).1.out ++ [h] })) ∧
      (∀ e, traceback E fuel query query_string frame st.dp (st.dp_targets c) (b.best c)
          (E.evalue (E.traits.int_score (b.best c)) (to_int32 query.length)
            (to_uint32 (st.dp_targets c).seq.length))
          (b.max_col c) (b.max_i c) (b.max_j c) c = some (Except.error e) →
        handle_channel E fuel query query_string frame targets col_best_ i_max i st
          = Run.thrown e ((inc_target c b).1, i))) ∧
    (inc_target c b).1.out = st.out := by
  subst hc
  subst hb
  obtain ⟨ha, hd, hn, ho, hv, _⟩ := update_best_fields E col_best_ i_max (st.active.getD i 0) st
  obtain ⟨ka, kd, kn, ko, kv, kb⟩ := inc_target_fields (st.active.getD i 0)
    (update_best E col_best_ i_max (st.active.getD i 0) st)
  have hs : E.traits.int_score ((inc_target (st.active.getD i 0)
        (update_best E col_best_ i_max (st.active.getD i 0) st)).1.best (st.active.getD i 0))
        * E.cbs_matrix_scale
      = E.traits.int_score ((update_best E col_best_ i_max (st.active.getD i 0) st).best
          (st.active.getD i 0)) := by
    rw [hscale, mul_one, kb]
  have hlen : ((inc_target (st.active.getD i 0)
        (update_best E col_best_ i_max (st.active.getD i 0) st)).1.dp_targets
        (st.active.getD i 0)).seq.length
      = (st.dp_targets (st.active.getD i 0)).seq.length := by
    rw [kd, hd]
  have hunf : handle_channel E fuel query query_string frame targets col_best_ i_max i st
      = (if E.report_cutoff
            (E.traits.int_score ((update_best E col_best_ i_max (st.active.getD i 0) st).best
              (st.active.getD i 0)))
            (E.evalue
              (E.traits.int_score ((update_best E col_best_ i_max (st.active.getD i 0) st).best
                (st.active.getD i 0)))
              (to_int32 query.length)
              (to_uint32 (st.dp_targets (st.active.getD i 0)).seq.length)) = true then
          (match traceback E fuel query query_string frame
              (inc_target (st.active.getD i 0)
                (update_best E col_best_ i_max (st.active.getD i 0) st)).1.dp
              ((inc_target (st.active.getD i 0)
                (update_best E col_best_ i_max (st.active.getD i 0) st)).1.dp_targets
                (st.active.getD i 0))
              ((inc_target (st.active.getD i 0)
                (update_best E col_best_ i_max (st.active.getD i 0) st)).1.best
                (st.active.getD i 0))
              (E.evalue
                (E.traits.int_score ((update_best E col_best_ i_max (st.active.getD i 0) st).best
                  (st.active.getD i 0)))
                (to_int32 query.length)
                (to_uint32 (st.dp_targets (st.active.getD i 0)).seq.length))
              ((inc_target (st.active.getD i 0)
                (update_best E col_best_ i_max (st.active.getD i 0) st)).1.max_col
                (st.active.getD i 0))
              ((inc_target (st.active.getD i 0)
                (update_best E col_best_ i_max (st.active.getD i 0) st)).1.max_i
                (st.active.getD i 0))
              ((inc_target (st.active.getD i 0)
                (update_best E col_best_ i_max (st.active.getD i 0) st)).1.max_j
                (st.active.getD i 0))
              (st.active.getD i 0) with
          | none => Run.no_fuel ((inc_target (st.active.getD i 0)
              (update_best E col_best_ i_max (st.active.getD i 0) st)).1, i)
          | some (Except.error e) => Run.thrown e ((inc_target (st.active.getD i 0)
              (update_best E col_best_ i_max (st.active.getD i 0) st)).1, i)
          | some (Except.ok h) =>
            Run.done (reinit_channel E targets i (st.active.getD i 0)
              { (inc_target (st.active.getD i 0)
                  (update_best E col_best_ i_max (st.active.getD i 0) st)).1 with
                out := (inc_target (st.active.getD i 0)
                  (update_best E col_best_ i_max (st.active.getD i 0) st)).1.out ++ [h] }))
        else Run.done (reinit_channel E targets i (st.active.getD i 0)
          (inc_target (st.active.getD i 0)
            (update_best E col_best_ i_max (st.active.getD i 0) st)).1)) := by
    unfold handle_channel
    simp only [hsat, if_false, hlast, if_true, hs, hlen]
    try rfl
  have hout1 : (inc_target (st.active.getD i 0)
      (update_best E col_best_ i_max (st.active.getD i 0) st)).1.out = st.out := by
    rw [ko, ho]
  obtain ⟨km, ki, kj, kp⟩ :
      (inc_target (st.active.getD i 0)
        (update_best E col_best_ i_max (st.active.getD i 0) st)).1.max_col
        = (update_best E col_best_ i_max (st.active.getD i 0) st).max_col ∧
      (inc_target (st.active.getD i 0)
        (update_best E col_best_ i_max (st.active.getD i 0) st)).1.max_i
        = (update_best E col_best_ i_max (st.active.getD i 0) st).max_i ∧
      (inc_target (st.active.getD i 0)
        (update_best E col_best_ i_max (st.active.getD i 0) st)).1.max_j
        = (update_best E col_best_ i_max (st.active.getD i 0) st).max_j ∧
      (inc_target (st.active.getD i 0)
        (update_best E col_best_ i_max (st.active.getD i 0) st)).1.dp = st.dp := by
    refine ⟨rfl, rfl, rfl, ?_⟩
    unfold inc_target update_best
    split <;> rfl
  refine ⟨fun hno => ?_, fun hyes => ⟨fun h htb => ?_, fun e htb => ?_⟩, hout1⟩
  · rw [hunf, hno]
    simp only [Bool.false_eq_true, if_false]
  · have htb1 : traceback E fuel query query_string frame
        (inc_target (st.active.getD i 0)
          (update_best E col_best_ i_max (st.active.getD i 0) st)).1.dp
        ((inc_target (st.active.getD i 0)
          (update_best E col_best_ i_max (st.active.getD i 0) st)).1.dp_targets
          (st.active.getD i 0))
        ((inc_target (st.active.getD i 0)
          (update_best E col_best_ i_max (st.active.getD i 0) st)).1.best
          (st.active.getD i 0))
        (E.evalue
          (E.traits.int_score ((update_best E col_best_ i_max (st.active.getD i 0) st).best
            (st.active.getD i 0)))
          (to_int32 query.length)
          (to_uint32 (st.dp_targets (st.active.getD i 0)).seq.length))
        ((inc_target (st.active.getD i 0)
          (update_best E col_best_ i_max (st.active.getD i 0) st)).1.max_col
          (st.active.getD i 0))
        ((inc_target (st.active.getD i 0)
          (update_best E col_best_ i_max (st.active.getD i 0) st)).1.max_i
          (st.active.getD i 0))
        ((inc_target (st.active.getD i 0)
          (update_best E col_best_ i_max (st.active.getD i 0) st)).1.max_j
          (st.active.getD i 0))
        (st.active.getD i 0) = some (Except.ok h) := by
      rw [kp, kd, hd, kb, km, ki, kj]
      exact htb
    rw [hunf, hyes]
    simp only [if_true, htb1]
  · have htb1 : traceback E fuel query query_string frame
        (inc_target (st.active.getD i 0)
          (update_best E col_best_ i_max (st.active.getD i 0) st)).1.dp
        ((inc_target (st.active.getD i 0)
          (update_best E col_best_ i_max (st.active.getD i 0) st)).1.dp_targets
          (st.active.getD i 0))
        ((inc_target (st.active.getD i 0)
          (update_best E col_best_ i_max (st.active.getD i 0) st)).1.best
          (st.active.getD i 0))
        (E.evalue
          (E.traits.int_score ((update_best E col_best_ i_max (st.active.getD i 0) st).best
            (st.active.getD i 0)))
          (to_int32 query.length)
          (to_uint32 (st.dp_targets (st.active.getD i 0)).seq.length))
        ((inc_target (st.active.getD i 0)
          (update_best E col_best_ i_max (st.active.getD i 0) st)).1.max_col
          (st.active.getD i 0))
        ((inc_target (st.active.getD i 0)
          (update_best E col_best_ i_max (st.active.getD i 0) st)).1.max_i
          (st.active.getD i 0))
        ((inc_target (st.active.getD i 0)
          (update_best E col_best_ i_max (st.active.getD i 0) st)).1.max_j
          (st.active.getD i 0))
        (st.active.getD i 0) = some (Except.error e) := by
      rw [kp, kd, hd, kb, km, ki, kj]
      exact htb
    rw [hunf, hyes]
    simp only [if_true, htb1]

/-- The handling of a channel that is at the last residue of its target and not saturated
(with `config.cbs_matrix_scale = 1`), given the state `w` in which the walk of the traceback
over a `TracebackVectorMatrix` ends: below the reporting cutoff no `Hsp` is appended; above it
one `Hsp` is appended when the traceback returns (always in score-only mode, and in traceback
mode when the walk has reproduced the score), and otherwise the handling ends with the
exception of the traceback. -/
theorem handle_channel_report {D It EV : Type} (E : SwipeEnv D It EV) (fuel : Nat) (query : List Nat)
    (query_string : String) (frame : Int) (targets : List DpTarget)
    (col_best_ i_max : Nat → Int) (i : Nat) (st : SwipeState D EV) (c : Nat)
    (b : SwipeState D EV) (w : WalkState It) (hc : st.active.getD i 0 = c)
    (hb : update_best E col_best_ i_max c st = b)
    (hscale : E.cbs_matrix_scale = 1) (hsat : col_best_ c ≠ E.traits.max_score)
    (hlast : (inc_target c b).2 = false)
    (hw : E.with_traceback = true →
      traceback_walk E query (st.dp_targets c) c (E.traits.int_score (b.best c)) fuel
        ⟨E.ops.start st.dp (b.max_col c) (b.max_i c) (b.max_j c) c, 0, []⟩ = some w) :
    (E.report_cutoff (E.traits.int_score (b.best c))
        (E.evalue (E.traits.int_score (b.best c)) (to_int32 query.length)
          (to_uint32 (st.dp_targets c).seq.length)) = false →
      ∃ (st1 : SwipeState D EV) (i1 : Nat),
        handle_channel E fuel query query_string frame targets col_best_ i_max i st
          = Run.done (st1, i1) ∧ st1.out = st.out) ∧
    (E.report_cutoff (E.traits.int_score (b.best c))
        (E.evalue (E.traits.int_score (b.best c)) (to_int32 query.length)
          (to_uint32 (st.dp_targets c).seq.length)) = true →
      (E.with_traceback = false ∨ w.score = E.traits.int_score (b.best c)) →
      ∃ (st1 : SwipeState D EV) (i1 : Nat) (h : Hsp EV),
        handle_channel E fuel query query_string frame targets col_best_ i_max i st
          = Run.done (st1, i1) ∧ st1.out = st.out ++ [h] ∧
        h.score = E.traits.int_score (b.best c) ∧
        h.evalue = E.evalue (E.traits.int_score (b.best c)) (to_int32 query.length)
          (to_uint32 (st.dp_targets c).seq.length) ∧
        h.swipe_target = (st.dp_targets c).target_idx ∧
        h.frame = frame) ∧
    (E.report_cutoff (E.traits.int_score (b.best c))
        (E.evalue (E.traits.int_score (b.best c)) (to_int32 query.length)
          (to_uint32 (st.dp_targets c).seq.length)) = true →
      E.with_traceback = true → w.score ≠ E.traits.int_score (b.best c) →
      ∃ st1 : SwipeState D EV,
        handle_channel E fuel query query_string frame targets col_best_ i_max i st
          = Run.thrown (SwipeError.traceback query_string) (st1, i) ∧ st1.out = st.out) := by
  obtain ⟨hno, hyes, hout1⟩ := handle_channel_last E fuel query query_string frame targets
    col_best_ i_max i st c b hc hb hscale hsat hlast
  refine ⟨fun h => ?_, fun h hok => ?_, fun h hmode hne => ?_⟩
  · refine ⟨(reinit_channel E targets i c (inc_target c b).1).1,
      (reinit_channel E targets i c (inc_target c b).1).2, hno h, ?_⟩
    rw [(reinit_channel_cases E targets i c _).1, hout1]
  · have htb : ∃ x, traceback E fuel query query_string frame st.dp (st.dp_targets c) (b.best c)
        (E.evalue (E.traits.int_score (b.best c)) (to_int32 query.length)
          (to_uint32 (st.dp_targets c).seq.length))
        (b.max_col c) (b.max_i c) (b.max_j c) c = some (Except.ok x) := by
      by_cases hmode : E.with_traceback = true
      · have hsc : w.score = E.traits.int_score (b.best c) := by
          rcases hok with h1 | h1
          · rw [hmode] at h1
            exact absurd h1 (by simp)
          · exact h1
        unfold traceback traceback_vector
        simp only [hmode, if_true, hw hmode]
        rw [if_neg (by simpa using hsc)]
        exact ⟨_, rfl⟩
      · unfold traceback
        rw [if_neg hmode]
        exact ⟨_, rfl⟩
    obtain ⟨x, hx⟩ := htb
    obtain ⟨t1, t2, t3, t4⟩ := traceback_swipe_target _ _ _ _ _ _ _ _ _ _ _ _ _ _ hx
    refine ⟨(reinit_channel E targets i c
        { (inc_target c b).1 with out := (inc_target c b).1.out ++ [x] }).1,
      (reinit_channel E targets i c
        { (inc_target c b).1 with out := (inc_target c b).1.out ++ [x] }).2, x,
      (hyes h).1 x hx, ?_, ?_, t2, t1, t3⟩
    · rw [(reinit_channel_cases E targets i c _).1]
      show (inc_target c b).1.out ++ [x] = _
      rw [hout1]
    · rw [t4, hscale, mul_one]
      simp
  · have htb : traceback E fuel query query_string frame st.dp (st.dp_targets c) (b.best c)
        (E.evalue (E.traits.int_score (b.best c)) (to_int32 query.length)
          (to_uint32 (st.dp_targets c).seq.length))
        (b.max_col c) (b.max_i c) (b.max_j c) c
        = some (Except.error (SwipeError.traceback query_string)) := by
      unfold traceback traceback_vector
      simp only [hmode, if_true, hw hmode]
      rw [if_pos hne]
    exact ⟨(inc_target c b).1, (hyes h).2 _ htb, hout1⟩

/-- C10, the claim as written fails. In the example engine with traceback the channel 0 is at
the last letter of the target 10 and the column best 3 at the row 0 passes the cutoff
(`report_cutoff(3, 3)` holds), but the walk from the cell (0, 2) ends after one step with the
score 0: the traceback throws its "Traceback error.", the handling ends with that exception and
no `Hsp` is appended. -/
theorem swipe_report_traceback_error :
    example_traceback_env.report_cutoff 3 (example_traceback_env.evalue 3 4 3) = true ∧
    (update_best example_traceback_env (fun _ => 3) (fun _ => 0) 0 example_swipe_state).best 0
      = 3 ∧
    (inc_target 0
      (update_best example_traceback_env (fun _ => 3) (fun _ => 0) 0 example_swipe_state)).2
      = false ∧
    (traceback_walk example_traceback_env [1, 2, 3, 4] (plain_target [1, 2, 3] 10) 0 3 5
        ⟨(0, 2), 0, []⟩).map (fun w => (w.it, w.score)) = some ((-1, 1), 0) ∧
    ∃ st1 : SwipeState Unit Int,
      handle_channel example_traceback_env 5 [1, 2, 3, 4] "q" 0 example_targets (fun _ => 3)
          (fun _ => 0) 0 example_swipe_state
        = Run.thrown (SwipeError.traceback "q") (st1, 0) ∧
      st1.out = [] ∧
      (SwipeError.traceback "q").what = "Traceback error. q" :=
  ⟨by decide, by decide, by decide, by decide, _, rfl, rfl, by decide⟩

/-- Where the loop over the active channels comes to the channel `c`, it has left what `swipe`
keeps for that channel untouched, and the loop goes on from there. -/
theorem channel_loop_visit_frame {D It EV : Type} (E : SwipeEnv D It EV) (fuel : Nat)
    (query : List Nat) (query_string : String) (frame : Int) (targets : List DpTarget)
    (col_best_ i_max : Nat → Int) (c : Nat) (rounds : Nat) :
    ∀ (i : Nat) (st : SwipeState D EV) (j : Nat) (m : SwipeState D EV),
      channel_loop_visit E fuel query query_string frame targets col_best_ i_max c rounds i st
        = some (j, m) →
      j < m.active.length ∧ m.active.getD j 0 = c ∧
      channel_view c m = channel_view c st ∧ m.col = st.col ∧
      ∃ rounds1, channel_loop E fuel query query_string frame targets col_best_ i_max rounds i st
        = channel_loop E fuel query query_string frame targets col_best_ i_max (rounds1 + 1)
            j m := by
  induction rounds with
  | zero =>
    intro i st j m h
    simp [channel_loop_visit] at h
  | succ n ih =>
    intro i st j m h
    unfold channel_loop_visit at h
    by_cases hi : i < st.active.length
    · rw [if_pos hi] at h
      by_cases hc : st.active.getD i 0 = c
      · rw [if_pos hc] at h
        simp only [Option.some.injEq, Prod.mk.injEq] at h
        obtain ⟨h1, h2⟩ := h
        subst h1
        subst h2
        exact ⟨hi, hc, rfl, rfl, n, rfl⟩
      · rw [if_neg hc] at h
        cases hh : handle_channel E fuel query query_string frame targets col_best_ i_max i st with
        | done r =>
          simp only [hh] at h
          obtain ⟨a1, a2, a3, a4, rounds1, a5⟩ := ih r.2 r.1 j m h
          obtain ⟨f1, f2, _⟩ := handle_channel_frame E fuel query query_string frame
            targets col_best_ i_max i c st r.1 r.2 hi (fun e => hc e.symm) hh
          refine ⟨a1, a2, a3.trans f1, a4.trans f2, rounds1, ?_⟩
          conv_lhs => unfold channel_loop
          rw [if_pos hi]
          simp only [hh]
          exact a5
        | thrown e r => simp [hh] at h
        | no_fuel r => simp [hh] at h
    · rw [if_neg hi] at h
      simp at h

/-- The loop over the active channels comes to every channel that is still to be handled,
unless it ends before with an exception (or without fuel for a traceback). -/
theorem channel_loop_visit_exists {D It EV : Type} (E : SwipeEnv D It EV) (fuel : Nat)
    (query : List Nat) (query_string : String) (frame : Int) (targets : List DpTarget)
    (col_best_ i_max : Nat → Int) (c : Nat) (rounds : Nat) :
    ∀ (i : Nat) (st : SwipeState D EV), c ∈ st.active.drop i →
      st.active.length - i ≤ rounds →
      (∃ j m, channel_loop_visit E fuel query query_string frame targets col_best_ i_max c
          rounds i st = some (j, m)) ∨
      (∃ e st1, channel_loop E fuel query query_string frame targets col_best_ i_max rounds i st
          = Run.thrown e st1) ∨
      (∃ st1, channel_loop E fuel query query_string frame targets col_best_ i_max rounds i st
          = Run.no_fuel st1) := by
  induction rounds with
  | zero =>
    intro i st hmem hr
    have : st.active.drop i = [] := List.drop_eq_nil_of_le (by omega)
    rw [this] at hmem
    simp at hmem
  | succ n ih =>
    intro i st hmem hr
    have hi : i < st.active.length := by
      by_contra hge
      have : st.active.drop i = [] := List.drop_eq_nil_of_le (by omega)
      rw [this] at hmem
      simp at hmem
    unfold channel_loop_visit channel_loop
    rw [if_pos hi, if_pos hi]
    by_cases hc : st.active.getD i 0 = c
    · rw [if_pos hc]
      exact Or.inl ⟨i, st, rfl⟩
    · rw [if_neg hc]
      cases hh : handle_channel E fuel query query_string frame targets col_best_ i_max i st with
      | done r =>
        simp only []
        obtain ⟨_, _, f3, _, _, f6⟩ := handle_channel_frame E fuel query query_string frame
          targets col_best_ i_max i c st r.1 r.2 hi (fun e => hc e.symm) hh
        have hmem2 : c ∈ r.1.active.drop r.2 := by
          rw [f3]
          rw [drop_eq_getD_cons _ _ hi, List.mem_cons] at hmem
          rcases hmem with hm | hm
          · exact absurd hm.symm hc
          · exact hm
        exact ih r.2 r.1 hmem2 (by rw [f6]; omega)
      | thrown e r => exact Or.inr (Or.inl ⟨e, r.1, rfl⟩)
      | no_fuel r => exact Or.inr (Or.inr ⟨r.1, rfl⟩)

/-- Lines 180-185 of full_swipe.h for the channel `c`. -/
theorem update_best_own {D It EV : Type} (E : SwipeEnv D It EV) (col_best_ i_max : Nat → Int)
    (c : Nat) (m : SwipeState D EV) :
    (update_best E col_best_ i_max c m).best c = max (m.best c) (col_best_ c) ∧
    (m.best c < col_best_ c →
      (update_best E col_best_ i_max c m).max_col c = m.col ∧
      (update_best E col_best_ i_max c m).max_i c = E.traits.int_score (i_max c) ∧
      (update_best E col_best_ i_max c m).max_j c = m.pos c) ∧
    (col_best_ c ≤ m.best c →
      (update_best E col_best_ i_max c m).max_col c = m.max_col c ∧
      (update_best E col_best_ i_max c m).max_i c = m.max_i c ∧
      (update_best E col_best_ i_max c m).max_j c = m.max_j c) := by
  unfold update_best
  by_cases hgt : col_best_ c > m.best c
  · rw [if_pos hgt]
    refine ⟨?_, fun _ => ?_, fun hle => absurd hgt (not_lt.mpr hle)⟩
    · simp only [set_at, if_true]
      exact (max_eq_right (le_of_lt hgt)).symm
    · simp [set_at]
  · rw [if_neg hgt]
    exact ⟨(max_eq_left (not_lt.mp hgt)).symm, fun h => absurd h hgt, fun _ => ⟨rfl, rfl, rfl⟩⟩

/-- C13 (amended). In `swipe`, over the lifetime of one `DpTarget` in a channel `c`: the rounds
`0, ..., k` of the main loop from the binding of the target (where `best[c]` is the zero score),
of which the rounds before `k` neither saturate the channel nor end the target, while the round
`k` may be any column of the target, also its last one or one that saturates the channel.
`s t` is the state at the entry of the round `t`. `best[c]` never decreases from one column to
the next and is the maximum of zero and the column bests of the columns processed so far; once
that maximum is above zero, `(max_col[c], max_i[c], max_j[c])` are the column, row and target
position of the first column that reached it; as long as no column best is above zero they are
not written. This holds at the entry of every round and, in the round `k`, for the state after
the update of lines 180-185 for the channel `c`, from which the handling of the channel (the
overflow test and the report) goes on: the loop over the active channels comes to the channel
unless the round has ended before with an exception. A lifetime begins with the zero score: at
the entry of the main loop and at every reinitialisation that binds a target. -/
theorem swipe_best_lifetime {D It EV : Type} (E : SwipeEnv D It EV) (fuel : Nat)
    (query : List Nat) (query_string : String) (frame : Int) (targets : List DpTarget)
    (c k : Nat) (s : Nat → SwipeState D EV)
    (hnd : (s 0).active.Nodup) (hmem : c ∈ (s 0).active)
    (h0 : (s 0).best c = E.traits.zero_score)
    (hstep : ∀ t < k, swipe_column E fuel query query_string frame targets (s t)
      = Run.done (s (t + 1)))
    (hsat : ∀ t < k, (E.column query (s t)).col_best_ c ≠ E.traits.max_score)
    (hlen : (s 0).pos c + k < to_int32 ((s 0).dp_targets c).seq.length) :
    (∀ t < k, (s t).best c ≤ (s (t + 1)).best c) ∧
    (∀ t ≤ k, (s t).best c = (List.range t).foldl
        (fun m u => max m ((E.column query (s u)).col_best_ c)) E.traits.zero_score) ∧
    (∀ t ≤ k, E.traits.zero_score < (s t).best c →
      ∃ u < t, (E.column query (s u)).col_best_ c = (s t).best c ∧
        (∀ v < u, (E.column query (s v)).col_best_ c < (s t).best c) ∧
        (s t).max_col c = (s u).col ∧
        (s t).max_i c = E.traits.int_score ((E.column query (s u)).i_max c) ∧
        (s t).max_j c = (s u).pos c) ∧
    (∀ t ≤ k, (s t).best c = E.traits.zero_score →
      (s t).max_col c = (s 0).max_col c ∧ (s t).max_i c = (s 0).max_i c ∧
      (s t).max_j c = (s 0).max_j c) ∧
    (∀ (next : Nat) (overflow : List DpTarget) (junk : Nat → Int) (idle : DpTarget),
      (swipe_start E query targets next overflow junk idle : SwipeState D EV).best c
        = E.traits.zero_score) ∧
    (∀ (i : Nat) (st : SwipeState D EV) (x : DpTarget), targets[st.next]? = some x →
      (reinit_channel E targets i c st).1.best c = E.traits.zero_score) ∧
    ((∃ j m, channel_loop_visit E fuel query query_string frame targets
          (E.column query (s k)).col_best_ (E.column query (s k)).i_max c (s k).active.length 0
          { s k with dp := (E.column query (s k)).dp } = some (j, m)) ∨
      (∃ e st1, swipe_column E fuel query query_string frame targets (s k)
          = Run.thrown e st1) ∨
      (∃ st1, swipe_column E fuel query query_string frame targets (s k)
          = Run.no_fuel st1)) ∧
    (∀ j m, channel_loop_visit E fuel query query_string frame targets
          (E.column query (s k)).col_best_ (E.column query (s k)).i_max c (s k).active.length 0
          { s k with dp := (E.column query (s k)).dp } = some (j, m) →
      j < m.active.length ∧ m.active.getD j 0 = c ∧
      (update_best E (E.column query (s k)).col_best_ (E.column query (s k)).i_max c m).best c
        = (List.range (k + 1)).foldl
            (fun m u => max m ((E.column query (s u)).col_best_ c)) E.traits.zero_score ∧
      (s k).best c
        ≤ (update_best E (E.column query (s k)).col_best_ (E.column query (s k)).i_max c
            m).best c ∧
      (E.traits.zero_score
          < (update_best E (E.column query (s k)).col_best_ (E.column query (s k)).i_max c
              m).best c →
        ∃ u, u ≤ k ∧
          (E.column query (s u)).col_best_ c
            = (update_best E (E.column query (s k)).col_best_ (E.column query (s k)).i_max c
                m).best c ∧
          (∀ v < u, (E.column query (s v)).col_best_ c
            < (update_best E (E.column query (s k)).col_best_ (E.column query (s k)).i_max c
                m).best c) ∧
          (update_best E (E.column query (s k)).col_best_ (E.column query (s k)).i_max c
            m).max_col c = (s u).col ∧
          (update_best E (E.column query (s k)).col_best_ (E.column query (s k)).i_max c
            m).max_i c = E.traits.int_score ((E.column query (s u)).i_max c) ∧
          (update_best E (E.column query (s k)).col_best_ (E.column query (s k)).i_max c
            m).max_j c = (s u).pos c) ∧
      ((update_best E (E.column query (s k)).col_best_ (E.column query (s k)).i_max c
          m).best c = E.traits.zero_score →
        (update_best E (E.column query (s k)).col_best_ (E.column query (s k)).i_max c
          m).max_col c = (s 0).max_col c ∧
        (update_best E (E.column query (s k)).col_best_ (E.column query (s k)).i_max c
          m).max_i c = (s 0).max_i c ∧
        (update_best E (E.column query (s k)).col_best_ (E.column query (s k)).i_max c
          m).max_j c = (s 0).max_j c)) := by
  have inv := lifetime_inv E fuel query query_string frame targets c k s hnd hmem hstep hsat hlen
  refine ⟨fun t ht => ?_, fun t ht => ?_, fun t ht hpos => ?_, fun t ht hz => ?_,
    fun next overflow junk idle => ?_, fun i st x hx => ?_, ?_, fun j m hv => ?_⟩
  · have h1 := (inv t (le_of_lt ht)).2.2.2.2.1
    have h2 := (inv (t + 1) ht).2.2.2.2.1
    rw [h2, foldl_max_succ, ← h1]
    exact le_max_left _ _
  · rw [← h0]
    exact (inv t ht).2.2.2.2.1
  · rw [← h0] at hpos
    obtain ⟨u, hu, b1, b2, b3, b4, b5⟩ := (inv t ht).2.2.2.2.2.2.2.1 hpos
    exact ⟨u, hu, b1, fun v hv => by rw [← b1]; exact b2 v hv, b3, b4, b5⟩
  · rw [← h0] at hz
    exact (inv t ht).2.2.2.2.2.2.2.2 hz
  · unfold swipe_start
    rw [init_buffer_best]
  · rcases (reinit_channel_cases E targets i c st).2.2 with ⟨y, _, _, _, _, hb, _⟩ | ⟨hnone, _⟩
    · exact hb
    · rw [hnone] at hx
      simp at hx
  · obtain ⟨_, _, i3, _⟩ := inv k (le_refl k)
    rcases channel_loop_visit_exists E fuel query query_string frame targets
        (E.column query (s k)).col_best_ (E.column query (s k)).i_max c (s k).active.length 0
        { s k with dp := (E.column query (s k)).dp } (by simpa using i3) (by simp)
      with h | ⟨e, st1, h⟩ | ⟨st1, h⟩
    · exact Or.inl h
    · refine Or.inr (Or.inl ⟨e, st1, ?_⟩)
      unfold swipe_column
      simp only [h]
    · refine Or.inr (Or.inr ⟨st1, ?_⟩)
      unfold swipe_column
      simp only [h]
  · obtain ⟨i1, i2, i3, i4, i5, i6, i7, i8, i9⟩ := inv k (le_refl k)
    obtain ⟨a1, a2, a3, a4, _⟩ := channel_loop_visit_frame E fuel query query_string frame
      targets (E.column query (s k)).col_best_ (E.column query (s k)).i_max c
      (s k).active.length 0 { s k with dp := (E.column query (s k)).dp } j m hv
    obtain ⟨v1, v2, v3, v4, v5, _⟩ := (channel_view_eq c m
      { s k with dp := (E.column query (s k)).dp }).mp a3
    simp only [] at v1 v2 v3 v4 v5 a4
    obtain ⟨u1, u2, u3⟩ := update_best_own E (E.column query (s k)).col_best_
      (E.column query (s k)).i_max c m
    rw [v1] at u1 u2 u3
    rw [v2, v3, v4] at u3
    rw [a4, v5] at u2
    have hbest : (update_best E (E.column query (s k)).col_best_ (E.column query (s k)).i_max c
        m).best c = (List.range (k + 1)).foldl
          (fun m u => max m ((E.column query (s u)).col_best_ c)) E.traits.zero_score := by
      rw [foldl_max_succ, u1, i5, h0]
    refine ⟨a1, a2, hbest, by rw [u1]; exact le_max_left _ _, fun hpos => ?_, fun hz => ?_⟩
    · by_cases hgt : (s k).best c < (E.column query (s k)).col_best_ c
      · obtain ⟨c1, c2, c3⟩ := u2 hgt
        have hb : (update_best E (E.column query (s k)).col_best_ (E.column query (s k)).i_max c
            m).best c = (E.column query (s k)).col_best_ c := by
          rw [u1]
          exact max_eq_right (le_of_lt hgt)
        refine ⟨k, le_refl k, hb.symm, fun v hv => ?_, c1, c2, c3⟩
        rw [hb]
        exact lt_of_le_of_lt (i7 v hv) hgt
      · have hle := not_lt.mp hgt
        obtain ⟨c1, c2, c3⟩ := u3 hle
        have hb : (update_best E (E.column query (s k)).col_best_ (E.column query (s k)).i_max c
            m).best c = (s k).best c := by
          rw [u1]
          exact max_eq_left hle
        rw [hb] at hpos ⊢
        rw [← h0] at hpos
        obtain ⟨u, hu, b1, b2, b3, b4, b5⟩ := i8 hpos
        exact ⟨u, le_of_lt hu, b1, fun v hv => by rw [← b1]; exact b2 v hv, c1.trans b3,
          c2.trans b4, c3.trans b5⟩
    · have hle : (E.column query (s k)).col_best_ c ≤ (s k).best c := by
        have h1 := le_max_right ((s k).best c) ((E.column query (s k)).col_best_ c)
        have h2 := le_max_left ((s k).best c) ((E.column query (s k)).col_best_ c)
        rw [← u1, hz] at h1 h2
        rw [← h0] at h1 h2
        exact le_trans h1 i6
      obtain ⟨c1, c2, c3⟩ := u3 hle
      have hb : (s k).best c = (s 0).best c := by
        have h2 := le_max_left ((s k).best c) ((E.column query (s k)).col_best_ c)
        rw [← u1, hz, ← h0] at h2
        exact le_antisymm h2 i6
      obtain ⟨b1, b2, b3⟩ := i9 hb
      exact ⟨c1.trans b1, c2.trans b2, c3.trans b3⟩

/-- C13, witness: the four columns of the target with the letters 1, 3, 2, 1 in the example
engine. In the round of the last column the loop comes to the channel 0, and after the update
the best score is 3, the maximum of the column bests 1, 3, 2, 1, with the coordinates of the
column 1, the first that reached it. -/
theorem swipe_best_lifetime_witness :
    ∃ j m, channel_loop_visit example_swipe_env 5 [1, 2, 3, 4] "q" 0
        [plain_target [1, 3, 2, 1] 10]
        (example_swipe_env.column [1, 2, 3, 4] (example_lifetime 3)).col_best_
        (example_swipe_env.column [1, 2, 3, 4] (example_lifetime 3)).i_max 0
        (example_lifetime 3).active.length 0
        { example_lifetime 3 with
          dp := (example_swipe_env.column [1, 2, 3, 4] (example_lifetime 3)).dp } = some (j, m) ∧
      (update_best example_swipe_env
        (example_swipe_env.column [1, 2, 3, 4] (example_lifetime 3)).col_best_
        (example_swipe_env.column [1, 2, 3, 4] (example_lifetime 3)).i_max 0 m).best 0 = 3 ∧
      (update_best example_swipe_env
        (example_swipe_env.column [1, 2, 3, 4] (example_lifetime 3)).col_best_
        (example_swipe_env.column [1, 2, 3, 4] (example_lifetime 3)).i_max 0 m).max_col 0 = 1 ∧
      (update_best example_swipe_env
        (example_swipe_env.column [1, 2, 3, 4] (example_lifetime 3)).col_best_
        (example_swipe_env.column [1, 2, 3, 4] (example_lifetime 3)).i_max 0 m).max_j 0 = 1 := by
  obtain ⟨_, _, _, _, _, _, hA, hB⟩ := swipe_best_lifetime example_swipe_env 5 [1, 2, 3, 4] "q" 0
    [plain_target [1, 3, 2, 1] 10] 0 3 example_lifetime (by decide) (by decide) rfl
    (fun t ht => by interval_cases t <;> rfl)
    (fun t ht => by interval_cases t <;> decide)
    (by decide)
  have hdone : ∃ st, swipe_column example_swipe_env 5 [1, 2, 3, 4] "q" 0
      [plain_target [1, 3, 2, 1] 10] (example_lifetime 3) = Run.done st := ⟨_, rfl⟩
  obtain ⟨st, hst⟩ := hdone
  rcases hA with ⟨j, m, hv⟩ | ⟨e, st1, h⟩ | ⟨st1, h⟩
  · obtain ⟨_, _, b3, _, b5, _⟩ := hB j m hv
    have hmax : (List.range (3 + 1)).foldl
        (fun m u => max m ((example_swipe_env.column [1, 2, 3, 4]
          (example_lifetime u)).col_best_ 0)) example_swipe_env.traits.zero_score = 3 := by
      decide
    rw [hmax] at b3
    rw [b3] at b5
    obtain ⟨u, hu, c1, c2, c3, _, c5⟩ := b5 (by decide)
    have hu1 : u = 1 := by
      interval_cases u
      · revert c1; decide
      · rfl
      · revert c1; decide
      · revert c1; decide
    subst hu1
    exact ⟨j, m, hv, b3, c3, c5⟩
  · rw [hst] at h
    cases h
  · rw [hst] at h
    cases h

/-- C10 (amended). For a target that reaches its last residue in `swipe` without saturating
(with `config.cbs_matrix_scale = 1`, which `swipe` has checked), let `s` be the integer value of
the channel's best score after the update of lines 180-185 and
`e = evalue(s, query length, target length)`. If `report_cutoff(s, e)` does not hold, no `Hsp` is
appended. If it holds, `traceback` is called once. The score-only `traceback` always returns.
The one over a `TracebackVectorMatrix` walks back through the matrix (the walk ends, as every
step of the iterator lowers the measure `μ`) and returns when the walk has reproduced the score
`s`. In both cases exactly one `Hsp` is appended, which carries the score `s` itself, the
E-value `e`, the target's `target_idx` as `swipe_target` and the frame index. When the walk ends
with another score, the traceback throws its "Traceback error.": no `Hsp` is appended and the
handling ends with that exception. -/
theorem swipe_report {D It EV : Type} (E : SwipeEnv D It EV) (fuel : Nat) (query : List Nat)
    (query_string : String) (frame : Int) (targets : List DpTarget)
    (col_best_ i_max : Nat → Int) (i : Nat) (st : SwipeState D EV) (c : Nat)
    (b : SwipeState D EV) (μ : It → Nat) (hc : st.active.getD i 0 = c)
    (hb : update_best E col_best_ i_max c st = b)
    (hscale : E.cbs_matrix_scale = 1) (hsat : col_best_ c ≠ E.traits.max_score)
    (hlast : (inc_target c b).2 = false)
    (hμ : E.with_traceback = true →
      (∀ it, 0 ≤ E.ops.i it → 0 ≤ E.ops.j it →
        μ (E.ops.walk_diagonal it) < μ it ∧ μ (E.ops.walk_gap it).2 < μ it) ∧
      μ (E.ops.start st.dp (b.max_col c) (b.max_i c) (b.max_j c) c) < fuel) :
    (E.report_cutoff (E.traits.int_score (b.best c))
        (E.evalue (E.traits.int_score (b.best c)) (to_int32 query.length)
          (to_uint32 (st.dp_targets c).seq.length)) = false →
      ∃ (st1 : SwipeState D EV) (i1 : Nat),
        handle_channel E fuel query query_string frame targets col_best_ i_max i st
          = Run.done (st1, i1) ∧ st1.out = st.out) ∧
    (E.report_cutoff (E.traits.int_score (b.best c))
        (E.evalue (E.traits.int_score (b.best c)) (to_int32 query.length)
          (to_uint32 (st.dp_targets c).seq.length)) = true →
      E.with_traceback = false →
      ∃ (st1 : SwipeState D EV) (i1 : Nat) (h : Hsp EV),
        handle_channel E fuel query query_string frame targets col_best_ i_max i st
          = Run.done (st1, i1) ∧ st1.out = st.out ++ [h] ∧
        h.score = E.traits.int_score (b.best c) ∧
        h.evalue = E.evalue (E.traits.int_score (b.best c)) (to_int32 query.length)
          (to_uint32 (st.dp_targets c).seq.length) ∧
        h.swipe_target = (st.dp_targets c).target_idx ∧
        h.frame = frame) ∧
    (E.report_cutoff (E.traits.int_score (b.best c))
        (E.evalue (E.traits.int_score (b.best c)) (to_int32 query.length)
          (to_uint32 (st.dp_targets c).seq.length)) = true →
      E.with_traceback = true →
      ∃ w : WalkState It,
        traceback_walk E query (st.dp_targets c) c (E.traits.int_score (b.best c)) fuel
          ⟨E.ops.start st.dp (b.max_col c) (b.max_i c) (b.max_j c) c, 0, []⟩ = some w ∧
        (w.score = E.traits.int_score (b.best c) →
          ∃ (st1 : SwipeState D EV) (i1 : Nat) (h : Hsp EV),
            handle_channel E fuel query query_string frame targets col_best_ i_max i st
              = Run.done (st1, i1) ∧ st1.out = st.out ++ [h] ∧
            h.score = E.traits.int_score (b.best c) ∧
            h.evalue = E.evalue (E.traits.int_score (b.best c)) (to_int32 query.length)
              (to_uint32 (st.dp_targets c).seq.length) ∧
            h.swipe_target = (st.dp_targets c).target_idx ∧
            h.frame = frame) ∧
        (w.score ≠ E.traits.int_score (b.best c) →
          ∃ st1 : SwipeState D EV,
            handle_channel E fuel query query_string frame targets col_best_ i_max i st
              = Run.thrown (SwipeError.traceback query_string) (st1, i) ∧
            st1.out = st.out)) := by
  obtain ⟨w, hw⟩ : ∃ w : WalkState It, E.with_traceback = true →
      traceback_walk E query (st.dp_targets c) c (E.traits.int_score (b.best c)) fuel
        ⟨E.ops.start st.dp (b.max_col c) (b.max_i c) (b.max_j c) c, 0, []⟩ = some w := by
    by_cases hmode : E.with_traceback = true
    · obtain ⟨h1, h2⟩ := hμ hmode
      obtain ⟨w, h⟩ := traceback_walk_measure E query (st.dp_targets c) c
        (E.traits.int_score (b.best c)) μ h1 fuel
        ⟨E.ops.start st.dp (b.max_col c) (b.max_i c) (b.max_j c) c, 0, []⟩ h2
      exact ⟨w, fun _ => h⟩
    · exact ⟨⟨E.ops.start st.dp (b.max_col c) (b.max_i c) (b.max_j c) c, 0, []⟩,
        fun h => absurd h hmode⟩
  obtain ⟨H1, H2, H3⟩ := handle_channel_report E fuel query query_string frame targets
    col_best_ i_max i st c b w hc hb hscale hsat hlast hw
  exact ⟨H1, fun hy hm => H2 hy (Or.inl hm),
    fun hy hm => ⟨w, hw hm, fun hs => H2 hy (Or.inr hs), fun hne => H3 hy hm hne⟩⟩

/-- C10, witness: in the example engine with traceback the channel 0 is at the last letter of
the target 10 and the column best 3 passes the cutoff; the walk from the cell (3, 3) takes three
diagonal steps of score 1, so the traceback returns and one `Hsp` with the score 3 is
appended. -/
theorem swipe_report_witness :
    example_traceback_env.report_cutoff 3 3 = true ∧
    ∃ (st1 : SwipeState Unit Int) (i1 : Nat) (h : Hsp Int),
      handle_channel example_traceback_env 9 [0, 0, 0, 0] "q" 0 example_targets (fun _ => 3)
          (fun _ => 3) 0 example_traceback_state = Run.done (st1, i1) ∧
        st1.out = example_traceback_state.out ++ [h] ∧
        h.score = 3 ∧ h.evalue = 3 ∧ h.swipe_target = 10 ∧ h.frame = 0 := by
  refine ⟨by decide, ?_⟩
  obtain ⟨w, hw, hok, _⟩ := (swipe_report example_traceback_env 9 [0, 0, 0, 0] "q" 0
    example_targets (fun _ => 3) (fun _ => 3) 0 example_traceback_state 0 _
    (fun it => (it.1 + 1).toNat + (it.2 + 1).toNat) rfl rfl rfl (by decide) (by decide)
    (fun _ => ⟨fun it h1 h2 => by
      have e1 : example_traceback_env.ops.walk_diagonal it = (it.1 - 1, it.2 - 1) := rfl
      have e2 : (example_traceback_env.ops.walk_gap it).2 = (it.1, it.2 - 1) := rfl
      have e3 : example_traceback_env.ops.i it = it.1 := rfl
      have e4 : example_traceback_env.ops.j it = it.2 := rfl
      rw [e3] at h1
      rw [e4] at h2
      rw [e1, e2]
      constructor <;> simp only <;> omega, by decide⟩)).2.2 (by decide) rfl
  have h2 : traceback_walk example_traceback_env [0, 0, 0, 0]
      (example_traceback_state.dp_targets 0) 0
      (example_traceback_env.traits.int_score
        ((update_best example_traceback_env (fun _ => 3) (fun _ => 3) 0
          example_traceback_state).best 0)) 9
      ⟨example_traceback_env.ops.start example_traceback_state.dp
        ((update_best example_traceback_env (fun _ => 3) (fun _ => 3) 0
          example_traceback_state).max_col 0)
        ((update_best example_traceback_env (fun _ => 3) (fun _ => 3) 0
          example_traceback_state).max_i 0)
        ((update_best example_traceback_env (fun _ => 3) (fun _ => 3) 0
          example_traceback_state).max_j 0) 0, 0, []⟩
      = some ⟨(0, 0), 3, [TranscriptEntry.matched 0 0 true, TranscriptEntry.matched 0 0 true,
          TranscriptEntry.matched 0 0 true]⟩ := rfl
  rw [h2] at hw
  injection hw with hw
  subst hw
  exact hok rfl

end Diamond
